import Mathlib

/-!
# Seidel polygon triangulation (`sketch_profile_triangulate.cpp`)

A shallow embedding of the trapezoidation / monotonation / triangulation
pipeline of `Source/Archive/sketch_profile_triangulate.cpp`.

Modelling conventions.

* `double` is `Dbl`: an exact rational, or one of the IEEE specials
  `+inf`, `-inf`, `NaN`.  Finite arithmetic is exact (no rounding, no
  overflow) and zeros carry no sign: a zero divisor behaves as `+0`.
  The program rounds the result of every operation to binary64.  Where that
  decides a comparison (sums and differences with `C_EPS` at the boundary of
  the tolerance) the definitions with the suffix `_fl` take the rounding `fl`
  as a parameter; `Dbl.rnd` rounds to the nearest binary64 value, ties to
  even, and `fl = id` gives back the exact definitions.
* `int` is `Int`; the global tables `seg`, `tr`, `qs`, `mchain`, `vert`,
  `mon`, `visited`, `permute` and the output array are total maps from `Int`.
* Loops and recursion take a fuel argument and return `none` when it runs out.
* A local that the C code reads without having assigned it is an
  `Option Int` whose `none` is the indeterminate value; reading it yields 0
  and sets the sticky flag `State.ub`.  A write outside a table's declared
  bounds sets the same flag (the cell written is then a cell of the total
  map that no in-bounds index names).
* The libm function `log2` and the generator `lrand48` are parameters: `log2`
  is a function on `Dbl`, and `rnd i` is the value drawn in pass `i` of
  `generate_random_ordering`.

The definitions come first; the theorems follow from `# Theorems` on.
-/

namespace Seidel

/-! ## Numbers -/

/-- A C `double`: an exact rational or an IEEE special value. -/
inductive Dbl where
  | fin (q : ℚ)
  | pinf
  | ninf
  | nan
deriving DecidableEq

namespace Dbl

/-- Unary minus. -/
def neg : Dbl → Dbl
  | fin q => fin (-q)
  | pinf => ninf
  | ninf => pinf
  | nan => nan

/-- IEEE addition without rounding: the exact sum, to which the program applies the
rounding `Dbl.rnd`. -/
def add : Dbl → Dbl → Dbl
  | fin a, fin b => fin (a + b)
  | fin _, pinf => pinf
  | fin _, ninf => ninf
  | pinf, fin _ => pinf
  | pinf, pinf => pinf
  | ninf, fin _ => ninf
  | ninf, ninf => ninf
  | _, _ => nan

/-- IEEE subtraction without rounding: the exact difference, to which the program applies
the rounding `Dbl.rnd`. -/
def sub (a b : Dbl) : Dbl := add a (neg b)

/-- The product of an infinity with a finite factor `q`; `pos` is the sign of the infinity. -/
def infTimes (pos : Bool) (q : ℚ) : Dbl :=
  if q = 0 then nan else if (0 < q) = pos then pinf else ninf

/-- IEEE multiplication without rounding: the exact product, to which the program applies
the rounding `Dbl.rnd`. -/
def mul : Dbl → Dbl → Dbl
  | fin a, fin b => fin (a * b)
  | fin a, pinf => infTimes true a
  | fin a, ninf => infTimes false a
  | pinf, fin b => infTimes true b
  | ninf, fin b => infTimes false b
  | pinf, pinf => pinf
  | ninf, ninf => pinf
  | pinf, ninf => ninf
  | ninf, pinf => ninf
  | _, _ => nan

/-- IEEE division without rounding; a zero divisor is `+0`. -/
def div : Dbl → Dbl → Dbl
  | fin a, fin b =>
      if b = 0 then (if a = 0 then nan else if 0 < a then pinf else ninf)
      else fin (a / b)
  | fin _, pinf => fin 0
  | fin _, ninf => fin 0
  | pinf, fin b => if 0 ≤ b then pinf else ninf
  | ninf, fin b => if 0 ≤ b then ninf else pinf
  | _, _ => nan

/-- The C comparison `a < b` (false when either side is NaN). -/
def lt : Dbl → Dbl → Bool
  | fin a, fin b => decide (a < b)
  | fin _, pinf => true
  | ninf, fin _ => true
  | ninf, pinf => true
  | _, _ => false

/-- The C comparison `a <= b` (false when either side is NaN). -/
def le : Dbl → Dbl → Bool
  | fin a, fin b => decide (a ≤ b)
  | fin _, pinf => true
  | ninf, fin _ => true
  | ninf, pinf => true
  | pinf, pinf => true
  | ninf, ninf => true
  | _, _ => false

/-- The libm function `fabs`. -/
def fabs : Dbl → Dbl
  | fin q => fin |q|
  | pinf => pinf
  | ninf => pinf
  | nan => nan

instance : Add Dbl := ⟨add⟩
instance : Sub Dbl := ⟨sub⟩
instance : Mul Dbl := ⟨mul⟩
instance : Div Dbl := ⟨div⟩
instance : Neg Dbl := ⟨neg⟩
instance : LT Dbl := ⟨fun a b => lt a b = true⟩
instance : LE Dbl := ⟨fun a b => le a b = true⟩
instance (a b : Dbl) : Decidable (a < b) := inferInstanceAs (Decidable (lt a b = true))
instance (a b : Dbl) : Decidable (a ≤ b) := inferInstanceAs (Decidable (le a b = true))
instance : Inhabited Dbl := ⟨fin 0⟩

/-- The conversion `(double) n`. -/
def ofInt (n : Int) : Dbl := fin n

/-- The libm function `ceil`. -/
def ceil : Dbl → Dbl
  | fin q => fin ⌈q⌉
  | x => x

/-- The conversion `(int) x` (truncation); `none` where C leaves it undefined. -/
def toInt : Dbl → Option Int
  | fin q => some (if 0 ≤ q then ⌊q⌋ else ⌈q⌉)
  | _ => none
instance : Coe ℚ Dbl := ⟨fin⟩

end Dbl

/-- The macro `C_EPS` (1.0e-7). -/
def C_EPS : Dbl := Dbl.fin (1 / 10000000)

/-- The macro `INFINITY`. -/
def INFINITY : Dbl := Dbl.pinf

/-- The macro `FP_EQUAL(s, t)`: `fabs(s - t) <= C_EPS`. -/
def FP_EQUAL (s t : Dbl) : Bool := decide (Dbl.fabs (s - t) ≤ C_EPS)

/-! ## Records -/

/-- The struct `point_t` (also `vector_t`). -/
structure point_t where
  x : Dbl
  y : Dbl
deriving DecidableEq, Inhabited

/-- The struct `segment_t`. -/
structure segment_t where
  v0 : point_t
  v1 : point_t
  is_inserted : Bool
  root0 : Int
  root1 : Int
  next : Int
  prev : Int
deriving DecidableEq, Inhabited

/-- The struct `trap_t`. -/
structure trap_t where
  lseg : Int
  rseg : Int
  hi : point_t
  lo : point_t
  u0 : Int
  u1 : Int
  d0 : Int
  d1 : Int
  sink : Int
  usave : Int
  uside : Int
  state : Int
deriving DecidableEq, Inhabited

/-- The struct `node_t`. -/
structure node_t where
  nodetype : Int
  segnum : Int
  yval : point_t
  trnum : Int
  parent : Int
  left : Int
  right : Int
deriving DecidableEq, Inhabited

/-- The struct `monchain_t`. -/
structure monchain_t where
  vnum : Int
  next : Int
  prev : Int
  marked : Bool
deriving DecidableEq, Inhabited

/-- The struct `vertexchain_t`; the two four-slot arrays are maps from the slot index. -/
structure vertexchain_t where
  pt : point_t
  vnext : Int → Int
  vpos : Int → Int
  nextfree : Int

/-- A point with both coordinates zero (what `memset` leaves). -/
def point_zero : point_t := ⟨Dbl.fin 0, Dbl.fin 0⟩

/-- A zeroed `segment_t`. -/
def segment_zero : segment_t := ⟨point_zero, point_zero, false, 0, 0, 0, 0⟩

/-- A zeroed `trap_t`. -/
def trap_zero : trap_t := ⟨0, 0, point_zero, point_zero, 0, 0, 0, 0, 0, 0, 0, 0⟩

/-- A zeroed `node_t`. -/
def node_zero : node_t := ⟨0, 0, point_zero, 0, 0, 0, 0⟩

/-- A zeroed `monchain_t`. -/
def monchain_zero : monchain_t := ⟨0, 0, 0, false⟩

/-- A zeroed `vertexchain_t`. -/
def vertexchain_zero : vertexchain_t := ⟨point_zero, fun _ => 0, fun _ => 0, 0⟩

/-! ## Constants -/

def T_X : Int := 1
def T_Y : Int := 2
def T_SINK : Int := 3
def SEGSIZE : Int := 200
def QSIZE : Int := 8 * SEGSIZE
def TRSIZE : Int := 4 * SEGSIZE
def FIRSTPT : Int := 1
def LASTPT : Int := 2
def S_LEFT : Int := 1
def S_RIGHT : Int := 2
def ST_VALID : Int := 1
def ST_INVALID : Int := 2
def SP_SIMPLE_LRUP : Int := 1
def SP_SIMPLE_LRDN : Int := 2
def SP_2UP_2DN : Int := 3
def SP_2UP_LEFT : Int := 4
def SP_2UP_RIGHT : Int := 5
def SP_2DN_LEFT : Int := 6
def SP_2DN_RIGHT : Int := 7
def SP_NOSPLIT : Int := -1
def TR_FROM_UP : Int := 1
def TR_FROM_DN : Int := 2
def TRI_LHS : Int := 1
def TRI_RHS : Int := 2

/-- The macro `CROSS(v0, v1, v2)`. -/
def CROSS (v0 v1 v2 : point_t) : Dbl :=
  (v1.x - v0.x) * (v2.y - v0.y) - (v1.y - v0.y) * (v2.x - v0.x)

/-- The macro `DOT(v0, v1)`. -/
def DOT (v0 v1 : point_t) : Dbl := v0.x * v1.x + v0.y * v1.y

/-- The macro `CROSS_SINE(v0, v1)`. -/
def CROSS_SINE (v0 v1 : point_t) : Dbl := v0.x * v1.y - v1.x * v0.y

/-! ## Ordering predicates on points -/

/-- The function `_greater_than`. -/
def _greater_than (v0 v1 : point_t) : Bool :=
  if v0.y > v1.y + C_EPS then true
  else if v0.y < v1.y - C_EPS then false
  else decide (v0.x > v1.x)

/-- The function `_equal_to`. -/
def _equal_to (v0 v1 : point_t) : Bool :=
  FP_EQUAL v0.y v1.y && FP_EQUAL v0.x v1.x

/-- The function `_greater_than_equal_to`. -/
def _greater_than_equal_to (v0 v1 : point_t) : Bool :=
  if v0.y > v1.y + C_EPS then true
  else if v0.y < v1.y - C_EPS then false
  else decide (v0.x ≥ v1.x)

/-- The function `_less_than`. -/
def _less_than (v0 v1 : point_t) : Bool :=
  if v0.y < v1.y - C_EPS then true
  else if v0.y > v1.y + C_EPS then false
  else decide (v0.x < v1.x)

/-- The function `_max`: the result written through `yval`. -/
def _max (v0 v1 : point_t) : point_t :=
  if v0.y > v1.y + C_EPS then v0
  else if FP_EQUAL v0.y v1.y then
    (if v0.x > v1.x + C_EPS then v0 else v1)
  else v1

/-- The function `_min`: the result written through `yval`. -/
def _min (v0 v1 : point_t) : point_t :=
  if v0.y < v1.y - C_EPS then v0
  else if FP_EQUAL v0.y v1.y then
    (if v0.x < v1.x then v0 else v1)
  else v1

/-! ## Global state -/

/-- A table with one cell overwritten. -/
def upd {α : Type} (f : Int → α) (i : Int) (v : α) : Int → α :=
  fun j => if j = i then v else f j

/-- The file-scope variables of the translation unit, and the caller's output array `op`. -/
structure State where
  seg : Int → segment_t
  tr : Int → trap_t
  qs : Int → node_t
  q_idx : Int
  tr_idx : Int
  choose_idx : Int
  permute : Int → Int
  mchain : Int → monchain_t
  vert : Int → vertexchain_t
  mon : Int → Int
  visited : Int → Bool
  chain_idx : Int
  op_idx : Int
  mon_idx : Int
  op : Int → Int → Int
  ub : Bool

/-- Whether index `i` lies outside a table of `size` cells. -/
def outside (size i : Int) : Bool := decide (i < 0) || decide (size ≤ i)

namespace State

/-- The assignment `seg[i] = f(seg[i])`. -/
def seg_set (st : State) (i : Int) (f : segment_t → segment_t) : State :=
  { st with seg := upd st.seg i (f (st.seg i)), ub := st.ub || outside SEGSIZE i }

/-- The assignment `tr[i] = f(tr[i])`. -/
def tr_set (st : State) (i : Int) (f : trap_t → trap_t) : State :=
  { st with tr := upd st.tr i (f (st.tr i)), ub := st.ub || outside TRSIZE i }

/-- The assignment `qs[i] = f(qs[i])`. -/
def qs_set (st : State) (i : Int) (f : node_t → node_t) : State :=
  { st with qs := upd st.qs i (f (st.qs i)), ub := st.ub || outside QSIZE i }

/-- The assignment `mchain[i] = f(mchain[i])`. -/
def mchain_set (st : State) (i : Int) (f : monchain_t → monchain_t) : State :=
  { st with mchain := upd st.mchain i (f (st.mchain i)), ub := st.ub || outside TRSIZE i }

/-- The assignment `vert[i] = f(vert[i])`. -/
def vert_set (st : State) (i : Int) (f : vertexchain_t → vertexchain_t) : State :=
  { st with vert := upd st.vert i (f (st.vert i)), ub := st.ub || outside SEGSIZE i }

/-- The assignment `mon[i] = v`. -/
def mon_set (st : State) (i : Int) (v : Int) : State :=
  { st with mon := upd st.mon i v, ub := st.ub || outside SEGSIZE i }

/-- The assignment `visited[i] = v`. -/
def visited_set (st : State) (i : Int) (v : Bool) : State :=
  { st with visited := upd st.visited i v, ub := st.ub || outside TRSIZE i }

/-- The assignment `permute[i] = v`. -/
def permute_set (st : State) (i : Int) (v : Int) : State :=
  { st with permute := upd st.permute i v, ub := st.ub || outside SEGSIZE i }

/-- The assignment `op[i][0..2] = a, b, c` (the caller's array has no size known here). -/
def op_set (st : State) (i : Int) (a b c : Int) : State :=
  { st with op := upd st.op i (fun k => if k = 0 then a else if k = 1 then b else c) }

/-- The assignment `vert[v].vnext[i] = x`. -/
def vnext_set (st : State) (v i x : Int) : State :=
  let st := st.vert_set v (fun r => { r with vnext := upd r.vnext i x })
  { st with ub := st.ub || outside 4 i }

/-- The assignment `vert[v].vpos[i] = x`. -/
def vpos_set (st : State) (v i x : Int) : State :=
  let st := st.vert_set v (fun r => { r with vpos := upd r.vpos i x })
  { st with ub := st.ub || outside 4 i }

/-- Reading a local that may be indeterminate. -/
def read (st : State) (v : Option Int) : Int × State :=
  match v with
  | some x => (x, st)
  | none => (0, { st with ub := true })

end State

/-! ## Allocation -/

/-- The function `newnode`. -/
def newnode (st : State) : Int × State :=
  if st.q_idx < QSIZE then (st.q_idx, { st with q_idx := st.q_idx + 1 })
  else (-1, st)

/-- The function `newtrap`. -/
def newtrap (st : State) : Int × State :=
  if st.tr_idx < TRSIZE then
    let st := st.tr_set st.tr_idx (fun r => { r with lseg := -1 })
    let st := st.tr_set st.tr_idx (fun r => { r with rseg := -1 })
    let st := st.tr_set st.tr_idx (fun r => { r with state := ST_VALID })
    (st.tr_idx, { st with tr_idx := st.tr_idx + 1 })
  else (-1, st)

/-! ## Trapezoidation -/

/-- The function `init_query_structure`; returns the root node and the new state. -/
def init_query_structure (segnum : Int) (st : State) : Int × State :=
  let s := st.seg segnum
  let st := { st with q_idx := 1, tr_idx := 1 }
  let st := { st with tr := fun _ => trap_zero }
  let st := { st with qs := fun _ => node_zero }
  let (i1, st) := newnode st
  let st := st.qs_set i1 (fun r => { r with nodetype := T_Y })
  let st := st.qs_set i1 (fun r => { r with yval := _max s.v0 s.v1 })
  let root := i1
  let (i2, st) := newnode st
  let st := st.qs_set i1 (fun r => { r with right := i2 })
  let st := st.qs_set i2 (fun r => { r with nodetype := T_SINK })
  let st := st.qs_set i2 (fun r => { r with parent := i1 })
  let (i3, st) := newnode st
  let st := st.qs_set i1 (fun r => { r with left := i3 })
  let st := st.qs_set i3 (fun r => { r with nodetype := T_Y })
  let st := st.qs_set i3 (fun r => { r with yval := _min s.v0 s.v1 })
  let st := st.qs_set i3 (fun r => { r with parent := i1 })
  let (i4, st) := newnode st
  let st := st.qs_set i3 (fun r => { r with left := i4 })
  let st := st.qs_set i4 (fun r => { r with nodetype := T_SINK })
  let st := st.qs_set i4 (fun r => { r with parent := i3 })
  let (i5, st) := newnode st
  let st := st.qs_set i3 (fun r => { r with right := i5 })
  let st := st.qs_set i5 (fun r => { r with nodetype := T_X })
  let st := st.qs_set i5 (fun r => { r with segnum := segnum })
  let st := st.qs_set i5 (fun r => { r with parent := i3 })
  let (i6, st) := newnode st
  let st := st.qs_set i5 (fun r => { r with left := i6 })
  let st := st.qs_set i6 (fun r => { r with nodetype := T_SINK })
  let st := st.qs_set i6 (fun r => { r with parent := i5 })
  let (i7, st) := newnode st
  let st := st.qs_set i5 (fun r => { r with right := i7 })
  let st := st.qs_set i7 (fun r => { r with nodetype := T_SINK })
  let st := st.qs_set i7 (fun r => { r with parent := i5 })
  let (t1, st) := newtrap st
  let (t2, st) := newtrap st
  let (t3, st) := newtrap st
  let (t4, st) := newtrap st
  let st := st.tr_set t4 (fun r => { r with lo := (st.qs i1).yval })
  let st := st.tr_set t2 (fun r => { r with hi := (st.tr t4).lo })
  let st := st.tr_set t1 (fun r => { r with hi := (st.tr t2).hi })
  let st := st.tr_set t3 (fun r => { r with hi := (st.qs i3).yval })
  let st := st.tr_set t2 (fun r => { r with lo := (st.tr t3).hi })
  let st := st.tr_set t1 (fun r => { r with lo := (st.tr t2).lo })
  let st := st.tr_set t4 (fun r => { r with hi := { r.hi with y := INFINITY } })
  let st := st.tr_set t4 (fun r => { r with hi := { r.hi with x := INFINITY } })
  let st := st.tr_set t3 (fun r => { r with lo := { r.lo with y := Dbl.fin (-1) * INFINITY } })
  let st := st.tr_set t3 (fun r => { r with lo := { r.lo with x := Dbl.fin (-1) * INFINITY } })
  let st := st.tr_set t2 (fun r => { r with lseg := segnum })
  let st := st.tr_set t1 (fun r => { r with rseg := (st.tr t2).lseg })
  let st := st.tr_set t2 (fun r => { r with u0 := t4 })
  let st := st.tr_set t1 (fun r => { r with u0 := (st.tr t2).u0 })
  let st := st.tr_set t2 (fun r => { r with d0 := t3 })
  let st := st.tr_set t1 (fun r => { r with d0 := (st.tr t2).d0 })
  let st := st.tr_set t3 (fun r => { r with u0 := t1 })
  let st := st.tr_set t4 (fun r => { r with d0 := (st.tr t3).u0 })
  let st := st.tr_set t3 (fun r => { r with u1 := t2 })
  let st := st.tr_set t4 (fun r => { r with d1 := (st.tr t3).u1 })
  let st := st.tr_set t1 (fun r => { r with sink := i6 })
  let st := st.tr_set t2 (fun r => { r with sink := i7 })
  let st := st.tr_set t3 (fun r => { r with sink := i4 })
  let st := st.tr_set t4 (fun r => { r with sink := i2 })
  let st := st.tr_set t2 (fun r => { r with state := ST_VALID })
  let st := st.tr_set t1 (fun r => { r with state := (st.tr t2).state })
  let st := st.tr_set t4 (fun r => { r with state := ST_VALID })
  let st := st.tr_set t3 (fun r => { r with state := (st.tr t4).state })
  let st := st.qs_set i2 (fun r => { r with trnum := t4 })
  let st := st.qs_set i4 (fun r => { r with trnum := t3 })
  let st := st.qs_set i6 (fun r => { r with trnum := t1 })
  let st := st.qs_set i7 (fun r => { r with trnum := t2 })
  let st := st.seg_set segnum (fun r => { r with is_inserted := true })
  (root, st)

/-- The function `is_left_of`. -/
def is_left_of (st : State) (segnum : Int) (v : point_t) : Bool :=
  let s := st.seg segnum
  let area : Dbl :=
    if _greater_than s.v1 s.v0 then
      if FP_EQUAL s.v1.y v.y then
        (if v.x < s.v1.x then Dbl.fin 1 else Dbl.fin (-1))
      else if FP_EQUAL s.v0.y v.y then
        (if v.x < s.v0.x then Dbl.fin 1 else Dbl.fin (-1))
      else CROSS s.v0 s.v1 v
    else
      if FP_EQUAL s.v1.y v.y then
        (if v.x < s.v1.x then Dbl.fin 1 else Dbl.fin (-1))
      else if FP_EQUAL s.v0.y v.y then
        (if v.x < s.v0.x then Dbl.fin 1 else Dbl.fin (-1))
      else CROSS s.v1 s.v0 v
  decide (area > Dbl.fin 0)

/-- The function `inserted`. -/
def inserted (st : State) (segnum : Int) (whichpt : Int) : Bool :=
  if whichpt = FIRSTPT then (st.seg (st.seg segnum).prev).is_inserted
  else (st.seg (st.seg segnum).next).is_inserted

/-- The function `locate_endpoint`; `none` when the descent exceeds `fuel` nodes. -/
def locate_endpoint (st : State) (v vo : point_t) : Nat → Int → Option Int
  | 0, _ => none
  | fuel + 1, r =>
    let rptr := st.qs r
    if rptr.nodetype = T_SINK then some rptr.trnum
    else if rptr.nodetype = T_Y then
      if _greater_than v rptr.yval then locate_endpoint st v vo fuel rptr.right
      else if _equal_to v rptr.yval then
        if _greater_than vo rptr.yval then locate_endpoint st v vo fuel rptr.right
        else locate_endpoint st v vo fuel rptr.left
      else locate_endpoint st v vo fuel rptr.left
    else if rptr.nodetype = T_X then
      if _equal_to v (st.seg rptr.segnum).v0 || _equal_to v (st.seg rptr.segnum).v1 then
        if FP_EQUAL v.y vo.y then
          if vo.x < v.x then locate_endpoint st v vo fuel rptr.left
          else locate_endpoint st v vo fuel rptr.right
        else
          if is_left_of st rptr.segnum vo then locate_endpoint st v vo fuel rptr.left
          else locate_endpoint st v vo fuel rptr.right
      else
        if is_left_of st rptr.segnum v then locate_endpoint st v vo fuel rptr.left
        else locate_endpoint st v vo fuel rptr.right
    else some 0

/-- The condition of `merge_trapezoids` (lines 1249-1254): the value of `cond` and the
value left in `tnext` by the assignments inside it. -/
def merge_cond (st : State) (segnum t side : Int) : Bool × Int :=
  if side = S_LEFT then
    if (st.tr t).d0 > 0 ∧ (st.tr (st.tr t).d0).rseg = segnum then (true, (st.tr t).d0)
    else if (st.tr t).d1 > 0 ∧ (st.tr (st.tr t).d1).rseg = segnum then (true, (st.tr t).d1)
    else (false, (st.tr t).d1)
  else
    if (st.tr t).d0 > 0 ∧ (st.tr (st.tr t).d0).lseg = segnum then (true, (st.tr t).d0)
    else if (st.tr t).d1 > 0 ∧ (st.tr (st.tr t).d1).lseg = segnum then (true, (st.tr t).d1)
    else (false, (st.tr t).d1)

/-- The body of the "good neighbours" branch of `merge_trapezoids` (lines 1263-1286):
trapezoid `tnext` is merged into `t`. -/
def merge_step (st : State) (t tnext : Int) : State :=
  let ptnext := (st.qs (st.tr tnext).sink).parent
  let st :=
    if (st.qs ptnext).left = (st.tr tnext).sink then
      st.qs_set ptnext (fun r => { r with left := (st.tr t).sink })
    else
      st.qs_set ptnext (fun r => { r with right := (st.tr t).sink })
  let st := st.tr_set t (fun r => { r with d0 := (st.tr tnext).d0 })
  let st :=
    if (st.tr t).d0 > 0 then
      if (st.tr (st.tr t).d0).u0 = tnext then
        st.tr_set (st.tr t).d0 (fun r => { r with u0 := t })
      else if (st.tr (st.tr t).d0).u1 = tnext then
        st.tr_set (st.tr t).d0 (fun r => { r with u1 := t })
      else st
    else st
  let st := st.tr_set t (fun r => { r with d1 := (st.tr tnext).d1 })
  let st :=
    if (st.tr t).d1 > 0 then
      if (st.tr (st.tr t).d1).u0 = tnext then
        st.tr_set (st.tr t).d1 (fun r => { r with u0 := t })
      else if (st.tr (st.tr t).d1).u1 = tnext then
        st.tr_set (st.tr t).d1 (fun r => { r with u1 := t })
      else st
    else st
  let st := st.tr_set t (fun r => { r with lo := (st.tr tnext).lo })
  st.tr_set tnext (fun r => { r with state := ST_INVALID })

/-- The loop of `merge_trapezoids`, started at trapezoid `t`. -/
def merge_loop (segnum tlast side : Int) : Nat → Int → State → Option State
  | 0, _, _ => none
  | fuel + 1, t, st =>
    if t > 0 ∧ _greater_than_equal_to (st.tr t).lo (st.tr tlast).lo = true then
      let (cond, tnext) := merge_cond st segnum t side
      if cond then
        if (st.tr t).lseg = (st.tr tnext).lseg ∧ (st.tr t).rseg = (st.tr tnext).rseg then
          merge_loop segnum tlast side fuel t (merge_step st t tnext)
        else
          merge_loop segnum tlast side fuel tnext st
      else
        merge_loop segnum tlast side fuel tnext st
    else some st

/-- The function `merge_trapezoids`. -/
def merge_trapezoids (fuel : Nat) (segnum tfirst tlast side : Int) (st : State) :
    Option State :=
  merge_loop segnum tlast side fuel tfirst st

/-- The endpoint-insertion block of `add_segment` (lines 1334-1377, and again
1392-1436): locate `v` starting from node `root`, split the trapezoid `tu` found there at
the height of `v`, and turn its sink into a Y-node.  Returns `tu`, the new lower
trapezoid `tl` and the new state. -/
def add_segment_endpoint (fuel : Nat) (segnum : Int) (v vo : point_t) (root : Int)
    (st : State) : Option (Int × Int × State) :=
  match locate_endpoint st v vo fuel root with
  | none => none
  | some tu =>
    let (tl, st) := newtrap st
    let st := st.tr_set tl (fun r => { r with state := ST_VALID })
    let st := st.tr_set tl (fun _ => st.tr tu)
    let st := st.tr_set tl (fun r => { r with hi := { r.hi with y := v.y } })
    let st := st.tr_set tu (fun r => { r with lo := { r.lo with y := (st.tr tl).hi.y } })
    let st := st.tr_set tl (fun r => { r with hi := { r.hi with x := v.x } })
    let st := st.tr_set tu (fun r => { r with lo := { r.lo with x := (st.tr tl).hi.x } })
    let st := st.tr_set tu (fun r => { r with d0 := tl })
    let st := st.tr_set tu (fun r => { r with d1 := 0 })
    let st := st.tr_set tl (fun r => { r with u0 := tu })
    let st := st.tr_set tl (fun r => { r with u1 := 0 })
    let st :=
      if (st.tr tl).d0 > 0 ∧ (st.tr (st.tr tl).d0).u0 = tu then
        st.tr_set (st.tr tl).d0 (fun r => { r with u0 := tl })
      else st
    let st :=
      if (st.tr tl).d0 > 0 ∧ (st.tr (st.tr tl).d0).u1 = tu then
        st.tr_set (st.tr tl).d0 (fun r => { r with u1 := tl })
      else st
    let st :=
      if (st.tr tl).d1 > 0 ∧ (st.tr (st.tr tl).d1).u0 = tu then
        st.tr_set (st.tr tl).d1 (fun r => { r with u0 := tl })
      else st
    let st :=
      if (st.tr tl).d1 > 0 ∧ (st.tr (st.tr tl).d1).u1 = tu then
        st.tr_set (st.tr tl).d1 (fun r => { r with u1 := tl })
      else st
    let (i1, st) := newnode st
    let (i2, st) := newnode st
    let sk := (st.tr tu).sink
    let st := st.qs_set sk (fun r => { r with nodetype := T_Y })
    let st := st.qs_set sk (fun r => { r with yval := v })
    let st := st.qs_set sk (fun r => { r with segnum := segnum })
    let st := st.qs_set sk (fun r => { r with left := i2 })
    let st := st.qs_set sk (fun r => { r with right := i1 })
    let st := st.qs_set i1 (fun r => { r with nodetype := T_SINK })
    let st := st.qs_set i1 (fun r => { r with trnum := tu })
    let st := st.qs_set i1 (fun r => { r with parent := sk })
    let st := st.qs_set i2 (fun r => { r with nodetype := T_SINK })
    let st := st.qs_set i2 (fun r => { r with trnum := tl })
    let st := st.qs_set i2 (fun r => { r with parent := sk })
    let st := st.tr_set tu (fun r => { r with sink := i1 })
    let st := st.tr_set tl (fun r => { r with sink := i2 })
    some (tu, tl, st)

/-- The upper-neighbour block of the threading loop of `add_segment` (lines 1499-1558,
repeated at 1607-1666 and 1729-1789): distribute the upper neighbours of the split
trapezoid `t` between `t` and the new trapezoid `tn`; `v1` is the lower endpoint of the
segment being inserted. -/
def add_segment_upper (t tn : Int) (v1 : point_t) (st : State) : State :=
  if (st.tr t).u0 > 0 ∧ (st.tr t).u1 > 0 then
    if (st.tr t).usave > 0 then
      let st :=
        if (st.tr t).uside = S_LEFT then
          let st := st.tr_set tn (fun r => { r with u0 := (st.tr t).u1 })
          let st := st.tr_set t (fun r => { r with u1 := -1 })
          let st := st.tr_set tn (fun r => { r with u1 := (st.tr t).usave })
          let st := st.tr_set (st.tr t).u0 (fun r => { r with d0 := t })
          let st := st.tr_set (st.tr tn).u0 (fun r => { r with d0 := tn })
          st.tr_set (st.tr tn).u1 (fun r => { r with d0 := tn })
        else
          let st := st.tr_set tn (fun r => { r with u1 := -1 })
          let st := st.tr_set tn (fun r => { r with u0 := (st.tr t).u1 })
          let st := st.tr_set t (fun r => { r with u1 := (st.tr t).u0 })
          let st := st.tr_set t (fun r => { r with u0 := (st.tr t).usave })
          let st := st.tr_set (st.tr t).u0 (fun r => { r with d0 := t })
          let st := st.tr_set (st.tr t).u1 (fun r => { r with d0 := t })
          st.tr_set (st.tr tn).u0 (fun r => { r with d0 := tn })
      let st := st.tr_set tn (fun r => { r with usave := 0 })
      st.tr_set t (fun r => { r with usave := 0 })
    else
      let st := st.tr_set tn (fun r => { r with u0 := (st.tr t).u1 })
      let st := st.tr_set tn (fun r => { r with u1 := -1 })
      let st := st.tr_set t (fun r => { r with u1 := -1 })
      st.tr_set (st.tr tn).u0 (fun r => { r with d0 := tn })
  else
    let tmp_u := (st.tr t).u0
    let td0 := (st.tr tmp_u).d0
    if td0 > 0 ∧ (st.tr tmp_u).d1 > 0 then
      if (st.tr td0).rseg > 0 ∧ is_left_of st (st.tr td0).rseg v1 = false then
        let st := st.tr_set tn (fun r => { r with u1 := -1 })
        let st := st.tr_set t (fun r => { r with u1 := -1 })
        let st := st.tr_set t (fun r => { r with u0 := -1 })
        st.tr_set (st.tr tn).u0 (fun r => { r with d1 := tn })
      else
        let st := st.tr_set t (fun r => { r with u1 := -1 })
        let st := st.tr_set tn (fun r => { r with u1 := -1 })
        let st := st.tr_set tn (fun r => { r with u0 := -1 })
        st.tr_set (st.tr t).u0 (fun r => { r with d0 := t })
    else
      let st := st.tr_set (st.tr t).u0 (fun r => { r with d0 := t })
      st.tr_set (st.tr t).u0 (fun r => { r with d1 := tn })

/-- The test `FP_EQUAL(tr[t].lo.y, tr[tlast].lo.y) && FP_EQUAL(tr[t].lo.x, tr[tlast].lo.x)
&& tribot` of the threading loop. -/
def bottom_triangle (st : State) (t tlast : Int) (tribot : Bool) : Bool :=
  FP_EQUAL (st.tr t).lo.y (st.tr tlast).lo.y && FP_EQUAL (st.tr t).lo.x (st.tr tlast).lo.x
    && tribot

/-- The lower part of the threading loop when only `d0` lies below (lines 1560-1601);
returns the next `t`. -/
def add_segment_lower_d0 (segnum t tn tlast : Int) (v0 : point_t)
    (is_swapped tribot : Bool) (st : State) : Int × State :=
  let st :=
    if bottom_triangle st t tlast tribot then
      let tmptriseg := if is_swapped then (st.seg segnum).prev else (st.seg segnum).next
      if tmptriseg > 0 ∧ is_left_of st tmptriseg v0 = true then
        let st := st.tr_set (st.tr t).d0 (fun r => { r with u0 := t })
        let st := st.tr_set tn (fun r => { r with d1 := -1 })
        st.tr_set tn (fun r => { r with d0 := -1 })
      else
        let st := st.tr_set (st.tr tn).d0 (fun r => { r with u1 := tn })
        let st := st.tr_set t (fun r => { r with d1 := -1 })
        st.tr_set t (fun r => { r with d0 := -1 })
    else
      let st :=
        if (st.tr (st.tr t).d0).u0 > 0 ∧ (st.tr (st.tr t).d0).u1 > 0 then
          if (st.tr (st.tr t).d0).u0 = t then
            let st := st.tr_set (st.tr t).d0 (fun r => { r with usave := r.u1 })
            st.tr_set (st.tr t).d0 (fun r => { r with uside := S_LEFT })
          else
            let st := st.tr_set (st.tr t).d0 (fun r => { r with usave := r.u0 })
            st.tr_set (st.tr t).d0 (fun r => { r with uside := S_RIGHT })
        else st
      let st := st.tr_set (st.tr t).d0 (fun r => { r with u0 := t })
      st.tr_set (st.tr t).d0 (fun r => { r with u1 := tn })
  ((st.tr t).d0, st)

/-- The lower part of the threading loop when only `d1` lies below (lines 1668-1694);
returns the next `t`.  The local `tmpseg` is read without ever being assigned. -/
def add_segment_lower_d1 (segnum t tn tlast : Int) (v0 : point_t)
    (is_swapped tribot : Bool) (st : State) : Int × State :=
  let st :=
    if bottom_triangle st t tlast tribot then
      let _tmptriseg := if is_swapped then (st.seg segnum).prev else (st.seg segnum).next
      let (tmpseg, st) := st.read none
      if tmpseg > 0 ∧ is_left_of st tmpseg v0 = true then
        let st := st.tr_set (st.tr t).d1 (fun r => { r with u0 := t })
        let st := st.tr_set tn (fun r => { r with d1 := -1 })
        st.tr_set tn (fun r => { r with d0 := -1 })
      else
        let st := st.tr_set (st.tr tn).d1 (fun r => { r with u1 := tn })
        let st := st.tr_set t (fun r => { r with d1 := -1 })
        st.tr_set t (fun r => { r with d0 := -1 })
    else
      let st :=
        if (st.tr (st.tr t).d1).u0 > 0 ∧ (st.tr (st.tr t).d1).u1 > 0 then
          if (st.tr (st.tr t).d1).u0 = t then
            let st := st.tr_set (st.tr t).d1 (fun r => { r with usave := r.u1 })
            st.tr_set (st.tr t).d1 (fun r => { r with uside := S_LEFT })
          else
            let st := st.tr_set (st.tr t).d1 (fun r => { r with usave := r.u0 })
            st.tr_set (st.tr t).d1 (fun r => { r with uside := S_RIGHT })
        else st
      let st := st.tr_set (st.tr t).d1 (fun r => { r with u0 := t })
      st.tr_set (st.tr t).d1 (fun r => { r with u1 := tn })
  ((st.tr t).d1, st)

/-- The choice between the two lower neighbours (lines 1706-1724): `true` when the
segment from `v0` down to `v1` enters `d0` (`i_d0`), `false` when it enters `d1`. -/
def intersects_d0 (st : State) (t : Int) (v0 v1 : point_t) : Bool :=
  if FP_EQUAL (st.tr t).lo.y v0.y then
    decide ((st.tr t).lo.x > v0.x)
  else
    let y0 := (st.tr t).lo.y
    let yt := (y0 - v0.y) / (v1.y - v0.y)
    let tmppt : point_t := { x := v0.x + yt * (v1.x - v0.x), y := y0 }
    _less_than tmppt (st.tr t).lo

/-- The lower part of the threading loop when two trapezoids lie below (lines
1791-1839), after the upper-neighbour block; `i_d0` is the choice made by
`intersects_d0` before that block.  Returns the next `t`. -/
def add_segment_lower_2 (t tn tlast : Int) (i_d0 tribot : Bool) (st : State) :
    Int × State :=
  if bottom_triangle st t tlast tribot then
    let st := st.tr_set (st.tr t).d0 (fun r => { r with u0 := t })
    let st := st.tr_set (st.tr t).d0 (fun r => { r with u1 := -1 })
    let st := st.tr_set (st.tr t).d1 (fun r => { r with u0 := tn })
    let st := st.tr_set (st.tr t).d1 (fun r => { r with u1 := -1 })
    let st := st.tr_set tn (fun r => { r with d0 := (st.tr t).d1 })
    let st := st.tr_set tn (fun r => { r with d1 := -1 })
    let st := st.tr_set t (fun r => { r with d1 := -1 })
    ((st.tr t).d1, st)
  else if i_d0 then
    let st := st.tr_set (st.tr t).d0 (fun r => { r with u0 := t })
    let st := st.tr_set (st.tr t).d0 (fun r => { r with u1 := tn })
    let st := st.tr_set (st.tr t).d1 (fun r => { r with u0 := tn })
    let st := st.tr_set (st.tr t).d1 (fun r => { r with u1 := -1 })
    let st := st.tr_set t (fun r => { r with d1 := -1 })
    ((st.tr t).d0, st)
  else
    let st := st.tr_set (st.tr t).d0 (fun r => { r with u0 := t })
    let st := st.tr_set (st.tr t).d0 (fun r => { r with u1 := -1 })
    let st := st.tr_set (st.tr t).d1 (fun r => { r with u0 := t })
    let st := st.tr_set (st.tr t).d1 (fun r => { r with u1 := tn })
    let st := st.tr_set tn (fun r => { r with d0 := (st.tr t).d1 })
    let st := st.tr_set tn (fun r => { r with d1 := -1 })
    ((st.tr t).d1, st)

/-- The loop variables of the threading loop of `add_segment`; `stop` records that the
`break` of the error branch was taken. -/
structure thread_vars where
  t : Int
  tfirstr : Option Int
  tlastr : Option Int
  stop : Bool

/-- One pass through the body of the threading loop of `add_segment` (lines 1455-1842)
for the segment `segnum` running from `v0` down to `v1`. -/
def add_segment_split (segnum : Int) (v0 v1 : point_t) (is_swapped tribot : Bool)
    (tfirst tlast : Int) (lv : thread_vars) (st : State) : thread_vars × State :=
  let t := lv.t
  let sk := (st.tr t).sink
  let (i1, st) := newnode st
  let (i2, st) := newnode st
  let st := st.qs_set sk (fun r => { r with nodetype := T_X })
  let st := st.qs_set sk (fun r => { r with segnum := segnum })
  let st := st.qs_set sk (fun r => { r with left := i1 })
  let st := st.qs_set sk (fun r => { r with right := i2 })
  let st := st.qs_set i1 (fun r => { r with nodetype := T_SINK })
  let st := st.qs_set i1 (fun r => { r with trnum := t })
  let st := st.qs_set i1 (fun r => { r with parent := sk })
  let st := st.qs_set i2 (fun r => { r with nodetype := T_SINK })
  let (tn, st) := newtrap st
  let st := st.qs_set i2 (fun r => { r with trnum := tn })
  let st := st.tr_set tn (fun r => { r with state := ST_VALID })
  let st := st.qs_set i2 (fun r => { r with parent := sk })
  let tfirstr := if t = tfirst then some tn else lv.tfirstr
  let tlastr := if _equal_to (st.tr t).lo (st.tr tlast).lo then some tn else lv.tlastr
  let st := st.tr_set tn (fun _ => st.tr t)
  let st := st.tr_set t (fun r => { r with sink := i1 })
  let st := st.tr_set tn (fun r => { r with sink := i2 })
  let t_sav := t
  let tn_sav := tn
  if (st.tr t).d0 ≤ 0 ∧ (st.tr t).d1 ≤ 0 then
    ({ t := t, tfirstr := tfirstr, tlastr := tlastr, stop := true }, st)
  else
    let (tnext, st) :=
      if (st.tr t).d0 > 0 ∧ (st.tr t).d1 ≤ 0 then
        let st := add_segment_upper t tn v1 st
        add_segment_lower_d0 segnum t tn tlast v0 is_swapped tribot st
      else if (st.tr t).d0 ≤ 0 ∧ (st.tr t).d1 > 0 then
        let st := add_segment_upper t tn v1 st
        add_segment_lower_d1 segnum t tn tlast v0 is_swapped tribot st
      else
        let i_d0 := intersects_d0 st t v0 v1
        let st := add_segment_upper t tn v1 st
        add_segment_lower_2 t tn tlast i_d0 tribot st
    let st := st.tr_set tn_sav (fun r => { r with lseg := segnum })
    let st := st.tr_set t_sav (fun r => { r with rseg := (st.tr tn_sav).lseg })
    ({ t := tnext, tfirstr := tfirstr, tlastr := tlastr, stop := false }, st)

/-- The threading loop of `add_segment` (lines 1451-1843). -/
def add_segment_thread (segnum : Int) (v0 v1 : point_t) (is_swapped tribot : Bool)
    (tfirst tlast : Int) : Nat → thread_vars → State → Option (thread_vars × State)
  | 0, _, _ => none
  | fuel + 1, lv, st =>
    if lv.t > 0 ∧ _greater_than_equal_to (st.tr lv.t).lo (st.tr tlast).lo = true then
      let (lv, st) := add_segment_split segnum v0 v1 is_swapped tribot tfirst tlast lv st
      if lv.stop then some (lv, st)
      else add_segment_thread segnum v0 v1 is_swapped tribot tfirst tlast fuel lv st
    else some (lv, st)

/-- The function `add_segment`. -/
def add_segment (fuel : Nat) (segnum : Int) (st : State) : Option State :=
  let s := st.seg segnum
  let is_swapped := _greater_than s.v1 s.v0
  let s : segment_t :=
    if is_swapped then { s with v0 := s.v1, v1 := s.v0, root0 := s.root1, root1 := s.root0 }
    else s
  let first : Option (Int × Bool × State) :=
    if (if is_swapped then !inserted st segnum LASTPT else !inserted st segnum FIRSTPT) then
      (add_segment_endpoint fuel segnum s.v0 s.v1 s.root0 st).map
        (fun r => (r.2.1, false, r.2.2))
    else
      (locate_endpoint st s.v0 s.v1 fuel s.root0).map (fun tfirst => (tfirst, true, st))
  match first with
  | none => none
  | some (tfirst, _tritop, st) =>
    let last : Option (Int × Bool × State) :=
      if (if is_swapped then !inserted st segnum FIRSTPT else !inserted st segnum LASTPT) then
        (add_segment_endpoint fuel segnum s.v1 s.v0 s.root1 st).map
          (fun r => (r.1, false, r.2.2))
      else
        (locate_endpoint st s.v1 s.v0 fuel s.root1).map (fun tlast => (tlast, true, st))
    match last with
    | none => none
    | some (tlast, tribot, st) =>
      match add_segment_thread segnum s.v0 s.v1 is_swapped tribot tfirst tlast fuel
          { t := tfirst, tfirstr := none, tlastr := none, stop := false } st with
      | none => none
      | some (lv, st) =>
        let tfirstl := tfirst
        let tlastl := tlast
        match merge_trapezoids fuel segnum tfirstl tlastl S_LEFT st with
        | none => none
        | some st =>
          let (tfirstr, st) := st.read lv.tfirstr
          let (tlastr, st) := st.read lv.tlastr
          match merge_trapezoids fuel segnum tfirstr tlastr S_RIGHT st with
          | none => none
          | some st => some (st.seg_set segnum (fun r => { r with is_inserted := true }))

/-- The function `find_new_roots`. -/
def find_new_roots (fuel : Nat) (segnum : Int) (st : State) : Option State :=
  let s := st.seg segnum
  if s.is_inserted then some st
  else
    match locate_endpoint st s.v0 s.v1 fuel s.root0 with
    | none => none
    | some r0 =>
      let st := st.seg_set segnum (fun r => { r with root0 := r0 })
      let st := st.seg_set segnum (fun r => { r with root0 := (st.tr r.root0).sink })
      let s := st.seg segnum
      match locate_endpoint st s.v1 s.v0 fuel s.root1 with
      | none => none
      | some r1 =>
        let st := st.seg_set segnum (fun r => { r with root1 := r1 })
        some (st.seg_set segnum (fun r => { r with root1 := (st.tr r.root1).sink }))

/-- The function `choose_segment`. -/
def choose_segment (st : State) : Int × State :=
  (st.permute st.choose_idx, { st with choose_idx := st.choose_idx + 1 })

/-- The loop of `math_logstar_n`; `log2` is the libm function. -/
def math_logstar_loop (log2 : Dbl → Dbl) : Nat → Int → Dbl → Option Int
  | 0, _, _ => none
  | fuel + 1, i, v =>
    if v ≥ Dbl.fin 1 then math_logstar_loop log2 fuel (i + 1) (log2 v)
    else some (i - 1)

/-- The function `math_logstar_n`. -/
def math_logstar_n (log2 : Dbl → Dbl) (fuel : Nat) (n : Int) : Option Int :=
  math_logstar_loop log2 fuel 0 (Dbl.ofInt n)

/-- The function `math_N`; `none` when the cast to `int` is undefined. -/
def math_N (log2 : Dbl → Dbl) (n h : Int) : Option Int :=
  let v := Nat.iterate log2 h.toNat (Dbl.ofInt n)
  Dbl.toInt (Dbl.ceil (Dbl.fin 1 * Dbl.ofInt n / v))

/-- The round schedule of `construct_trapezoids`: the value `math_logstar_n(nseg)` and
the table of `math_N(nseg, h)` for `h = 0 .. math_logstar_n(nseg)`.  Both functions are
pure, and `math_N(nseg, h) = math_N(nseg, 0)` for `h < 0`, so the table is read at
`h.toNat`. -/
def schedule (log2 : Dbl → Dbl) (fuel : Nat) (nseg : Int) : Option (Int × List (Option Int)) :=
  (math_logstar_n log2 fuel nseg).map
    (fun lsn => (lsn, (List.range (lsn.toNat + 1)).map (fun h : Nat => math_N log2 nseg (h : Int))))

/-- The loop `for (i = lo; i <= hi; i++) body(i);` for a body that does not assign `i`:
`count` is the number of passes, `(hi + 1 - lo).toNat`. -/
def for_loop (body : Int → State → Option State) : Nat → Int → State → Option State
  | 0, _, st => some st
  | count + 1, i, st =>
    match body i st with
    | none => none
    | some st => for_loop body count (i + 1) st

/-- The loop `for (i = lo; i <= hi; i++) add_segment(choose_segment());`. -/
def add_segments (fuel : Nat) (lo hi : Int) (st : State) : Option State :=
  for_loop (fun _ st => let (sn, st) := choose_segment st; add_segment fuel sn st)
    (hi + 1 - lo).toNat lo st

/-- The loop `for (i = 1; i <= nseg; i++) find_new_roots(i);`. -/
def find_all_new_roots (fuel : Nat) (nseg : Int) (st : State) : Option State :=
  for_loop (fun i st => find_new_roots fuel i st) nseg.toNat 1 st

/-- The loop `for (i = 1; i <= nseg; i++) seg[i].root0 = seg[i].root1 = root;`. -/
def set_roots (nseg root : Int) (st : State) : Option State :=
  for_loop (fun i st =>
      let st := st.seg_set i (fun r => { r with root1 := root })
      some (st.seg_set i (fun r => { r with root0 := r.root1 })))
    nseg.toNat 1 st

/-- The loop over the rounds `h` of `construct_trapezoids` (lines 1884-1889). -/
def construct_rounds (fuel : Nat) (nseg lsn : Int) (N : List (Option Int)) :
    Nat → Int → State → Option State
  | 0, _, _ => none
  | k + 1, h, st =>
    if h ≤ lsn then
      let (lo, st) := st.read ((N.getD (h - 1).toNat none).map (· + 1))
      let (hi, st) := st.read (N.getD h.toNat none)
      match add_segments fuel lo hi st with
      | none => none
      | some st =>
        match find_all_new_roots fuel nseg st with
        | none => none
        | some st => construct_rounds fuel nseg lsn N k (h + 1) st
    else some st

/-- The function `construct_trapezoids`. -/
def construct_trapezoids (log2 : Dbl → Dbl) (fuel : Nat) (nseg : Int) (st : State) :
    Option State :=
  match schedule log2 fuel nseg with
  | none => none
  | some (lsn, N) =>
    let (sn, st) := choose_segment st
    let (root, st) := init_query_structure sn st
    match set_roots nseg root st with
    | none => none
    | some st =>
      match construct_rounds fuel nseg lsn N fuel 1 st with
      | none => none
      | some st =>
        let (lo, st) := st.read ((N.getD lsn.toNat none).map (· + 1))
        add_segments fuel lo nseg st

/-! ## Monotonation -/

/-- The function `inside_polygon`, applied to the row `t`. -/
def inside_polygon (st : State) (t : trap_t) : Bool :=
  let rseg := t.rseg
  if t.state = ST_INVALID then false
  else if t.lseg ≤ 0 ∨ t.rseg ≤ 0 then false
  else if (t.u0 ≤ 0 ∧ t.u1 ≤ 0) ∨ (t.d0 ≤ 0 ∧ t.d1 ≤ 0) then
    _greater_than (st.seg rseg).v1 (st.seg rseg).v0
  else false

/-- The function `newmon`. -/
def newmon (st : State) : Int × State :=
  (st.mon_idx + 1, { st with mon_idx := st.mon_idx + 1 })

/-- The function `new_chain_element`. -/
def new_chain_element (st : State) : Int × State :=
  (st.chain_idx + 1, { st with chain_idx := st.chain_idx + 1 })

/-- The function `get_angle`.  The C function returns `c = DOT/LENGTH/LENGTH` or
`-c - 2`, with `LENGTH` a square root; its only caller compares the results with `>`.
The embedding returns the image of that value under the strictly increasing map that
sends `c` to `c * |c|` and `-c - 2` to `-(c * |c|) - 2` (and fixes the start value
`-4.0`), which needs no square root: `c * |c| = DOT * |DOT| / (v0.v0) / (v1.v1)`. -/
def get_angle (vp0 vpnext vp1 : point_t) : Dbl :=
  let v0 : point_t := { x := vpnext.x - vp0.x, y := vpnext.y - vp0.y }
  let v1 : point_t := { x := vp1.x - vp0.x, y := vp1.y - vp0.y }
  if CROSS_SINE v0 v1 ≥ Dbl.fin 0 then
    DOT v0 v1 * Dbl.fabs (DOT v0 v1) / DOT v0 v0 / DOT v1 v1
  else
    Dbl.fin (-1) * (DOT v0 v1 * Dbl.fabs (DOT v0 v1)) / DOT v0 v0 / DOT v1 v1 - Dbl.fin 2

/-- One of the two scans of `get_vertex_positions` (lines 390-401): the slot of `va`
whose chain makes the largest `get_angle` with the diagonal towards `vb`, or `none`
when the local `tp` is never assigned. -/
def best_slot (st : State) (va vb : Int) : Option Int :=
  let vp0 := st.vert va
  let vp1 := st.vert vb
  let step (acc : Dbl × Option Int) (i : Int) : Dbl × Option Int :=
    if vp0.vnext i ≤ 0 then acc
    else
      let temp := get_angle vp0.pt (st.vert (vp0.vnext i)).pt vp1.pt
      if temp > acc.1 then (temp, some i) else acc
  ([0, 1, 2, 3].foldl step (Dbl.fin (-4), none)).2

/-- The function `get_vertex_positions`: the values stored through `ip` and `iq`. -/
def get_vertex_positions (st : State) (v0 v1 : Int) : Option Int × Option Int :=
  (best_slot st v0 v1, best_slot st v1 v0)

/-- The function `make_new_monotone_poly`. -/
def make_new_monotone_poly (mcur v0 v1 : Int) (st : State) : Int × State :=
  let (mnew, st) := newmon st
  let (ip, st) := st.read (get_vertex_positions st v0 v1).1
  let (iq, st) := st.read (get_vertex_positions st v0 v1).2
  let p := (st.vert v0).vpos ip
  let q := (st.vert v1).vpos iq
  let (i, st) := new_chain_element st
  let (j, st) := new_chain_element st
  let st := st.mchain_set i (fun r => { r with vnum := v0 })
  let st := st.mchain_set j (fun r => { r with vnum := v1 })
  let st := st.mchain_set i (fun r => { r with next := (st.mchain p).next })
  let st := st.mchain_set (st.mchain p).next (fun r => { r with prev := i })
  let st := st.mchain_set i (fun r => { r with prev := j })
  let st := st.mchain_set j (fun r => { r with next := i })
  let st := st.mchain_set j (fun r => { r with prev := (st.mchain q).prev })
  let st := st.mchain_set (st.mchain q).prev (fun r => { r with next := j })
  let st := st.mchain_set p (fun r => { r with next := q })
  let st := st.mchain_set q (fun r => { r with prev := p })
  let nf0 := (st.vert v0).nextfree
  let nf1 := (st.vert v1).nextfree
  let st := st.vnext_set v0 ip v1
  let st := st.vpos_set v0 nf0 i
  let st := st.vnext_set v0 nf0 (st.mchain (st.mchain i).next).vnum
  let st := st.vpos_set v1 nf1 j
  let st := st.vnext_set v1 nf1 v0
  let st := st.vert_set v0 (fun r => { r with nextfree := r.nextfree + 1 })
  let st := st.vert_set v1 (fun r => { r with nextfree := r.nextfree + 1 })
  let st := st.mon_set mcur p
  let st := st.mon_set mnew i
  (mnew, st)

/-- The search loop of `monotonate_trapezoids` (lines 496-499): the first `i` from the
given start below `TRSIZE` with `inside_polygon(&tr[i])`, or `TRSIZE`. -/
def find_tr_start (st : State) : Nat → Int → Int
  | 0, i => i
  | k + 1, i => if inside_polygon st (st.tr i) then i else find_tr_start st k (i + 1)

/-- The initialisation loop of `monotonate_trapezoids` (lines 504-513). -/
def init_chains (n : Int) (st : State) : Option State :=
  for_loop (fun i st =>
      let st := st.mchain_set i (fun r => { r with prev := (st.seg i).prev })
      let st := st.mchain_set i (fun r => { r with next := (st.seg i).next })
      let st := st.mchain_set i (fun r => { r with vnum := i })
      let st := st.vert_set i (fun r => { r with pt := (st.seg i).v0 })
      let st := st.vnext_set i 0 (st.seg i).next
      let st := st.vpos_set i 0 i
      some (st.vert_set i (fun r => { r with nextfree := 1 })))
    n.toNat 1 st

/-- A sequence of recursive calls `traverse_polygon(m, trnum, from, dir)`, each given as
`(m, trnum, dir)`, threaded through the state. -/
def traverse_calls (rec : Int → Int → Int → Int → State → Option State) (from_ : Int) :
    List (Int × Int × Int) → State → Option State
  | [], st => some st
  | (m, trnum, dir) :: rest, st =>
    match rec m trnum from_ dir st with
    | none => none
    | some st => traverse_calls rec from_ rest st

/-- The function `traverse_polygon`.  Its return value is not modelled: no caller reads
it. -/
def traverse_polygon : Nat → Int → Int → Int → Int → State → Option State
  | 0, _, _, _, _, _ => none
  | fuel + 1, mcur, trnum, from_, dir, st =>
    let t := st.tr trnum
    let go := traverse_calls (traverse_polygon fuel) trnum
    if trnum ≤ 0 ∨ st.visited trnum = true then some st
    else
      let st := st.visited_set trnum true
      if t.u0 ≤ 0 ∧ t.u1 ≤ 0 then
        if t.d0 > 0 ∧ t.d1 > 0 then
          let v0 := (st.tr t.d1).lseg
          let v1 := t.lseg
          if from_ = t.d1 then
            let (mnew, st) := make_new_monotone_poly mcur v1 v0 st
            go [(mcur, t.d1, TR_FROM_UP), (mnew, t.d0, TR_FROM_UP)] st
          else
            let (mnew, st) := make_new_monotone_poly mcur v0 v1 st
            go [(mcur, t.d0, TR_FROM_UP), (mnew, t.d1, TR_FROM_UP)] st
        else
          go [(mcur, t.u0, TR_FROM_DN), (mcur, t.u1, TR_FROM_DN),
              (mcur, t.d0, TR_FROM_UP), (mcur, t.d1, TR_FROM_UP)] st
      else if t.d0 ≤ 0 ∧ t.d1 ≤ 0 then
        if t.u0 > 0 ∧ t.u1 > 0 then
          let v0 := t.rseg
          let v1 := (st.tr t.u0).rseg
          if from_ = t.u1 then
            let (mnew, st) := make_new_monotone_poly mcur v1 v0 st
            go [(mcur, t.u1, TR_FROM_DN), (mnew, t.u0, TR_FROM_DN)] st
          else
            let (mnew, st) := make_new_monotone_poly mcur v0 v1 st
            go [(mcur, t.u0, TR_FROM_DN), (mnew, t.u1, TR_FROM_DN)] st
        else
          go [(mcur, t.u0, TR_FROM_DN), (mcur, t.u1, TR_FROM_DN),
              (mcur, t.d0, TR_FROM_UP), (mcur, t.d1, TR_FROM_UP)] st
      else if t.u0 > 0 ∧ t.u1 > 0 then
        if t.d0 > 0 ∧ t.d1 > 0 then
          let v0 := (st.tr t.d1).lseg
          let v1 := (st.tr t.u0).rseg
          if (dir = TR_FROM_DN ∧ t.d1 = from_) ∨ (dir = TR_FROM_UP ∧ t.u1 = from_) then
            let (mnew, st) := make_new_monotone_poly mcur v1 v0 st
            go [(mcur, t.u1, TR_FROM_DN), (mcur, t.d1, TR_FROM_UP),
                (mnew, t.u0, TR_FROM_DN), (mnew, t.d0, TR_FROM_UP)] st
          else
            let (mnew, st) := make_new_monotone_poly mcur v0 v1 st
            go [(mcur, t.u0, TR_FROM_DN), (mcur, t.d0, TR_FROM_UP),
                (mnew, t.u1, TR_FROM_DN), (mnew, t.d1, TR_FROM_UP)] st
        else
          if _equal_to t.lo (st.seg t.lseg).v1 then
            let v0 := (st.tr t.u0).rseg
            let v1 := (st.seg t.lseg).next
            if dir = TR_FROM_UP ∧ t.u0 = from_ then
              let (mnew, st) := make_new_monotone_poly mcur v1 v0 st
              go [(mcur, t.u0, TR_FROM_DN), (mnew, t.d0, TR_FROM_UP),
                  (mnew, t.u1, TR_FROM_DN), (mnew, t.d1, TR_FROM_UP)] st
            else
              let (mnew, st) := make_new_monotone_poly mcur v0 v1 st
              go [(mcur, t.u1, TR_FROM_DN), (mcur, t.d0, TR_FROM_UP),
                  (mcur, t.d1, TR_FROM_UP), (mnew, t.u0, TR_FROM_DN)] st
          else
            let v0 := t.rseg
            let v1 := (st.tr t.u0).rseg
            if dir = TR_FROM_UP ∧ t.u1 = from_ then
              let (mnew, st) := make_new_monotone_poly mcur v1 v0 st
              go [(mcur, t.u1, TR_FROM_DN), (mnew, t.d1, TR_FROM_UP),
                  (mnew, t.d0, TR_FROM_UP), (mnew, t.u0, TR_FROM_DN)] st
            else
              let (mnew, st) := make_new_monotone_poly mcur v0 v1 st
              go [(mcur, t.u0, TR_FROM_DN), (mcur, t.d0, TR_FROM_UP),
                  (mcur, t.d1, TR_FROM_UP), (mnew, t.u1, TR_FROM_DN)] st
      else if t.u0 > 0 ∨ t.u1 > 0 then
        if t.d0 > 0 ∧ t.d1 > 0 then
          if _equal_to t.hi (st.seg t.lseg).v0 then
            let v0 := (st.tr t.d1).lseg
            let v1 := t.lseg
            if ¬ (dir = TR_FROM_DN ∧ t.d0 = from_) then
              let (mnew, st) := make_new_monotone_poly mcur v1 v0 st
              go [(mcur, t.u1, TR_FROM_DN), (mcur, t.d1, TR_FROM_UP),
                  (mcur, t.u0, TR_FROM_DN), (mnew, t.d0, TR_FROM_UP)] st
            else
              let (mnew, st) := make_new_monotone_poly mcur v0 v1 st
              go [(mcur, t.d0, TR_FROM_UP), (mnew, t.u0, TR_FROM_DN),
                  (mnew, t.u1, TR_FROM_DN), (mnew, t.d1, TR_FROM_UP)] st
          else
            let v0 := (st.tr t.d1).lseg
            let v1 := (st.seg t.rseg).next
            if dir = TR_FROM_DN ∧ t.d1 = from_ then
              let (mnew, st) := make_new_monotone_poly mcur v1 v0 st
              go [(mcur, t.d1, TR_FROM_UP), (mnew, t.u1, TR_FROM_DN),
                  (mnew, t.u0, TR_FROM_DN), (mnew, t.d0, TR_FROM_UP)] st
            else
              let (mnew, st) := make_new_monotone_poly mcur v0 v1 st
              go [(mcur, t.u0, TR_FROM_DN), (mcur, t.d0, TR_FROM_UP),
                  (mcur, t.u1, TR_FROM_DN), (mnew, t.d1, TR_FROM_UP)] st
        else
          if _equal_to t.hi (st.seg t.lseg).v0 ∧ _equal_to t.lo (st.seg t.rseg).v0 then
            let v0 := t.rseg
            let v1 := t.lseg
            if dir = TR_FROM_UP then
              let (mnew, st) := make_new_monotone_poly mcur v1 v0 st
              go [(mcur, t.u0, TR_FROM_DN), (mcur, t.u1, TR_FROM_DN),
                  (mnew, t.d1, TR_FROM_UP), (mnew, t.d0, TR_FROM_UP)] st
            else
              let (mnew, st) := make_new_monotone_poly mcur v0 v1 st
              go [(mcur, t.d1, TR_FROM_UP), (mcur, t.d0, TR_FROM_UP),
                  (mnew, t.u0, TR_FROM_DN), (mnew, t.u1, TR_FROM_DN)] st
          else if _equal_to t.hi (st.seg t.rseg).v1 ∧ _equal_to t.lo (st.seg t.lseg).v1 then
            let v0 := (st.seg t.rseg).next
            let v1 := (st.seg t.lseg).next
            if dir = TR_FROM_UP then
              let (mnew, st) := make_new_monotone_poly mcur v1 v0 st
              go [(mcur, t.u0, TR_FROM_DN), (mcur, t.u1, TR_FROM_DN),
                  (mnew, t.d1, TR_FROM_UP), (mnew, t.d0, TR_FROM_UP)] st
            else
              let (mnew, st) := make_new_monotone_poly mcur v0 v1 st
              go [(mcur, t.d1, TR_FROM_UP), (mcur, t.d0, TR_FROM_UP),
                  (mnew, t.u0, TR_FROM_DN), (mnew, t.u1, TR_FROM_DN)] st
          else
            go [(mcur, t.u0, TR_FROM_DN), (mcur, t.d0, TR_FROM_UP),
                (mcur, t.u1, TR_FROM_DN), (mcur, t.d1, TR_FROM_UP)] st
      else some st

/-- The function `monotonate_trapezoids`; returns the value of the final `newmon()`.
When the search finds no trapezoid, `tr_start` is `TRSIZE` and the read of
`tr[tr_start]` lies outside the table: the flag `ub` records it. -/
def monotonate_trapezoids (fuel : Nat) (n : Int) (st : State) : Option (Int × State) :=
  let st := { st with vert := fun _ => vertexchain_zero }
  let st := { st with visited := fun _ => false }
  let st := { st with mchain := fun _ => monchain_zero }
  let st := { st with mon := fun _ => 0 }
  let tr_start := find_tr_start st TRSIZE.toNat 0
  match init_chains n st with
  | none => none
  | some st =>
    let st := { st with chain_idx := n }
    let st := { st with mon_idx := 0 }
    let st := st.mon_set 0 1
    let st := { st with ub := st.ub || outside TRSIZE tr_start }
    let r :=
      if (st.tr tr_start).u0 > 0 then
        traverse_polygon fuel 0 tr_start (st.tr tr_start).u0 TR_FROM_UP st
      else if (st.tr tr_start).d0 > 0 then
        traverse_polygon fuel 0 tr_start (st.tr tr_start).d0 TR_FROM_DN st
      else some st
    r.map newmon

/-! ## Triangulation of the monotone polygons -/

/-- The loop variables of the scan loop of `triangulate_monotone_polygons`. -/
structure scan_vars where
  p : Int
  vcount : Int
  ymax : point_t
  ymin : point_t
  posmax : Int
  posmin : Int
  processed : Bool

/-- One pass of the scan loop of `triangulate_monotone_polygons` past the test of
`marked` (lines 838-851), at the chain node `sv.p`. -/
def scan_step (sv : scan_vars) (st : State) : scan_vars × State :=
  let v := (st.mchain sv.p).vnum
  let st := st.mchain_set sv.p (fun r => { r with marked := true })
  let sv :=
    if _greater_than (st.vert v).pt sv.ymax then
      { sv with ymax := (st.vert v).pt, posmax := sv.p }
    else sv
  let sv :=
    if _less_than (st.vert v).pt sv.ymin then
      { sv with ymin := (st.vert v).pt, posmin := sv.p }
    else sv
  ({ sv with p := (st.mchain sv.p).next, vcount := sv.vcount + 1 }, st)

/-- The scan loop of `triangulate_monotone_polygons` (lines 830-852). -/
def scan_loop (vfirst : Int) : Nat → scan_vars → State → Option (scan_vars × State)
  | 0, _, _ => none
  | fuel + 1, sv, st =>
    if (st.mchain sv.p).vnum ≠ vfirst then
      if (st.mchain sv.p).marked then some ({ sv with processed := true }, st)
      else scan_loop vfirst fuel (scan_step sv st).1 (scan_step sv st).2
    else some (sv, st)

/-- The loop variables of the sweep loop of `triangulate_single_polygon`; `rc` is the
local reflex-chain array. -/
structure sweep_vars where
  rc : Int → Int
  ri : Int
  vpos : Int
  v : Int

/-- The statements `op[op_idx][0..2] = rc[ri - 1], rc[ri], v; op_idx++;`. -/
def emit (sw : sweep_vars) (st : State) : State :=
  let st := st.op_set st.op_idx (sw.rc (sw.ri - 1)) (sw.rc sw.ri) sw.v
  let st := { st with op_idx := st.op_idx + 1 }
  { st with ub := st.ub || outside SEGSIZE (sw.ri - 1) || outside SEGSIZE sw.ri }

/-- The sweep loop of `triangulate_single_polygon` (lines 915-942). -/
def sweep_loop (endv : Int) : Nat → sweep_vars → State → Option (sweep_vars × State)
  | 0, _, _ => none
  | fuel + 1, sw, st =>
    if sw.v ≠ endv ∨ sw.ri > 1 then
      if sw.ri > 0 then
        if CROSS (st.vert sw.v).pt (st.vert (sw.rc (sw.ri - 1))).pt (st.vert (sw.rc sw.ri)).pt
            > Dbl.fin 0 then
          let st := emit sw st
          sweep_loop endv fuel { sw with ri := sw.ri - 1 } st
        else
          let st := { st with ub := st.ub || outside SEGSIZE (sw.ri + 1) }
          let vpos := (st.mchain sw.vpos).next
          sweep_loop endv fuel
            { rc := upd sw.rc (sw.ri + 1) sw.v, ri := sw.ri + 1, vpos := vpos,
              v := (st.mchain vpos).vnum } st
      else
        let st := { st with ub := st.ub || outside SEGSIZE (sw.ri + 1) }
        let vpos := (st.mchain sw.vpos).next
        sweep_loop endv fuel
          { rc := upd sw.rc (sw.ri + 1) sw.v, ri := sw.ri + 1, vpos := vpos,
            v := (st.mchain vpos).vnum } st
    else some (sw, st)

/-- The initialisation of `triangulate_single_polygon` (lines 888-913): the loop
variables with which the sweep starts, and `endv`. -/
def sweep_init (st : State) (nvert posmax side : Int) : sweep_vars × Int :=
  if side = TRI_RHS then
    let rc := upd (fun _ => 0) 0 (st.mchain posmax).vnum
    let tmp := (st.mchain posmax).next
    let rc := upd rc 1 (st.mchain tmp).vnum
    let vpos := (st.mchain tmp).next
    let v := (st.mchain vpos).vnum
    let endv := (st.mchain (st.mchain posmax).prev).vnum
    let endv := if endv = 0 then nvert else endv
    ({ rc := rc, ri := 1, vpos := vpos, v := v }, endv)
  else
    let tmp := (st.mchain posmax).next
    let rc := upd (fun _ => 0) 0 (st.mchain tmp).vnum
    let tmp := (st.mchain tmp).next
    let rc := upd rc 1 (st.mchain tmp).vnum
    let vpos := (st.mchain tmp).next
    let v := (st.mchain vpos).vnum
    let endv := (st.mchain posmax).vnum
    ({ rc := rc, ri := 1, vpos := vpos, v := v }, endv)

/-- The function `triangulate_single_polygon`. -/
def triangulate_single_polygon (fuel : Nat) (nvert posmax side : Int) (st : State) :
    Option State :=
  match sweep_loop (sweep_init st nvert posmax side).2 fuel
      (sweep_init st nvert posmax side).1 st with
  | none => none
  | some (sw, st) => some (emit sw st)

/-- The statements before the scan loop of `triangulate_monotone_polygons` (lines
823-829) for entry `i` of `mon`: `vfirst`, the loop variables and the new state. -/
def scan_init (i : Int) (st : State) : Int × scan_vars × State :=
  let vfirst := (st.mchain (st.mon i)).vnum
  let pt := (st.vert vfirst).pt
  let st' := st.mchain_set (st.mon i) (fun r => { r with marked := true })
  (vfirst,
   { p := (st'.mchain (st.mon i)).next, vcount := 1, ymax := pt, ymin := pt,
     posmax := st.mon i, posmin := st.mon i, processed := false },
   st')

/-- The statements after the scan loop of `triangulate_monotone_polygons` (lines
854-873). -/
def after_scan (fuel : Nat) (nvert : Int) (sv : scan_vars) (st : State) : Option State :=
  if sv.processed then some st
  else if sv.vcount = 3 then
    let st := st.op_set st.op_idx (st.mchain sv.p).vnum
      (st.mchain (st.mchain sv.p).next).vnum (st.mchain (st.mchain sv.p).prev).vnum
    some { st with op_idx := st.op_idx + 1 }
  else
    let v := (st.mchain (st.mchain sv.posmax).next).vnum
    if _equal_to (st.vert v).pt sv.ymin then
      triangulate_single_polygon fuel nvert sv.posmax TRI_LHS st
    else
      triangulate_single_polygon fuel nvert sv.posmax TRI_RHS st

/-- The body of the loop over `i` of `triangulate_monotone_polygons` (lines 823-873). -/
def triangulate_one (fuel : Nat) (nvert : Int) (i : Int) (st : State) : Option State :=
  match scan_loop (scan_init i st).1 fuel (scan_init i st).2.1 (scan_init i st).2.2 with
  | none => none
  | some (sv, st) => after_scan fuel nvert sv st

/-- The function `triangulate_monotone_polygons`; returns `op_idx`. -/
def triangulate_monotone_polygons (fuel : Nat) (nvert nmonpoly : Int) (st : State) :
    Option (Int × State) :=
  let st := { st with op_idx := 0 }
  (for_loop (triangulate_one fuel nvert) nmonpoly.toNat 0 st).map (fun st => (st.op_idx, st))

/-! ## Ingest, random ordering and the entry point -/

/-- The state of the loops of `generate_random_ordering`: the local array `st` (a cell
is `none` until it is assigned), the table `permute`, and the list of the array indices
used so far, most recent first (`inl k` stands for `st[k]`, `inr k` for `permute[k]`). -/
structure ordering_vars where
  st : Int → Option Int
  permute : Int → Int
  used : List (Int ⊕ Int)
  ub : Bool

/-- The loop `for (i = 0; i <= n; i++) st[i] = i;`. -/
def ordering_fill : Nat → Int → ordering_vars → ordering_vars
  | 0, _, ov => ov
  | count + 1, i, ov =>
    ordering_fill count (i + 1)
      { ov with st := upd ov.st i (some i), used := Sum.inl i :: ov.used,
                ub := ov.ub || outside SEGSIZE i }

/-- One pass of the loop at lines 269-273 for the draw `r = lrand48()`; the pointer `p`
is `st + (i - 1)`. -/
def ordering_step (n i r : Int) (ov : ordering_vars) : ordering_vars :=
  let m := Int.tmod r (n + 1 - i) + 1
  let pm := i - 1 + m
  let p1 := i - 1 + 1
  let ov := { ov with permute := upd ov.permute i ((ov.st pm).getD 0),
                      used := Sum.inr i :: Sum.inl pm :: ov.used,
                      ub := ov.ub || (ov.st pm).isNone || outside SEGSIZE pm
                            || outside SEGSIZE i }
  if m ≠ 1 then
    { ov with st := upd ov.st pm (ov.st p1), used := Sum.inl pm :: Sum.inl p1 :: ov.used,
              ub := ov.ub || (ov.st p1).isNone || outside SEGSIZE pm || outside SEGSIZE p1 }
  else ov

/-- The loop at lines 269-273; `rnd i` is the value `lrand48()` returns in pass `i`. -/
def ordering_loop (rnd : Int → Int) (n : Int) : Nat → Int → ordering_vars → ordering_vars
  | 0, _, ov => ov
  | count + 1, i, ov => ordering_loop rnd n count (i + 1) (ordering_step n i (rnd i) ov)

/-- The two loops of `generate_random_ordering`, started from the table `permute`. -/
def ordering_run (rnd : Int → Int) (n : Int) (permute : Int → Int) : ordering_vars :=
  ordering_loop rnd n n.toNat 1
    (ordering_fill (n + 1).toNat 0 { st := fun _ => none, permute := permute, used := [], ub := false })

/-- The function `generate_random_ordering`. -/
def generate_random_ordering (rnd : Int → Int) (n : Int) (st : State) : State :=
  let st := { st with choose_idx := 1 }
  let ov := ordering_run rnd n st.permute
  { st with permute := ov.permute, ub := st.ub || ov.ub }

/-- The function `initialise`. -/
def initialise (rnd : Int → Int) (n : Int) (st : State) : Option State :=
  (for_loop (fun i st => some (st.seg_set i (fun r => { r with is_inserted := false })))
    n.toNat 1 st).map (generate_random_ordering rnd n)

/-- The body of the loop over `j` of `triangulate_polygon` (lines 215-233) for vertex
`i` of the contour running from `first` to `last`. -/
def ingest_vertex (vertices : Int → Int → Dbl) (first last i : Int) (st : State) : State :=
  let st := st.seg_set i (fun r => { r with v0 := { r.v0 with x := vertices i 0 } })
  let st := st.seg_set i (fun r => { r with v0 := { r.v0 with y := vertices i 1 } })
  let st :=
    if i = last then
      let st := st.seg_set i (fun r => { r with next := first })
      let st := st.seg_set i (fun r => { r with prev := i - 1 })
      st.seg_set (i - 1) (fun r => { r with v1 := (st.seg i).v0 })
    else if i = first then
      let st := st.seg_set i (fun r => { r with next := i + 1 })
      let st := st.seg_set i (fun r => { r with prev := last })
      st.seg_set last (fun r => { r with v1 := (st.seg i).v0 })
    else
      let st := st.seg_set i (fun r => { r with prev := i - 1 })
      let st := st.seg_set i (fun r => { r with next := i + 1 })
      st.seg_set (i - 1) (fun r => { r with v1 := (st.seg i).v0 })
  st.seg_set i (fun r => { r with is_inserted := false })

/-- The loop over the contours of `triangulate_polygon` (lines 209-236); `i` is the
running vertex index, and the result carries its final value. -/
def ingest_contours (cntr : Int → Int) (vertices : Int → Int → Dbl) :
    Nat → Int → Int → State → Int × State
  | 0, _, i, st => (i, st)
  | count + 1, ccount, i, st =>
    let npoints := cntr ccount
    let first := i
    let last := first + npoints - 1
    match for_loop (fun i st => some (ingest_vertex vertices first last i st))
        npoints.toNat i st with
    | none => (i, st)
    | some st => ingest_contours cntr vertices count (ccount + 1) (i + npoints.toNat) st

/-- The three stages that follow `initialise` in `triangulate_polygon` (lines 242-244);
returns the value of `triangulate_monotone_polygons`. -/
def triangulate_stages (log2 : Dbl → Dbl) (fuel : Nat) (n : Int) (st : State) :
    Option (Int × State) :=
  match construct_trapezoids log2 fuel n st with
  | none => none
  | some st =>
    match monotonate_trapezoids fuel n st with
    | none => none
    | some (nmonpoly, st) => triangulate_monotone_polygons fuel n nmonpoly st

/-- The function `triangulate_polygon`: the value returned and the final state. -/
def triangulate_polygon (log2 : Dbl → Dbl) (rnd : Int → Int) (fuel : Nat)
    (ncontours : Int) (cntr : Int → Int) (vertices : Int → Int → Dbl) (st : State) :
    Option (Int × State) :=
  let st := { st with seg := fun _ => segment_zero }
  let (i, st) := ingest_contours cntr vertices ncontours.toNat 0 1 st
  let n := i - 1
  match initialise rnd n st with
  | none => none
  | some st => (triangulate_stages log2 fuel n st).map (fun r => (0, r.2))

/-- The state at program start: static storage is zero-initialised; the caller's output
array is taken to be zero as well. -/
def State.zero : State :=
  { seg := fun _ => segment_zero, tr := fun _ => trap_zero, qs := fun _ => node_zero,
    q_idx := 0, tr_idx := 0, choose_idx := 0, permute := fun _ => 0,
    mchain := fun _ => monchain_zero, vert := fun _ => vertexchain_zero, mon := fun _ => 0,
    visited := fun _ => false, chain_idx := 0, op_idx := 0, mon_idx := 0,
    op := fun _ _ => 0, ub := false }

/-! ## Scenarios and observations used by the statements -/

/-- The draws `lrand48()` returns in passes 1, 2, 3, ... of `generate_random_ordering`,
given as a list (draws past its end are 0). -/
def draws (l : List Nat) : Int → Int := fun i => ((l.getD (i - 1).toNat 0 : Nat) : Int)

/-- The caller's array `vertices[i][0..1]` holding the given points from index 1 on. -/
def vertices_of (l : List (ℚ × ℚ)) : Int → Int → Dbl := fun i k =>
  if k = 0 then Dbl.fin (l.getD (i - 1).toNat (0, 0)).1
  else Dbl.fin (l.getD (i - 1).toNat (0, 0)).2

/-- The caller's array `cntr[0 ..]` holding the given contour sizes. -/
def cntr_of (l : List Int) : Int → Int := fun i => l.getD i.toNat 0

/-- The vertex `vertices[i]` as a point. -/
def vertex (vertices : Int → Int → Dbl) (i : Int) : point_t := ⟨vertices i 0, vertices i 1⟩

/-- The signed area of the output triangle in row `i`. -/
def triangle_area (vertices : Int → Int → Dbl) (st : State) (i : Int) : Dbl :=
  CROSS (vertex vertices (st.op i 0)) (vertex vertices (st.op i 1)) (vertex vertices (st.op i 2))
    / Dbl.fin 2

/-- The vertex indices held in the output rows `0 .. count - 1`. -/
def output_indices (st : State) (count : Nat) : List Int :=
  (List.range count).flatMap (fun i => [st.op i 0, st.op i 1, st.op i 2])

/-- A stand-in for the libm function `log2` on the arguments the scenarios feed it: exact
at 1, 2, 4 and 8; at 3 and at 3/2 it returns 3/2 and 1/2, which lie in the same brackets
as the true values 1.58.. and 0.58.. (`ceil(3 / 1.5) = ceil(3 / 1.58..) = 2`,
`ceil(8 / 1.5) = ceil(8 / 1.58..) = 6`, and the second value is below 1), so that the
round schedules for 3, 4 and 8 segments are the ones libm gives. -/
def log2_small : Dbl → Dbl
  | .fin q =>
    if q = 8 then .fin 3 else if q = 4 then .fin 2 else if q = 2 then .fin 1
    else if q = 3 then .fin (3 / 2) else if q = 3 / 2 then .fin (1 / 2) else .fin 0
  | x => x

/-- Scenario 1 of the spec: the square (0,0), (4,0), (4,4), (0,4). -/
def square_vertices : Int → Int → Dbl := vertices_of [(0, 0), (4, 0), (4, 4), (0, 4)]

/-- The contour table of the square scenario: one contour of four vertices. -/
def square_cntr : Int → Int := cntr_of [4]

/-- What scenario 1 expects of a run of `triangulate_polygon`: it returns, without
undefined behaviour, having written 2 triangles whose vertex indices are exactly
1, 2, 3, 4 and whose areas sum to 16. -/
def square_ok (r : Option (Int × State)) : Prop :=
  match r with
  | none => False
  | some (rv, st) =>
    rv = 0 ∧ st.ub = false ∧ st.op_idx = 2 ∧
    (∀ k ∈ output_indices st 2, 1 ≤ k ∧ k ≤ 4) ∧
    (∀ k ∈ [1, 2, 3, 4], k ∈ output_indices st 2) ∧
    triangle_area square_vertices st 0 + triangle_area square_vertices st 1 = Dbl.fin 16

instance (r : Option (Int × State)) : Decidable (square_ok r) := by
  unfold square_ok
  cases r with
  | none => exact inferInstanceAs (Decidable False)
  | some p => cases p; exact inferInstanceAs (Decidable (_ ∧ _))

/-- The state `st` with the caller's output array replaced by `op0`. -/
def State.with_op (st : State) (op0 : Int → Int → Int) : State := { st with op := op0 }

/-- The row `{a, b, c}` of the output array. -/
def op_row (r : Int × Int × Int) : Int → Int :=
  fun k => if k = 0 then r.1 else if k = 1 then r.2.1 else r.2.2

/-- The output array `op` after the given rows have been stored, in order, in the
consecutive rows `base`, `base + 1`, ... -/
def op_with_rows (op : Int → Int → Int) : Int → List (Int × Int × Int) → Int → Int → Int
  | _, [] => op
  | base, r :: rest => op_with_rows (upd op base (op_row r)) (base + 1) rest

/-- The square scenario after `monotonate_trapezoids`, with the segments inserted in the
order 1, 2, 3, 4: the value `nmonpoly` and the state that
`triangulate_monotone_polygons` starts from. -/
def square_monotonated : Option (Int × State) :=
  let st := { State.zero with seg := fun _ => segment_zero }
  let (i, st) := ingest_contours square_cntr square_vertices 1 0 1 st
  match initialise (draws []) (i - 1) st with
  | none => none
  | some st =>
    match construct_trapezoids log2_small 100 (i - 1) st with
    | none => none
    | some st => monotonate_trapezoids 100 (i - 1) st

/-- What a run leaves behind: the value returned, `q_idx`, `tr_idx`, the number of
triangle rows written, these rows, and the flag `ub`. -/
structure summary_t where
  ret : Int
  q_idx : Int
  tr_idx : Int
  count : Int
  rows : List (Int × Int × Int)
  ub : Bool
deriving DecidableEq

/-- The summary of a run of `triangulate_polygon`. -/
def run_summary (r : Option (Int × State)) : Option summary_t :=
  r.map (fun r =>
    { ret := r.1, q_idx := r.2.q_idx, tr_idx := r.2.tr_idx, count := r.2.op_idx,
      rows := (List.range r.2.op_idx.toNat).map
        (fun k : Nat => (r.2.op k 0, r.2.op k 1, r.2.op k 2)),
      ub := r.2.ub })

/-- The two allocation counters of a state. -/
def idx (st : State) : Int × Int := (st.q_idx, st.tr_idx)

/-- Both allocation counters of `b` are at least those of `a`. -/
def grows (a b : State) : Prop := a.q_idx ≤ b.q_idx ∧ a.tr_idx ≤ b.tr_idx

/-- The invariant of the loop at lines 269-273 before pass `i`: the cells `st[0..n]` are
assigned, and `permute[1..i-1]` followed by `st[i..n]` is the image of `1..n` under a
permutation `σ` that moves nothing outside `1..n`. -/
def ordering_inv (n i : Int) (ov : ordering_vars) : Prop :=
  (∀ k, 0 ≤ k → k ≤ n → (ov.st k).isSome = true) ∧
  (∃ σ : Equiv.Perm Int, (∀ k, (k < 1 ∨ n < k) → σ k = k) ∧
      (∀ k, 1 ≤ k → k < i → ov.permute k = σ k) ∧
      (∀ k, i ≤ k → k ≤ n → ov.st k = some (σ k))) ∧
  (∀ x ∈ ov.used, 0 ≤ Sum.elim id id x ∧ Sum.elim id id x ≤ n) ∧
  ov.ub = false

/-- The number of triangle rows a run has written, and the flag `ub`. -/
def written (r : Option (Int × State)) : Option (Int × Bool) :=
  r.map (fun r => (r.2.op_idx, r.2.ub))

/-- A plain triangle: vertices 1..3 = (0,0), (4,0), (0,4). -/
def plain_triangle_vertices : Int → Int → Dbl := vertices_of [(0, 0), (4, 0), (0, 4)]

/-- Scenario 2 of the spec: the square (0,0), (10,0), (10,10), (0,10), counter-clockwise,
with the square hole (3,3), (3,7), (7,7), (7,3), clockwise. -/
def hole_square_vertices : Int → Int → Dbl :=
  vertices_of [(0, 0), (10, 0), (10, 10), (0, 10), (3, 3), (3, 7), (7, 7), (7, 3)]

/-- The contour table of scenario 2: two contours of four vertices. -/
def hole_square_cntr : Int → Int := cntr_of [4, 4]

/-- The run of `triangulate_polygon` on scenario 2 with all draws 0, which inserts the
segments in the order 1, 2, ..., 8. -/
def hole_square_run : Option (Int × State) :=
  triangulate_polygon log2_small (draws []) 100 2 hole_square_cntr hole_square_vertices
    State.zero

/-- The facts about the libm function `log2` on which the round schedules for 3, 4 and 8
segments depend: it is exact at 1, 2, 4 and 8, its value at 3 lies in `[3/2, 8/5)`, and
its value there is below 1. -/
def log2_ok (log2 : Dbl → Dbl) : Prop :=
  log2 (.fin 8) = .fin 3 ∧ log2 (.fin 4) = .fin 2 ∧ log2 (.fin 2) = .fin 1 ∧
  log2 (.fin 1) = .fin 0 ∧
  ∃ a b : ℚ, log2 (.fin 3) = .fin a ∧ 3 / 2 ≤ a ∧ a < 8 / 5 ∧ log2 (.fin a) = .fin b ∧ b < 1

/-- The run of `triangulate_polygon` on an input with an invalid contour table: two
contours, of three points and of one point, with all draws 0. -/
def short_contour_run : Option (Int × State) :=
  triangulate_polygon log2_small (draws []) 100 2 (cntr_of [3, 1])
    (vertices_of [(0, 0), (4, 0), (0, 4), (1, 1)]) State.zero

/-- A thin triangle: vertices 1..3 = (2,0), (0, 2^-27), (1,0).  It is counter-clockwise
and has area 2^-28, and its three ordinates lie within `C_EPS` of one another. -/
def thin_vertices : Int → Int → Dbl := vertices_of [(2, 0), (0, 1 / 134217728), (1, 0)]

/-- The contour table of the thin triangle: one contour of three vertices. -/
def thin_cntr : Int → Int := cntr_of [3]

/-- The run of `triangulate_polygon` on the thin triangle with all draws 0, which inserts
the segments in the order 1, 2, 3. -/
def thin_run : Option (Int × State) :=
  triangulate_polygon log2_small (draws []) 100 1 thin_cntr thin_vertices State.zero

/-- The tolerance `C_EPS` as a rational number. -/
def eps : ℚ := 1 / 10000000

/-- The point with the finite coordinates `x` and `y`. -/
def pt (x y : ℚ) : point_t := ⟨Dbl.fin x, Dbl.fin y⟩

/-- The query structure `init_query_structure` builds for the segment from (0,0) to (0,4):
node 1 is a Y-node with separator (0,4), right child 2 (the sink of trapezoid 4) and left
child 3. -/
def tie_state : State :=
  (init_query_structure 1
    (State.zero.seg_set 1 (fun r => { r with v0 := pt 0 0, v1 := pt 0 4 }))).2

/-- A VALID row with a segment on either side, an upper and a lower neighbour. -/
def boxed_trap : trap_t :=
  { trap_zero with lseg := 1, rseg := 2, u0 := 3, d0 := 4, state := ST_VALID }

/-- A row whose state is neither VALID nor INVALID, with segment 1 on either side and no
neighbours. -/
def stateless_trap : trap_t := { trap_zero with lseg := 1, rseg := 1, state := 0 }

/-- A segment table in which segments 1 and 2 run upwards, from (0,0) to (0,1). -/
def upward_seg_state : State :=
  (State.zero.seg_set 1 (fun r => { r with v0 := pt 0 0, v1 := pt 0 1 })).seg_set 2
    (fun r => { r with v0 := pt 0 0, v1 := pt 0 1 })

/-- The part of `triangulate_polygon` up to and including the call of
`construct_trapezoids` (lines 205-242): the state the trapezoidation leaves. -/
def trapezoidation (log2 : Dbl → Dbl) (rnd : Int → Int) (fuel : Nat)
    (ncontours : Int) (cntr : Int → Int) (vertices : Int → Int → Dbl) (st : State) :
    Option State :=
  let st := { st with seg := fun _ => segment_zero }
  let (i, st) := ingest_contours cntr vertices ncontours.toNat 0 1 st
  let n := i - 1
  match initialise rnd n st with
  | none => none
  | some st => construct_trapezoids log2 fuel n st

/-- The trapezoidation of the thin triangle when the first draw is 1 and the others are 0,
which inserts the segments in the order 2, 1, 3. -/
def thin_trapezoidation : Option State :=
  trapezoidation log2_small (draws [1]) 100 1 thin_cntr thin_vertices State.zero

/-- The table before pass `i` of the loop over the contour `first..last` started in `st0`. -/
def ingest_inv (vertices : Int → Int → Dbl) (first last : Int) (st0 : State) (i : Int)
    (s : State) : Prop :=
  (∀ j, (j < first ∨ last < j) → s.seg j = st0.seg j) ∧
  (∀ j, first ≤ j → j < i →
    (s.seg j).v0 = vertex vertices j ∧
    (s.seg j).next = (if j = last then first else j + 1) ∧
    (s.seg j).prev = (if j = first then last else j - 1) ∧
    (s.seg j).is_inserted = false) ∧
  (∀ j, first ≤ j → j + 1 < i → (s.seg j).v1 = vertex vertices (j + 1)) ∧
  (first < i → (s.seg last).v1 = vertex vertices first)

/-- The segments `first..last` form one closed chain over the vertices of the same indices. -/
def contour_linked (vertices : Int → Int → Dbl) (first last : Int) (s : State) : Prop :=
  ∀ j, first ≤ j → j ≤ last →
    (s.seg j).v0 = vertex vertices j ∧
    (s.seg j).next = (if j = last then first else j + 1) ∧
    (s.seg j).prev = (if j = first then last else j - 1) ∧
    (s.seg j).is_inserted = false ∧
    (s.seg j).v1 = vertex vertices (if j = last then first else j + 1)

/-- The index of the first vertex of contour `c`: 1 plus the sizes of the contours before
it (the value of `i` when the loop over the contours reaches contour `c`). -/
def contour_first (cntr : Int → Int) : Nat → Int
  | 0 => 1
  | c + 1 => contour_first cntr c + ((cntr c).toNat : Int)

/-- Segment `segnum` with its stored endpoints exchanged. -/
def swap_endpoints (st : State) (segnum : Int) : State :=
  st.seg_set segnum (fun r => { r with v0 := r.v1, v1 := r.v0 })

/-- A state whose segment 1 is the horizontal segment stored from (0,0) to (4,0). -/
def flat_state : State :=
  State.zero.seg_set 1 (fun r => { r with v0 := pt 0 0, v1 := pt 4 0 })

/-- What the endpoint block of `add_segment` does to the record of a lower neighbour of the
split trapezoid (lines 1356-1370): each of its links `u0`, `u1` that names `tu` is set to
`tl`. -/
def relink_upper (tu tl : Int) (r : trap_t) : trap_t :=
  { r with u0 := if r.u0 = tu then tl else r.u0, u1 := if r.u1 = tu then tl else r.u1 }

/-- The fields of a trapezoid record other than its neighbour links (`u0`, `u1`, `d0`, `d1`,
`usave`, `uside`). -/
def trap_core (r : trap_t) : Int × Int × point_t × point_t × Int × Int :=
  (r.lseg, r.rseg, r.hi, r.lo, r.sink, r.state)

/-- State `s2` differs from `s1` at most in the neighbour links of the trapezoids and in the
`ub` flag. -/
def links_only (s1 s2 : State) : Prop :=
  (∀ j, trap_core (s2.tr j) = trap_core (s1.tr j)) ∧ s2.qs = s1.qs ∧ s2.q_idx = s1.q_idx ∧
    s2.tr_idx = s1.tr_idx ∧ s2.seg = s1.seg

/-- The first part of one pass of the threading loop of `add_segment` (lines 1456-1483), as
in `add_segment_split`: the sink of `t` becomes an X-node with two new sinks, and the new
trapezoid `tn` starts as a copy of `t`.  Returns `tn` and the new state. -/
def add_segment_split_head (segnum t : Int) (st : State) : Int × State :=
  let sk := (st.tr t).sink
  let (i1, st) := newnode st
  let (i2, st) := newnode st
  let st := st.qs_set sk (fun r => { r with nodetype := T_X })
  let st := st.qs_set sk (fun r => { r with segnum := segnum })
  let st := st.qs_set sk (fun r => { r with left := i1 })
  let st := st.qs_set sk (fun r => { r with right := i2 })
  let st := st.qs_set i1 (fun r => { r with nodetype := T_SINK })
  let st := st.qs_set i1 (fun r => { r with trnum := t })
  let st := st.qs_set i1 (fun r => { r with parent := sk })
  let st := st.qs_set i2 (fun r => { r with nodetype := T_SINK })
  let (tn, st) := newtrap st
  let st := st.qs_set i2 (fun r => { r with trnum := tn })
  let st := st.tr_set tn (fun r => { r with state := ST_VALID })
  let st := st.qs_set i2 (fun r => { r with parent := sk })
  let st := st.tr_set tn (fun _ => st.tr t)
  let st := st.tr_set t (fun r => { r with sink := i1 })
  let st := st.tr_set tn (fun r => { r with sink := i2 })
  (tn, st)

/-- The second part of one pass of the threading loop of `add_segment` (lines 1485-1842), as
in `add_segment_split`, from the state `st` and the new trapezoid `tn` left by the first
part. -/
def add_segment_split_tail (segnum : Int) (v0 v1 : point_t) (is_swapped tribot : Bool)
    (tlast t tn : Int) (tfirstr tlastr : Option Int) (st : State) : thread_vars × State :=
  if (st.tr t).d0 ≤ 0 ∧ (st.tr t).d1 ≤ 0 then
    ({ t := t, tfirstr := tfirstr, tlastr := tlastr, stop := true }, st)
  else
    let (tnext, st) :=
      if (st.tr t).d0 > 0 ∧ (st.tr t).d1 ≤ 0 then
        let st := add_segment_upper t tn v1 st
        add_segment_lower_d0 segnum t tn tlast v0 is_swapped tribot st
      else if (st.tr t).d0 ≤ 0 ∧ (st.tr t).d1 > 0 then
        let st := add_segment_upper t tn v1 st
        add_segment_lower_d1 segnum t tn tlast v0 is_swapped tribot st
      else
        let i_d0 := intersects_d0 st t v0 v1
        let st := add_segment_upper t tn v1 st
        add_segment_lower_2 t tn tlast i_d0 tribot st
    let st := st.tr_set tn (fun r => { r with lseg := segnum })
    let st := st.tr_set t (fun r => { r with rseg := (st.tr tn).lseg })
    ({ t := tnext, tfirstr := tfirstr, tlastr := tlastr, stop := false }, st)

/-- What `merge_trapezoids` does to the record of one lower neighbour of `tnext` (lines
1272-1275 and 1278-1281): the first of its links `u0`, `u1` that names `tnext` is set to
`t`. -/
def redirect_upper (t tnext : Int) (r : trap_t) : trap_t :=
  if r.u0 = tnext then { r with u0 := t }
  else if r.u1 = tnext then { r with u1 := t }
  else r

/-- A state in which trapezoid 1 has the single lower neighbour 2 with the same `lseg = 5`
and `rseg = 7`; trapezoid 3 lies below trapezoid 2; the sink of trapezoid 2 is node 11, the
left child of node 9, and the sink of trapezoid 1 is node 10. -/
def merge_state : State :=
  let st := State.zero.tr_set 1 (fun _ =>
    { trap_zero with lseg := 5, rseg := 7, hi := pt 0 2, lo := pt 0 1, d0 := 2, sink := 10,
                     state := ST_VALID })
  let st := st.tr_set 2 (fun _ =>
    { trap_zero with lseg := 5, rseg := 7, hi := pt 0 1, lo := pt 0 0, u0 := 1, d0 := 3,
                     sink := 11, state := ST_VALID })
  let st := st.tr_set 3 (fun _ =>
    { trap_zero with lseg := 5, rseg := 8, hi := pt 0 0, lo := pt 0 (-1), u0 := 2, sink := 12,
                     state := ST_VALID })
  let st := st.qs_set 9 (fun _ => { node_zero with nodetype := T_X, left := 11, right := 13 })
  let st := st.qs_set 10 (fun _ => { node_zero with nodetype := T_SINK, trnum := 1, parent := 8 })
  st.qs_set 11 (fun _ => { node_zero with nodetype := T_SINK, trnum := 2, parent := 9 })

/-- The position `p` of `v0` that `make_new_monotone_poly(mcur, v0, v1)` selects: the chain
node stored in the slot of `v0` chosen by `get_vertex_positions` (slot 0 when the local `ip`
is never assigned). -/
def selected_p (st : State) (v0 v1 : Int) : Int :=
  (st.vert v0).vpos (st.read (get_vertex_positions st v0 v1).1).1

/-- The position `q` of `v1` that `make_new_monotone_poly(mcur, v0, v1)` selects. -/
def selected_q (st : State) (v0 v1 : Int) : Int :=
  (st.vert v1).vpos (st.read (get_vertex_positions st v0 v1).2).1

/-- The successor of chain node `x`. -/
def chain_next (st : State) (x : Int) : Int := (st.mchain x).next

/-- The predecessor of chain node `x`. -/
def chain_prev (st : State) (x : Int) : Int := (st.mchain x).prev

/-- The links of the chain nodes `1..c` are consistent: successor and predecessor of a node
are nodes again, and `next` and `prev` are inverse to each other. -/
def chain_ok (next prev : Int → Int) (c : Int) : Prop :=
  ∀ x, 1 ≤ x → x ≤ c →
    (1 ≤ next x ∧ next x ≤ c) ∧ (1 ≤ prev x ∧ prev x ≤ c) ∧ prev (next x) = x ∧
      next (prev x) = x

/-- Node `x` lies on a cycle of `next` of length `L`. -/
def cycle_len (next : Int → Int) (x : Int) (L : Nat) : Prop :=
  0 < L ∧ next^[L] x = x ∧ ∀ m, 0 < m → m < L → next^[m] x ≠ x

/-- The chains of the square when `monotonate_trapezoids` starts its traversal: the single
cycle 1, 2, 3, 4, with `chain_idx = 4`, `mon_idx = 0` and `mon[0] = 1`. -/
def square_chains : State :=
  let st := (init_chains 4 (ingest_contours square_cntr square_vertices 1 0 1 State.zero).2).getD
    State.zero
  let st := { st with chain_idx := 4 }
  let st := { st with mon_idx := 0 }
  st.mon_set 0 1

/-- One pass of the sweep loop of `triangulate_single_polygon` (lines 915-942): `none`
when the loop condition fails; else whether the pass advanced `vpos` (the two branches
that add `v` to the reflex chain) or cut a triangle, with the new loop variables and
state. -/
def sweep_step (endv : Int) (sw : sweep_vars) (st : State) :
    Option (Bool × sweep_vars × State) :=
  if sw.v ≠ endv ∨ sw.ri > 1 then
    if sw.ri > 0 then
      if CROSS (st.vert sw.v).pt (st.vert (sw.rc (sw.ri - 1))).pt (st.vert (sw.rc sw.ri)).pt
          > Dbl.fin 0 then
        some (false, { sw with ri := sw.ri - 1 }, emit sw st)
      else
        let st := { st with ub := st.ub || outside SEGSIZE (sw.ri + 1) }
        let vpos := (st.mchain sw.vpos).next
        some (true, { rc := upd sw.rc (sw.ri + 1) sw.v, ri := sw.ri + 1, vpos := vpos,
                      v := (st.mchain vpos).vnum }, st)
    else
      let st := { st with ub := st.ub || outside SEGSIZE (sw.ri + 1) }
      let vpos := (st.mchain sw.vpos).next
      some (true, { rc := upd sw.rc (sw.ri + 1) sw.v, ri := sw.ri + 1, vpos := vpos,
                    v := (st.mchain vpos).vnum }, st)
  else none

/-- The loop variables and state after `n` passes of the sweep loop, `none` when the
loop has exited before. -/
def sweep_after (endv : Int) : Nat → sweep_vars → State → Option (sweep_vars × State)
  | 0, sw, st => some (sw, st)
  | n + 1, sw, st =>
    match sweep_step endv sw st with
    | none => none
    | some (_, sw, st) => sweep_after endv n sw st

/-- The number of passes of the sweep loop that advance `vpos`, up to the exit of the
loop. -/
def sweep_advances (endv : Int) : Nat → sweep_vars → State → Option Nat
  | 0, _, _ => none
  | fuel + 1, sw, st =>
    match sweep_step endv sw st with
    | none => some 0
    | some (adv, sw, st) =>
      (sweep_advances endv fuel sw st).map (fun a => if adv then a + 1 else a)

/-- The state `s2` differs from `s1` in `marked` flags that were set, in the output rows
and in nothing else that the triangulation of the monotone polygons reads. -/
def marks_only (s1 s2 : State) : Prop :=
  (∀ x, (s2.mchain x).next = (s1.mchain x).next ∧ (s2.mchain x).prev = (s1.mchain x).prev ∧
    (s2.mchain x).vnum = (s1.mchain x).vnum ∧
    ((s1.mchain x).marked = true → (s2.mchain x).marked = true)) ∧
  s2.vert = s1.vert ∧ s2.mon = s1.mon

/-- The point of the vertex held by chain node `x`. -/
def node_pt (st : State) (x : Int) : point_t := (st.vert (st.mchain x).vnum).pt

/-- The chains of a sliver when `monotonate_trapezoids` starts its traversal: the single
cycle 1, 2, 3 through the points (10, 0), (5, 0.8 ε) and (11, -0.3 ε), with
`mon[0] = 1`. -/
def sliver_chains : State :=
  let st := (init_chains 3 (ingest_contours (cntr_of [3])
    (vertices_of [(10, 0), (5, 8 / 100000000), (11, -3 / 100000000)]) 1 0 1 State.zero).2).getD
    State.zero
  let st := { st with chain_idx := 3 }
  let st := { st with mon_idx := 0 }
  st.mon_set 0 1

/-- The chains of the square with a second entry of `mon` that refers to the same cycle:
`mon[0] = 1` and `mon[1] = 3`. -/
def square_twice : State := square_chains.mon_set 1 3

/-- The function `get_angle` (lines 359-372) as the C text has it, over an ordered field
`K` in place of `double`; the square root of the macro `LENGTH` is a parameter. -/
def get_angle_sqrt {K : Type} [LinearOrderedField K] (sqrt : K → K) (vp0 vpnext vp1 : K × K) :
    K :=
  let v0 : K × K := (vpnext.1 - vp0.1, vpnext.2 - vp0.2)
  let v1 : K × K := (vp1.1 - vp0.1, vp1.2 - vp0.2)
  if v0.1 * v1.2 - v1.1 * v0.2 ≥ 0 then
    (v0.1 * v1.1 + v0.2 * v1.2) / sqrt (v0.1 * v0.1 + v0.2 * v0.2)
      / sqrt (v1.1 * v1.1 + v1.2 * v1.2)
  else
    -1 * (v0.1 * v1.1 + v0.2 * v1.2) / sqrt (v0.1 * v0.1 + v0.2 * v0.2)
      / sqrt (v1.1 * v1.1 + v1.2 * v1.2) - 2

/-- The strictly increasing map of (-3, 1] onto itself under which the embedding
`get_angle` is the image of the C value: a cosine `c` goes to `c * |c|`, and `-c - 2`
goes to `-(c * |c|) - 2`. -/
def angle_fold {K : Type} [LinearOrderedField K] (r : K) : K :=
  if -1 ≤ r then r * |r| else -((-r - 2) * |-r - 2|) - 2

/-- What a call `traverse_polygon(mcur, trnum, from, dir)` that passes the guard does
with the state `st`, for the result `r` of the call: it sets `visited[trnum]`, adds at
most one diagonal with `make_new_monotone_poly`, and then runs a list of recursive calls
on neighbours of `trnum`. -/
def traverse_expands (fuel : Nat) (mcur trnum : Int) (st : State) (r : Option State) : Prop :=
  ∃ (calls : List (Int × Int × Int)) (st2 : State),
    r = traverse_calls (traverse_polygon fuel) trnum calls st2 ∧
    (st2 = st.visited_set trnum true ∨
      ∃ a b, st2 = (make_new_monotone_poly mcur a b (st.visited_set trnum true)).2) ∧
    ∀ c ∈ calls, c.2.1 = (st.tr trnum).u0 ∨ c.2.1 = (st.tr trnum).u1 ∨
      c.2.1 = (st.tr trnum).d0 ∨ c.2.1 = (st.tr trnum).d1

/-- The trapezoids below the bound `B` whose `visited` flag is set. -/
def visited_in (B : Int) (st : State) : Finset Int :=
  (Finset.Ioo 0 B).filter (fun t => st.visited t = true)

/-- The relation between the state `s` before and `s'` after a part of the traversal of
`traverse_polygon`: the trapezoids are as they were, flags of `visited` were set only,
and only for trapezoids between 0 and `B`, and `mon_idx` grew by at most the number of
flags set. -/
def traversed (B : Int) (s s' : State) : Prop :=
  s'.tr = s.tr ∧ (∀ t, s.visited t = true → s'.visited t = true) ∧
  (∀ t, s'.visited t = true → s.visited t = true ∨ (0 < t ∧ t < B)) ∧
  s.mon_idx ≤ s'.mon_idx ∧
  s'.mon_idx - s.mon_idx + ((visited_in B s).card : Int) ≤ ((visited_in B s').card : Int)

/-- The tables that `monotonate_trapezoids` reads and does not write after its
initialisation, and the flags `visited`. -/
def mono_core (st : State) : (Int → trap_t) × (Int → segment_t) × (Int → Bool) :=
  (st.tr, st.seg, st.visited)

/-- The state in which `monotonate_trapezoids` starts its traversal of the square: the
trapezoidation of the square for the insertion order 1, 2, 3, 4, the chains of
`init_chains`, `chain_idx = 4`, `mon_idx = 0` and `mon[0] = 1`. -/
def square_traversal : State :=
  let st := (trapezoidation log2_small (draws []) 100 1 square_cntr square_vertices
    State.zero).getD State.zero
  let st := { st with vert := fun _ => vertexchain_zero }
  let st := { st with visited := fun _ => false }
  let st := { st with mchain := fun _ => monchain_zero }
  let st := { st with mon := fun _ => 0 }
  let st := (init_chains 4 st).getD State.zero
  let st := { st with chain_idx := 4 }
  let st := { st with mon_idx := 0 }
  st.mon_set 0 1

/-- Every slot of a vertex that names a successor holds a chain node between 1 and
`c`. -/
def slots_ok (c : Int) (vert : Int → vertexchain_t) : Prop :=
  ∀ v s, 0 ≤ s → s < 4 → (vert v).vnext s > 0 → 1 ≤ (vert v).vpos s ∧ (vert v).vpos s ≤ c

/-- The tables of the monotonation refer to allocated chain nodes only: the slots of the
vertices and the entries `mon[0 .. mon_idx]` hold indices between 1 and `chain_idx`. -/
def chains_good (st : State) : Prop :=
  0 ≤ st.chain_idx ∧ slots_ok st.chain_idx st.vert ∧
  ∀ k, 0 ≤ k → k ≤ st.mon_idx → 1 ≤ st.mon k ∧ st.mon k ≤ st.chain_idx

/-- The trapezoidation of the square for the insertion order 1, 2, 3, 4. -/
def square_trapezoids : State :=
  (trapezoidation log2_small (draws []) 100 1 square_cntr square_vertices State.zero).getD
    State.zero

/-! ## Double arithmetic with rounding

The definitions above compute the sums, differences and products of doubles exactly.  The
program rounds the result of every operation to the nearest binary64 value, ties to even.
This section repeats the macros `C_EPS`, `FP_EQUAL` and `CROSS`, the ordering predicates,
`_max`, `_min`, `is_left_of` and `locate_endpoint` with the rounding `fl` of the result of
an operation as a parameter: with `fl = id` they are the definitions above, with
`fl = Dbl.rnd` they compute as the program does. -/

/-- The power `2^e` of an integer exponent. -/
def pow2 (e : Int) : ℚ :=
  if 0 ≤ e then ((2 ^ e.toNat : Nat) : ℚ) else 1 / ((2 ^ (-e).toNat : Nat) : ℚ)

/-- The number of binary digits of `n`, for `n <= fuel`. -/
def bit_length : Nat → Nat → Nat
  | 0, _ => 0
  | fuel + 1, n => if n = 0 then 0 else bit_length fuel (n / 2) + 1

/-- The exponent `e` with `2^e <= q < 2^(e+1)` of a positive rational `q`, found from the bit
lengths of its numerator and denominator. -/
def binary_exponent (q : ℚ) : Int :=
  let c : Int := (bit_length q.num.natAbs q.num.natAbs : Int) - (bit_length q.den q.den : Int)
  if pow2 c ≤ q then c else c - 1

/-- The integer nearest to the rational `m >= 0`, the even one of two nearest. -/
def round_half_even (m : ℚ) : Int :=
  let f : Int := m.num / (m.den : Int)
  let r : ℚ := m - f
  if r < 1 / 2 then f
  else if 1 / 2 < r then f + 1
  else if f % 2 = 0 then f else f + 1

/-- The binary64 value nearest to the rational `q`, ties to even: a significand of 53 bits
at the exponent of `q`, of fewer bits below the least normal exponent -1022, and an infinity
from `2^1024` on. -/
def round64 (q : ℚ) : Dbl :=
  if q = 0 then Dbl.fin 0
  else
    let e : Int := max (binary_exponent |q| - 52) (-1074)
    let z : ℚ := (round_half_even (|q| / pow2 e) : ℚ) * pow2 e
    if pow2 1024 ≤ z then (if 0 < q then Dbl.pinf else Dbl.ninf)
    else Dbl.fin (if 0 < q then z else -z)

/-- The rounding of the exact result of an operation on doubles to binary64. -/
def Dbl.rnd : Dbl → Dbl
  | Dbl.fin q => round64 q
  | x => x

/-- The constant `C_EPS` as the program holds it: the literal `1.0e-7`, rounded by `fl`. -/
def C_EPS_fl (fl : Dbl → Dbl) : Dbl := fl C_EPS

/-- The macro `FP_EQUAL(s, t)` with the difference rounded by `fl`. -/
def FP_EQUAL_fl (fl : Dbl → Dbl) (s t : Dbl) : Bool :=
  decide (Dbl.fabs (fl (s - t)) ≤ C_EPS_fl fl)

/-- The macro `CROSS(v0, v1, v2)` with the result of each operation rounded by `fl`. -/
def CROSS_fl (fl : Dbl → Dbl) (v0 v1 v2 : point_t) : Dbl :=
  fl (fl (fl (v1.x - v0.x) * fl (v2.y - v0.y)) - fl (fl (v1.y - v0.y) * fl (v2.x - v0.x)))

/-- The function `_greater_than` with the sums rounded by `fl`. -/
def _greater_than_fl (fl : Dbl → Dbl) (v0 v1 : point_t) : Bool :=
  if v0.y > fl (v1.y + C_EPS_fl fl) then true
  else if v0.y < fl (v1.y - C_EPS_fl fl) then false
  else decide (v0.x > v1.x)

/-- The function `_equal_to` with the differences rounded by `fl`. -/
def _equal_to_fl (fl : Dbl → Dbl) (v0 v1 : point_t) : Bool :=
  FP_EQUAL_fl fl v0.y v1.y && FP_EQUAL_fl fl v0.x v1.x

/-- The function `_greater_than_equal_to` with the sums rounded by `fl`. -/
def _greater_than_equal_to_fl (fl : Dbl → Dbl) (v0 v1 : point_t) : Bool :=
  if v0.y > fl (v1.y + C_EPS_fl fl) then true
  else if v0.y < fl (v1.y - C_EPS_fl fl) then false
  else decide (v0.x ≥ v1.x)

/-- The function `_less_than` with the sums rounded by `fl`. -/
def _less_than_fl (fl : Dbl → Dbl) (v0 v1 : point_t) : Bool :=
  if v0.y < fl (v1.y - C_EPS_fl fl) then true
  else if v0.y > fl (v1.y + C_EPS_fl fl) then false
  else decide (v0.x < v1.x)

/-- The function `_max` with the sums rounded by `fl`. -/
def _max_fl (fl : Dbl → Dbl) (v0 v1 : point_t) : point_t :=
  if v0.y > fl (v1.y + C_EPS_fl fl) then v0
  else if FP_EQUAL_fl fl v0.y v1.y then
    (if v0.x > fl (v1.x + C_EPS_fl fl) then v0 else v1)
  else v1

/-- The function `_min` with the sums rounded by `fl`. -/
def _min_fl (fl : Dbl → Dbl) (v0 v1 : point_t) : point_t :=
  if v0.y < fl (v1.y - C_EPS_fl fl) then v0
  else if FP_EQUAL_fl fl v0.y v1.y then
    (if v0.x < v1.x then v0 else v1)
  else v1

/-- The function `is_left_of` with the result of each operation rounded by `fl`. -/
def is_left_of_fl (fl : Dbl → Dbl) (st : State) (segnum : Int) (v : point_t) : Bool :=
  let s := st.seg segnum
  let area : Dbl :=
    if _greater_than_fl fl s.v1 s.v0 then
      if FP_EQUAL_fl fl s.v1.y v.y then
        (if v.x < s.v1.x then Dbl.fin 1 else Dbl.fin (-1))
      else if FP_EQUAL_fl fl s.v0.y v.y then
        (if v.x < s.v0.x then Dbl.fin 1 else Dbl.fin (-1))
      else CROSS_fl fl s.v0 s.v1 v
    else
      if FP_EQUAL_fl fl s.v1.y v.y then
        (if v.x < s.v1.x then Dbl.fin 1 else Dbl.fin (-1))
      else if FP_EQUAL_fl fl s.v0.y v.y then
        (if v.x < s.v0.x then Dbl.fin 1 else Dbl.fin (-1))
      else CROSS_fl fl s.v1 s.v0 v
  decide (area > Dbl.fin 0)

/-- The function `locate_endpoint` with the result of each operation rounded by `fl`;
`none` when the descent exceeds `fuel` nodes. -/
def locate_endpoint_fl (fl : Dbl → Dbl) (st : State) (v vo : point_t) : Nat → Int → Option Int
  | 0, _ => none
  | fuel + 1, r =>
    let rptr := st.qs r
    if rptr.nodetype = T_SINK then some rptr.trnum
    else if rptr.nodetype = T_Y then
      if _greater_than_fl fl v rptr.yval then locate_endpoint_fl fl st v vo fuel rptr.right
      else if _equal_to_fl fl v rptr.yval then
        if _greater_than_fl fl vo rptr.yval then locate_endpoint_fl fl st v vo fuel rptr.right
        else locate_endpoint_fl fl st v vo fuel rptr.left
      else locate_endpoint_fl fl st v vo fuel rptr.left
    else if rptr.nodetype = T_X then
      if _equal_to_fl fl v (st.seg rptr.segnum).v0 || _equal_to_fl fl v (st.seg rptr.segnum).v1 then
        if FP_EQUAL_fl fl v.y vo.y then
          if vo.x < v.x then locate_endpoint_fl fl st v vo fuel rptr.left
          else locate_endpoint_fl fl st v vo fuel rptr.right
        else
          if is_left_of_fl fl st rptr.segnum vo then locate_endpoint_fl fl st v vo fuel rptr.left
          else locate_endpoint_fl fl st v vo fuel rptr.right
      else
        if is_left_of_fl fl st rptr.segnum v then locate_endpoint_fl fl st v vo fuel rptr.left
        else locate_endpoint_fl fl st v vo fuel rptr.right
    else some 0

/-- The doubles `0x1.fffffd716aa64p-1` and `0x1.00000066347cdp+0`, which lie on either side
of 1 and differ by a little more than `C_EPS`. -/
def below_one : ℚ := 2251799642090137 / 2251799813685248
/-- The double `0x1.00000066347cdp+0`. -/
def above_one : ℚ := 4503599734540237 / 4503599627370496

/-- A state whose segment 1 is stored from `v0` to `v1`. -/
def one_segment (v0 v1 : point_t) : State :=
  State.zero.seg_set 1 (fun r => { r with v0 := v0, v1 := v1 })

/-! ## The insertions of `construct_trapezoids`, logged

A copy of `construct_trapezoids` that keeps, next to the state, the list of the calls of
`init_query_structure` and `add_segment` in the order in which they are made, each with the
segment number passed to it. -/

/-- A call that inserts a segment, with the segment number passed to it. -/
inductive Call where
  | init_query_structure (segnum : Int)
  | add_segment (segnum : Int)
deriving DecidableEq

/-- The segment number passed to a call. -/
def Call.segnum : Call → Int
  | Call.init_query_structure s => s
  | Call.add_segment s => s

/-- The loop `for (i = lo; i <= hi; i++) body(i);` on a state with a log. -/
def for_loop_logged (body : Int → State × List Call → Option (State × List Call)) :
    Nat → Int → State × List Call → Option (State × List Call)
  | 0, _, sl => some sl
  | count + 1, i, sl =>
    match body i sl with
    | none => none
    | some sl => for_loop_logged body count (i + 1) sl

/-- The loop `for (i = lo; i <= hi; i++) add_segment(choose_segment());`, each call of
`add_segment` logged. -/
def add_segments_logged (fuel : Nat) (lo hi : Int) (sl : State × List Call) :
    Option (State × List Call) :=
  for_loop_logged
    (fun _ sl =>
      let (sn, st) := choose_segment sl.1
      (add_segment fuel sn st).map (fun st => (st, sl.2 ++ [Call.add_segment sn])))
    (hi + 1 - lo).toNat lo sl

/-- The loop over the rounds `h` of `construct_trapezoids` (lines 1884-1889), logged. -/
def construct_rounds_logged (fuel : Nat) (nseg lsn : Int) (N : List (Option Int)) :
    Nat → Int → State × List Call → Option (State × List Call)
  | 0, _, _ => none
  | k + 1, h, sl =>
    if h ≤ lsn then
      let (lo, st) := sl.1.read ((N.getD (h - 1).toNat none).map (· + 1))
      let (hi, st) := st.read (N.getD h.toNat none)
      match add_segments_logged fuel lo hi (st, sl.2) with
      | none => none
      | some sl =>
        match find_all_new_roots fuel nseg sl.1 with
        | none => none
        | some st => construct_rounds_logged fuel nseg lsn N k (h + 1) (st, sl.2)
    else some sl

/-- The function `construct_trapezoids`, returning next to the state the calls of
`init_query_structure` and `add_segment` it made, in order. -/
def construct_trapezoids_logged (log2 : Dbl → Dbl) (fuel : Nat) (nseg : Int) (st : State) :
    Option (State × List Call) :=
  match schedule log2 fuel nseg with
  | none => none
  | some (lsn, N) =>
    let (sn, st) := choose_segment st
    let (root, st) := init_query_structure sn st
    match set_roots nseg root st with
    | none => none
    | some st =>
      match construct_rounds_logged fuel nseg lsn N fuel 1
          (st, [Call.init_query_structure sn]) with
      | none => none
      | some sl =>
        let (lo, st) := sl.1.read ((N.getD lsn.toNat none).map (· + 1))
        add_segments_logged fuel lo nseg (st, sl.2)

set_option maxRecDepth 1000000

/-! ## Draws and round schedules

A run depends on the draws only through their remainders and on `log2` only through
the round schedule, and the schedules for 3, 4 and 8 segments are fixed by a few
properties of `log2`. -/

/-- A pass of the ordering loop depends on the draw only through its remainder. -/
theorem ordering_step_congr (n i r r' : Int) (ov : ordering_vars)
    (h : Int.tmod r (n + 1 - i) = Int.tmod r' (n + 1 - i)) :
    ordering_step n i r ov = ordering_step n i r' ov := by
  simp only [ordering_step, h]

/-- The ordering loop depends on the draws only through their remainders. -/
theorem ordering_loop_congr (rnd rnd' : Int → Int) (n : Int) :
    ∀ (count : Nat) (i : Int) (ov : ordering_vars),
      (∀ j, i ≤ j → j < i + count →
        Int.tmod (rnd j) (n + 1 - j) = Int.tmod (rnd' j) (n + 1 - j)) →
      ordering_loop rnd n count i ov = ordering_loop rnd' n count i ov
  | 0, _, _, _ => rfl
  | count + 1, i, ov, h => by
    simp only [ordering_loop]
    rw [ordering_step_congr n i (rnd i) (rnd' i) ov (h i (le_refl _) (by push_cast; omega))]
    exact ordering_loop_congr rnd rnd' n count (i + 1) _
      (fun j h1 h2 => h j (by omega) (by push_cast; omega))

/-- A run of `triangulate_polygon` depends on `log2` only through the round schedule and
on the draws only through their remainders. -/
theorem triangulate_polygon_congr (log2 log2' : Dbl → Dbl) (rnd rnd' : Int → Int) (fuel : Nat)
    (ncontours : Int) (cntr : Int → Int) (vertices : Int → Int → Dbl) (st : State) (n : Int)
    (hn : (ingest_contours cntr vertices ncontours.toNat 0 1
            { st with seg := fun _ => segment_zero }).1 - 1 = n)
    (hs : schedule log2 fuel n = schedule log2' fuel n)
    (hr : ∀ j : Int, 1 ≤ j → j < 1 + n.toNat →
      Int.tmod (rnd j) (n + 1 - j) = Int.tmod (rnd' j) (n + 1 - j)) :
    triangulate_polygon log2 rnd fuel ncontours cntr vertices st
      = triangulate_polygon log2' rnd' fuel ncontours cntr vertices st := by
  have e1 : ∀ s, generate_random_ordering rnd n s = generate_random_ordering rnd' n s := by
    intro s
    simp only [generate_random_ordering, ordering_run]
    rw [ordering_loop_congr rnd rnd' n n.toNat 1 _ hr]
  have e2 : ∀ s, initialise rnd n s = initialise rnd' n s := by
    intro s
    simp only [initialise]
    congr 1
    funext s
    exact e1 s
  have e3 : ∀ s, triangulate_stages log2 fuel n s = triangulate_stages log2' fuel n s := by
    intro s
    simp only [triangulate_stages, construct_trapezoids, hs]
  unfold triangulate_polygon
  simp only [hn, e2, e3]

/-- A draw reduced modulo a positive bound, as a natural number below the bound. -/
theorem draw_reduce (r : Int) (k : Nat) (hr : 0 ≤ r) (hk : 0 < k) :
    (Int.tmod r k).toNat < k ∧ ((Int.tmod r k).toNat : Int) = Int.tmod r k := by
  have h0 : 0 ≤ Int.tmod r k := Int.tmod_nonneg _ hr
  have h1 : Int.tmod r k < k := Int.tmod_lt_of_pos r (by exact_mod_cast hk)
  constructor
  · omega
  · omega

/-- The draws given by a list are non-negative. -/
theorem draws_nonneg (l : List Nat) (i : Int) : 0 ≤ draws l i := by
  unfold draws
  exact Int.ofNat_nonneg _

/-- The round schedule for three segments is the same for every `log2` whose value `a`
at 3 satisfies `3/2 <= a < 3` and whose value at `a` is below 1, as is the case for the
libm function. -/
theorem schedule_3 (log2 : Dbl → Dbl) (fuel : Nat) (a b : ℚ)
    (h3 : log2 (.fin 3) = .fin a) (ha1 : 3 / 2 ≤ a) (ha2 : a < 3)
    (hb : log2 (.fin a) = .fin b) (hb1 : b < 1) :
    schedule log2 (fuel + 3) 3 = some (1, [some 1, some 2]) := by
  have e3 : Dbl.ofInt 3 = Dbl.fin 3 := rfl
  have c3 : Dbl.fin 3 ≥ Dbl.fin 1 := by decide!
  have ca : Dbl.fin a ≥ Dbl.fin 1 := by
    show Dbl.le (Dbl.fin 1) (Dbl.fin a) = true
    simp only [Dbl.le, decide_eq_true_eq]
    linarith only [ha1]
  have cb : ¬ (Dbl.fin b ≥ Dbl.fin 1) := by
    show ¬ (Dbl.le (Dbl.fin 1) (Dbl.fin b) = true)
    simp only [Dbl.le, decide_eq_true_eq]
    linarith only [hb1]
  have l : math_logstar_n log2 (fuel + 3) 3 = some 1 := by
    simp only [math_logstar_n, math_logstar_loop, e3, h3, hb, if_pos c3, if_pos ca, if_neg cb]
    rfl
  have n0 : math_N log2 3 ((0 : Nat) : Int) = some 1 := by
    simp only [math_N, e3, Int.toNat_ofNat, Function.iterate_zero, id]
    decide!
  have a0 : a ≠ 0 := by
    intro h0
    rw [h0] at ha1
    norm_num at ha1
  have n1 : math_N log2 3 ((1 : Nat) : Int) = some 2 := by
    simp only [math_N, e3, Int.toNat_ofNat, Function.iterate_succ, Function.iterate_zero,
      Function.comp, id, h3]
    show Dbl.toInt (Dbl.ceil (Dbl.div (Dbl.mul (Dbl.fin 1) (Dbl.fin 3)) (Dbl.fin a))) = some 2
    simp only [Dbl.mul, Dbl.div, if_neg a0, Dbl.ceil, Dbl.toInt]
    have hc : ⌈(1 : ℚ) * 3 / a⌉ = 2 := by
      rw [Int.ceil_eq_iff]
      have ha : 0 < a := by linarith only [ha1]
      constructor
      · rw [lt_div_iff₀ ha]; push_cast; linarith only [ha2]
      · rw [div_le_iff₀ ha]; push_cast; linarith only [ha1]
    rw [hc]
    simp
  simp only [schedule, l, Option.map]
  have r : List.range ((1 : Int).toNat + 1) = [0, 1] := by decide
  rw [r]
  simp only [List.map, n0, n1]

/-- The round schedule for four segments, for every `log2` that is exact at 1, 2, 4. -/
theorem schedule_4 (log2 : Dbl → Dbl) (fuel : Nat) (h4 : log2 (.fin 4) = .fin 2)
    (h2 : log2 (.fin 2) = .fin 1) (h1 : log2 (.fin 1) = .fin 0) :
    schedule log2 (fuel + 4) 4 = some (2, [some 1, some 2, some 4]) := by
  have e4 : Dbl.ofInt 4 = Dbl.fin 4 := rfl
  have c4 : Dbl.fin 4 ≥ Dbl.fin 1 := by decide!
  have c2 : Dbl.fin 2 ≥ Dbl.fin 1 := by decide!
  have c1 : Dbl.fin 1 ≥ Dbl.fin 1 := by decide!
  have c0 : ¬ (Dbl.fin 0 ≥ Dbl.fin 1) := by decide!
  have l : math_logstar_n log2 (fuel + 4) 4 = some 2 := by
    simp only [math_logstar_n, math_logstar_loop, e4, h4, h2, h1, if_pos c4, if_pos c2,
      if_pos c1, if_neg c0]
    rfl
  have n0 : math_N log2 4 ((0 : Nat) : Int) = some 1 := by
    simp only [math_N, e4, Int.toNat_ofNat, Function.iterate_zero, id]
    decide!
  have n1 : math_N log2 4 ((1 : Nat) : Int) = some 2 := by
    simp only [math_N, e4, Int.toNat_ofNat, Function.iterate_succ, Function.iterate_zero,
      Function.comp, id, h4]
    decide!
  have n2 : math_N log2 4 ((2 : Nat) : Int) = some 4 := by
    simp only [math_N, e4, Int.toNat_ofNat, Function.iterate_succ, Function.iterate_zero,
      Function.comp, id, h4, h2]
    decide!
  simp only [schedule, l, Option.map]
  have r : List.range ((2 : Int).toNat + 1) = [0, 1, 2] := by decide
  rw [r]
  simp only [List.map, n0, n1, n2]

/-- The round schedule for eight segments. -/
theorem schedule_8 (log2 : Dbl → Dbl) (fuel : Nat) (a b : ℚ)
    (h8 : log2 (.fin 8) = .fin 3)
    (h3 : log2 (.fin 3) = .fin a) (ha1 : 4 / 3 ≤ a) (ha2 : a < 8 / 5)
    (hb : log2 (.fin a) = .fin b) (hb1 : b < 1) :
    schedule log2 (fuel + 4) 8 = some (2, [some 1, some 3, some 6]) := by
  have e8 : Dbl.ofInt 8 = Dbl.fin 8 := rfl
  have c8 : Dbl.fin 8 ≥ Dbl.fin 1 := by decide!
  have c3 : Dbl.fin 3 ≥ Dbl.fin 1 := by decide!
  have ca : Dbl.fin a ≥ Dbl.fin 1 := by
    show Dbl.le (Dbl.fin 1) (Dbl.fin a) = true
    simp only [Dbl.le, decide_eq_true_eq]
    linarith only [ha1]
  have cb : ¬ (Dbl.fin b ≥ Dbl.fin 1) := by
    show ¬ (Dbl.le (Dbl.fin 1) (Dbl.fin b) = true)
    simp only [Dbl.le, decide_eq_true_eq]
    linarith only [hb1]
  have l : math_logstar_n log2 (fuel + 4) 8 = some 2 := by
    simp only [math_logstar_n, math_logstar_loop, e8, h8, h3, hb, if_pos c8, if_pos c3,
      if_pos ca, if_neg cb]
    rfl
  have n0 : math_N log2 8 ((0 : Nat) : Int) = some 1 := by
    simp only [math_N, e8, Int.toNat_ofNat, Function.iterate_zero, id]
    decide!
  have n1 : math_N log2 8 ((1 : Nat) : Int) = some 3 := by
    simp only [math_N, e8, Int.toNat_ofNat, Function.iterate_succ, Function.iterate_zero,
      Function.comp, id, h8]
    decide!
  have a0 : a ≠ 0 := by
    intro h0
    rw [h0] at ha1
    norm_num at ha1
  have n2 : math_N log2 8 ((2 : Nat) : Int) = some 6 := by
    simp only [math_N, e8, Int.toNat_ofNat, Function.iterate_succ, Function.iterate_zero,
      Function.comp, id, h8, h3]
    show Dbl.toInt (Dbl.ceil (Dbl.div (Dbl.mul (Dbl.fin 1) (Dbl.fin 8)) (Dbl.fin a))) = some 6
    simp only [Dbl.mul, Dbl.div, if_neg a0, Dbl.ceil, Dbl.toInt]
    have hc : ⌈(1 : ℚ) * 8 / a⌉ = 6 := by
      rw [Int.ceil_eq_iff]
      have ha : 0 < a := by linarith only [ha1]
      constructor
      · rw [lt_div_iff₀ ha]; push_cast; linarith only [ha2]
      · rw [div_le_iff₀ ha]; push_cast; linarith only [ha1]
    rw [hc]
    simp
  simp only [schedule, l, Option.map]
  have r : List.range ((2 : Int).toNat + 1) = [0, 1, 2] := by decide
  rw [r]
  simp only [List.map, n0, n1, n2]

/-- The stand-in `log2_small` has the properties `log2_ok`. -/
theorem log2_small_ok : log2_ok log2_small :=
  ⟨by decide!, by decide!, by decide!, by decide!, 3 / 2, 1 / 2, by decide!, by norm_num,
    by norm_num, by decide!, by norm_num⟩

/-! ## The scenarios, for every insertion order -/

/-- The plain triangle yields one triangle for each of the 3 * 2 sequences of reduced
draws, that is, for each of its 6 insertion orders. -/
theorem plain_triangle_all_draws : ∀ a < 3, ∀ b < 2,
    written (triangulate_polygon log2_small (draws [a, b]) 100 1 (cntr_of [3])
      plain_triangle_vertices State.zero) = some (1, false) := by
  decide!

/-- The plain triangle yields one triangle for every insertion order. -/
theorem plain_triangle_any_order (log2 : Dbl → Dbl) (h : log2_ok log2)
    (rnd : Int → Int) (hrnd : ∀ i, 0 ≤ rnd i) :
    written (triangulate_polygon log2 rnd 100 1 (cntr_of [3]) plain_triangle_vertices
      State.zero) = some (1, false) := by
  obtain ⟨_, _, _, _, a, b, h3, ha1, ha2, hb, hb1⟩ := h
  obtain ⟨ha, ea⟩ := draw_reduce (rnd 1) 3 (hrnd 1) (by decide)
  obtain ⟨hb', eb⟩ := draw_reduce (rnd 2) 2 (hrnd 2) (by decide)
  have key := plain_triangle_all_draws _ ha _ hb'
  rw [triangulate_polygon_congr log2 log2_small rnd
    (draws [(Int.tmod (rnd 1) (3 : Nat)).toNat, (Int.tmod (rnd 2) (2 : Nat)).toNat])
    100 1 (cntr_of [3]) plain_triangle_vertices State.zero 3
    (by decide!)
    ((schedule_3 log2 97 a b h3 ha1 (by linarith only [ha2]) hb hb1).trans
      (schedule_3 log2_small 97 (3 / 2) (1 / 2) (by decide!) (by norm_num) (by norm_num)
        (by decide!) (by norm_num)).symm)
    ?_]
  · exact key
  · intro j hj1 hj2
    have hj : j = 1 ∨ j = 2 ∨ j = 3 := by
      have : (3 : Int).toNat = 3 := rfl
      omega
    rcases hj with rfl | rfl | rfl
    · simp only [draws]
      show Int.tmod (rnd 1) 3 = Int.tmod (((Int.tmod (rnd 1) (3 : Nat)).toNat : Nat) : Int) 3
      rw [ea]
      exact (Int.tmod_eq_of_lt (Int.tmod_nonneg _ (hrnd 1))
        (Int.tmod_lt_of_pos _ (by decide))).symm
    · simp only [draws]
      show Int.tmod (rnd 2) 2 = Int.tmod (((Int.tmod (rnd 2) (2 : Nat)).toNat : Nat) : Int) 2
      rw [eb]
      exact (Int.tmod_eq_of_lt (Int.tmod_nonneg _ (hrnd 2))
        (Int.tmod_lt_of_pos _ (by decide))).symm
    · show Int.tmod (rnd 3) 1 = Int.tmod _ 1
      simp only [Int.tmod_one]

/-- The square scenario meets `square_ok` for each of the 4 * 3 * 2 sequences of reduced
draws, that is, for each of the 24 insertion orders. -/
theorem square_all_draws : ∀ a < 4, ∀ b < 3, ∀ c < 2,
    square_ok (triangulate_polygon log2_small (draws [a, b, c]) 100 1 square_cntr square_vertices State.zero) := by
  decide!

/-- The square scenario meets `square_ok` for every insertion order and every `log2` that
is exact at 1, 2 and 4. -/
theorem square_any_order (log2 : Dbl → Dbl) (h4 : log2 (.fin 4) = .fin 2)
    (h2 : log2 (.fin 2) = .fin 1) (h1 : log2 (.fin 1) = .fin 0)
    (rnd : Int → Int) (hrnd : ∀ i, 0 ≤ rnd i) :
    square_ok (triangulate_polygon log2 rnd 100 1 square_cntr square_vertices State.zero) := by
  obtain ⟨ha, ea⟩ := draw_reduce (rnd 1) 4 (hrnd 1) (by decide)
  obtain ⟨hb, eb⟩ := draw_reduce (rnd 2) 3 (hrnd 2) (by decide)
  obtain ⟨hc, ec⟩ := draw_reduce (rnd 3) 2 (hrnd 3) (by decide)
  have key := square_all_draws _ ha _ hb _ hc
  rw [triangulate_polygon_congr log2 log2_small rnd
    (draws [(Int.tmod (rnd 1) (4 : Nat)).toNat, (Int.tmod (rnd 2) (3 : Nat)).toNat,
      (Int.tmod (rnd 3) (2 : Nat)).toNat]) 100 1 square_cntr square_vertices State.zero 4
    (by decide!)
    ((schedule_4 log2 96 h4 h2 h1).trans (schedule_4 log2_small 96 (by decide!) (by decide!) (by decide!)).symm)
    ?_]
  · exact key
  · intro j hj1 hj2
    have hj : j = 1 ∨ j = 2 ∨ j = 3 ∨ j = 4 := by
      have : (4 : Int).toNat = 4 := rfl
      omega
    rcases hj with rfl | rfl | rfl | rfl
    · simp only [draws]
      show Int.tmod (rnd 1) 4 = Int.tmod (((Int.tmod (rnd 1) (4 : Nat)).toNat : Nat) : Int) 4
      rw [ea]
      exact (Int.tmod_eq_of_lt (Int.tmod_nonneg _ (hrnd 1)) (Int.tmod_lt_of_pos _ (by decide))).symm
    · simp only [draws]
      show Int.tmod (rnd 2) 3 = Int.tmod (((Int.tmod (rnd 2) (3 : Nat)).toNat : Nat) : Int) 3
      rw [eb]
      exact (Int.tmod_eq_of_lt (Int.tmod_nonneg _ (hrnd 2)) (Int.tmod_lt_of_pos _ (by decide))).symm
    · simp only [draws]
      show Int.tmod (rnd 3) 2 = Int.tmod (((Int.tmod (rnd 3) (2 : Nat)).toNat : Nat) : Int) 2
      rw [ec]
      exact (Int.tmod_eq_of_lt (Int.tmod_nonneg _ (hrnd 3)) (Int.tmod_lt_of_pos _ (by decide))).symm
    · show Int.tmod (rnd 4) 1 = Int.tmod _ 1
      simp only [Int.tmod_one]

/-- A run that meets `square_ok` has written 2 triangles. -/
theorem square_ok_written (r : Option (Int × State)) (h : square_ok r) :
    written r = some (2, false) := by
  cases r with
  | none => exact absurd h (by simp [square_ok])
  | some p =>
    obtain ⟨rv, st⟩ := p
    obtain ⟨_, h1, h2, _⟩ := h
    simp only [written, Option.map, h1, h2]

/-- The run on scenario 2 is the same for every `log2` with the properties `log2_ok`. -/
theorem hole_square_run_any_log2 (log2 : Dbl → Dbl) (h : log2_ok log2) :
    triangulate_polygon log2 (draws []) 100 2 hole_square_cntr hole_square_vertices State.zero
      = hole_square_run := by
  obtain ⟨h8, _, _, _, a, b, h3, ha1, ha2, hb, hb1⟩ := h
  exact triangulate_polygon_congr log2 log2_small (draws []) (draws []) 100 2
    hole_square_cntr hole_square_vertices State.zero 8 (by decide!)
    ((schedule_8 log2 96 a b h8 h3 (by linarith only [ha1]) ha2 hb hb1).trans
      (schedule_8 log2_small 96 (3 / 2) (1 / 2) (by decide!) (by decide!) (by norm_num)
        (by norm_num) (by decide!) (by norm_num)).symm)
    (fun _ _ _ => rfl)

/-! ## The number of triangles on the scenarios -/

/-- On scenario 2 (n = 8 vertices in k = 2 contours) with the insertion order
1, 2, ..., 8 the pipeline writes 8 triangles, without undefined behaviour; `n - 2k` is
4. -/
theorem hole_square_count :
    written hole_square_run = some (8, false) ∧ (8 : Int) ≠ 8 - 2 * 2 := by
  decide!

/-- Scenario 2 with the insertion order 1, 2, ..., 8: 8 triangles are written, without
undefined behaviour. -/
theorem hole_square_written : written hole_square_run = some (8, false) := by
  decide!

/-- The pipeline writes `n + 2k - 4` triangles (`n - 2` for a single contour and two more
for a hole), without undefined behaviour, on three inputs: the triangle (0,0), (4,0), (0,4)
and the square (0,0), (4,0), (4,4), (0,4) for every insertion order of their segments
(every sequence `rnd` of non-negative draws), and the square with a square hole of
scenario 2 for the insertion order 1, 2, ..., 8; `log2` is any function with the
properties `log2_ok` of the libm one. -/
theorem triangle_count_on_scenarios (log2 : Dbl → Dbl) (h : log2_ok log2)
    (rnd : Int → Int) (hrnd : ∀ i, 0 ≤ rnd i) :
    written (triangulate_polygon log2 rnd 100 1 (cntr_of [3]) plain_triangle_vertices
      State.zero) = some (3 + 2 * 1 - 4, false) ∧
    written (triangulate_polygon log2 rnd 100 1 square_cntr square_vertices State.zero)
      = some (4 + 2 * 1 - 4, false) ∧
    written (triangulate_polygon log2 (draws []) 100 2 hole_square_cntr hole_square_vertices
      State.zero) = some (8 + 2 * 2 - 4, false) := by
  refine ⟨plain_triangle_any_order log2 h rnd hrnd,
    square_ok_written _ (square_any_order log2 h.2.1 h.2.2.1 h.2.2.2.1 rnd hrnd), ?_⟩
  rw [hole_square_run_any_log2 log2 h]
  exact hole_square_written

/-- The counts on the three inputs at the stand-in `log2_small` and the draws 1, 1. -/
theorem triangle_count_on_scenarios_witness :
    (log2_ok log2_small ∧ ∀ i, 0 ≤ draws [1, 1] i) ∧
    (written (triangulate_polygon log2_small (draws [1, 1]) 100 1 (cntr_of [3])
      plain_triangle_vertices State.zero) = some (3 + 2 * 1 - 4, false) ∧
    written (triangulate_polygon log2_small (draws [1, 1]) 100 1 square_cntr square_vertices
      State.zero) = some (4 + 2 * 1 - 4, false) ∧
    written (triangulate_polygon log2_small (draws []) 100 2 hole_square_cntr
      hole_square_vertices State.zero) = some (8 + 2 * 2 - 4, false)) :=
  ⟨⟨log2_small_ok, draws_nonneg _⟩,
    triangle_count_on_scenarios log2_small log2_small_ok (draws [1, 1]) (draws_nonneg _)⟩

/-! ## The thin triangle: a contour that is degenerate at the tolerance

The thin triangle has height `2^-27`, less than `C_EPS`: at the tolerance that the source
documents for its comparisons it is a degenerate contour, not a triangle.  The theorems of
this section record what the embedding computes on it; once a local has been read
unassigned (flag `ub`) the rows are those of the embedding, which reads such a local as 0.

The ordering predicates compare ordinates up to `C_EPS`, so the three vertices of
`thin_vertices` all count as level and are ordered by abscissa.  When segment 3 is
inserted the threading loop of `add_segment` is not entered, the locals `tfirstr` and
`tlastr` are read unassigned (the flag `ub` is set here), and segment 3 never enters the
trapezoidation; `monotonate_trapezoids` then walks out of the polygon into the unbounded
trapezoids, whose `lseg` and `rseg` are -1, and hands the vertex number -1 to
`make_new_monotone_poly`. -/

/-- The run on the thin triangle is the same for every `log2` with these properties. -/
theorem thin_run_any_log2 (log2 : Dbl → Dbl) (h : log2_ok log2) :
    triangulate_polygon log2 (draws []) 100 1 thin_cntr thin_vertices State.zero
      = thin_run := by
  obtain ⟨_, _, _, _, a, b, h3, ha1, ha2, hb, hb1⟩ := h
  exact triangulate_polygon_congr log2 log2_small (draws []) (draws []) 100 1 thin_cntr
    thin_vertices State.zero 3 (by decide!)
    ((schedule_3 log2 97 a b h3 ha1 (by linarith only [ha2]) hb hb1).trans
      (schedule_3 log2_small 97 (3 / 2) (1 / 2) (by decide!) (by norm_num) (by norm_num)
        (by decide!) (by norm_num)).symm)
    (fun _ _ _ => rfl)

/-- In exact arithmetic the thin triangle is counter-clockwise, with a positive area. -/
theorem thin_triangle_ccw :
    CROSS (vertex thin_vertices 1) (vertex thin_vertices 2) (vertex thin_vertices 3)
      > Dbl.fin 0 := by
  decide!

/-- Multiplication of `Dbl` commutes. -/
theorem Dbl_mul_comm (a b : Dbl) : a * b = b * a := by
  show Dbl.mul a b = Dbl.mul b a
  cases a <;> cases b <;> simp only [Dbl.mul, mul_comm]

/-- Two differences `p - q` and `q - p` are never both positive. -/
theorem Dbl_sub_not_both_pos (p q : Dbl) : ¬ (p - q > Dbl.fin 0 ∧ q - p > Dbl.fin 0) := by
  show ¬ (Dbl.lt (Dbl.fin 0) (Dbl.add p (Dbl.neg q)) = true ∧
    Dbl.lt (Dbl.fin 0) (Dbl.add q (Dbl.neg p)) = true)
  cases p <;> cases q <;> simp [Dbl.lt, Dbl.add, Dbl.neg]
  intro h
  linarith

/-- A triangle and its mirror image `(a, c, b)` are never both counter-clockwise. -/
theorem CROSS_mirror (a b c : point_t) :
    ¬ (CROSS a b c > Dbl.fin 0 ∧ CROSS a c b > Dbl.fin 0) := by
  unfold CROSS
  rw [Dbl_mul_comm (c.x - a.x) (b.y - a.y), Dbl_mul_comm (c.y - a.y) (b.x - a.x)]
  exact Dbl_sub_not_both_pos _ _

/-- On the thin triangle with the insertion order 1, 2, 3 the embedding returns 0 having
written the three rows (-1,1,2), (-1,2,1), (0,1,-1); the flag `ub` is set. -/
theorem thin_triangle_rows :
    run_summary thin_run
      = some ⟨0, 12, 7, 3, [(-1, 1, 2), (-1, 2, 1), (0, 1, -1)], true⟩ := by
  decide!

/-- On the thin triangle the indices that the embedding writes to the output rows, after
the unassigned read, are -1, 1, 2, -1, 2, 1, 0, 1, -1. -/
theorem thin_triangle_indices :
    thin_run.map (fun r => output_indices r.2 r.2.op_idx.toNat)
      = some [-1, 1, 2, -1, 2, 1, 0, 1, -1] := by
  decide!

/-- On the thin triangle the first two rows that the embedding writes, after the unassigned
read, are (-1,1,2) and (-1,2,1), the same three vertices in opposite orders; whatever
points the table `vert` holds, two such triangles are never both counter-clockwise. -/
theorem thin_triangle_orientation :
    thin_run.map (fun r =>
        (List.range 2).map (fun k : Nat => (r.2.op k 0, r.2.op k 1, r.2.op k 2)))
      = some [(-1, 1, 2), (-1, 2, 1)] ∧
    ∀ a b c : point_t, ¬ (CROSS a b c > Dbl.fin 0 ∧ CROSS a c b > Dbl.fin 0) :=
  ⟨by decide!, CROSS_mirror⟩

/-! ## C4: the square -/

/-- C4. For the square (0,0), (4,0), (4,4), (0,4) and every insertion order of its four
segments (every sequence `rnd` of non-negative draws, with any `log2` that is exact at
1, 2 and 4), `triangulate_polygon` returns 0 without undefined behaviour, having
written exactly 2 triangles; the vertex indices they use are exactly 1, 2, 3, 4, and
their areas sum to 16. -/
theorem square_triangulation (log2 : Dbl → Dbl) (h4 : log2 (.fin 4) = .fin 2)
    (h2 : log2 (.fin 2) = .fin 1) (h1 : log2 (.fin 1) = .fin 0)
    (rnd : Int → Int) (hrnd : ∀ i, 0 ≤ rnd i) :
    square_ok (triangulate_polygon log2 rnd 100 1 square_cntr square_vertices State.zero) :=
  square_any_order log2 h4 h2 h1 rnd hrnd

/-- The statement of C4 at the draws 2, 0, 1 and the stand-in `log2_small`. -/
theorem square_triangulation_witness :
    (log2_small (.fin 4) = .fin 2 ∧ log2_small (.fin 2) = .fin 1 ∧
      log2_small (.fin 1) = .fin 0 ∧ ∀ i, 0 ≤ draws [2, 0, 1] i) ∧
    square_ok (triangulate_polygon log2_small (draws [2, 0, 1]) 100 1 square_cntr
      square_vertices State.zero) :=
  ⟨⟨by decide!, by decide!, by decide!, draws_nonneg _⟩,
    square_triangulation log2_small (by decide!) (by decide!) (by decide!) (draws [2, 0, 1])
      (draws_nonneg _)⟩

/-! ## C7: the rows written by `triangulate_monotone_polygons` -/

theorem op_with_rows_append (op : Int → Int → Int) (base : Int)
    (r1 r2 : List (Int × Int × Int)) :
    op_with_rows op base (r1 ++ r2)
      = op_with_rows (op_with_rows op base r1) (base + r1.length) r2 := by
  induction r1 generalizing op base with
  | nil => simp only [List.nil_append, op_with_rows, List.length_nil, Nat.cast_zero, add_zero]
  | cons r rest ih =>
    show op_with_rows (upd op base (op_row r)) (base + 1) (rest ++ r2) = _
    rw [ih]
    have e : base + 1 + (rest.length : Int) = base + ((r :: rest).length : Int) := by
      simp only [List.length_cons, Nat.cast_succ]
      omega
    rw [e]
    rfl

theorem emit_with_op (sw : sweep_vars) (st : State) (op0 : Int → Int → Int) :
    emit sw (st.with_op op0)
      = (emit sw st).with_op
          (op_with_rows op0 st.op_idx [(sw.rc (sw.ri - 1), sw.rc sw.ri, sw.v)]) := rfl

theorem emit_op_idx (sw : sweep_vars) (st : State) : (emit sw st).op_idx = st.op_idx + 1 := rfl

theorem sweep_loop_rows (endv : Int) : ∀ (fuel : Nat) (sw : sweep_vars) (st : State)
    (sw' : sweep_vars) (st' : State), sweep_loop endv fuel sw st = some (sw', st') →
    ∃ rows : List (Int × Int × Int), st'.op_idx = st.op_idx + rows.length ∧
      ∀ op0, sweep_loop endv fuel sw (st.with_op op0)
        = some (sw', st'.with_op (op_with_rows op0 st.op_idx rows))
  | 0, sw, st, sw', st', h => by
    simp only [sweep_loop] at h
    exact absurd h (by simp)
  | fuel + 1, sw, st, sw', st', h => by
    simp only [sweep_loop] at h ⊢
    by_cases c1 : sw.v ≠ endv ∨ sw.ri > 1
    · rw [if_pos c1] at h
      by_cases c2 : sw.ri > 0
      · rw [if_pos c2] at h
        by_cases c3 : CROSS (st.vert sw.v).pt (st.vert (sw.rc (sw.ri - 1))).pt
            (st.vert (sw.rc sw.ri)).pt > Dbl.fin 0
        · rw [if_pos c3] at h
          obtain ⟨rows, h1, h2⟩ := sweep_loop_rows endv fuel _ _ _ _ h
          refine ⟨(sw.rc (sw.ri - 1), sw.rc sw.ri, sw.v) :: rows, ?_, fun op0 => ?_⟩
          · rw [h1, emit_op_idx]
            simp only [List.length_cons, Nat.cast_succ]
            omega
          · have c3' : CROSS ((st.with_op op0).vert sw.v).pt
                ((st.with_op op0).vert (sw.rc (sw.ri - 1))).pt
                ((st.with_op op0).vert (sw.rc sw.ri)).pt > Dbl.fin 0 := c3
            rw [if_pos c1, if_pos c2, if_pos c3', emit_with_op, h2]
            rfl
        · rw [if_neg c3] at h
          obtain ⟨rows, h1, h2⟩ := sweep_loop_rows endv fuel _ _ _ _ h
          refine ⟨rows, h1, fun op0 => ?_⟩
          have c3' : ¬ CROSS ((st.with_op op0).vert sw.v).pt
                ((st.with_op op0).vert (sw.rc (sw.ri - 1))).pt
                ((st.with_op op0).vert (sw.rc sw.ri)).pt > Dbl.fin 0 := c3
          rw [if_pos c1, if_pos c2, if_neg c3']
          exact h2 op0
      · rw [if_neg c2] at h
        obtain ⟨rows, h1, h2⟩ := sweep_loop_rows endv fuel _ _ _ _ h
        refine ⟨rows, h1, fun op0 => ?_⟩
        rw [if_pos c1, if_neg c2]
        exact h2 op0
    · rw [if_neg c1] at h
      simp only [Option.some.injEq, Prod.mk.injEq] at h
      obtain ⟨rfl, rfl⟩ := h
      refine ⟨[], by simp, fun op0 => ?_⟩
      rw [if_neg c1]
      rfl

theorem triangulate_single_polygon_rows (fuel : Nat) (nvert posmax side : Int) (st st' : State)
    (h : triangulate_single_polygon fuel nvert posmax side st = some st') :
    ∃ rows : List (Int × Int × Int), st'.op_idx = st.op_idx + rows.length ∧
      ∀ op0, triangulate_single_polygon fuel nvert posmax side (st.with_op op0)
        = some (st'.with_op (op_with_rows op0 st.op_idx rows)) := by
  unfold triangulate_single_polygon at h
  cases hs : sweep_loop (sweep_init st nvert posmax side).2 fuel
      (sweep_init st nvert posmax side).1 st with
  | none =>
    rw [hs] at h
    exact absurd h (by simp)
  | some r =>
    obtain ⟨sw, st1⟩ := r
    rw [hs] at h
    simp only [Option.some.injEq] at h
    obtain ⟨rows, h1, h2⟩ := sweep_loop_rows _ _ _ _ _ _ hs
    refine ⟨rows ++ [(sw.rc (sw.ri - 1), sw.rc sw.ri, sw.v)], ?_, fun op0 => ?_⟩
    · rw [← h, emit_op_idx, h1]
      simp only [List.length_append, List.length_singleton, Nat.cast_add, Nat.cast_one]
      omega
    · unfold triangulate_single_polygon
      have e : sweep_init (st.with_op op0) nvert posmax side = sweep_init st nvert posmax side :=
        rfl
      rw [e, h2 op0]
      simp only
      rw [emit_with_op, ← h, op_with_rows_append, ← h1]

theorem scan_loop_with_op (vfirst : Int) (op0 : Int → Int → Int) :
    ∀ (fuel : Nat) (sv : scan_vars) (st : State),
      scan_loop vfirst fuel sv (st.with_op op0)
        = (scan_loop vfirst fuel sv st).map (fun r => (r.1, r.2.with_op op0))
  | 0, _, _ => rfl
  | fuel + 1, sv, st => by
    simp only [scan_loop]
    have e1 : (st.with_op op0).mchain = st.mchain := rfl
    have e2 : (scan_step sv (st.with_op op0)).1 = (scan_step sv st).1 := rfl
    have e3 : (scan_step sv (st.with_op op0)).2 = (scan_step sv st).2.with_op op0 := rfl
    rw [e1, e2, e3]
    by_cases c1 : (st.mchain sv.p).vnum ≠ vfirst
    · rw [if_pos c1, if_pos c1]
      by_cases c2 : (st.mchain sv.p).marked = true
      · rw [if_pos c2, if_pos c2]
        rfl
      · rw [if_neg c2, if_neg c2]
        exact scan_loop_with_op vfirst op0 fuel _ _
    · rw [if_neg c1, if_neg c1]
      rfl

theorem scan_loop_op_idx (vfirst : Int) : ∀ (fuel : Nat) (sv : scan_vars) (st : State)
    (sv' : scan_vars) (st' : State), scan_loop vfirst fuel sv st = some (sv', st') →
    st'.op_idx = st.op_idx
  | 0, _, _, _, _, h => by
    simp only [scan_loop] at h
    exact absurd h (by simp)
  | fuel + 1, sv, st, sv', st', h => by
    simp only [scan_loop] at h
    by_cases c1 : (st.mchain sv.p).vnum ≠ vfirst
    · rw [if_pos c1] at h
      by_cases c2 : (st.mchain sv.p).marked = true
      · rw [if_pos c2] at h
        simp only [Option.some.injEq, Prod.mk.injEq] at h
        rw [← h.2]
      · rw [if_neg c2] at h
        exact (scan_loop_op_idx vfirst fuel _ _ _ _ h).trans rfl
    · rw [if_neg c1] at h
      simp only [Option.some.injEq, Prod.mk.injEq] at h
      rw [← h.2]

theorem after_scan_rows (fuel : Nat) (nvert : Int) (sv : scan_vars) (st st' : State)
    (h : after_scan fuel nvert sv st = some st') :
    ∃ rows : List (Int × Int × Int), st'.op_idx = st.op_idx + rows.length ∧
      ∀ op0, after_scan fuel nvert sv (st.with_op op0)
        = some (st'.with_op (op_with_rows op0 st.op_idx rows)) := by
  unfold after_scan at h
  by_cases c1 : sv.processed = true
  · rw [if_pos c1] at h
    simp only [Option.some.injEq] at h
    subst h
    refine ⟨[], by simp, fun op0 => ?_⟩
    unfold after_scan
    rw [if_pos c1]
    rfl
  · rw [if_neg c1] at h
    by_cases c2 : sv.vcount = 3
    · rw [if_pos c2] at h
      simp only [Option.some.injEq] at h
      subst h
      refine ⟨[((st.mchain sv.p).vnum, (st.mchain (st.mchain sv.p).next).vnum,
        (st.mchain (st.mchain sv.p).prev).vnum)], by simp [State.op_set], fun op0 => ?_⟩
      unfold after_scan
      rw [if_neg c1, if_pos c2]
      rfl
    · rw [if_neg c2] at h
      simp only at h
      by_cases c3 : _equal_to (st.vert (st.mchain (st.mchain sv.posmax).next).vnum).pt sv.ymin
          = true
      · rw [if_pos c3] at h
        obtain ⟨rows, h1, h2⟩ := triangulate_single_polygon_rows _ _ _ _ _ _ h
        refine ⟨rows, h1, fun op0 => ?_⟩
        unfold after_scan
        rw [if_neg c1, if_neg c2]
        simp only
        have c3' : _equal_to ((st.with_op op0).vert
            ((st.with_op op0).mchain ((st.with_op op0).mchain sv.posmax).next).vnum).pt sv.ymin
            = true := c3
        rw [if_pos c3']
        exact h2 op0
      · rw [if_neg c3] at h
        obtain ⟨rows, h1, h2⟩ := triangulate_single_polygon_rows _ _ _ _ _ _ h
        refine ⟨rows, h1, fun op0 => ?_⟩
        unfold after_scan
        rw [if_neg c1, if_neg c2]
        simp only
        have c3' : ¬ _equal_to ((st.with_op op0).vert
            ((st.with_op op0).mchain ((st.with_op op0).mchain sv.posmax).next).vnum).pt sv.ymin
            = true := c3
        rw [if_neg c3']
        exact h2 op0

theorem triangulate_one_rows (fuel : Nat) (nvert i : Int) (st st' : State)
    (h : triangulate_one fuel nvert i st = some st') :
    ∃ rows : List (Int × Int × Int), st'.op_idx = st.op_idx + rows.length ∧
      ∀ op0, triangulate_one fuel nvert i (st.with_op op0)
        = some (st'.with_op (op_with_rows op0 st.op_idx rows)) := by
  unfold triangulate_one at h
  cases hs : scan_loop (scan_init i st).1 fuel (scan_init i st).2.1 (scan_init i st).2.2 with
  | none =>
    rw [hs] at h
    exact absurd h (by simp)
  | some r =>
    obtain ⟨sv, st1⟩ := r
    rw [hs] at h
    simp only at h
    obtain ⟨rows, h1, h2⟩ := after_scan_rows _ _ _ _ _ h
    have hidx : st1.op_idx = st.op_idx := (scan_loop_op_idx _ _ _ _ _ _ hs).trans rfl
    refine ⟨rows, by rw [h1, hidx], fun op0 => ?_⟩
    unfold triangulate_one
    have e1 : (scan_init i (st.with_op op0)).1 = (scan_init i st).1 := rfl
    have e2 : (scan_init i (st.with_op op0)).2.1 = (scan_init i st).2.1 := rfl
    have e3 : (scan_init i (st.with_op op0)).2.2 = (scan_init i st).2.2.with_op op0 := rfl
    rw [e1, e2, e3, scan_loop_with_op, hs]
    simp only [Option.map]
    rw [h2 op0, hidx]

theorem for_loop_rows (fuel : Nat) (nvert : Int) : ∀ (count : Nat) (i : Int) (st st' : State),
    for_loop (triangulate_one fuel nvert) count i st = some st' →
    ∃ rows : List (Int × Int × Int), st'.op_idx = st.op_idx + rows.length ∧
      ∀ op0, for_loop (triangulate_one fuel nvert) count i (st.with_op op0)
        = some (st'.with_op (op_with_rows op0 st.op_idx rows))
  | 0, i, st, st', h => by
    simp only [for_loop, Option.some.injEq] at h
    subst h
    exact ⟨[], by simp, fun op0 => rfl⟩
  | count + 1, i, st, st', h => by
    simp only [for_loop] at h
    cases h1 : triangulate_one fuel nvert i st with
    | none =>
      rw [h1] at h
      exact absurd h (by simp)
    | some st1 =>
      rw [h1] at h
      simp only at h
      obtain ⟨rows1, a1, a2⟩ := triangulate_one_rows _ _ _ _ _ h1
      obtain ⟨rows2, b1, b2⟩ := for_loop_rows fuel nvert count (i + 1) st1 st' h
      refine ⟨rows1 ++ rows2, ?_, fun op0 => ?_⟩
      · rw [b1, a1]
        simp only [List.length_append, Nat.cast_add]
        omega
      · simp only [for_loop]
        rw [a2 op0]
        simp only
        rw [b2, op_with_rows_append, ← a1]

theorem op_with_rows_outside (rows : List (Int × Int × Int)) :
    ∀ (op : Int → Int → Int) (base i : Int), (i < base ∨ base + rows.length ≤ i) →
      op_with_rows op base rows i = op i := by
  induction rows with
  | nil => intro op base i _; rfl
  | cons r rest ih =>
    intro op base i hi
    simp only [op_with_rows]
    rw [ih]
    · have : i ≠ base := by
        simp only [List.length_cons, Nat.cast_succ] at hi
        omega
      simp only [upd, this, if_false]
    · simp only [List.length_cons, Nat.cast_succ] at hi
      omega

/-- C7. `triangulate_monotone_polygons` returns the number of rows it wrote: there is
a list `rows` of triangles, as long as the returned count, such that whatever the output
array held before, the call stores exactly these rows in the consecutive rows
`0 .. count - 1` and leaves every other row as it was; the count is the final `op_idx`. -/
theorem triangulate_monotone_polygons_rows (fuel : Nat) (nvert nmonpoly : Int)
    (st : State) (count : Int) (st' : State)
    (h : triangulate_monotone_polygons fuel nvert nmonpoly st = some (count, st')) :
    st'.op_idx = count ∧
    ∃ rows : List (Int × Int × Int), (rows.length : Int) = count ∧
      (∀ op0, ∃ st'', triangulate_monotone_polygons fuel nvert nmonpoly (st.with_op op0)
          = some (count, st'') ∧ st''.op = op_with_rows op0 0 rows) ∧
      st'.op = op_with_rows st.op 0 rows ∧
      (∀ i, (i < 0 ∨ count ≤ i) → st'.op i = st.op i) := by
  replace h : (for_loop (triangulate_one fuel nvert) nmonpoly.toNat 0
      { st with op_idx := 0 }).map (fun st => (st.op_idx, st)) = some (count, st') := h
  cases hf : for_loop (triangulate_one fuel nvert) nmonpoly.toNat 0 { st with op_idx := 0 } with
  | none =>
    rw [hf] at h
    exact absurd h (by simp)
  | some st1 =>
    rw [hf] at h
    simp only [Option.map, Option.some.injEq, Prod.mk.injEq] at h
    obtain ⟨hc, hst⟩ := h
    subst hst
    obtain ⟨rows, h1, h2⟩ := for_loop_rows _ _ _ _ _ _ hf
    have h1' : st1.op_idx = (rows.length : Int) := by
      rw [h1]
      show (0 : Int) + _ = _
      omega
    have hop : st1.op = op_with_rows st.op 0 rows := by
      have := h2 st.op
      have e : State.with_op { st with op_idx := 0 } st.op = { st with op_idx := 0 } := rfl
      rw [e, hf] at this
      simp only [Option.some.injEq] at this
      have e2 := congrArg State.op this
      exact e2
    refine ⟨hc, rows, by rw [← hc, h1'], fun op0 => ?_, hop, fun i hi => ?_⟩
    · refine ⟨st1.with_op (op_with_rows op0 0 rows), ?_, rfl⟩
      show (for_loop (triangulate_one fuel nvert) nmonpoly.toNat 0
        (State.with_op { st with op_idx := 0 } op0)).map (fun st => (st.op_idx, st)) = _
      rw [h2 op0]
      simp only [Option.map, Option.some.injEq, Prod.mk.injEq, and_true]
      exact hc
    · rw [hop]
      apply op_with_rows_outside
      rw [← hc, h1'] at hi
      omega

/-- On the square scenario `triangulate_monotone_polygons` returns the count 2. -/
theorem square_monotonated_runs :
    (square_monotonated.bind
      (fun r => triangulate_monotone_polygons 100 4 r.1 r.2)).map (fun r => r.1) = some 2 := by
  decide!

/-- The statement of C7 at the square scenario after `monotonate_trapezoids`. -/
theorem triangulate_monotone_polygons_rows_witness :
    ∃ nmonpoly st count st', square_monotonated = some (nmonpoly, st) ∧
      triangulate_monotone_polygons 100 4 nmonpoly st = some (count, st') ∧ count = 2 ∧
      st'.op_idx = count ∧
      ∃ rows : List (Int × Int × Int), (rows.length : Int) = count ∧
        (∀ op0, ∃ st'', triangulate_monotone_polygons 100 4 nmonpoly (st.with_op op0)
            = some (count, st'') ∧ st''.op = op_with_rows op0 0 rows) ∧
        st'.op = op_with_rows st.op 0 rows ∧
        (∀ i, (i < 0 ∨ count ≤ i) → st'.op i = st.op i) := by
  have key := square_monotonated_runs
  cases h1 : square_monotonated with
  | none =>
    rw [h1] at key
    exact absurd key (by simp)
  | some p =>
    obtain ⟨nmonpoly, st⟩ := p
    rw [h1] at key
    simp only [Option.bind] at key
    cases h2 : triangulate_monotone_polygons 100 4 nmonpoly st with
    | none =>
      rw [h2] at key
      exact absurd key (by simp)
    | some q =>
      obtain ⟨count, st'⟩ := q
      rw [h2] at key
      simp only [Option.map, Option.some.injEq] at key
      exact ⟨nmonpoly, st, count, st', rfl, h2, key,
        triangulate_monotone_polygons_rows 100 4 nmonpoly st count st' h2⟩

/-! ## C8: invalid input is not rejected -/

theorem idx_tr_set (st : State) (i : Int) (f : trap_t → trap_t) : idx (st.tr_set i f) = idx st := rfl

theorem idx_qs_set (st : State) (i : Int) (f : node_t → node_t) : idx (st.qs_set i f) = idx st := rfl

theorem idx_seg_set (st : State) (i : Int) (f : segment_t → segment_t) :
    idx (st.seg_set i f) = idx st := rfl

theorem idx_read (st : State) (v : Option Int) : idx (st.read v).2 = idx st := by
  cases v <;> rfl

theorem idx_add_segment_upper (t tn : Int) (v1 : point_t) (st : State) :
    idx (add_segment_upper t tn v1 st) = idx st := by
  simp only [add_segment_upper, apply_ite idx, idx_tr_set, ite_self]

theorem idx_add_segment_lower_d0 (segnum t tn tlast : Int) (v0 : point_t)
    (is_swapped tribot : Bool) (st : State) :
    idx (add_segment_lower_d0 segnum t tn tlast v0 is_swapped tribot st).2 = idx st := by
  simp only [add_segment_lower_d0, apply_ite idx, idx_tr_set, ite_self]

theorem idx_add_segment_lower_d1 (segnum t tn tlast : Int) (v0 : point_t)
    (is_swapped tribot : Bool) (st : State) :
    idx (add_segment_lower_d1 segnum t tn tlast v0 is_swapped tribot st).2 = idx st := by
  simp only [add_segment_lower_d1, apply_ite idx, idx_tr_set, ite_self, idx_read]

theorem idx_add_segment_lower_2 (t tn tlast : Int) (i_d0 tribot : Bool) (st : State) :
    idx (add_segment_lower_2 t tn tlast i_d0 tribot st).2 = idx st := by
  simp only [add_segment_lower_2, apply_ite idx, apply_ite Prod.snd, idx_tr_set, ite_self]

theorem idx_merge_step (st : State) (t tnext : Int) : idx (merge_step st t tnext) = idx st := by
  simp only [merge_step, apply_ite idx, idx_tr_set, idx_qs_set, ite_self]

theorem grows_refl (a : State) : grows a a := ⟨le_refl _, le_refl _⟩

theorem grows_trans {a b c : State} (h1 : grows a b) (h2 : grows b c) : grows a c :=
  ⟨le_trans h1.1 h2.1, le_trans h1.2 h2.2⟩

theorem grows_of_idx {a b : State} (h : idx b = idx a) : grows a b := by
  have h1 : b.q_idx = a.q_idx := congrArg Prod.fst h
  have h2 : b.tr_idx = a.tr_idx := congrArg Prod.snd h
  exact ⟨by rw [h1], by rw [h2]⟩

theorem grows_tr_set {a s : State} (i : Int) (f : trap_t → trap_t) (h : grows a s) :
    grows a (s.tr_set i f) := h

theorem grows_qs_set {a s : State} (i : Int) (f : node_t → node_t) (h : grows a s) :
    grows a (s.qs_set i f) := h

theorem grows_seg_set {a s : State} (i : Int) (f : segment_t → segment_t) (h : grows a s) :
    grows a (s.seg_set i f) := h

theorem grows_ite {a s t : State} (c : Prop) [Decidable c] (h1 : grows a s) (h2 : grows a t) :
    grows a (if c then s else t) := by
  split_ifs <;> assumption

theorem grows_newnode {a s : State} (h : grows a s) : grows a (newnode s).2 := by
  unfold newnode
  split_ifs
  · exact ⟨le_trans h.1 (by show s.q_idx ≤ s.q_idx + 1; omega), h.2⟩
  · exact h

theorem grows_newtrap {a s : State} (h : grows a s) : grows a (newtrap s).2 := by
  unfold newtrap
  split_ifs
  · exact ⟨h.1, le_trans h.2 (by show s.tr_idx ≤ s.tr_idx + 1; omega)⟩
  · exact h

theorem grows_of_newnode {a s s1 : State} {i : Int} (g : grows a s)
    (h : newnode s = (i, s1)) : grows a s1 := by
  have := grows_newnode g
  rwa [h] at this

theorem grows_of_newtrap {a s s1 : State} {i : Int} (g : grows a s)
    (h : newtrap s = (i, s1)) : grows a s1 := by
  have := grows_newtrap g
  rwa [h] at this

theorem init_query_structure_q_idx (segnum : Int) (st : State) :
    (init_query_structure segnum st).2.q_idx = 8 := rfl

theorem init_query_structure_tr_idx (segnum : Int) (st : State) :
    (init_query_structure segnum st).2.tr_idx = 5 := rfl

theorem newnode_q_idx (s : State) :
    (newnode s).2.q_idx = if s.q_idx < QSIZE then s.q_idx + 1 else s.q_idx := by
  unfold newnode; split_ifs <;> rfl

theorem newnode_tr_idx (s : State) : (newnode s).2.tr_idx = s.tr_idx := by
  unfold newnode; split_ifs <;> rfl

theorem newtrap_q_idx (s : State) : (newtrap s).2.q_idx = s.q_idx := by
  unfold newtrap; split_ifs <;> rfl

theorem newtrap_tr_idx (s : State) :
    (newtrap s).2.tr_idx = if s.tr_idx < TRSIZE then s.tr_idx + 1 else s.tr_idx := by
  unfold newtrap; split_ifs <;> rfl

theorem tr_set_q_idx (s : State) (i : Int) (f : trap_t → trap_t) :
    (s.tr_set i f).q_idx = s.q_idx := rfl

theorem tr_set_tr_idx (s : State) (i : Int) (f : trap_t → trap_t) :
    (s.tr_set i f).tr_idx = s.tr_idx := rfl

theorem qs_set_q_idx (s : State) (i : Int) (f : node_t → node_t) :
    (s.qs_set i f).q_idx = s.q_idx := rfl

theorem qs_set_tr_idx (s : State) (i : Int) (f : node_t → node_t) :
    (s.qs_set i f).tr_idx = s.tr_idx := rfl

theorem read_q_idx (s : State) (v : Option Int) : (s.read v).2.q_idx = s.q_idx := by
  cases v <;> rfl

theorem read_tr_idx (s : State) (v : Option Int) : (s.read v).2.tr_idx = s.tr_idx := by
  cases v <;> rfl

theorem upper_q_idx (t tn : Int) (v1 : point_t) (st : State) :
    (add_segment_upper t tn v1 st).q_idx = st.q_idx := congrArg Prod.fst (idx_add_segment_upper t tn v1 st)

theorem upper_tr_idx (t tn : Int) (v1 : point_t) (st : State) :
    (add_segment_upper t tn v1 st).tr_idx = st.tr_idx := congrArg Prod.snd (idx_add_segment_upper t tn v1 st)

theorem lower_d0_q_idx (segnum t tn tlast : Int) (v0 : point_t) (a b : Bool) (st : State) :
    (add_segment_lower_d0 segnum t tn tlast v0 a b st).2.q_idx = st.q_idx :=
  congrArg Prod.fst (idx_add_segment_lower_d0 segnum t tn tlast v0 a b st)

theorem lower_d0_tr_idx (segnum t tn tlast : Int) (v0 : point_t) (a b : Bool) (st : State) :
    (add_segment_lower_d0 segnum t tn tlast v0 a b st).2.tr_idx = st.tr_idx :=
  congrArg Prod.snd (idx_add_segment_lower_d0 segnum t tn tlast v0 a b st)

theorem lower_d1_q_idx (segnum t tn tlast : Int) (v0 : point_t) (a b : Bool) (st : State) :
    (add_segment_lower_d1 segnum t tn tlast v0 a b st).2.q_idx = st.q_idx :=
  congrArg Prod.fst (idx_add_segment_lower_d1 segnum t tn tlast v0 a b st)

theorem lower_d1_tr_idx (segnum t tn tlast : Int) (v0 : point_t) (a b : Bool) (st : State) :
    (add_segment_lower_d1 segnum t tn tlast v0 a b st).2.tr_idx = st.tr_idx :=
  congrArg Prod.snd (idx_add_segment_lower_d1 segnum t tn tlast v0 a b st)

theorem lower_2_q_idx (t tn tlast : Int) (a b : Bool) (st : State) :
    (add_segment_lower_2 t tn tlast a b st).2.q_idx = st.q_idx :=
  congrArg Prod.fst (idx_add_segment_lower_2 t tn tlast a b st)

theorem lower_2_tr_idx (t tn tlast : Int) (a b : Bool) (st : State) :
    (add_segment_lower_2 t tn tlast a b st).2.tr_idx = st.tr_idx :=
  congrArg Prod.snd (idx_add_segment_lower_2 t tn tlast a b st)

section alloc

attribute [local irreducible] newnode newtrap State.qs_set State.tr_set State.seg_set State.read
  add_segment_upper add_segment_lower_d0 add_segment_lower_d1 add_segment_lower_2

theorem grows_add_segment_endpoint (fuel : Nat) (segnum : Int) (v vo : point_t) (root : Int)
    (st : State) (r : Int × Int × State)
    (h : add_segment_endpoint fuel segnum v vo root st = some r) : grows st r.2.2 := by
  unfold add_segment_endpoint at h
  split at h
  · exact absurd h (by simp)
  · simp only [Option.some.injEq] at h
    subst h
    unfold grows
    simp only [newnode_q_idx, newnode_tr_idx, newtrap_q_idx, newtrap_tr_idx, tr_set_q_idx,
      tr_set_tr_idx, qs_set_q_idx, qs_set_tr_idx, apply_ite State.q_idx,
      apply_ite State.tr_idx, ite_self]
    constructor <;> split_ifs <;> omega

theorem grows_add_segment_split (segnum : Int) (v0 v1 : point_t) (is_swapped tribot : Bool)
    (tfirst tlast : Int) (lv : thread_vars) (st : State) :
    grows st (add_segment_split segnum v0 v1 is_swapped tribot tfirst tlast lv st).2 := by
  unfold grows
  simp only [add_segment_split, newnode_q_idx, newnode_tr_idx, newtrap_q_idx, newtrap_tr_idx,
    tr_set_q_idx, tr_set_tr_idx, qs_set_q_idx, qs_set_tr_idx, upper_q_idx, upper_tr_idx,
    lower_d0_q_idx, lower_d0_tr_idx, lower_d1_q_idx, lower_d1_tr_idx, lower_2_q_idx,
    lower_2_tr_idx, apply_ite Prod.snd, apply_ite State.q_idx, apply_ite State.tr_idx, ite_self]
  constructor <;> split_ifs <;> omega

end alloc

theorem grows_add_segment_thread (segnum : Int) (v0 v1 : point_t) (is_swapped tribot : Bool)
    (tfirst tlast : Int) (g0 : ∀ lv st,
      grows st (add_segment_split segnum v0 v1 is_swapped tribot tfirst tlast lv st).2) :
    ∀ (fuel : Nat) (lv : thread_vars) (st : State) (r : thread_vars × State),
      add_segment_thread segnum v0 v1 is_swapped tribot tfirst tlast fuel lv st = some r →
      grows st r.2 := by
  intro fuel
  induction fuel with
  | zero => intro lv st r h; exact absurd h (by simp [add_segment_thread])
  | succ n ih =>
    intro lv st r h
    unfold add_segment_thread at h
    split_ifs at h with hc
    · have g := g0 lv st
      generalize add_segment_split segnum v0 v1 is_swapped tribot tfirst tlast lv st = p at h g
      obtain ⟨lv1, s1⟩ := p
      dsimp only at h
      split_ifs at h
      · injection h with h; subst h; exact g
      · exact grows_trans g (ih lv1 s1 r h)
    · injection h with h; subst h; exact grows_refl _

theorem idx_merge_loop (segnum tlast side : Int) :
    ∀ (fuel : Nat) (t : Int) (st r : State),
      merge_loop segnum tlast side fuel t st = some r → idx r = idx st := by
  intro fuel
  induction fuel with
  | zero => intro t st r h; exact absurd h (by simp [merge_loop])
  | succ n ih =>
    intro t st r h
    unfold merge_loop at h
    split_ifs at h with hc
    · generalize merge_cond st segnum t side = p at h
      obtain ⟨cond, tnext⟩ := p
      dsimp only at h
      split_ifs at h
      · exact (ih _ _ _ h).trans (idx_merge_step st t tnext)
      · exact ih _ _ _ h
      · exact ih _ _ _ h
    · injection h with h; subst h; rfl

theorem grows_endpoint_or_locate {c : Prop} {d : Decidable c} {fuel : Nat} {segnum : Int}
    {v vo : point_t} {root : Int} {st : State} {F : Int × Int × State → Int × Bool × State}
    {G : Int → Int × Bool × State} {x : Int × Bool × State}
    (h : (if c then (add_segment_endpoint fuel segnum v vo root st).map F
          else (locate_endpoint st v vo fuel root).map G) = some x)
    (hF : ∀ r, (F r).2.2 = r.2.2) (hG : ∀ t, (G t).2.2 = st) : grows st x.2.2 := by
  split_ifs at h
  · obtain ⟨a, h1, h2⟩ := Option.map_eq_some'.mp h
    rw [← h2, hF]
    exact grows_add_segment_endpoint fuel segnum v vo root st a h1
  · obtain ⟨a, _, h2⟩ := Option.map_eq_some'.mp h
    rw [← h2, hG]
    exact grows_refl _

theorem grows_add_segment (fuel : Nat) (segnum : Int) (st r : State)
    (h : add_segment fuel segnum st = some r) : grows st r := by
  unfold add_segment at h
  dsimp only at h
  split at h
  · exact absurd h (by simp)
  · rename_i tfirst tritop s1 h1
    have g1 := grows_endpoint_or_locate h1 (fun _ => rfl) (fun _ => rfl)
    split at h
    · exact absurd h (by simp)
    · rename_i tlast tribot s2 h2
      have g2 := grows_endpoint_or_locate h2 (fun _ => rfl) (fun _ => rfl)
      split at h
      · exact absurd h (by simp)
      · rename_i lv s3 h3
        have g3 := grows_add_segment_thread _ _ _ _ _ _ _
          (grows_add_segment_split _ _ _ _ _ _ _) _ _ _ _ h3
        split at h
        · exact absurd h (by simp)
        · rename_i s4 h4
          have g4 := grows_of_idx (idx_merge_loop _ _ _ _ _ _ _ h4)
          split at h
          · exact absurd h (by simp)
          · rename_i s5 h5
            have g5 := grows_of_idx (idx_merge_loop _ _ _ _ _ _ _ h5)
            injection h with h
            subst h
            exact grows_seg_set _ _ (grows_trans g1 (grows_trans g2 (grows_trans g3
              (grows_trans g4 (grows_trans
                (grows_of_idx ((idx_read _ _).trans (idx_read _ _))) g5)))))

theorem idx_find_new_roots (fuel : Nat) (segnum : Int) (st r : State)
    (h : find_new_roots fuel segnum st = some r) : idx r = idx st := by
  unfold find_new_roots at h
  dsimp only at h
  split_ifs at h
  · injection h with h; subst h; rfl
  · split at h
    · exact absurd h (by simp)
    · split at h
      · exact absurd h (by simp)
      · injection h with h; subst h; rfl

theorem grows_for_loop (body : Int → State → Option State)
    (hb : ∀ i s r, body i s = some r → grows s r) :
    ∀ (count : Nat) (i : Int) (st r : State), for_loop body count i st = some r →
      grows st r := by
  intro count
  induction count with
  | zero => intro i st r h; injection h with h; subst h; exact grows_refl _
  | succ n ih =>
    intro i st r h
    unfold for_loop at h
    split at h
    · exact absurd h (by simp)
    · rename_i s1 h1
      exact grows_trans (hb _ _ _ h1) (ih _ _ _ h)

theorem grows_add_segments (fuel : Nat) (lo hi : Int) (st r : State)
    (h : add_segments fuel lo hi st = some r) : grows st r :=
  grows_for_loop _ (fun _ s r e => grows_trans (grows_of_idx (a := s) (b := (choose_segment s).2) rfl)
    (grows_add_segment fuel (choose_segment s).1 (choose_segment s).2 r e)) _ _ _ _ h

theorem grows_find_all_new_roots (fuel : Nat) (nseg : Int) (st r : State)
    (h : find_all_new_roots fuel nseg st = some r) : grows st r :=
  grows_for_loop _ (fun i s r h => grows_of_idx (idx_find_new_roots fuel i s r h)) _ _ _ _ h

theorem grows_set_roots (nseg root : Int) (st r : State)
    (h : set_roots nseg root st = some r) : grows st r :=
  grows_for_loop _ (fun i s r h => by
    injection h with h; subst h; exact grows_refl _) _ _ _ _ h

theorem grows_construct_rounds (fuel : Nat) (nseg lsn : Int) (N : List (Option Int)) :
    ∀ (k : Nat) (h : Int) (st r : State),
      construct_rounds fuel nseg lsn N k h st = some r → grows st r := by
  intro k
  induction k with
  | zero => intro h st r e; exact absurd e (by simp [construct_rounds])
  | succ n ih =>
    intro h st r e
    unfold construct_rounds at e
    split_ifs at e
    · dsimp only at e
      split at e
      · exact absurd e (by simp)
      · rename_i s1 h1
        split at e
        · exact absurd e (by simp)
        · rename_i s2 h2
          exact grows_trans (grows_of_idx ((idx_read _ _).trans (idx_read _ _)))
            (grows_trans (grows_add_segments _ _ _ _ _ h1)
              (grows_trans (grows_find_all_new_roots _ _ _ _ h2) (ih _ _ _ e)))
    · injection e with e; subst e; exact grows_refl _

theorem construct_trapezoids_counters (log2 : Dbl → Dbl) (fuel : Nat) (nseg : Int)
    (st r : State) (h : construct_trapezoids log2 fuel nseg st = some r) :
    8 ≤ r.q_idx ∧ 5 ≤ r.tr_idx := by
  unfold construct_trapezoids at h
  split at h
  · exact absurd h (by simp)
  · dsimp only at h
    split at h
    · exact absurd h (by simp)
    · rename_i s1 h1
      split at h
      · exact absurd h (by simp)
      · rename_i s2 h2
        have g := grows_trans (grows_set_roots _ _ _ _ h1)
          (grows_trans (grows_construct_rounds _ _ _ _ _ _ _ _ h2)
            (grows_trans (grows_of_idx (idx_read _ _)) (grows_add_segments _ _ _ _ _ h)))
        exact g

theorem idx_mchain_set (st : State) (i : Int) (f : monchain_t → monchain_t) :
    idx (st.mchain_set i f) = idx st := rfl

theorem idx_vert_set (st : State) (i : Int) (f : vertexchain_t → vertexchain_t) :
    idx (st.vert_set i f) = idx st := rfl

theorem idx_mon_set (st : State) (i v : Int) : idx (st.mon_set i v) = idx st := rfl

theorem idx_visited_set (st : State) (i : Int) (v : Bool) : idx (st.visited_set i v) = idx st :=
  rfl

theorem idx_op_set (st : State) (i a b c : Int) : idx (st.op_set i a b c) = idx st := rfl

theorem idx_vnext_set (st : State) (v i x : Int) : idx (st.vnext_set v i x) = idx st := rfl

theorem idx_vpos_set (st : State) (v i x : Int) : idx (st.vpos_set v i x) = idx st := rfl

theorem idx_newmon (st : State) : idx (newmon st).2 = idx st := rfl

theorem idx_new_chain_element (st : State) : idx (new_chain_element st).2 = idx st := rfl

section mono

attribute [local irreducible] State.mchain_set State.vert_set State.mon_set State.visited_set
  State.vnext_set State.vpos_set State.read newmon new_chain_element

theorem idx_make_new_monotone_poly (mcur v0 v1 : Int) (st : State) :
    idx (make_new_monotone_poly mcur v0 v1 st).2 = idx st := by
  simp only [make_new_monotone_poly, idx_mchain_set, idx_vert_set, idx_mon_set, idx_vnext_set,
    idx_vpos_set, idx_newmon, idx_new_chain_element, idx_read]

end mono

theorem idx_for_loop (body : Int → State → Option State)
    (hb : ∀ i s r, body i s = some r → idx r = idx s) :
    ∀ (count : Nat) (i : Int) (st r : State), for_loop body count i st = some r →
      idx r = idx st := by
  intro count
  induction count with
  | zero => intro i st r h; injection h with h; subst h; rfl
  | succ n ih =>
    intro i st r h
    unfold for_loop at h
    split at h
    · exact absurd h (by simp)
    · rename_i s1 h1
      exact (ih _ _ _ h).trans (hb _ _ _ h1)

theorem idx_init_chains (n : Int) (st r : State) (h : init_chains n st = some r) :
    idx r = idx st :=
  idx_for_loop _ (fun i s r e => by
    simp only [Option.some.injEq] at e
    subst e
    simp only [idx_mchain_set, idx_vert_set, idx_vnext_set, idx_vpos_set]) _ _ _ _ h

theorem idx_traverse_calls (rec : Int → Int → Int → Int → State → Option State)
    (hrec : ∀ m t f d s r, rec m t f d s = some r → idx r = idx s) (from_ : Int) :
    ∀ (l : List (Int × Int × Int)) (st r : State),
      traverse_calls rec from_ l st = some r → idx r = idx st := by
  intro l
  induction l with
  | nil => intro st r h; injection h with h; subst h; rfl
  | cons c rest ih =>
    intro st r h
    obtain ⟨m, trnum, dir⟩ := c
    unfold traverse_calls at h
    split at h
    · exact absurd h (by simp)
    · rename_i s1 h1
      exact (ih _ _ h).trans (hrec _ _ _ _ _ _ h1)

theorem option_ite_elim {c : Prop} [Decidable c] {a b : Option State} {r : State} {P : Prop}
    (h : (if c then a else b) = some r) (h1 : a = some r → P) (h2 : b = some r → P) : P := by
  split_ifs at h
  · exact h1 h
  · exact h2 h

theorem idx_traverse_polygon :
    ∀ (fuel : Nat) (mcur trnum from_ dir : Int) (st r : State),
      traverse_polygon fuel mcur trnum from_ dir st = some r → idx r = idx st := by
  intro fuel
  induction fuel with
  | zero => intro mcur trnum from_ dir st r h; exact absurd h (by simp [traverse_polygon])
  | succ n ih =>
    intro mcur trnum from_ dir st r h
    unfold traverse_polygon at h
    dsimp only at h
    repeat' refine option_ite_elim h (fun h => ?_) (fun h => ?_)
    all_goals first
      | (injection h with h; subst h; rfl)
      | exact (idx_traverse_calls _ ih _ _ _ _ h).trans (idx_visited_set _ _ _)
      | exact (idx_traverse_calls _ ih _ _ _ _ h).trans
          ((idx_make_new_monotone_poly _ _ _ _).trans (idx_visited_set _ _ _))

theorem idx_monotonate_trapezoids (fuel : Nat) (n : Int) (st : State) (r : Int × State)
    (h : monotonate_trapezoids fuel n st = some r) : idx r.2 = idx st := by
  unfold monotonate_trapezoids at h
  dsimp only at h
  split at h
  · exact absurd h (by simp)
  · rename_i s1 h1
    have e1 : idx s1 = idx st := (idx_init_chains _ _ _ h1).trans rfl
    obtain ⟨a, h2, h3⟩ := Option.map_eq_some'.mp h
    rw [← h3]
    refine (idx_newmon a).trans ?_
    refine option_ite_elim h2 (fun h => ?_) (fun h => ?_)
    · exact (idx_traverse_polygon _ _ _ _ _ _ _ h).trans e1
    · refine option_ite_elim h (fun h => ?_) (fun h => ?_)
      · exact (idx_traverse_polygon _ _ _ _ _ _ _ h).trans e1
      · injection h with h
        subst h
        exact e1

theorem idx_emit (sw : sweep_vars) (st : State) : idx (emit sw st) = idx st := rfl

theorem idx_sweep_loop (endv : Int) :
    ∀ (fuel : Nat) (sw : sweep_vars) (st : State) (r : sweep_vars × State),
      sweep_loop endv fuel sw st = some r → idx r.2 = idx st := by
  intro fuel
  induction fuel with
  | zero => intro sw st r h; exact absurd h (by simp [sweep_loop])
  | succ n ih =>
    intro sw st r h
    unfold sweep_loop at h
    dsimp only at h
    split_ifs at h
    · exact (ih _ _ _ h).trans (idx_emit _ _)
    · exact (ih _ _ _ h).trans rfl
    · exact (ih _ _ _ h).trans rfl
    · injection h with h; subst h; rfl

theorem idx_triangulate_single_polygon (fuel : Nat) (nvert posmax side : Int) (st r : State)
    (h : triangulate_single_polygon fuel nvert posmax side st = some r) : idx r = idx st := by
  unfold triangulate_single_polygon at h
  split at h
  · exact absurd h (by simp)
  · rename_i sw s1 h1
    injection h with h
    subst h
    exact (idx_emit _ _).trans (idx_sweep_loop _ _ _ _ _ h1)

theorem idx_scan_step (sv : scan_vars) (st : State) : idx (scan_step sv st).2 = idx st := rfl

theorem idx_scan_loop (vfirst : Int) :
    ∀ (fuel : Nat) (sv : scan_vars) (st : State) (r : scan_vars × State),
      scan_loop vfirst fuel sv st = some r → idx r.2 = idx st := by
  intro fuel
  induction fuel with
  | zero => intro sv st r h; exact absurd h (by simp [scan_loop])
  | succ n ih =>
    intro sv st r h
    unfold scan_loop at h
    split_ifs at h
    · injection h with h; subst h; rfl
    · exact (ih _ _ _ h).trans (idx_scan_step _ _)
    · injection h with h; subst h; rfl

theorem idx_after_scan (fuel : Nat) (nvert : Int) (sv : scan_vars) (st r : State)
    (h : after_scan fuel nvert sv st = some r) : idx r = idx st := by
  unfold after_scan at h
  dsimp only at h
  split_ifs at h
  · injection h with h; subst h; rfl
  · injection h with h; subst h; rfl
  · exact idx_triangulate_single_polygon _ _ _ _ _ _ h
  · exact idx_triangulate_single_polygon _ _ _ _ _ _ h

theorem idx_triangulate_one (fuel : Nat) (nvert i : Int) (st r : State)
    (h : triangulate_one fuel nvert i st = some r) : idx r = idx st := by
  unfold triangulate_one at h
  split at h
  · exact absurd h (by simp)
  · rename_i sv s1 h1
    exact (idx_after_scan _ _ _ _ _ h).trans (idx_scan_loop _ _ _ _ _ h1)

theorem idx_triangulate_monotone_polygons (fuel : Nat) (nvert nmonpoly : Int) (st : State)
    (r : Int × State) (h : triangulate_monotone_polygons fuel nvert nmonpoly st = some r) :
    idx r.2 = idx st := by
  unfold triangulate_monotone_polygons at h
  obtain ⟨a, h1, h2⟩ := Option.map_eq_some'.mp h
  rw [← h2]
  exact (idx_for_loop _ (idx_triangulate_one fuel nvert) _ _ _ _ h1).trans rfl

theorem triangulate_stages_counters (log2 : Dbl → Dbl) (fuel : Nat) (n : Int) (st : State)
    (r : Int × State) (h : triangulate_stages log2 fuel n st = some r) :
    8 ≤ r.2.q_idx ∧ 5 ≤ r.2.tr_idx := by
  unfold triangulate_stages at h
  split at h
  · exact absurd h (by simp)
  · rename_i s1 h1
    split at h
    · exact absurd h (by simp)
    · rename_i nmonpoly s2 h2
      have e : idx r.2 = idx s1 :=
        (idx_triangulate_monotone_polygons _ _ _ _ _ h).trans
          (idx_monotonate_trapezoids _ _ _ _ h2)
      have c := construct_trapezoids_counters _ _ _ _ _ h1
      have e1 : r.2.q_idx = s1.q_idx := congrArg Prod.fst e
      have e2 : r.2.tr_idx = s1.tr_idx := congrArg Prod.snd e
      rw [e1, e2]
      exact c

/-- C8, as amended.  `triangulate_polygon` does not validate its input: whatever
`ncontours`, `cntr` and `vertices` are, every call that returns reports success (the
value 0) and has run the pipeline, so that the query structure and the trapezoid table
have been rebuilt by `init_query_structure` (on return `q_idx >= 8` and
`tr_idx >= 5`). -/
theorem triangulate_polygon_never_rejects (log2 : Dbl → Dbl) (rnd : Int → Int) (fuel : Nat)
    (ncontours : Int) (cntr : Int → Int) (vertices : Int → Int → Dbl) (st : State)
    (r : Int × State)
    (h : triangulate_polygon log2 rnd fuel ncontours cntr vertices st = some r) :
    r.1 = 0 ∧ 8 ≤ r.2.q_idx ∧ 5 ≤ r.2.tr_idx := by
  unfold triangulate_polygon at h
  dsimp only at h
  split at h
  · exact absurd h (by simp)
  · obtain ⟨a, h1, h2⟩ := Option.map_eq_some'.mp h
    rw [← h2]
    exact ⟨rfl, triangulate_stages_counters _ _ _ _ a h1⟩

/-- The amended C8 at an input with a contour of one point, on which the call returns. -/
theorem triangulate_polygon_never_rejects_witness :
    ∃ r, short_contour_run = some r ∧
      r.1 = 0 ∧ 8 ≤ r.2.q_idx ∧ 5 ≤ r.2.tr_idx := by
  have hs : short_contour_run.isSome = true := by decide!
  obtain ⟨r, hr⟩ := Option.isSome_iff_exists.mp hs
  exact ⟨r, hr, triangulate_polygon_never_rejects _ _ _ _ _ _ _ r hr⟩

/-- C8 fails as stated.  With `ncontours = 2` and `cntr = [3, 1]` (so `cntr[1] < 3`)
`triangulate_polygon`, started from zeroed tables, returns 0, leaves 21 nodes in the
query structure and 11 rows in the trapezoid table (`q_idx = 22`, `tr_idx = 12`), and
writes the triangle (1,2,3) to the output array. -/
theorem triangulate_polygon_accepts_one_point_contour :
    run_summary short_contour_run
      = some ⟨0, 22, 12, 1, [(1, 2, 3)], false⟩ := by
  decide!

/-! ## C9: allocation -/

/-- C9. Allocation never fails the call: `newnode` returns -1 and changes nothing when
`q_idx >= QSIZE`, and otherwise returns `q_idx` and increments it; `newtrap` does the
same with `tr_idx` and `TRSIZE`, and on success the new row has `lseg = rseg = -1` and
`state = ST_VALID`. -/
theorem newnode_newtrap_allocate (st : State) :
    (QSIZE ≤ st.q_idx → (newnode st).1 = -1 ∧ (newnode st).2 = st) ∧
    (st.q_idx < QSIZE →
      (newnode st).1 = st.q_idx ∧ (newnode st).2.q_idx = st.q_idx + 1) ∧
    (TRSIZE ≤ st.tr_idx → (newtrap st).1 = -1 ∧ (newtrap st).2 = st) ∧
    (st.tr_idx < TRSIZE →
      (newtrap st).1 = st.tr_idx ∧ (newtrap st).2.tr_idx = st.tr_idx + 1 ∧
      ((newtrap st).2.tr st.tr_idx).lseg = -1 ∧ ((newtrap st).2.tr st.tr_idx).rseg = -1 ∧
      ((newtrap st).2.tr st.tr_idx).state = ST_VALID) := by
  refine ⟨fun h => ?_, fun h => ?_, fun h => ?_, fun h => ?_⟩
  · have h' : ¬ st.q_idx < QSIZE := not_lt.mpr h
    simp only [newnode, if_neg h', and_self]
  · simp only [newnode, if_pos h, and_self]
  · have h' : ¬ st.tr_idx < TRSIZE := not_lt.mpr h
    simp only [newtrap, if_neg h', and_self]
  · simp only [newtrap, if_pos h, State.tr_set, upd, if_true, and_self]

/-! ## C10: the random ordering -/

theorem outside_false {size i : Int} (h0 : 0 ≤ i) (h1 : i < size) : outside size i = false := by
  simp only [outside, Bool.or_eq_false_iff, decide_eq_false_iff_not, not_lt, not_le]
  exact ⟨h0, h1⟩

theorem ordering_fill_spec : ∀ (count : Nat) (i : Int) (ov : ordering_vars),
    (ordering_fill count i ov).permute = ov.permute ∧
    (∀ k, (ordering_fill count i ov).st k
        = if i ≤ k ∧ k < i + count then some k else ov.st k) ∧
    (∀ x ∈ (ordering_fill count i ov).used,
        x ∈ ov.used ∨ ∃ k, x = Sum.inl k ∧ i ≤ k ∧ k < i + count) ∧
    (ov.ub = false → 0 ≤ i → i + count ≤ SEGSIZE → (ordering_fill count i ov).ub = false)
  | 0, i, ov => by
    refine ⟨rfl, fun k => ?_, fun x hx => Or.inl hx, fun h _ _ => h⟩
    have : ¬ (i ≤ k ∧ k < i + ((0 : Nat) : Int)) := by omega
    simp only [ordering_fill, if_neg this]
  | count + 1, i, ov => by
    obtain ⟨h1, h2, h3, h4⟩ := ordering_fill_spec count (i + 1)
      { ov with st := upd ov.st i (some i), used := Sum.inl i :: ov.used,
                ub := ov.ub || outside SEGSIZE i }
    refine ⟨h1, fun k => ?_, fun x hx => ?_, fun hub h0 hle => ?_⟩
    · simp only [ordering_fill]
      rw [h2 k]
      by_cases hk : i + 1 ≤ k ∧ k < i + 1 + (count : Int)
      · have : i ≤ k ∧ k < i + ((count + 1 : Nat) : Int) := by push_cast; omega
        rw [if_pos hk, if_pos this]
      · rw [if_neg hk]
        by_cases hki : k = i
        · have : i ≤ k ∧ k < i + ((count + 1 : Nat) : Int) := by push_cast; omega
          rw [if_pos this]
          simp only [upd, hki, if_true]
        · have : ¬ (i ≤ k ∧ k < i + ((count + 1 : Nat) : Int)) := by push_cast; omega
          rw [if_neg this]
          simp only [upd, hki, if_false]
    · rcases h3 x hx with h | ⟨k, hk, hk1, hk2⟩
      · rcases List.mem_cons.mp h with h | h
        · exact Or.inr ⟨i, h, le_refl _, by push_cast; omega⟩
        · exact Or.inl h
      · exact Or.inr ⟨k, hk, by omega, by push_cast; omega⟩
    · apply h4
      · have : outside SEGSIZE i = false := outside_false h0 (by push_cast at hle; omega)
        simp only [hub, this, Bool.or_false]
      · omega
      · push_cast at hle; omega

theorem ordering_step_inv (n i r : Int) (ov : ordering_vars) (hn : n < SEGSIZE)
    (hi1 : 1 ≤ i) (hin : i ≤ n) (hr : 0 ≤ r) (h : ordering_inv n i ov) :
    ordering_inv n (i + 1) (ordering_step n i r ov) := by
  obtain ⟨hsome, ⟨σ, hσout, hσperm, hσst⟩, hused, hub⟩ := h
  have hpos : 0 < n + 1 - i := by omega
  have hm0 : 0 ≤ Int.tmod r (n + 1 - i) := Int.tmod_nonneg _ hr
  have hm1 : Int.tmod r (n + 1 - i) < n + 1 - i := Int.tmod_lt_of_pos r hpos
  generalize hm : Int.tmod r (n + 1 - i) = m0 at hm0 hm1
  have hS : SEGSIZE = 200 := rfl
  have hpm_some : (ov.st (i - 1 + (m0 + 1))).isSome = true := hsome _ (by omega) (by omega)
  have hp1_some : (ov.st (i - 1 + 1)).isSome = true := hsome _ (by omega) (by omega)
  have o1 : outside SEGSIZE (i - 1 + (m0 + 1)) = false := outside_false (by omega) (by omega)
  have o2 : outside SEGSIZE i = false := outside_false (by omega) (by omega)
  have o3 : outside SEGSIZE (i - 1 + 1) = false := outside_false (by omega) (by omega)
  have n1 : (ov.st (i - 1 + (m0 + 1))).isNone = false := by
    cases hx : ov.st (i - 1 + (m0 + 1)) with
    | none => rw [hx] at hpm_some; exact absurd hpm_some (by decide)
    | some v => rfl
  have n2 : (ov.st (i - 1 + 1)).isNone = false := by
    cases hx : ov.st (i - 1 + 1) with
    | none => rw [hx] at hp1_some; exact absurd hp1_some (by decide)
    | some v => rfl
  have e1 : i - 1 + 1 = i := by omega
  have hpmv : ov.st (i - 1 + (m0 + 1)) = some (σ (i - 1 + (m0 + 1))) :=
    hσst _ (by omega) (by omega)
  have hiv : ov.st i = some (σ i) := hσst _ (le_refl _) hin
  by_cases hm1' : m0 + 1 = 1
  · -- m = 1: the value st[i] goes to permute[i], nothing else changes
    have hm00 : m0 = 0 := by omega
    subst hm00
    simp only [ordering_step, hm, ne_eq, not_true_eq_false, if_false, zero_add] 
    refine ⟨hsome, ⟨σ, hσout, ?_, ?_⟩, ?_, ?_⟩
    · intro k hk1 hk2
      by_cases hki : k = i
      · subst hki
        simp only [upd, if_true, e1, hiv, Option.getD_some]
      · simp only [upd, hki, if_false]
        exact hσperm k hk1 (by omega)
    · intro k hk1 hk2
      exact hσst k (by omega) hk2
    · intro x hx
      simp only [List.mem_cons] at hx
      rcases hx with rfl | rfl | hx
      · simp only [Sum.elim_inr, id]; omega
      · simp only [Sum.elim_inl, id]; omega
      · exact hused x hx
    · simp only [zero_add] at n1 o1
      simp only [hub, n1, o1, o2, Bool.or_false]
  · -- m ≠ 1: st[pm] and st[i] are exchanged, as far as the rest of the loop can see
    simp only [ordering_step, hm, ne_eq, hm1', not_false_eq_true, if_true]
    have hne : i - 1 + (m0 + 1) ≠ i := by omega
    refine ⟨?_, ⟨σ * Equiv.swap i (i - 1 + (m0 + 1)), ?_, ?_, ?_⟩, ?_, ?_⟩
    · intro k hk0 hkn
      by_cases hk : k = i - 1 + (m0 + 1)
      · simp only [upd, hk, if_true, e1, hiv, Option.isSome_some]
      · simp only [upd, hk, if_false]
        exact hsome k hk0 hkn
    · intro k hk
      have h1 : k ≠ i := by omega
      have h2 : k ≠ i - 1 + (m0 + 1) := by omega
      simp only [Equiv.Perm.mul_apply, Equiv.swap_apply_of_ne_of_ne h1 h2]
      exact hσout k hk
    · intro k hk1 hk2
      by_cases hki : k = i
      · subst hki
        simp only [upd, if_true, hpmv, Option.getD_some, Equiv.Perm.mul_apply,
          Equiv.swap_apply_left]
      · have h2 : k ≠ i - 1 + (m0 + 1) := by omega
        simp only [upd, hki, if_false, Equiv.Perm.mul_apply,
          Equiv.swap_apply_of_ne_of_ne hki h2]
        exact hσperm k hk1 (by omega)
    · intro k hk1 hk2
      have hki : k ≠ i := by omega
      by_cases hk : k = i - 1 + (m0 + 1)
      · simp only [upd, hk, if_true, e1, hiv, Equiv.Perm.mul_apply, Equiv.swap_apply_right]
      · simp only [upd, hk, if_false, Equiv.Perm.mul_apply,
          Equiv.swap_apply_of_ne_of_ne hki hk]
        exact hσst k (by omega) hk2
    · intro x hx
      simp only [List.mem_cons] at hx
      rcases hx with rfl | rfl | rfl | rfl | hx
      · simp only [Sum.elim_inl, id]; omega
      · simp only [Sum.elim_inl, id]; omega
      · simp only [Sum.elim_inr, id]; omega
      · simp only [Sum.elim_inl, id]; omega
      · exact hused x hx
    · simp only [hub, n1, n2, o1, o2, o3, Bool.or_false]

theorem ordering_loop_inv (rnd : Int → Int) (n : Int) (hn : n < SEGSIZE)
    (hr : ∀ i, 0 ≤ rnd i) :
    ∀ (count : Nat) (i : Int) (ov : ordering_vars), 1 ≤ i → i + count = n + 1 →
      ordering_inv n i ov → ordering_inv n (n + 1) (ordering_loop rnd n count i ov)
  | 0, i, ov, _, hc, h => by
    have : i = n + 1 := by simpa using hc
    subst this
    exact h
  | count + 1, i, ov, hi, hc, h => by
    simp only [ordering_loop]
    exact ordering_loop_inv rnd n hn hr count (i + 1) _ (by omega) (by push_cast at hc; omega)
      (ordering_step_inv n i (rnd i) ov hn hi (by push_cast at hc; omega) (hr i) h)

theorem ordering_run_inv (rnd : Int → Int) (n : Int) (permute0 : Int → Int) (h0 : 0 ≤ n)
    (hn : n < SEGSIZE) (hr : ∀ i, 0 ≤ rnd i) :
    ordering_inv n (n + 1) (ordering_run rnd n permute0) := by
  have hS : SEGSIZE = 200 := rfl
  obtain ⟨f1, f2, f3, f4⟩ := ordering_fill_spec (n + 1).toNat 0
    { st := fun _ => none, permute := permute0, used := [], ub := false }
  have hc : (((n + 1).toNat : Nat) : Int) = n + 1 := Int.toNat_of_nonneg (by omega)
  apply ordering_loop_inv rnd n hn hr n.toNat 1 _ (le_refl _)
    (by rw [Int.toNat_of_nonneg h0]; omega)
  refine ⟨fun k hk0 hkn => ?_, ⟨1, fun _ _ => rfl, fun k hk1 hk2 => by omega, fun k hk1 hk2 => ?_⟩,
    fun x hx => ?_, f4 rfl (le_refl _) (by rw [hc]; omega)⟩
  · rw [f2 k, if_pos ⟨hk0, by rw [hc]; omega⟩]
    rfl
  · rw [f2 k, if_pos ⟨by omega, by rw [hc]; omega⟩]
    rfl
  · rcases f3 x hx with h | ⟨k, rfl, hk1, hk2⟩
    · exact absurd h (List.not_mem_nil _)
    · rw [hc] at hk2
      simp only [Sum.elim_inl, id]
      omega

/-- A function that agrees on `1..n` with a permutation fixing everything outside
`1..n` lists, on `1..n`, a permutation of `1..n`. -/
theorem perm_of_bijection (n : Nat) (f : Int → Int) (σ : Equiv.Perm Int)
    (hout : ∀ k : Int, (k < 1 ∨ (n : Int) < k) → σ k = k)
    (hf : ∀ k : Int, 1 ≤ k → k < (n : Int) + 1 → f k = σ k) :
    List.Perm ((List.range n).map (fun k : Nat => f ((k : Int) + 1)))
      ((List.range n).map (fun k : Nat => (k : Int) + 1)) := by
  have e : (List.range n).map (fun k : Nat => f ((k : Int) + 1))
      = ((List.range n).map (fun k : Nat => (k : Int) + 1)).map σ := by
    rw [List.map_map]
    apply List.map_congr_left
    intro k hk
    have := List.mem_range.mp hk
    exact hf _ (by omega) (by omega)
  rw [e]
  have inj : Function.Injective (fun k : Nat => (k : Int) + 1) := by
    intro a b hab
    simp only [add_left_inj, Nat.cast_inj] at hab
    exact hab
  have nd : ((List.range n).map (fun k : Nat => (k : Int) + 1)).Nodup :=
    (List.nodup_range n).map inj
  have mem : ∀ x : Int, x ∈ (List.range n).map (fun k : Nat => (k : Int) + 1)
      ↔ 1 ≤ x ∧ x ≤ n := by
    intro x
    simp only [List.mem_map, List.mem_range]
    constructor
    · rintro ⟨k, hk, rfl⟩
      omega
    · intro hx
      exact ⟨(x - 1).toNat, by omega, by omega⟩
  apply List.Subperm.perm_of_length_le
  · apply List.subperm_of_subset (nd.map σ.injective)
    intro y hy
    obtain ⟨x, hx, rfl⟩ := List.mem_map.mp hy
    rw [mem] at hx ⊢
    by_contra hcon
    have hfix : σ (σ x) = σ x := hout (σ x) (by omega)
    have : σ x = x := σ.injective hfix
    omega
  · simp only [List.length_map, le_refl]

/-- C10. For every `n` with `0 <= n < SEGSIZE` and all non-negative draws,
`generate_random_ordering` leaves in `permute[1..n]` a permutation of `1..n`, every array
index it uses lies in `[0, n]`, and it reads no unassigned cell and writes no cell
outside the arrays. -/
theorem generate_random_ordering_permutation (rnd : Int → Int) (n : Nat) (st : State)
    (hn : (n : Int) < SEGSIZE) (hr : ∀ i, 0 ≤ rnd i) :
    List.Perm
      ((List.range n).map (fun k : Nat => (generate_random_ordering rnd n st).permute (k + 1)))
      ((List.range n).map (fun k : Nat => (k : Int) + 1)) ∧
    (∀ x ∈ (ordering_run rnd n st.permute).used,
      0 ≤ Sum.elim id id x ∧ Sum.elim id id x ≤ (n : Int)) ∧
    (ordering_run rnd n st.permute).ub = false ∧
    (generate_random_ordering rnd n st).choose_idx = 1 := by
  obtain ⟨_, ⟨σ, hout, hperm, _⟩, hused, hub⟩ :=
    ordering_run_inv rnd n st.permute (Int.ofNat_nonneg n) hn hr
  refine ⟨?_, hused, hub, rfl⟩
  exact perm_of_bijection n _ σ hout (fun k hk1 hk2 => hperm k hk1 hk2)

/-- The statement of C10 at `n = 3` and the draws 2, 0, 1. -/
theorem generate_random_ordering_permutation_witness :
    (((3 : Nat) : Int) < SEGSIZE ∧ ∀ i, 0 ≤ draws [2, 0, 1] i) ∧
    (List.Perm
      ((List.range 3).map
        (fun k : Nat => (generate_random_ordering (draws [2, 0, 1]) (3 : Nat) State.zero).permute (k + 1)))
      ((List.range 3).map (fun k : Nat => (k : Int) + 1)) ∧
    (∀ x ∈ (ordering_run (draws [2, 0, 1]) (3 : Nat) State.zero.permute).used,
      0 ≤ Sum.elim id id x ∧ Sum.elim id id x ≤ ((3 : Nat) : Int)) ∧
    (ordering_run (draws [2, 0, 1]) (3 : Nat) State.zero.permute).ub = false ∧
    (generate_random_ordering (draws [2, 0, 1]) (3 : Nat) State.zero).choose_idx = 1) :=
  ⟨⟨by decide, draws_nonneg _⟩,
    generate_random_ordering_permutation (draws [2, 0, 1]) 3 State.zero (by decide)
      (draws_nonneg _)⟩

/-! ## Arithmetic on finite values -/

theorem Dbl_fin_add (a b : ℚ) : Dbl.fin a + Dbl.fin b = Dbl.fin (a + b) := rfl

theorem Dbl_fin_sub (a b : ℚ) : Dbl.fin a - Dbl.fin b = Dbl.fin (a - b) := by
  show Dbl.add (Dbl.fin a) (Dbl.neg (Dbl.fin b)) = _
  simp only [Dbl.neg, Dbl.add, sub_eq_add_neg]

theorem Dbl_fin_mul (a b : ℚ) : Dbl.fin a * Dbl.fin b = Dbl.fin (a * b) := rfl

theorem Dbl_fin_lt (a b : ℚ) : (Dbl.fin a < Dbl.fin b) ↔ a < b := by
  show Dbl.lt _ _ = true ↔ _
  simp [Dbl.lt]

theorem Dbl_fin_le (a b : ℚ) : (Dbl.fin a ≤ Dbl.fin b) ↔ a ≤ b := by
  show Dbl.le _ _ = true ↔ _
  simp [Dbl.le]

theorem Dbl_fin_gt (a b : ℚ) : (Dbl.fin a > Dbl.fin b) ↔ b < a := Dbl_fin_lt b a

theorem Dbl_fin_ge (a b : ℚ) : (Dbl.fin a ≥ Dbl.fin b) ↔ b ≤ a := Dbl_fin_le b a

theorem C_EPS_eq : C_EPS = Dbl.fin eps := rfl

theorem FP_EQUAL_fin (a b : ℚ) : FP_EQUAL (Dbl.fin a) (Dbl.fin b) = true ↔ |a - b| ≤ eps := by
  simp only [FP_EQUAL, Dbl_fin_sub, Dbl.fabs, C_EPS_eq, Dbl_fin_le, decide_eq_true_eq]

theorem Dbl_gt_iff (a b : Dbl) : (a > b) ↔ Dbl.lt b a = true := Iff.rfl

theorem Dbl_lt_iff (a b : Dbl) : (a < b) ↔ Dbl.lt a b = true := Iff.rfl

theorem Dbl_add_def (a b : Dbl) : a + b = Dbl.add a b := rfl

theorem Dbl_sub_def (a b : Dbl) : a - b = Dbl.add a (Dbl.neg b) := rfl

theorem Dbl_lt_sub_eps (a b : Dbl) : (a < b - C_EPS) ↔ (b > a + C_EPS) := by
  cases a <;> cases b <;>
    simp only [Dbl_gt_iff, Dbl_lt_iff, Dbl_add_def, Dbl_sub_def, C_EPS, Dbl.add, Dbl.neg, Dbl.lt,
      decide_eq_true_eq, Bool.false_eq_true]
  constructor <;> intro h <;> linarith

theorem Dbl_not_both (a b : Dbl) : a > b + C_EPS → b > a + C_EPS → False := by
  cases a <;> cases b <;>
    simp only [Dbl_gt_iff, Dbl_lt_iff, Dbl_add_def, Dbl_sub_def, C_EPS, Dbl.add, Dbl.neg, Dbl.lt,
      decide_eq_true_eq, Bool.false_eq_true, false_implies, implies_true, imp_false,
      not_false_eq_true]
  intro h1 h2; linarith

/-- C12. For all points `a = (ax, ay)` and `b = (bx, by)` with finite coordinates (exact
arithmetic, `eps = 1e-7`): `_greater_than(a, b)` is true iff `ay > by + eps`, or
`|ay - by| <= eps` and `ax > bx`; and `_equal_to(a, b)` is true iff `|ay - by| <= eps` and
`|ax - bx| <= eps`. -/
theorem greater_than_equal_to_spec (ax ay bx by_ : ℚ) :
    (_greater_than (pt ax ay) (pt bx by_) = true ↔
      ay > by_ + eps ∨ (|ay - by_| ≤ eps ∧ ax > bx)) ∧
    (_equal_to (pt ax ay) (pt bx by_) = true ↔ |ay - by_| ≤ eps ∧ |ax - bx| ≤ eps) := by
  constructor
  · simp only [_greater_than, pt, C_EPS_eq, Dbl_fin_add, Dbl_fin_sub, Dbl_fin_gt, Dbl_fin_lt,
      abs_le]
    split_ifs with h1 h2
    · exact ⟨fun _ => Or.inl h1, fun _ => rfl⟩
    · simp only [Bool.false_eq_true, false_iff, not_or, not_and]
      exact ⟨h1, fun h => absurd h.1 (by linarith)⟩
    · simp only [decide_eq_true_eq]
      constructor
      · intro h; right; exact ⟨⟨by linarith, by linarith⟩, h⟩
      · rintro (h | h)
        · exact absurd h h1
        · exact h.2
  · simp only [_equal_to, pt, Bool.and_eq_true, FP_EQUAL_fin]

/-! ## The definitions with rounding -/

theorem greater_than_fl_id : _greater_than_fl id = _greater_than := rfl

theorem less_than_fl_id : _less_than_fl id = _less_than := rfl

theorem greater_than_equal_to_fl_id : _greater_than_equal_to_fl id = _greater_than_equal_to := rfl

theorem equal_to_fl_id : _equal_to_fl id = _equal_to := rfl

theorem max_fl_id : _max_fl id = _max := rfl

theorem min_fl_id : _min_fl id = _min := rfl

theorem is_left_of_fl_id : is_left_of_fl id = is_left_of := rfl

theorem locate_endpoint_fl_id (st : State) (v vo : point_t) :
    ∀ (fuel : Nat) (r : Int), locate_endpoint_fl id st v vo fuel r = locate_endpoint st v vo fuel r := by
  intro fuel
  induction fuel with
  | zero => intro r; rfl
  | succ n ih =>
    intro r
    rw [locate_endpoint_fl, locate_endpoint]
    simp only [ih, greater_than_fl_id, equal_to_fl_id, is_left_of_fl_id]
    rfl

/-- With exact sums the tests on the ordinates agree for every pair of points. -/
theorem ordinate_tests_exact (a b : point_t) :
    (a.y < id (b.y - C_EPS_fl id) ↔ b.y > id (a.y + C_EPS_fl id)) ∧
    (a.y > id (b.y + C_EPS_fl id) ↔ b.y < id (a.y - C_EPS_fl id)) ∧
    ¬ (a.y > id (b.y + C_EPS_fl id) ∧ a.y < id (b.y - C_EPS_fl id)) := by
  refine ⟨Dbl_lt_sub_eps a.y b.y, (Dbl_lt_sub_eps b.y a.y).symm, ?_⟩
  rintro ⟨h1, h2⟩
  exact Dbl_not_both _ _ h1 ((Dbl_lt_sub_eps a.y b.y).mp h2)

/-! ## C13: the ordering predicates agree with each other -/

/-- C14 (counterexample). In `tie_state` node 1 is a Y-node with separator (0,4), left child
3 and right child 2.  The query point `v = (0.00000005, 4)` is `_equal_to` the separator
and the other endpoint `vo = (1, 0)` is not `_greater_than` it, yet `locate_endpoint`
descends into the right child (result: trapezoid 4), not into the left child (which
yields trapezoid 2). -/
theorem locate_endpoint_tie_goes_right :
    (tie_state.qs 1).nodetype = T_Y ∧ (tie_state.qs 1).yval = pt 0 4 ∧
    (tie_state.qs 1).left = 3 ∧ (tie_state.qs 1).right = 2 ∧
    _equal_to (pt (1 / 20000000) 4) (pt 0 4) = true ∧
    _greater_than (pt 1 0) (pt 0 4) = false ∧
    locate_endpoint tie_state (pt (1 / 20000000) 4) (pt 1 0) 10 1 = some 4 ∧
    locate_endpoint tie_state (pt (1 / 20000000) 4) (pt 1 0) 9 2 = some 4 ∧
    locate_endpoint tie_state (pt (1 / 20000000) 4) (pt 1 0) 9 3 = some 2 := by
  decide!

/-- C14 (amended). At a Y-node with separator `yval` and a query point `v` with
`_equal_to(v, yval)`, `locate_endpoint` descends into the right child when
`_greater_than(v, yval)` or `_greater_than(vo, yval)`, and into the left child otherwise:
the other endpoint `vo` alone decides only for a `v` that is not `_greater_than` the
separator. -/
theorem locate_endpoint_tie (st : State) (v vo : point_t) (fuel : Nat) (r : Int)
    (hy : (st.qs r).nodetype = T_Y) (he : _equal_to v (st.qs r).yval = true) :
    locate_endpoint st v vo (fuel + 1) r =
      if _greater_than v (st.qs r).yval = true ∨ _greater_than vo (st.qs r).yval = true then
        locate_endpoint st v vo fuel (st.qs r).right
      else locate_endpoint st v vo fuel (st.qs r).left := by
  have h3 : ¬ (T_Y = T_SINK) := by decide
  rw [locate_endpoint]
  simp only [hy, h3, if_false, if_true, he]
  by_cases h1 : _greater_than v (st.qs r).yval = true
  · simp only [h1, if_true, true_or]
  · simp only [Bool.not_eq_true] at h1
    simp only [h1, Bool.false_eq_true, if_false, false_or]

/-- The tie rule of C14 at node 1 of `tie_state`, for the query point (0,4) itself. -/
theorem locate_endpoint_tie_witness :
    locate_endpoint tie_state (pt 0 4) (pt 1 0) (9 + 1) 1 =
      if _greater_than (pt 0 4) (tie_state.qs 1).yval = true ∨
          _greater_than (pt 1 0) (tie_state.qs 1).yval = true then
        locate_endpoint tie_state (pt 0 4) (pt 1 0) 9 (tie_state.qs 1).right
      else locate_endpoint tie_state (pt 0 4) (pt 1 0) 9 (tie_state.qs 1).left :=
  locate_endpoint_tie tie_state (pt 0 4) (pt 1 0) 9 1 (by decide!) (by decide!)

/-! ## C19: `inside_polygon` -/

/-- C19 (counterexample). `boxed_trap` is VALID, has a segment on either side, an upper and
a lower neighbour and is no triangle, yet `inside_polygon` is false for it; and
`stateless_trap`, whose state is not VALID, is accepted. -/
theorem inside_polygon_rejects_boxed :
    (boxed_trap.state = ST_VALID ∧ 0 < boxed_trap.lseg ∧ 0 < boxed_trap.rseg ∧
      0 < boxed_trap.u0 ∧ 0 < boxed_trap.d0 ∧
      ¬ ((boxed_trap.u0 ≤ 0 ∧ boxed_trap.u1 ≤ 0) ∨ (boxed_trap.d0 ≤ 0 ∧ boxed_trap.d1 ≤ 0)) ∧
      inside_polygon upward_seg_state boxed_trap = false) ∧
    (stateless_trap.state ≠ ST_VALID ∧ inside_polygon upward_seg_state stateless_trap = true) := by
  decide!

/-- C19 (amended). `inside_polygon(t)` is true iff `t.state` is not INVALID, `t.lseg > 0`,
`t.rseg > 0`, `t` is a triangle (both upper neighbours `<= 0` or both lower neighbours
`<= 0`) and `_greater_than(seg[t.rseg].v1, seg[t.rseg].v0)`. -/
theorem inside_polygon_iff (st : State) (t : trap_t) :
    inside_polygon st t = true ↔
      t.state ≠ ST_INVALID ∧ 0 < t.lseg ∧ 0 < t.rseg ∧
      ((t.u0 ≤ 0 ∧ t.u1 ≤ 0) ∨ (t.d0 ≤ 0 ∧ t.d1 ≤ 0)) ∧
      _greater_than (st.seg t.rseg).v1 (st.seg t.rseg).v0 = true := by
  unfold inside_polygon
  dsimp only
  split_ifs with h1 h2 h3
  · simp [h1]
  · simp only [Bool.false_eq_true, false_iff, not_and]
    intro _ hl hr
    rcases h2 with h | h <;> omega
  · simp only [ne_eq, h1, not_false_eq_true, true_and]
    push_neg at h2
    exact ⟨fun h => ⟨h2.1, h2.2, h3, h⟩, fun h => h.2.2.2⟩
  · simp only [Bool.false_eq_true, false_iff, not_and]
    intro _ _ _ h
    exact absurd h h3

/-! ## C20: `is_left_of` -/

/-- The trapezoidation of the thin triangle, a contour that is degenerate at the tolerance,
in the insertion order 2, 1, 3 (the first list) sets no `ub` flag and ends with the VALID
trapezoids 4 and 5 linked in one direction only: `tr[4].d0 = 5` and `tr[4].d1 = 8` (second
list: state, `d0`, `d1` of trapezoid 4), but both `tr[5].u0` and `tr[5].u1` are -1 (third
list: state, `u0`, `u1` of trapezoid 5); likewise `tr[6].u0 = 4` (fourth list) although
neither lower neighbour of trapezoid 4 is 6. -/
theorem thin_links_asymmetric :
    thin_trapezoidation.map (fun st =>
      (st.ub, [st.permute 1, st.permute 2, st.permute 3],
        [(st.tr 4).state, (st.tr 4).d0, (st.tr 4).d1],
        [(st.tr 5).state, (st.tr 5).u0, (st.tr 5).u1],
        [(st.tr 6).state, (st.tr 6).u0, (st.tr 6).u1])) =
      some (false, [2, 1, 3], [ST_VALID, 5, 8], [ST_VALID, -1, -1], [ST_VALID, 4, 0]) := by
  decide!

/-! ## C11: the chains built by the ingest loop -/

theorem seg_set_seg_ne (st : State) (i j : Int) (f : segment_t → segment_t) (h : j ≠ i) :
    (st.seg_set i f).seg j = st.seg j := by
  show upd st.seg i _ j = _
  unfold upd
  rw [if_neg h]

theorem seg_set_seg_eq (st : State) (i : Int) (f : segment_t → segment_t) :
    (st.seg_set i f).seg i = f (st.seg i) := by
  show upd st.seg i _ i = _
  unfold upd
  rw [if_pos rfl]

theorem ingest_vertex_other (vertices : Int → Int → Dbl) (first last i j : Int) (st : State)
    (h1 : j ≠ i)
    (h : j ≠ (if i = last then i - 1 else if i = first then last else i - 1)) :
    (ingest_vertex vertices first last i st).seg j = st.seg j := by
  unfold ingest_vertex
  by_cases a : i = last
  · rw [if_pos a] at h
    simp only [if_pos a, seg_set_seg_ne _ _ _ _ h1, seg_set_seg_ne _ _ _ _ h]
  · by_cases b : i = first
    · rw [if_neg a, if_pos b] at h
      simp only [if_pos b, if_neg a, seg_set_seg_ne _ _ _ _ h1, seg_set_seg_ne _ _ _ _ h]
    · rw [if_neg a, if_neg b] at h
      simp only [if_neg b, if_neg a, seg_set_seg_ne _ _ _ _ h1, seg_set_seg_ne _ _ _ _ h]

theorem ingest_vertex_self (vertices : Int → Int → Dbl) (first last i : Int) (st : State)
    (hf : first < last) :
    ((ingest_vertex vertices first last i st).seg i).v0 = vertex vertices i ∧
    ((ingest_vertex vertices first last i st).seg i).next = (if i = last then first else i + 1) ∧
    ((ingest_vertex vertices first last i st).seg i).prev = (if i = first then last else i - 1) ∧
    ((ingest_vertex vertices first last i st).seg i).is_inserted = false := by
  have e1 : i ≠ i - 1 := by omega
  unfold ingest_vertex
  by_cases a : i = last
  · have b : i ≠ first := by omega
    simp only [if_pos a, if_neg b, seg_set_seg_eq, seg_set_seg_ne _ _ _ _ e1, vertex]
    exact ⟨trivial, trivial, trivial, trivial⟩
  · by_cases b : i = first
    · simp only [if_pos b, if_neg a, seg_set_seg_eq, seg_set_seg_ne _ _ _ _ a, vertex]
      exact ⟨trivial, trivial, trivial, trivial⟩
    · simp only [if_neg b, if_neg a, seg_set_seg_eq, seg_set_seg_ne _ _ _ _ e1, vertex]
      exact ⟨trivial, trivial, trivial, trivial⟩

/-- Fields other than `v1` of the other segments are kept. -/
theorem ingest_vertex_keeps (vertices : Int → Int → Dbl) (first last i j : Int) (st : State)
    (h : j ≠ i) :
    ((ingest_vertex vertices first last i st).seg j).v0 = (st.seg j).v0 ∧
    ((ingest_vertex vertices first last i st).seg j).next = (st.seg j).next ∧
    ((ingest_vertex vertices first last i st).seg j).prev = (st.seg j).prev ∧
    ((ingest_vertex vertices first last i st).seg j).is_inserted = (st.seg j).is_inserted := by
  unfold ingest_vertex
  by_cases a : i = last
  · simp only [if_pos a, seg_set_seg_ne _ _ _ _ h]
    by_cases c : j = i - 1
    · subst c
      simp only [seg_set_seg_eq, seg_set_seg_ne _ _ _ _ h]
      exact ⟨trivial, trivial, trivial, trivial⟩
    · simp only [seg_set_seg_ne _ _ _ _ c, seg_set_seg_ne _ _ _ _ h]
      exact ⟨trivial, trivial, trivial, trivial⟩
  · by_cases b : i = first
    · simp only [if_pos b, if_neg a, seg_set_seg_ne _ _ _ _ h]
      by_cases c : j = last
      · subst c
        simp only [seg_set_seg_eq, seg_set_seg_ne _ _ _ _ h]
        exact ⟨trivial, trivial, trivial, trivial⟩
      · simp only [seg_set_seg_ne _ _ _ _ c, seg_set_seg_ne _ _ _ _ h]
        exact ⟨trivial, trivial, trivial, trivial⟩
    · simp only [if_neg b, if_neg a, seg_set_seg_ne _ _ _ _ h]
      by_cases c : j = i - 1
      · subst c
        simp only [seg_set_seg_eq, seg_set_seg_ne _ _ _ _ h]
        exact ⟨trivial, trivial, trivial, trivial⟩
      · simp only [seg_set_seg_ne _ _ _ _ c, seg_set_seg_ne _ _ _ _ h]
        exact ⟨trivial, trivial, trivial, trivial⟩

/-- The one `v1` that pass `i` assigns. -/
theorem ingest_vertex_v1 (vertices : Int → Int → Dbl) (first last i : Int) (st : State) :
    ((ingest_vertex vertices first last i st).seg (if i = last then i - 1
        else if i = first then last else i - 1)).v1 = vertex vertices i := by
  have e1 : i - 1 ≠ i := by omega
  have e2 : i ≠ i - 1 := by omega
  unfold ingest_vertex
  by_cases a : i = last
  · simp only [if_pos a, seg_set_seg_ne _ _ _ _ e1, seg_set_seg_eq, seg_set_seg_ne _ _ _ _ e2,
      vertex]
  · have a' : last ≠ i := fun h => a h.symm
    by_cases b : i = first
    · simp only [if_pos b, if_neg a, seg_set_seg_ne _ _ _ _ a', seg_set_seg_eq,
        seg_set_seg_ne _ _ _ _ a, vertex]
    · simp only [if_neg b, if_neg a, seg_set_seg_ne _ _ _ _ e1, seg_set_seg_eq,
        seg_set_seg_ne _ _ _ _ e2, vertex]

/-- Every other `v1` is kept. -/
theorem ingest_vertex_v1_keeps (vertices : Int → Int → Dbl) (first last i j : Int) (st : State)
    (h : j ≠ (if i = last then i - 1 else if i = first then last else i - 1)) :
    ((ingest_vertex vertices first last i st).seg j).v1 = (st.seg j).v1 := by
  unfold ingest_vertex
  by_cases a : i = last
  · rw [if_pos a] at h
    simp only [if_pos a]
    by_cases c : j = i
    · subst c
      simp only [seg_set_seg_eq, seg_set_seg_ne _ _ _ _ h]
    · simp only [seg_set_seg_ne _ _ _ _ c, seg_set_seg_ne _ _ _ _ h]
  · by_cases b : i = first
    · rw [if_neg a, if_pos b] at h
      simp only [if_pos b, if_neg a]
      by_cases c : j = i
      · subst c
        simp only [seg_set_seg_eq, seg_set_seg_ne _ _ _ _ h]
      · simp only [seg_set_seg_ne _ _ _ _ c, seg_set_seg_ne _ _ _ _ h]
    · rw [if_neg a, if_neg b] at h
      simp only [if_neg b, if_neg a]
      by_cases c : j = i
      · subst c
        simp only [seg_set_seg_eq, seg_set_seg_ne _ _ _ _ h]
      · simp only [seg_set_seg_ne _ _ _ _ c, seg_set_seg_ne _ _ _ _ h]

theorem ingest_inv_step (vertices : Int → Int → Dbl) (first last : Int) (st0 : State) (i : Int)
    (s : State) (hf : first < last) (h1 : first ≤ i) (h2 : i ≤ last)
    (h : ingest_inv vertices first last st0 i s) :
    ingest_inv vertices first last st0 (i + 1) (ingest_vertex vertices first last i s) := by
  obtain ⟨hA, hB, hC, hD⟩ := h
  refine ⟨?_, ?_, ?_, ?_⟩
  · intro j hj
    rw [ingest_vertex_other vertices first last i j s (by omega) (by split_ifs <;> omega)]
    exact hA j hj
  · intro j hj1 hj2
    by_cases e : j = i
    · subst e
      exact ingest_vertex_self vertices first last j s hf
    · obtain ⟨k1, k2, k3, k4⟩ := ingest_vertex_keeps vertices first last i j s e
      rw [k1, k2, k3, k4]
      exact hB j hj1 (by omega)
  · intro j hj1 hj2
    by_cases e : j + 1 = i
    · have hi : i ≠ first := by omega
      have := ingest_vertex_v1 vertices first last i s
      have e3 : (if i = last then i - 1 else if i = first then last else i - 1) = j := by
        split_ifs <;> omega
      rw [e3] at this
      rw [this, e]
    · rw [ingest_vertex_v1_keeps vertices first last i j s (by split_ifs <;> omega)]
      exact hC j hj1 (by omega)
  · intro _
    by_cases e : i = first
    · have := ingest_vertex_v1 vertices first last i s
      have e3 : (if i = last then i - 1 else if i = first then last else i - 1) = last := by
        split_ifs <;> omega
      rw [e3] at this
      rw [this, e]
    · rw [ingest_vertex_v1_keeps vertices first last i last s (by split_ifs <;> omega)]
      exact hD (by omega)

theorem ingest_loop_inv (vertices : Int → Int → Dbl) (first last : Int) (st0 : State)
    (hf : first < last) :
    ∀ (count : Nat) (i : Int) (s : State), i + count = last + 1 → first ≤ i →
      ingest_inv vertices first last st0 i s →
      ∃ s', for_loop (fun i st => some (ingest_vertex vertices first last i st)) count i s
          = some s' ∧ ingest_inv vertices first last st0 (last + 1) s' := by
  intro count
  induction count with
  | zero =>
    intro i s hi _ h
    have : i = last + 1 := by simpa using hi
    subst this
    exact ⟨s, rfl, h⟩
  | succ n ih =>
    intro i s hi h1 h
    have hi' : i + 1 + (n : Int) = last + 1 := by push_cast at hi; omega
    exact ih (i + 1) _ hi' (by omega)
      (ingest_inv_step vertices first last st0 i s hf h1 (by push_cast at hi; omega) h)

theorem ingest_inv_start (vertices : Int → Int → Dbl) (first last : Int) (st0 : State) :
    ingest_inv vertices first last st0 first st0 :=
  ⟨fun _ _ => rfl, fun j h1 h2 => absurd h2 (by omega), fun j h1 h2 => absurd h2 (by omega),
    fun h => absurd h (by omega)⟩

theorem contour_linked_of_inv (vertices : Int → Int → Dbl) (first last : Int) (st0 s : State)
    (hf : first < last) (h : ingest_inv vertices first last st0 (last + 1) s) :
    contour_linked vertices first last s := by
  obtain ⟨_, hB, hC, hD⟩ := h
  intro j h1 h2
  obtain ⟨k1, k2, k3, k4⟩ := hB j h1 (by omega)
  refine ⟨k1, k2, k3, k4, ?_⟩
  by_cases e : j = last
  · rw [if_pos e, e]; exact hD (by omega)
  · rw [if_neg e]; exact hC j h1 (by omega)

theorem contour_linked_congr (vertices : Int → Int → Dbl) (first last : Int) (s s' : State)
    (h : ∀ j, first ≤ j → j ≤ last → s'.seg j = s.seg j)
    (hl : contour_linked vertices first last s) : contour_linked vertices first last s' := by
  intro j h1 h2
  rw [h j h1 h2]
  exact hl j h1 h2

theorem contour_first_mono (cntr : Int → Int) (c : Nat) :
    contour_first cntr c ≤ contour_first cntr (c + 1) := by
  show _ ≤ contour_first cntr c + ((cntr c).toNat : Int)
  omega

theorem contour_first_le (cntr : Int → Int) (a : Nat) :
    ∀ b : Nat, a ≤ b → contour_first cntr a ≤ contour_first cntr b := by
  intro b hab
  induction b with
  | zero =>
    have : a = 0 := by omega
    subst this; exact le_refl _
  | succ n ih =>
    by_cases e : a = n + 1
    · subst e; exact le_refl _
    · exact le_trans (ih (by omega)) (contour_first_mono cntr n)

theorem ingest_contours_spec (cntr : Int → Int) (vertices : Int → Int → Dbl) :
    ∀ (count c : Nat) (st : State),
      (∀ c' : Nat, c ≤ c' → c' < c + count → 2 ≤ cntr c') →
      (ingest_contours cntr vertices count c (contour_first cntr c) st).1
        = contour_first cntr (c + count) ∧
      (∀ j, j < contour_first cntr c →
        (ingest_contours cntr vertices count c (contour_first cntr c) st).2.seg j = st.seg j) ∧
      (∀ c' : Nat, c ≤ c' → c' < c + count →
        contour_linked vertices (contour_first cntr c') (contour_first cntr (c' + 1) - 1)
          (ingest_contours cntr vertices count c (contour_first cntr c) st).2) := by
  intro count
  induction count with
  | zero =>
    intro c st _
    exact ⟨rfl, fun _ _ => rfl, fun c' h1 h2 => absurd h2 (by omega)⟩
  | succ n ih =>
    intro c st hc
    have h2 : 2 ≤ cntr c := hc c (le_refl _) (by omega)
    have hn : ((cntr c).toNat : Int) = cntr c := Int.toNat_of_nonneg (by omega)
    have hf : contour_first cntr c < contour_first cntr c + cntr c - 1 := by omega
    obtain ⟨s', e1, e2⟩ := ingest_loop_inv vertices (contour_first cntr c)
      (contour_first cntr c + cntr c - 1) st hf (cntr c).toNat (contour_first cntr c) st
      (by omega) (le_refl _) (ingest_inv_start vertices _ _ st)
    have hl := contour_linked_of_inv vertices _ _ st s' hf e2
    have hu : ingest_contours cntr vertices (n + 1) c (contour_first cntr c) st
        = ingest_contours cntr vertices n ((c + 1 : Nat) : Int) (contour_first cntr (c + 1)) s' := by
      rw [ingest_contours]
      simp only [e1]
      rfl
    rw [hu]
    obtain ⟨i1, i2, i3⟩ := ih (c + 1) s' (fun c' a b => hc c' (by omega) (by omega))
    have hle : contour_first cntr (c + 1) = contour_first cntr c + cntr c := by
      show contour_first cntr c + ((cntr c).toNat : Int) = _
      rw [hn]
    refine ⟨?_, ?_, ?_⟩
    · rw [i1]; congr 1; omega
    · intro j hj
      rw [i2 j (by omega)]
      exact e2.1 j (Or.inl hj)
    · intro c' a b
      by_cases e : c' = c
      · subst e
        refine contour_linked_congr vertices _ _ s' _ (fun j _ hj => i2 j (by omega)) ?_
        rw [hle]
        exact hl
      · exact i3 c' (by omega) (by omega)

theorem contour_cover (cntr : Int → Int) :
    ∀ (n : Nat) (i : Int), 1 ≤ i → i < contour_first cntr n →
      ∃ c : Nat, c < n ∧ contour_first cntr c ≤ i ∧ i < contour_first cntr (c + 1) := by
  intro n
  induction n with
  | zero => intro i h1 h2; exact absurd h2 (by show ¬ i < 1; omega)
  | succ m ih =>
    intro i h1 h2
    by_cases e : i < contour_first cntr m
    · obtain ⟨c, a, b, d⟩ := ih i h1 e
      exact ⟨c, by omega, b, d⟩
    · exact ⟨m, by omega, by omega, h2⟩

theorem contour_linked_iterate (vertices : Int → Int → Dbl) (first last : Int) (s : State)
    (hf : first < last) (hl : contour_linked vertices first last s) (i : Int)
    (h1 : first ≤ i) (h2 : i ≤ last) :
    ∀ k : Nat, (k : Int) ≤ last + 1 - first →
      (fun j => (s.seg j).next)^[k] i
        = if i + k ≤ last then i + k else i + k - (last + 1 - first) := by
  intro k
  induction k with
  | zero =>
    intro _
    simp only [Function.iterate_zero, id_eq, Nat.cast_zero, add_zero, if_pos h2]
  | succ n ih =>
    intro hk
    rw [Function.iterate_succ_apply', ih (by push_cast at hk; omega)]
    push_cast at hk ⊢
    by_cases a : i + n ≤ last
    · rw [if_pos a, (hl (i + n) (by omega) a).2.1]
      split_ifs <;> omega
    · rw [if_neg a, (hl (i + n - (last + 1 - first)) (by omega) (by omega)).2.1]
      split_ifs <;> omega

theorem seg_set_ub (st : State) (i : Int) (f : segment_t → segment_t) :
    (st.seg_set i f).ub = (st.ub || outside SEGSIZE i) := rfl

theorem ingest_vertex_ub (vertices : Int → Int → Dbl) (first last i : Int) (st : State)
    (h1 : 1 ≤ first) (h2 : first ≤ i) (h3 : i ≤ last) (h4 : last < SEGSIZE) (hf : first < last) :
    (ingest_vertex vertices first last i st).ub = st.ub := by
  have o1 : outside SEGSIZE i = false := outside_false (by omega) (by omega)
  have o2 : outside SEGSIZE last = false := outside_false (by omega) (by omega)
  unfold ingest_vertex
  by_cases a : i = last
  · have o3 : outside SEGSIZE (i - 1) = false := outside_false (by omega) (by omega)
    simp only [if_pos a, seg_set_ub, o1, o3, Bool.or_false]
  · by_cases b : i = first
    · simp only [if_neg a, if_pos b, seg_set_ub, o1, o2, Bool.or_false]
    · have o3 : outside SEGSIZE (i - 1) = false := outside_false (by omega) (by omega)
      simp only [if_neg a, if_neg b, seg_set_ub, o1, o3, Bool.or_false]

theorem ingest_loop_ub (vertices : Int → Int → Dbl) (first last : Int)
    (h1 : 1 ≤ first) (h4 : last < SEGSIZE) (hf : first < last) :
    ∀ (count : Nat) (i : Int) (s s' : State), i + count = last + 1 → first ≤ i →
      for_loop (fun i st => some (ingest_vertex vertices first last i st)) count i s = some s' →
      s'.ub = s.ub := by
  intro count
  induction count with
  | zero =>
    intro i s s' _ _ h
    injection h with h
    rw [← h]
  | succ n ih =>
    intro i s s' hi h2 h
    have h3 : i ≤ last := by push_cast at hi; omega
    rw [ih (i + 1) _ s' (by push_cast at hi; omega) (by omega) h]
    exact ingest_vertex_ub vertices first last i s h1 h2 h3 h4 hf

theorem ingest_contours_ub (cntr : Int → Int) (vertices : Int → Int → Dbl) :
    ∀ (count c : Nat) (st : State),
      (∀ c' : Nat, c ≤ c' → c' < c + count → 2 ≤ cntr c') →
      contour_first cntr (c + count) ≤ SEGSIZE →
      (ingest_contours cntr vertices count c (contour_first cntr c) st).2.ub = st.ub := by
  intro count
  induction count with
  | zero => intro c st _ _; rfl
  | succ n ih =>
    intro c st hc hs
    have h2 : 2 ≤ cntr c := hc c (le_refl _) (by omega)
    have hn : ((cntr c).toNat : Int) = cntr c := Int.toNat_of_nonneg (by omega)
    have hf : contour_first cntr c < contour_first cntr c + cntr c - 1 := by omega
    have hle : contour_first cntr (c + 1) = contour_first cntr c + cntr c := by
      show contour_first cntr c + ((cntr c).toNat : Int) = _
      rw [hn]
    have h1 : 1 ≤ contour_first cntr c := contour_first_le cntr 0 c (Nat.zero_le _)
    have hm : contour_first cntr (c + 1) ≤ contour_first cntr (c + (n + 1)) :=
      contour_first_le cntr (c + 1) (c + (n + 1)) (by omega)
    obtain ⟨s', e1, _⟩ := ingest_loop_inv vertices (contour_first cntr c)
      (contour_first cntr c + cntr c - 1) st hf (cntr c).toNat (contour_first cntr c) st
      (by omega) (le_refl _) (ingest_inv_start vertices _ _ st)
    have hu : ingest_contours cntr vertices (n + 1) c (contour_first cntr c) st
        = ingest_contours cntr vertices n ((c + 1 : Nat) : Int) (contour_first cntr (c + 1)) s' := by
      rw [ingest_contours]
      simp only [e1]
      rfl
    rw [hu, ih (c + 1) s' (fun c' a b => hc c' (by omega) (by omega))
      (by rw [show c + 1 + n = c + (n + 1) by omega]; exact hs)]
    exact ingest_loop_ub vertices _ _ h1 (by omega) hf _ _ st s' (by omega) (le_refl _) e1

/-- C11. For every contour table with `cntr[c] >= 2` for the `ncontours` contours, after the
ingest loop of `triangulate_polygon` (whatever the segment table held before) the running
index is 1 plus the total `n`, and every segment `i` in `1..n` lies in the index range of
one contour `c` and has `v0 = vertices[i]`, `v1 = seg[seg[i].next].v0`,
`seg[seg[i].next].prev = i`, `seg[seg[i].prev].next = i`, `is_inserted = false`, `next` and
`prev` inside the index range of contour `c`, and following `next` from `i` returns to `i`
after `cntr[c]` steps and not before.  When `n < SEGSIZE` the loop writes inside the table
only (the flag `ub` is left as it was). -/
theorem ingest_contours_chains (cntr : Int → Int) (vertices : Int → Int → Dbl)
    (ncontours : Nat) (st : State) (hc : ∀ c : Nat, c < ncontours → 2 ≤ cntr c) :
    (ingest_contours cntr vertices ncontours 0 1 st).1 = contour_first cntr ncontours ∧
    ((ingest_contours cntr vertices ncontours 0 1 st).1 - 1 < SEGSIZE →
      (ingest_contours cntr vertices ncontours 0 1 st).2.ub = st.ub) ∧
    ∀ i, 1 ≤ i → i ≤ (ingest_contours cntr vertices ncontours 0 1 st).1 - 1 →
      ∃ c : Nat, c < ncontours ∧ contour_first cntr c ≤ i ∧ i < contour_first cntr (c + 1) ∧
        ((ingest_contours cntr vertices ncontours 0 1 st).2.seg i).v0 = vertex vertices i ∧
        ((ingest_contours cntr vertices ncontours 0 1 st).2.seg i).v1 =
          ((ingest_contours cntr vertices ncontours 0 1 st).2.seg
            ((ingest_contours cntr vertices ncontours 0 1 st).2.seg i).next).v0 ∧
        ((ingest_contours cntr vertices ncontours 0 1 st).2.seg
            ((ingest_contours cntr vertices ncontours 0 1 st).2.seg i).next).prev = i ∧
        ((ingest_contours cntr vertices ncontours 0 1 st).2.seg
            ((ingest_contours cntr vertices ncontours 0 1 st).2.seg i).prev).next = i ∧
        ((ingest_contours cntr vertices ncontours 0 1 st).2.seg i).is_inserted = false ∧
        (contour_first cntr c ≤ ((ingest_contours cntr vertices ncontours 0 1 st).2.seg i).next ∧
          ((ingest_contours cntr vertices ncontours 0 1 st).2.seg i).next
            < contour_first cntr (c + 1)) ∧
        (contour_first cntr c ≤ ((ingest_contours cntr vertices ncontours 0 1 st).2.seg i).prev ∧
          ((ingest_contours cntr vertices ncontours 0 1 st).2.seg i).prev
            < contour_first cntr (c + 1)) ∧
        (fun j => ((ingest_contours cntr vertices ncontours 0 1 st).2.seg j).next)^[(cntr c).toNat] i
          = i ∧
        ∀ k : Nat, 0 < k → k < (cntr c).toNat →
          (fun j => ((ingest_contours cntr vertices ncontours 0 1 st).2.seg j).next)^[k] i ≠ i := by
  have hc' : ∀ c' : Nat, 0 ≤ c' → c' < 0 + ncontours → 2 ≤ cntr c' :=
    fun c' _ h => hc c' (by omega)
  obtain ⟨r1, _, r3⟩ := ingest_contours_spec cntr vertices ncontours 0 st hc'
  have rub := ingest_contours_ub cntr vertices ncontours 0 st hc'
  simp only [Nat.zero_add, Nat.cast_zero] at r1 r3 rub
  have cf0 : contour_first cntr 0 = 1 := rfl
  rw [cf0] at r1 r3 rub
  generalize ingest_contours cntr vertices ncontours 0 1 st = r at r1 r3 rub ⊢
  refine ⟨r1, fun h => rub (by omega), ?_⟩
  intro i h1 h2
  obtain ⟨c, a, b, d⟩ := contour_cover cntr ncontours i h1 (by omega)
  have h2c : 2 ≤ cntr c := hc c a
  have hn : ((cntr c).toNat : Int) = cntr c := Int.toNat_of_nonneg (by omega)
  have hle : contour_first cntr (c + 1) = contour_first cntr c + cntr c := by
    show contour_first cntr c + ((cntr c).toNat : Int) = _
    rw [hn]
  have hl := r3 c (Nat.zero_le _) a
  have hf : contour_first cntr c < contour_first cntr (c + 1) - 1 := by omega
  obtain ⟨k1, k2, k3, k4, k5⟩ := hl i b (by omega)
  have hnx : contour_first cntr c ≤ (r.2.seg i).next ∧
      (r.2.seg i).next ≤ contour_first cntr (c + 1) - 1 := by
    rw [k2]; split_ifs <;> omega
  have hpv : contour_first cntr c ≤ (r.2.seg i).prev ∧
      (r.2.seg i).prev ≤ contour_first cntr (c + 1) - 1 := by
    rw [k3]; split_ifs <;> omega
  have ln := hl _ hnx.1 hnx.2
  have lp := hl _ hpv.1 hpv.2
  refine ⟨c, a, b, d, k1, ?_, ?_, ?_, k4, ⟨hnx.1, by omega⟩, ⟨hpv.1, by omega⟩, ?_, ?_⟩
  · rw [k5, ln.1, k2]
  · rw [ln.2.2.1, k2]; split_ifs <;> omega
  · rw [lp.2.1, k3]; split_ifs <;> omega
  · rw [contour_linked_iterate vertices _ _ r.2 hf hl i b (by omega) (cntr c).toNat (by omega)]
    split_ifs <;> omega
  · intro k k0 k1'
    rw [contour_linked_iterate vertices _ _ r.2 hf hl i b (by omega) k (by omega)]
    split_ifs <;> omega

/-- The chains of C11 for the two contours of the square with the square hole. -/
theorem ingest_contours_chains_witness :
    (∀ c : Nat, c < 2 → 2 ≤ hole_square_cntr c) ∧
    (ingest_contours hole_square_cntr hole_square_vertices 2 0 1 State.zero).1
      = contour_first hole_square_cntr 2 :=
  ⟨by decide, (ingest_contours_chains hole_square_cntr hole_square_vertices 2 State.zero
    (by decide)).1⟩

/-! ## Frames: what the trapezoidation leaves alone -/

section blind_alloc

attribute [local irreducible] newnode newtrap State.qs_set State.tr_set State.seg_set State.read
  add_segment_upper add_segment_lower_d0 add_segment_lower_d1 add_segment_lower_2

end blind_alloc

section blind_init

attribute [local irreducible] newnode newtrap State.qs_set State.tr_set State.seg_set

end blind_init

theorem add_segments_logged_erase (fuel : Nat) :
    ∀ (count : Nat) (i : Int) (st : State) (log : List Call),
      (for_loop_logged
        (fun _ sl =>
          let (sn, st) := choose_segment sl.1
          (add_segment fuel sn st).map (fun st => (st, sl.2 ++ [Call.add_segment sn])))
        count i (st, log)).map Prod.fst =
      for_loop (fun _ st => let (sn, st) := choose_segment st; add_segment fuel sn st)
        count i st := by
  intro count
  induction count with
  | zero => intro i st log; rfl
  | succ n ih =>
    intro i st log
    unfold for_loop for_loop_logged
    dsimp only
    cases h : add_segment fuel (choose_segment st).1 (choose_segment st).2 with
    | none => rfl
    | some s1 =>
      simp only [Option.map_some']
      exact ih _ _ _

theorem construct_rounds_logged_erase (fuel : Nat) (nseg lsn : Int) (N : List (Option Int)) :
    ∀ (k : Nat) (h : Int) (st : State) (log : List Call),
      (construct_rounds_logged fuel nseg lsn N k h (st, log)).map Prod.fst =
        construct_rounds fuel nseg lsn N k h st := by
  intro k
  induction k with
  | zero => intro h st log; rfl
  | succ n ih =>
    intro h st log
    unfold construct_rounds construct_rounds_logged
    split_ifs with hle
    · dsimp only
      have e1 := add_segments_logged_erase fuel
        (((st.read ((N.getD (h - 1).toNat none).map (· + 1))).2.read (N.getD h.toNat none)).1 + 1
          - (st.read ((N.getD (h - 1).toNat none).map (· + 1))).1).toNat
        (st.read ((N.getD (h - 1).toNat none).map (· + 1))).1
        ((st.read ((N.getD (h - 1).toNat none).map (· + 1))).2.read (N.getD h.toNat none)).2 log
      unfold add_segments add_segments_logged
      rw [← e1]
      cases h1 : for_loop_logged
        (fun _ sl =>
          let (sn, st) := choose_segment sl.1
          (add_segment fuel sn st).map (fun st => (st, sl.2 ++ [Call.add_segment sn])))
        (((st.read ((N.getD (h - 1).toNat none).map (· + 1))).2.read (N.getD h.toNat none)).1 + 1
          - (st.read ((N.getD (h - 1).toNat none).map (· + 1))).1).toNat
        (st.read ((N.getD (h - 1).toNat none).map (· + 1))).1
        (((st.read ((N.getD (h - 1).toNat none).map (· + 1))).2.read (N.getD h.toNat none)).2, log) with
      | none => rfl
      | some sl =>
        simp only [Option.map_some']
        cases h2 : find_all_new_roots fuel nseg sl.1 with
        | none => rfl
        | some s2 => exact ih _ _ _
    · rfl

/-- The logged copy returns exactly when `construct_trapezoids` does, with the same
state. -/
theorem construct_trapezoids_logged_erase (log2 : Dbl → Dbl) (fuel : Nat) (nseg : Int)
    (st : State) :
    (construct_trapezoids_logged log2 fuel nseg st).map Prod.fst =
      construct_trapezoids log2 fuel nseg st := by
  unfold construct_trapezoids construct_trapezoids_logged
  cases hs : schedule log2 fuel nseg with
  | none => rfl
  | some x =>
    obtain ⟨lsn, N⟩ := x
    dsimp only
    cases h1 : set_roots nseg (init_query_structure (choose_segment st).1 (choose_segment st).2).1
        (init_query_structure (choose_segment st).1 (choose_segment st).2).2 with
    | none => rfl
    | some s1 =>
      dsimp only
      have e := construct_rounds_logged_erase fuel nseg lsn N fuel 1 s1
        [Call.init_query_structure (choose_segment st).1]
      rw [← e]
      cases h2 : construct_rounds_logged fuel nseg lsn N fuel 1
          (s1, [Call.init_query_structure (choose_segment st).1]) with
      | none => rfl
      | some sl =>
        simp only [Option.map_some']
        exact add_segments_logged_erase fuel _ _ _ _

/-! ## C16: the number of calls of `choose_segment` -/

theorem greater_than_pt (ax ay bx by_ : ℚ) :
    _greater_than (pt ax ay) (pt bx by_) = true ↔
      ay > by_ + eps ∨ (|ay - by_| ≤ eps ∧ ax > bx) := by
  simp only [_greater_than, pt, C_EPS_eq, Dbl_fin_add, Dbl_fin_sub, Dbl_fin_gt, Dbl_fin_lt,
    abs_le]
  split_ifs with h1 h2
  · exact ⟨fun _ => Or.inl h1, fun _ => rfl⟩
  · simp only [Bool.false_eq_true, false_iff, not_or, not_and]
    exact ⟨h1, fun h => absurd h.1 (by linarith)⟩
  · simp only [decide_eq_true_eq]
    constructor
    · intro h; right; exact ⟨⟨by linarith, by linarith⟩, h⟩
    · rintro (h | h)
      · exact absurd h h1
      · exact h.2

theorem equal_to_pt (ax ay bx by_ : ℚ) :
    _equal_to (pt ax ay) (pt bx by_) = true ↔ |ay - by_| ≤ eps ∧ |ax - bx| ≤ eps := by
  simp only [_equal_to, pt, Bool.and_eq_true, FP_EQUAL_fin]

theorem eps_pos : 0 < eps := by unfold eps; norm_num

/-- Of two finite points that are not equal within `eps`, exactly one is greater. -/
theorem greater_than_pt_total (ax ay bx by_ : ℚ)
    (h : _equal_to (pt ax ay) (pt bx by_) = false) :
    (_greater_than (pt ax ay) (pt bx by_) = true ∧ _greater_than (pt bx by_) (pt ax ay) = false) ∨
    (_greater_than (pt ax ay) (pt bx by_) = false ∧ _greater_than (pt bx by_) (pt ax ay) = true) := by
  have he := equal_to_pt ax ay bx by_
  have h1 := greater_than_pt ax ay bx by_
  have h2 := greater_than_pt bx by_ ax ay
  have hp := eps_pos
  rw [h] at he
  simp only [Bool.false_eq_true, false_iff, not_and, abs_le, not_le] at he
  simp only [abs_le] at h1 h2
  rw [← Bool.not_eq_true, ← Bool.not_eq_true, h1, h2]
  by_cases c1 : ay > by_ + eps
  · left; exact ⟨Or.inl c1, by rintro (h | ⟨⟨ha, hb⟩, hc⟩) <;> linarith⟩
  · by_cases c2 : by_ > ay + eps
    · right; exact ⟨by rintro (h | ⟨⟨ha, hb⟩, hc⟩) <;> linarith, Or.inl c2⟩
    · have hy : -eps ≤ ay - by_ ∧ ay - by_ ≤ eps := ⟨by linarith, by linarith⟩
      have hy2 : -eps ≤ by_ - ay ∧ by_ - ay ≤ eps := ⟨by linarith, by linarith⟩
      have hx := he hy
      rcases lt_trichotomy ax bx with c | c | c
      · right
        exact ⟨by rintro (h | ⟨⟨ha, hb⟩, hc⟩) <;> linarith, Or.inr ⟨hy2, c⟩⟩
      · exfalso
        have := hx (by linarith)
        linarith
      · left
        exact ⟨Or.inr ⟨hy, c⟩, by rintro (h | ⟨⟨ha, hb⟩, hc⟩) <;> linarith⟩

/-! ## C21: `is_left_of` and the stored order of the endpoints -/

theorem swap_endpoints_seg (st : State) (k : Int) :
    ((swap_endpoints st k).seg k).v0 = (st.seg k).v1 ∧
    ((swap_endpoints st k).seg k).v1 = (st.seg k).v0 := by
  simp only [swap_endpoints, seg_set_seg_eq, and_self]

/-- C21 (counterexample). Segment 1 of `flat_state` is horizontal, from (0,0) to (4,0); its
endpoints are not equal within `eps`.  The point (2,0) shares the ordinate of both
endpoints: with the endpoints stored as (0,0), (4,0) it is left of the segment, with the
endpoints exchanged it is not.  And in the arithmetic of the program the endpoints
`a = (1, below_one)` and `b = (0, above_one)` are not equal within `eps`, yet neither is
`_greater_than` the other: the point (5,3), far from both ordinates, is left of the segment
stored as `a, b` and not left of it stored as `b, a`. -/
theorem is_left_of_depends_on_storage :
    (¬ ∀ (st : State) (segnum : Int) (v : point_t),
        _equal_to (st.seg segnum).v0 (st.seg segnum).v1 = false →
        is_left_of (swap_endpoints st segnum) segnum v = is_left_of st segnum v) ∧
    _equal_to_fl Dbl.rnd (pt 1 below_one) (pt 0 above_one) = false ∧
    _greater_than_fl Dbl.rnd (pt 1 below_one) (pt 0 above_one) = false ∧
    _greater_than_fl Dbl.rnd (pt 0 above_one) (pt 1 below_one) = false ∧
    is_left_of_fl Dbl.rnd (one_segment (pt 1 below_one) (pt 0 above_one)) 1 (pt 5 3) = true ∧
    is_left_of_fl Dbl.rnd (swap_endpoints (one_segment (pt 1 below_one) (pt 0 above_one)) 1) 1
      (pt 5 3) = false := by
  refine ⟨?_, by decide!⟩
  intro h
  have h1 := h flat_state 1 (pt 2 0) (by decide!)
  revert h1
  decide!

/-- C21 (amended). Whatever the rounding `fl` of an operation (`id` for exact results,
`Dbl.rnd` for the program): for every segment of which exactly one endpoint is
`_greater_than` the other, and every point `v` whose ordinate is not `FP_EQUAL` to the
ordinates of both endpoints, exchanging the stored `v0` and `v1` does not change
`is_left_of(seg, v)`. -/
theorem is_left_of_swap (fl : Dbl → Dbl) (st : State) (segnum : Int) (v : point_t)
    (hgt : _greater_than_fl fl (st.seg segnum).v1 (st.seg segnum).v0 ≠
      _greater_than_fl fl (st.seg segnum).v0 (st.seg segnum).v1)
    (hy : ¬ (FP_EQUAL_fl fl (st.seg segnum).v1.y v.y = true ∧
      FP_EQUAL_fl fl (st.seg segnum).v0.y v.y = true)) :
    is_left_of_fl fl (swap_endpoints st segnum) segnum v = is_left_of_fl fl st segnum v := by
  have hs := swap_endpoints_seg st segnum
  unfold is_left_of_fl
  simp only [hs.1, hs.2]
  by_cases g : _greater_than_fl fl (st.seg segnum).v1 (st.seg segnum).v0 = true
  · have g2 : _greater_than_fl fl (st.seg segnum).v0 (st.seg segnum).v1 = false := by
      rw [g] at hgt
      cases h : _greater_than_fl fl (st.seg segnum).v0 (st.seg segnum).v1
      · rfl
      · exact absurd h.symm hgt
    simp only [g, g2, if_true, Bool.false_eq_true, if_false]
    by_cases e1 : FP_EQUAL_fl fl (st.seg segnum).v1.y v.y = true
    · have e0 : ¬ FP_EQUAL_fl fl (st.seg segnum).v0.y v.y = true := fun e0 => hy ⟨e1, e0⟩
      simp only [e1, e0, if_true, if_false, Bool.false_eq_true]
    · simp only [e1, if_false, Bool.false_eq_true]
  · have g2 : _greater_than_fl fl (st.seg segnum).v0 (st.seg segnum).v1 = true := by
      simp only [Bool.not_eq_true] at g
      rw [g] at hgt
      cases h : _greater_than_fl fl (st.seg segnum).v0 (st.seg segnum).v1
      · exact absurd h.symm hgt
      · rfl
    simp only [g, g2, if_true, if_false]
    by_cases e1 : FP_EQUAL_fl fl (st.seg segnum).v1.y v.y = true
    · have e0 : ¬ FP_EQUAL_fl fl (st.seg segnum).v0.y v.y = true := fun e0 => hy ⟨e1, e0⟩
      simp only [e1, e0, if_true, if_false, Bool.false_eq_true]
    · simp only [e1, if_false, Bool.false_eq_true]

/-- The amended C21 in the arithmetic of the program, for the segment from (0,0) to (0,4)
of `tie_state` and the point (-1, 2). -/
theorem is_left_of_swap_witness :
    is_left_of_fl Dbl.rnd (swap_endpoints tie_state 1) 1 (pt (-1) 2) =
      is_left_of_fl Dbl.rnd tie_state 1 (pt (-1) 2) :=
  is_left_of_swap Dbl.rnd tie_state 1 (pt (-1) 2) (by decide!) (by decide!)

/-! ## The initial query structure (claims C22, C23, C24) -/

theorem init_qs_idx (segnum : Int) (st : State) :
    (init_query_structure segnum st).2.q_idx = 8 ∧
    (init_query_structure segnum st).2.tr_idx = 5 := ⟨rfl, rfl⟩

theorem init_qs_seg (segnum : Int) (st : State) :
    (init_query_structure segnum st).2.seg =
      upd st.seg segnum { st.seg segnum with is_inserted := true } := rfl

theorem init_qs_seg_self (segnum : Int) (st : State) :
    (init_query_structure segnum st).2.seg segnum =
      { st.seg segnum with is_inserted := true } := by
  rw [init_qs_seg]; simp only [upd, if_true]

/-- C22. From any tables, `init_query_structure(s)` returns node 1 as the root and leaves
exactly the nodes 1..7 and the trapezoids 1..4 allocated (`q_idx = 8`, `tr_idx = 5`).  Node 1
is a Y-node with right child 2 and left child 3; node 2 is the SINK of trapezoid 4, the
topmost one (no upper neighbours, upper edge at +infinity, trapezoids 1 and 2 below); node 3
is a Y-node with left child 4 and right child 5; node 4 is the SINK of trapezoid 3, the
bottommost one (no lower neighbours, lower edge at -infinity, trapezoids 1 and 2 above);
node 5 is an X-node with `segnum = s`, left child 6 and right child 7; node 6 is the SINK of
trapezoid 1, the middle-left one (`rseg = s`), node 7 the SINK of trapezoid 2, the
middle-right one (`lseg = s`).  Each node other than the root has the node it hangs from as
`parent`, each trapezoid has the SINK naming it as `sink`, and `seg[s].is_inserted` is
set. -/
theorem init_query_structure_builds (s : Int) (st : State) :
    (init_query_structure s st).1 = 1 ∧
    (init_query_structure s st).2.q_idx = 8 ∧ (init_query_structure s st).2.tr_idx = 5 ∧
    (init_query_structure s st).2.qs 1 =
      { nodetype := T_Y, segnum := 0, yval := _max (st.seg s).v0 (st.seg s).v1,
        trnum := 0, parent := 0, left := 3, right := 2 } ∧
    (init_query_structure s st).2.qs 2 =
      { nodetype := T_SINK, segnum := 0, yval := point_zero, trnum := 4, parent := 1,
        left := 0, right := 0 } ∧
    (init_query_structure s st).2.qs 3 =
      { nodetype := T_Y, segnum := 0, yval := _min (st.seg s).v0 (st.seg s).v1,
        trnum := 0, parent := 1, left := 4, right := 5 } ∧
    (init_query_structure s st).2.qs 4 =
      { nodetype := T_SINK, segnum := 0, yval := point_zero, trnum := 3, parent := 3,
        left := 0, right := 0 } ∧
    (init_query_structure s st).2.qs 5 =
      { nodetype := T_X, segnum := s, yval := point_zero, trnum := 0, parent := 3,
        left := 6, right := 7 } ∧
    (init_query_structure s st).2.qs 6 =
      { nodetype := T_SINK, segnum := 0, yval := point_zero, trnum := 1, parent := 5,
        left := 0, right := 0 } ∧
    (init_query_structure s st).2.qs 7 =
      { nodetype := T_SINK, segnum := 0, yval := point_zero, trnum := 2, parent := 5,
        left := 0, right := 0 } ∧
    (init_query_structure s st).2.tr 1 =
      { lseg := -1, rseg := s, hi := _max (st.seg s).v0 (st.seg s).v1,
        lo := _min (st.seg s).v0 (st.seg s).v1, u0 := 4, u1 := 0, d0 := 3, d1 := 0,
        sink := 6, usave := 0, uside := 0, state := ST_VALID } ∧
    (init_query_structure s st).2.tr 2 =
      { lseg := s, rseg := -1, hi := _max (st.seg s).v0 (st.seg s).v1,
        lo := _min (st.seg s).v0 (st.seg s).v1, u0 := 4, u1 := 0, d0 := 3, d1 := 0,
        sink := 7, usave := 0, uside := 0, state := ST_VALID } ∧
    (init_query_structure s st).2.tr 3 =
      { lseg := -1, rseg := -1, hi := _min (st.seg s).v0 (st.seg s).v1,
        lo := ⟨Dbl.ninf, Dbl.ninf⟩, u0 := 1, u1 := 2, d0 := 0, d1 := 0,
        sink := 4, usave := 0, uside := 0, state := ST_VALID } ∧
    (init_query_structure s st).2.tr 4 =
      { lseg := -1, rseg := -1, hi := ⟨Dbl.pinf, Dbl.pinf⟩,
        lo := _max (st.seg s).v0 (st.seg s).v1, u0 := 0, u1 := 0, d0 := 1, d1 := 2,
        sink := 2, usave := 0, uside := 0, state := ST_VALID } ∧
    ((init_query_structure s st).2.seg s).is_inserted = true := by
  refine ⟨rfl, rfl, rfl, rfl, rfl, rfl, rfl, rfl, rfl, rfl, rfl, rfl, rfl, rfl, ?_⟩
  rw [init_qs_seg_self]

theorem less_than_eq_greater_than (a b : point_t) : _less_than a b = _greater_than b a := by
  simp only [_less_than, _greater_than, Dbl_lt_sub_eps]

theorem init_qs_is_left_of (s : Int) (st : State) (v : point_t) :
    is_left_of (init_query_structure s st).2 s v = is_left_of st s v := by
  unfold is_left_of
  rw [init_qs_seg_self]

/-- With exact sums, a finite point that is not equal within `eps` to a finite point is
`_less_than` it exactly when it is not `_greater_than` it. -/
theorem less_than_iff_not_greater (x y x1 y1 : ℚ)
    (h : _equal_to (pt x y) (pt x1 y1) = false) :
    _less_than (pt x y) (pt x1 y1) = !(_greater_than (pt x y) (pt x1 y1)) := by
  rw [less_than_eq_greater_than]
  rcases greater_than_pt_total x y x1 y1 h with ⟨g1, g2⟩ | ⟨g1, g2⟩ <;> rw [g1, g2] <;> rfl

theorem tr_set_tr_ne (st : State) (i j : Int) (f : trap_t → trap_t) (h : j ≠ i) :
    (st.tr_set i f).tr j = st.tr j := by
  show upd st.tr i _ j = _
  unfold upd
  rw [if_neg h]

theorem tr_set_tr_eq (st : State) (i : Int) (f : trap_t → trap_t) :
    (st.tr_set i f).tr i = f (st.tr i) := by
  show upd st.tr i _ i = _
  unfold upd
  rw [if_pos rfl]

theorem qs_set_qs_ne (st : State) (i j : Int) (f : node_t → node_t) (h : j ≠ i) :
    (st.qs_set i f).qs j = st.qs j := by
  show upd st.qs i _ j = _
  unfold upd
  rw [if_neg h]

theorem qs_set_qs_eq (st : State) (i : Int) (f : node_t → node_t) :
    (st.qs_set i f).qs i = f (st.qs i) := by
  show upd st.qs i _ i = _
  unfold upd
  rw [if_pos rfl]

theorem tr_set_qs (st : State) (i : Int) (f : trap_t → trap_t) :
    (st.tr_set i f).qs = st.qs := rfl

theorem qs_set_tr (st : State) (i : Int) (f : node_t → node_t) :
    (st.qs_set i f).tr = st.tr := rfl

theorem tr_set_seg (st : State) (i : Int) (f : trap_t → trap_t) :
    (st.tr_set i f).seg = st.seg := rfl

theorem qs_set_seg (st : State) (i : Int) (f : node_t → node_t) :
    (st.qs_set i f).seg = st.seg := rfl

theorem redirect_upper_not_both (t tnext : Int) (r : trap_t)
    (h : ¬ (r.u0 = tnext ∧ r.u1 = tnext)) :
    redirect_upper t tnext r =
      { r with u0 := if r.u0 = tnext then t else r.u0,
               u1 := if r.u1 = tnext then t else r.u1 } := by
  unfold redirect_upper
  by_cases a : r.u0 = tnext
  · have b : ¬ r.u1 = tnext := fun b => h ⟨a, b⟩
    simp only [a, b, if_true, if_false]
  · by_cases b : r.u1 = tnext
    · simp only [a, b, if_true, if_false]
    · simp only [a, b, if_false]

theorem redirect_upper_idem (t tnext : Int) (r : trap_t) (hne : t ≠ tnext)
    (h : ¬ (r.u0 = tnext ∧ r.u1 = tnext)) :
    redirect_upper t tnext (redirect_upper t tnext r) = redirect_upper t tnext r := by
  unfold redirect_upper
  by_cases a : r.u0 = tnext
  · have b : ¬ r.u1 = tnext := fun b => h ⟨a, b⟩
    simp only [a, b, if_true, if_false, hne]
  · by_cases b : r.u1 = tnext
    · simp only [a, b, if_true, if_false, hne]
    · simp only [a, b, if_false]

section merge_rows

attribute [local irreducible] State.qs_set State.tr_set

/-- One lower neighbour `d` handled by `merge_trapezoids`. -/
theorem redirect_state (s : State) (d t tnext : Int) :
    (∀ j, (if d > 0 then
            if (s.tr d).u0 = tnext then s.tr_set d (fun r => { r with u0 := t })
            else if (s.tr d).u1 = tnext then s.tr_set d (fun r => { r with u1 := t })
            else s
          else s).tr j = if d > 0 ∧ j = d then redirect_upper t tnext (s.tr d) else s.tr j) ∧
    (if d > 0 then
        if (s.tr d).u0 = tnext then s.tr_set d (fun r => { r with u0 := t })
        else if (s.tr d).u1 = tnext then s.tr_set d (fun r => { r with u1 := t })
        else s
      else s).qs = s.qs := by
  by_cases hd : d > 0
  · simp only [hd, if_true, true_and]
    by_cases a : (s.tr d).u0 = tnext
    · simp only [a, if_true, redirect_upper, tr_set_qs, and_true]
      intro j
      by_cases hj : j = d
      · subst hj; simp only [tr_set_tr_eq, if_true]
      · simp only [tr_set_tr_ne _ _ _ _ hj, hj, if_false]
    · by_cases b : (s.tr d).u1 = tnext
      · simp only [a, b, if_true, if_false, redirect_upper, tr_set_qs, and_true]
        intro j
        by_cases hj : j = d
        · subst hj; simp only [tr_set_tr_eq, if_true]
        · simp only [tr_set_tr_ne _ _ _ _ hj, hj, if_false]
      · simp only [a, b, if_false, redirect_upper, and_true]
        intro j
        by_cases hj : j = d
        · subst hj; simp only [if_true]
        · simp only [hj, if_false]
  · simp only [hd, if_false, false_and, implies_true, and_self]

theorem merge_step_rows (st : State) (t tnext : Int) (hne : t ≠ tnext)
    (h0 : (st.tr tnext).d0 > 0 → (st.tr tnext).d0 ≠ t ∧ (st.tr tnext).d0 ≠ tnext)
    (h1 : (st.tr tnext).d1 > 0 → (st.tr tnext).d1 ≠ t ∧ (st.tr tnext).d1 ≠ tnext) :
    (merge_step st t tnext).tr tnext = { st.tr tnext with state := ST_INVALID } ∧
    (merge_step st t tnext).tr t =
      { st.tr t with lo := (st.tr tnext).lo, d0 := (st.tr tnext).d0, d1 := (st.tr tnext).d1 } ∧
    (∀ j, j ≠ t → j ≠ tnext → (merge_step st t tnext).tr j =
      if (st.tr tnext).d1 > 0 ∧ j = (st.tr tnext).d1 then
        redirect_upper t tnext
          (if (st.tr tnext).d0 > 0 ∧ j = (st.tr tnext).d0 then redirect_upper t tnext (st.tr j)
           else st.tr j)
      else if (st.tr tnext).d0 > 0 ∧ j = (st.tr tnext).d0 then redirect_upper t tnext (st.tr j)
      else st.tr j) ∧
    (merge_step st t tnext).qs (st.qs (st.tr tnext).sink).parent =
      (if (st.qs (st.qs (st.tr tnext).sink).parent).left = (st.tr tnext).sink then
        { st.qs (st.qs (st.tr tnext).sink).parent with left := (st.tr t).sink }
       else { st.qs (st.qs (st.tr tnext).sink).parent with right := (st.tr t).sink }) ∧
    (∀ k, k ≠ (st.qs (st.tr tnext).sink).parent → (merge_step st t tnext).qs k = st.qs k) := by
  have hne2 : tnext ≠ t := fun h => hne h.symm
  generalize hr : merge_step st t tnext = r
  unfold merge_step at hr
  lift_lets at hr
  extract_lets p s1 s2 s3 s4 s5 s6 at hr
  subst hr
  have a1 : s1.tr = st.tr := by
    simp only [s1]; split_ifs <;> exact qs_set_tr _ _ _
  have q1 : s1.qs p = (if (st.qs p).left = (st.tr tnext).sink then
        { st.qs p with left := (st.tr t).sink }
       else { st.qs p with right := (st.tr t).sink }) := by
    simp only [s1]; split_ifs <;> exact qs_set_qs_eq _ _ _
  have q1' : ∀ k, k ≠ p → s1.qs k = st.qs k := by
    intro k hk
    simp only [s1]; split_ifs <;> exact qs_set_qs_ne _ _ _ _ hk
  have a2t : s2.tr t = { st.tr t with d0 := (st.tr tnext).d0 } := by
    simp only [s2, tr_set_tr_eq, a1]
  have a2 : ∀ j, j ≠ t → s2.tr j = st.tr j := by
    intro j hj
    simp only [s2, tr_set_tr_ne _ _ _ _ hj, a1]
  have q2 : s2.qs = s1.qs := tr_set_qs _ _ _
  have q3 : s3.qs = s2.qs := (redirect_state s2 (s2.tr t).d0 t tnext).2
  have e2 : (s2.tr t).d0 = (st.tr tnext).d0 := by rw [a2t]
  have a3' : ∀ j, s3.tr j = if (s2.tr t).d0 > 0 ∧ j = (s2.tr t).d0 then
      redirect_upper t tnext (s2.tr (s2.tr t).d0) else s2.tr j :=
    (redirect_state s2 (s2.tr t).d0 t tnext).1
  rw [e2] at a3'
  have a3t : s3.tr t = { st.tr t with d0 := (st.tr tnext).d0 } := by
    rw [a3' t]
    by_cases c : (st.tr tnext).d0 > 0 ∧ t = (st.tr tnext).d0
    · exact absurd c.2.symm (h0 c.1).1
    · rw [if_neg c, a2t]
  have a3n : s3.tr tnext = st.tr tnext := by
    rw [a3' tnext]
    by_cases c : (st.tr tnext).d0 > 0 ∧ tnext = (st.tr tnext).d0
    · exact absurd c.2.symm (h0 c.1).2
    · rw [if_neg c, a2 _ hne2]
  have a3j : ∀ j, j ≠ t → s3.tr j = if (st.tr tnext).d0 > 0 ∧ j = (st.tr tnext).d0 then
      redirect_upper t tnext (st.tr j) else st.tr j := by
    intro j hj
    rw [a3' j]
    by_cases c : (st.tr tnext).d0 > 0 ∧ j = (st.tr tnext).d0
    · rw [if_pos c, if_pos c, ← c.2, a2 j hj]
    · rw [if_neg c, if_neg c, a2 j hj]
  have a4t : s4.tr t = { st.tr t with d0 := (st.tr tnext).d0, d1 := (st.tr tnext).d1 } := by
    simp only [s4, tr_set_tr_eq, a3t, a3n]
  have a4 : ∀ j, j ≠ t → s4.tr j = s3.tr j := by
    intro j hj
    simp only [s4, tr_set_tr_ne _ _ _ _ hj]
  have q4 : s4.qs = s3.qs := tr_set_qs _ _ _
  have q5 : s5.qs = s4.qs := (redirect_state s4 (s4.tr t).d1 t tnext).2
  have e4 : (s4.tr t).d1 = (st.tr tnext).d1 := by rw [a4t]
  have a5' : ∀ j, s5.tr j = if (s4.tr t).d1 > 0 ∧ j = (s4.tr t).d1 then
      redirect_upper t tnext (s4.tr (s4.tr t).d1) else s4.tr j :=
    (redirect_state s4 (s4.tr t).d1 t tnext).1
  rw [e4] at a5'
  have a5t : s5.tr t = { st.tr t with d0 := (st.tr tnext).d0, d1 := (st.tr tnext).d1 } := by
    rw [a5' t]
    by_cases c : (st.tr tnext).d1 > 0 ∧ t = (st.tr tnext).d1
    · exact absurd c.2.symm (h1 c.1).1
    · rw [if_neg c, a4t]
  have a5n : s5.tr tnext = st.tr tnext := by
    rw [a5' tnext]
    by_cases c : (st.tr tnext).d1 > 0 ∧ tnext = (st.tr tnext).d1
    · exact absurd c.2.symm (h1 c.1).2
    · rw [if_neg c, a4 _ hne2, a3n]
  have a5j : ∀ j, j ≠ t → s5.tr j =
      if (st.tr tnext).d1 > 0 ∧ j = (st.tr tnext).d1 then
        redirect_upper t tnext
          (if (st.tr tnext).d0 > 0 ∧ j = (st.tr tnext).d0 then redirect_upper t tnext (st.tr j)
           else st.tr j)
      else if (st.tr tnext).d0 > 0 ∧ j = (st.tr tnext).d0 then redirect_upper t tnext (st.tr j)
      else st.tr j := by
    intro j hj
    rw [a5' j]
    by_cases c : (st.tr tnext).d1 > 0 ∧ j = (st.tr tnext).d1
    · rw [if_pos c, if_pos c, ← c.2, a4 j hj, a3j j hj]
    · rw [if_neg c, if_neg c, a4 j hj, a3j j hj]
  have a6t : s6.tr t =
      { st.tr t with lo := (st.tr tnext).lo, d0 := (st.tr tnext).d0, d1 := (st.tr tnext).d1 } := by
    simp only [s6, tr_set_tr_eq, a5t, a5n]
  have a6 : ∀ j, j ≠ t → s6.tr j = s5.tr j := by
    intro j hj
    simp only [s6, tr_set_tr_ne _ _ _ _ hj]
  have q6 : s6.qs = s5.qs := tr_set_qs _ _ _
  refine ⟨?_, ?_, ?_, ?_, ?_⟩
  · rw [tr_set_tr_eq, a6 _ hne2, a5n]
  · rw [tr_set_tr_ne _ _ _ _ hne, a6t]
  · intro j hj hjn
    rw [tr_set_tr_ne _ _ _ _ hjn, a6 j hj, a5j j hj]
  · rw [tr_set_qs, q6, q5, q4, q3, q2, q1]
  · intro k hk
    rw [tr_set_qs, q6, q5, q4, q3, q2, q1' k hk]

end merge_rows

theorem ite_tr (c : Prop) [Decidable c] (a b : State) (j : Int) :
    (if c then a else b).tr j = if c then a.tr j else b.tr j := by
  split_ifs <;> rfl

theorem ite_qs (c : Prop) [Decidable c] (a b : State) (j : Int) :
    (if c then a else b).qs j = if c then a.qs j else b.qs j := by
  split_ifs <;> rfl

theorem ite_q_idx (c : Prop) [Decidable c] (a b : State) :
    (if c then a else b).q_idx = if c then a.q_idx else b.q_idx := by
  split_ifs <;> rfl

theorem ite_tr_idx (c : Prop) [Decidable c] (a b : State) :
    (if c then a else b).tr_idx = if c then a.tr_idx else b.tr_idx := by
  split_ifs <;> rfl

theorem newtrap_fst (st : State) (h : st.tr_idx < TRSIZE) : (newtrap st).1 = st.tr_idx := by
  unfold newtrap; rw [if_pos h]; rfl

theorem newtrap_tr_self (st : State) (h : st.tr_idx < TRSIZE) :
    (newtrap st).2.tr st.tr_idx =
      { st.tr st.tr_idx with lseg := -1, rseg := -1, state := ST_VALID } := by
  unfold newtrap; rw [if_pos h]
  simp only [tr_set_tr_idx, tr_set_tr_eq]

theorem newtrap_tr_ne (st : State) (j : Int) (hj : j ≠ st.tr_idx) :
    (newtrap st).2.tr j = st.tr j := by
  unfold newtrap
  split_ifs with h
  · simp only [tr_set_tr_idx, tr_set_tr_ne _ _ _ _ hj]
  · rfl

theorem newtrap_qs (st : State) : (newtrap st).2.qs = st.qs := by
  unfold newtrap
  split_ifs <;> rfl

theorem newtrap_tr_idx_ok (st : State) (h : st.tr_idx < TRSIZE) :
    (newtrap st).2.tr_idx = st.tr_idx + 1 := by
  unfold newtrap; rw [if_pos h]; rfl

theorem newnode_fst (st : State) (h : st.q_idx < QSIZE) : (newnode st).1 = st.q_idx := by
  simp only [newnode, h, if_true]

theorem newnode_qs (st : State) : (newnode st).2.qs = st.qs := by
  unfold newnode
  split_ifs <;> rfl

theorem newnode_tr (st : State) : (newnode st).2.tr = st.tr := by
  unfold newnode
  split_ifs <;> rfl

theorem newnode_q_idx_ok (st : State) (h : st.q_idx < QSIZE) :
    (newnode st).2.q_idx = st.q_idx + 1 := by
  simp only [newnode, h, if_true]

theorem newnode_fst_snd (st : State) (i : Int) (s : State) (h : newnode st = (i, s))
    (hq : st.q_idx < QSIZE) :
    i = st.q_idx ∧ s.qs = st.qs ∧ s.tr = st.tr ∧ s.q_idx = st.q_idx + 1 ∧ s.tr_idx = st.tr_idx := by
  have h1 : (newnode st).1 = i := by rw [h]
  have h2 : (newnode st).2 = s := by rw [h]
  subst h2
  refine ⟨?_, newnode_qs st, newnode_tr st, newnode_q_idx_ok st hq, newnode_tr_idx st⟩
  rw [← h1, newnode_fst st hq]

section endpoint_rows

attribute [local irreducible] State.qs_set State.tr_set newtrap newnode

theorem patch_u0 (s : State) (d tu tl : Int) :
    (∀ j, (if d > 0 ∧ (s.tr d).u0 = tu then s.tr_set d (fun r => { r with u0 := tl })
          else s).tr j =
        if d > 0 ∧ j = d then
          { s.tr d with u0 := if (s.tr d).u0 = tu then tl else (s.tr d).u0 }
        else s.tr j) ∧
    (if d > 0 ∧ (s.tr d).u0 = tu then s.tr_set d (fun r => { r with u0 := tl }) else s).qs = s.qs ∧
    (if d > 0 ∧ (s.tr d).u0 = tu then s.tr_set d (fun r => { r with u0 := tl })
      else s).q_idx = s.q_idx ∧
    (if d > 0 ∧ (s.tr d).u0 = tu then s.tr_set d (fun r => { r with u0 := tl })
      else s).tr_idx = s.tr_idx := by
  by_cases c : d > 0 ∧ (s.tr d).u0 = tu
  · simp only [c, and_self, if_true, tr_set_qs, tr_set_q_idx, tr_set_tr_idx, and_true, true_and]
    intro j
    by_cases hj : j = d
    · subst hj; simp only [tr_set_tr_eq, if_true]
    · simp only [tr_set_tr_ne _ _ _ _ hj, hj, if_false]
  · simp only [c, if_false, and_true]
    intro j
    by_cases hj : d > 0 ∧ j = d
    · have c2 : ¬ (s.tr d).u0 = tu := fun h => c ⟨hj.1, h⟩
      simp only [hj, and_self, if_true, c2, if_false, hj.2]
    · simp only [hj, if_false]

theorem patch_u1 (s : State) (d tu tl : Int) :
    (∀ j, (if d > 0 ∧ (s.tr d).u1 = tu then s.tr_set d (fun r => { r with u1 := tl })
          else s).tr j =
        if d > 0 ∧ j = d then
          { s.tr d with u1 := if (s.tr d).u1 = tu then tl else (s.tr d).u1 }
        else s.tr j) ∧
    (if d > 0 ∧ (s.tr d).u1 = tu then s.tr_set d (fun r => { r with u1 := tl }) else s).qs = s.qs ∧
    (if d > 0 ∧ (s.tr d).u1 = tu then s.tr_set d (fun r => { r with u1 := tl })
      else s).q_idx = s.q_idx ∧
    (if d > 0 ∧ (s.tr d).u1 = tu then s.tr_set d (fun r => { r with u1 := tl })
      else s).tr_idx = s.tr_idx := by
  by_cases c : d > 0 ∧ (s.tr d).u1 = tu
  · simp only [c, and_self, if_true, tr_set_qs, tr_set_q_idx, tr_set_tr_idx, and_true, true_and]
    intro j
    by_cases hj : j = d
    · subst hj; simp only [tr_set_tr_eq, if_true]
    · simp only [tr_set_tr_ne _ _ _ _ hj, hj, if_false]
  · simp only [c, if_false, and_true]
    intro j
    by_cases hj : d > 0 ∧ j = d
    · have c2 : ¬ (s.tr d).u1 = tu := fun h => c ⟨hj.1, h⟩
      simp only [hj, and_self, if_true, c2, if_false, hj.2]
    · simp only [hj, if_false]

theorem relink_upper_idem (tu tl : Int) (r : trap_t) (h : tl ≠ tu) :
    relink_upper tu tl (relink_upper tu tl r) = relink_upper tu tl r := by
  unfold relink_upper
  by_cases a : r.u0 = tu <;> by_cases b : r.u1 = tu <;> simp only [a, b, if_true, if_false, h]

theorem add_segment_endpoint_rows (fuel : Nat) (segnum : Int) (v vo : point_t) (root : Int)
    (st : State) (tu : Int) (hloc : locate_endpoint st v vo fuel root = some tu)
    (ht : st.tr_idx < TRSIZE) (hq : st.q_idx + 1 < QSIZE)
    (htu : tu ≠ st.tr_idx)
    (hd0 : (st.tr tu).d0 > 0 → (st.tr tu).d0 ≠ tu ∧ (st.tr tu).d0 ≠ st.tr_idx)
    (hd1 : (st.tr tu).d1 > 0 → (st.tr tu).d1 ≠ tu ∧ (st.tr tu).d1 ≠ st.tr_idx)
    (hsk : (st.tr tu).sink ≠ st.q_idx ∧ (st.tr tu).sink ≠ st.q_idx + 1) :
    ∃ st', add_segment_endpoint fuel segnum v vo root st = some (tu, st.tr_idx, st') ∧
      st'.tr st.tr_idx =
        { st.tr tu with hi := v, u0 := tu, u1 := 0, sink := st.q_idx + 1 } ∧
      st'.tr tu = { st.tr tu with lo := v, d0 := st.tr_idx, d1 := 0, sink := st.q_idx } ∧
      (∀ j, j ≠ tu → j ≠ st.tr_idx → st'.tr j =
        if ((st.tr tu).d0 > 0 ∧ j = (st.tr tu).d0) ∨ ((st.tr tu).d1 > 0 ∧ j = (st.tr tu).d1) then
          relink_upper tu st.tr_idx (st.tr j)
        else st.tr j) ∧
      st'.qs (st.tr tu).sink =
        { st.qs (st.tr tu).sink with
          nodetype := T_Y, yval := v, segnum := segnum, left := st.q_idx + 1,
          right := st.q_idx } ∧
      st'.qs st.q_idx =
        { st.qs st.q_idx with nodetype := T_SINK, trnum := tu, parent := (st.tr tu).sink } ∧
      st'.qs (st.q_idx + 1) =
        { st.qs (st.q_idx + 1) with
          nodetype := T_SINK, trnum := st.tr_idx, parent := (st.tr tu).sink } ∧
      (∀ k, k ≠ (st.tr tu).sink → k ≠ st.q_idx → k ≠ st.q_idx + 1 → st'.qs k = st.qs k) ∧
      st'.q_idx = st.q_idx + 2 ∧ st'.tr_idx = st.tr_idx + 1 := by
  have hq1 : st.q_idx < QSIZE := by omega
  generalize hr : add_segment_endpoint fuel segnum v vo root st = r
  unfold add_segment_endpoint at hr
  split at hr
  · rename_i h; rw [hloc] at h; exact absurd h (by simp)
  · rename_i tu' h
    rw [hloc] at h
    injection h with h
    subst h
    split at hr
    rename_i tl s0 h0
    lift_lets at hr
    extract_lets a1 a2 a3 a4 a5 a6 a7 a8 a9 a10 a11 a12 a13 a14 at hr
    split at hr
    rename_i i1 s15 h15
    split at hr
    rename_i i2 s16 h16
    lift_lets at hr
    extract_lets sk b1 b2 b3 b4 b5 b6 b7 b8 b9 b10 b11 b12 b13 at hr
    have etl : tl = st.tr_idx := by
      have : (newtrap st).1 = tl := by rw [h0]
      rw [← this, newtrap_fst st ht]
    have es0 : s0 = (newtrap st).2 := by rw [h0]
    rw [← etl] at hd0 hd1 ⊢
    have htl : tu ≠ tl := by rw [etl]; exact htu
    have htl2 : tl ≠ tu := fun h => htl h.symm
    have s0u : s0.tr tu = st.tr tu := by rw [es0]; exact newtrap_tr_ne st tu htu
    have s0j : ∀ j, j ≠ tl → s0.tr j = st.tr j := by
      intro j hj; rw [es0]; exact newtrap_tr_ne st j (etl ▸ hj)
    have T10 : a10.tr tl = { st.tr tu with hi := v, u0 := tu, u1 := 0 } := by
      simp only [a10, a9, a8, a7, a6, a5, a4, a3, a2, a1, tr_set_tr_eq, tr_set_tr_ne _ _ _ _ htl,
        tr_set_tr_ne _ _ _ _ htl2, s0u]
    have U10 : a10.tr tu = { st.tr tu with lo := v, d0 := tl, d1 := 0 } := by
      simp only [a10, a9, a8, a7, a6, a5, a4, a3, a2, a1, tr_set_tr_eq, tr_set_tr_ne _ _ _ _ htl,
        tr_set_tr_ne _ _ _ _ htl2, s0u]
    have F10 : ∀ j, j ≠ tu → j ≠ tl → a10.tr j = st.tr j := by
      intro j h1 h2
      simp only [a10, a9, a8, a7, a6, a5, a4, a3, a2, a1, tr_set_tr_ne _ _ _ _ h1,
        tr_set_tr_ne _ _ _ _ h2, s0j j h2]
    have Q10 : a10.qs = st.qs ∧ a10.q_idx = st.q_idx ∧ a10.tr_idx = st.tr_idx + 1 := by
      simp only [a10, a9, a8, a7, a6, a5, a4, a3, a2, a1, tr_set_qs, tr_set_q_idx, tr_set_tr_idx,
        es0, newtrap_qs, newtrap_q_idx, newtrap_tr_idx_ok st ht, and_self]
    -- the four redirections
    have e10 : (a10.tr tl).d0 = (st.tr tu).d0 := by rw [T10]
    have P11 := patch_u0 a10 (a10.tr tl).d0 tu tl
    have A11 : ∀ j, a11.tr j = if (a10.tr tl).d0 > 0 ∧ j = (a10.tr tl).d0 then
        { a10.tr (a10.tr tl).d0 with
            u0 := if (a10.tr (a10.tr tl).d0).u0 = tu then tl else (a10.tr (a10.tr tl).d0).u0 }
        else a10.tr j := P11.1
    rw [e10] at A11
    have Q11 : a11.qs = a10.qs ∧ a11.q_idx = a10.q_idx ∧ a11.tr_idx = a10.tr_idx := P11.2
    have T11 : a11.tr tl = a10.tr tl := by
      rw [A11 tl]
      by_cases c : (st.tr tu).d0 > 0 ∧ tl = (st.tr tu).d0
      · exact absurd c.2.symm (hd0 c.1).2
      · rw [if_neg c]
    have U11 : a11.tr tu = a10.tr tu := by
      rw [A11 tu]
      by_cases c : (st.tr tu).d0 > 0 ∧ tu = (st.tr tu).d0
      · exact absurd c.2.symm (hd0 c.1).1
      · rw [if_neg c]
    have e11 : (a11.tr tl).d0 = (st.tr tu).d0 := by rw [T11, T10]
    have P12 := patch_u1 a11 (a11.tr tl).d0 tu tl
    have A12 : ∀ j, a12.tr j = if (a11.tr tl).d0 > 0 ∧ j = (a11.tr tl).d0 then
        { a11.tr (a11.tr tl).d0 with
            u1 := if (a11.tr (a11.tr tl).d0).u1 = tu then tl else (a11.tr (a11.tr tl).d0).u1 }
        else a11.tr j := P12.1
    rw [e11] at A12
    have Q12 : a12.qs = a11.qs ∧ a12.q_idx = a11.q_idx ∧ a12.tr_idx = a11.tr_idx := P12.2
    have T12 : a12.tr tl = a10.tr tl := by
      rw [A12 tl]
      by_cases c : (st.tr tu).d0 > 0 ∧ tl = (st.tr tu).d0
      · exact absurd c.2.symm (hd0 c.1).2
      · rw [if_neg c, T11]
    have U12 : a12.tr tu = a10.tr tu := by
      rw [A12 tu]
      by_cases c : (st.tr tu).d0 > 0 ∧ tu = (st.tr tu).d0
      · exact absurd c.2.symm (hd0 c.1).1
      · rw [if_neg c, U11]
    have G12 : ∀ j, j ≠ tu → j ≠ tl → a12.tr j =
        if (st.tr tu).d0 > 0 ∧ j = (st.tr tu).d0 then relink_upper tu tl (st.tr j)
        else st.tr j := by
      intro j h1 h2
      rw [A12 j]
      by_cases c : (st.tr tu).d0 > 0 ∧ j = (st.tr tu).d0
      · rw [if_pos c, if_pos c, A11, if_pos ⟨c.1, rfl⟩, ← c.2, F10 j h1 h2]
        rfl
      · rw [if_neg c, if_neg c, A11 j, if_neg c, F10 j h1 h2]
    have e12 : (a12.tr tl).d1 = (st.tr tu).d1 := by rw [T12, T10]
    have P13 := patch_u0 a12 (a12.tr tl).d1 tu tl
    have A13 : ∀ j, a13.tr j = if (a12.tr tl).d1 > 0 ∧ j = (a12.tr tl).d1 then
        { a12.tr (a12.tr tl).d1 with
            u0 := if (a12.tr (a12.tr tl).d1).u0 = tu then tl else (a12.tr (a12.tr tl).d1).u0 }
        else a12.tr j := P13.1
    rw [e12] at A13
    have Q13 : a13.qs = a12.qs ∧ a13.q_idx = a12.q_idx ∧ a13.tr_idx = a12.tr_idx := P13.2
    have T13 : a13.tr tl = a10.tr tl := by
      rw [A13 tl]
      by_cases c : (st.tr tu).d1 > 0 ∧ tl = (st.tr tu).d1
      · exact absurd c.2.symm (hd1 c.1).2
      · rw [if_neg c, T12]
    have U13 : a13.tr tu = a10.tr tu := by
      rw [A13 tu]
      by_cases c : (st.tr tu).d1 > 0 ∧ tu = (st.tr tu).d1
      · exact absurd c.2.symm (hd1 c.1).1
      · rw [if_neg c, U12]
    have e13 : (a13.tr tl).d1 = (st.tr tu).d1 := by rw [T13, T10]
    have P14 := patch_u1 a13 (a13.tr tl).d1 tu tl
    have A14 : ∀ j, a14.tr j = if (a13.tr tl).d1 > 0 ∧ j = (a13.tr tl).d1 then
        { a13.tr (a13.tr tl).d1 with
            u1 := if (a13.tr (a13.tr tl).d1).u1 = tu then tl else (a13.tr (a13.tr tl).d1).u1 }
        else a13.tr j := P14.1
    rw [e13] at A14
    have Q14 : a14.qs = a13.qs ∧ a14.q_idx = a13.q_idx ∧ a14.tr_idx = a13.tr_idx := P14.2
    have T14 : a14.tr tl = a10.tr tl := by
      rw [A14 tl]
      by_cases c : (st.tr tu).d1 > 0 ∧ tl = (st.tr tu).d1
      · exact absurd c.2.symm (hd1 c.1).2
      · rw [if_neg c, T13]
    have U14 : a14.tr tu = a10.tr tu := by
      rw [A14 tu]
      by_cases c : (st.tr tu).d1 > 0 ∧ tu = (st.tr tu).d1
      · exact absurd c.2.symm (hd1 c.1).1
      · rw [if_neg c, U13]
    have G14 : ∀ j, j ≠ tu → j ≠ tl → a14.tr j =
        if ((st.tr tu).d0 > 0 ∧ j = (st.tr tu).d0) ∨ ((st.tr tu).d1 > 0 ∧ j = (st.tr tu).d1) then
          relink_upper tu tl (st.tr j)
        else st.tr j := by
      intro j h1 h2
      rw [A14 j]
      by_cases c1 : (st.tr tu).d1 > 0 ∧ j = (st.tr tu).d1
      · rw [if_pos c1, if_pos (Or.inr c1), A13, if_pos ⟨c1.1, rfl⟩, ← c1.2, G12 j h1 h2]
        by_cases c0 : (st.tr tu).d0 > 0 ∧ j = (st.tr tu).d0
        · rw [if_pos c0]
          exact (show _ = relink_upper tu tl (relink_upper tu tl (st.tr j)) from rfl).trans
            (relink_upper_idem tu tl _ htl2)
        · rw [if_neg c0]
          rfl
      · rw [if_neg c1, A13 j, if_neg c1, G12 j h1 h2]
        by_cases c0 : (st.tr tu).d0 > 0 ∧ j = (st.tr tu).d0
        · rw [if_pos c0, if_pos (Or.inl c0)]
        · rw [if_neg c0, if_neg (by rintro (h | h); exact c0 h; exact c1 h)]
    have QA : a14.qs = st.qs ∧ a14.q_idx = st.q_idx ∧ a14.tr_idx = st.tr_idx + 1 :=
      ⟨by rw [Q14.1, Q13.1, Q12.1, Q11.1, Q10.1], by rw [Q14.2.1, Q13.2.1, Q12.2.1, Q11.2.1, Q10.2.1],
        by rw [Q14.2.2, Q13.2.2, Q12.2.2, Q11.2.2, Q10.2.2]⟩
    -- the two new nodes
    obtain ⟨ei1, n15q, n15t, n15i, n15x⟩ := newnode_fst_snd a14 i1 s15 h15 (by rw [QA.2.1]; exact hq1)
    obtain ⟨ei2, n16q, n16t, n16i, n16x⟩ :=
      newnode_fst_snd s15 i2 s16 h16 (by rw [n15i, QA.2.1]; exact hq)
    rw [QA.2.1] at ei1
    rw [n15i, QA.2.1] at ei2
    have esk : sk = (st.tr tu).sink := by
      show (s16.tr tu).sink = _
      rw [n16t, n15t, U14, U10]
    have hi12 : i1 ≠ i2 := by rw [ei1, ei2]; omega
    have hi21 : i2 ≠ i1 := fun h => hi12 h.symm
    have hs1 : sk ≠ i1 := by rw [esk, ei1]; exact hsk.1
    have hs2 : sk ≠ i2 := by rw [esk, ei2]; exact hsk.2
    have h1s : i1 ≠ sk := fun h => hs1 h.symm
    have h2s : i2 ≠ sk := fun h => hs2 h.symm
    have B11t : b11.tr = a14.tr := by
      simp only [b11, b10, b9, b8, b7, b6, b5, b4, b3, b2, b1, qs_set_tr, n16t, n15t]
    have Bq : s16.qs = st.qs := by rw [n16q, n15q, QA.1]
    have K : b11.qs sk =
        { st.qs sk with nodetype := T_Y, yval := v, segnum := segnum, left := i2, right := i1 } := by
      simp only [b11, b10, b9, b8, b7, b6, b5, b4, b3, b2, b1, qs_set_qs_eq,
        qs_set_qs_ne _ _ _ _ hs1, qs_set_qs_ne _ _ _ _ hs2, Bq]
    have K1 : b11.qs i1 = { st.qs i1 with nodetype := T_SINK, trnum := tu, parent := sk } := by
      simp only [b11, b10, b9, b8, b7, b6, b5, b4, b3, b2, b1, qs_set_qs_eq,
        qs_set_qs_ne _ _ _ _ h1s, qs_set_qs_ne _ _ _ _ hi12, Bq]
    have K2 : b11.qs i2 = { st.qs i2 with nodetype := T_SINK, trnum := tl, parent := sk } := by
      simp only [b11, b10, b9, b8, b7, b6, b5, b4, b3, b2, b1, qs_set_qs_eq,
        qs_set_qs_ne _ _ _ _ h2s, qs_set_qs_ne _ _ _ _ hi21, Bq]
    have KF : ∀ k, k ≠ sk → k ≠ i1 → k ≠ i2 → b11.qs k = st.qs k := by
      intro k k1 k2 k3
      simp only [b11, b10, b9, b8, b7, b6, b5, b4, b3, b2, b1,
        qs_set_qs_ne _ _ _ _ k1, qs_set_qs_ne _ _ _ _ k2, qs_set_qs_ne _ _ _ _ k3, Bq]
    have BI1 : b13.q_idx = s16.q_idx := by
      simp only [b13, b12, b11, b10, b9, b8, b7, b6, b5, b4, b3, b2, b1, qs_set_q_idx,
        tr_set_q_idx]
    have BI2 : b13.tr_idx = s16.tr_idx := by
      simp only [b13, b12, b11, b10, b9, b8, b7, b6, b5, b4, b3, b2, b1, qs_set_tr_idx,
        tr_set_tr_idx]
    have BI : b13.q_idx = st.q_idx + 2 ∧ b13.tr_idx = st.tr_idx + 1 := by
      rw [BI1, BI2, n16i, n15i, n16x, n15x, QA.2.1, QA.2.2]
      exact ⟨by ring, rfl⟩
    have B13q : b13.qs = b11.qs := by simp only [b13, b12, tr_set_qs]
    have ET : b13.tr tl = { st.tr tu with hi := v, u0 := tu, u1 := 0, sink := i2 } := by
      simp only [b13, b12, tr_set_tr_eq, tr_set_tr_ne _ _ _ _ htl2, B11t, T14, T10]
    have EU : b13.tr tu = { st.tr tu with lo := v, d0 := tl, d1 := 0, sink := i1 } := by
      simp only [b13, b12, tr_set_tr_eq, tr_set_tr_ne _ _ _ _ htl, B11t, U14, U10]
    have EG : ∀ j, j ≠ tu → j ≠ tl → b13.tr j = a14.tr j := by
      intro j h1 h2
      simp only [b13, b12, tr_set_tr_ne _ _ _ _ h1, tr_set_tr_ne _ _ _ _ h2, B11t]
    rw [← B13q] at K K1 K2 KF
    rw [esk] at K K1 K2 KF
    subst ei1
    subst ei2
    subst hr
    refine ⟨b13, rfl, ET, EU, ?_, K, K1, K2, KF, ?_⟩
    · intro j h1 h2
      rw [EG j h1 h2]
      exact G14 j h1 h2
    · rw [etl]; exact BI

end endpoint_rows

/-! ## C25: the insertion of an endpoint -/

/-- C25. The endpoint block of `add_segment` (lines 1334-1377 and 1392-1436) for a point `v`
located in trapezoid `tu`, when no table overflows (`tr_idx < TRSIZE`, `q_idx + 1 < QSIZE`)
and the state is well formed around `tu` (`tu` is not the free row `tr_idx`, its lower
neighbours are neither `tu` nor that row, its sink is not one of the two free nodes).  With
`tl = tr_idx` the new trapezoid and `q_idx`, `q_idx + 1` the new nodes, the block returns
`tu` and `tl` and a state in which: `tl` has the `lseg`, `rseg`, `lo`, `d0`, `d1` (and state)
of the old `tu`, `hi = v`, `u0 = tu`, `u1 = 0`; `tu` has `lo = v`, `d0 = tl`, `d1 = 0` and is
otherwise the old `tu` up to its sink; in each lower neighbour `d > 0` of the old `tu` every
link `u0`, `u1` that named `tu` names `tl`; the old sink of `tu` is a Y-node with
`yval = v`, left child `q_idx + 1` and right child `q_idx`; node `q_idx` is a SINK for `tu`
and node `q_idx + 1` a SINK for `tl`, both with that Y-node as parent; and `tr[tu].sink`,
`tr[tl].sink` are those two SINKs. -/
theorem add_segment_endpoint_spec (fuel : Nat) (segnum : Int) (v vo : point_t) (root : Int)
    (st : State) (tu : Int) (hloc : locate_endpoint st v vo fuel root = some tu)
    (ht : st.tr_idx < TRSIZE) (hq : st.q_idx + 1 < QSIZE)
    (htu : tu ≠ st.tr_idx)
    (hd0 : (st.tr tu).d0 > 0 → (st.tr tu).d0 ≠ tu ∧ (st.tr tu).d0 ≠ st.tr_idx)
    (hd1 : (st.tr tu).d1 > 0 → (st.tr tu).d1 ≠ tu ∧ (st.tr tu).d1 ≠ st.tr_idx)
    (hsk : (st.tr tu).sink ≠ st.q_idx ∧ (st.tr tu).sink ≠ st.q_idx + 1) :
    ∃ st', add_segment_endpoint fuel segnum v vo root st = some (tu, st.tr_idx, st') ∧
      st'.tr st.tr_idx =
        { st.tr tu with hi := v, u0 := tu, u1 := 0, sink := st.q_idx + 1 } ∧
      st'.tr tu = { st.tr tu with lo := v, d0 := st.tr_idx, d1 := 0, sink := st.q_idx } ∧
      (∀ d, (d = (st.tr tu).d0 ∨ d = (st.tr tu).d1) → d > 0 →
        st'.tr d =
          { st.tr d with
            u0 := if (st.tr d).u0 = tu then st.tr_idx else (st.tr d).u0,
            u1 := if (st.tr d).u1 = tu then st.tr_idx else (st.tr d).u1 }) ∧
      st'.qs (st.tr tu).sink =
        { st.qs (st.tr tu).sink with
          nodetype := T_Y, yval := v, segnum := segnum, left := st.q_idx + 1,
          right := st.q_idx } ∧
      st'.qs st.q_idx =
        { st.qs st.q_idx with nodetype := T_SINK, trnum := tu, parent := (st.tr tu).sink } ∧
      st'.qs (st.q_idx + 1) =
        { st.qs (st.q_idx + 1) with
          nodetype := T_SINK, trnum := st.tr_idx, parent := (st.tr tu).sink } ∧
      st'.q_idx = st.q_idx + 2 ∧ st'.tr_idx = st.tr_idx + 1 := by
  obtain ⟨st', h1, h2, h3, h4, h5, h6, h7, _, h9, h10⟩ :=
    add_segment_endpoint_rows fuel segnum v vo root st tu hloc ht hq htu hd0 hd1 hsk
  refine ⟨st', h1, h2, h3, ?_, h5, h6, h7, h9, h10⟩
  intro d hd hpos
  have hdu : d ≠ tu := by
    rcases hd with e | e <;> subst e
    · exact (hd0 hpos).1
    · exact (hd1 hpos).1
  have hdl : d ≠ st.tr_idx := by
    rcases hd with e | e <;> subst e
    · exact (hd0 hpos).2
    · exact (hd1 hpos).2
  rw [h4 d hdu hdl, if_pos]
  · rfl
  · rcases hd with e | e
    · exact Or.inl ⟨e ▸ hpos, e⟩
    · exact Or.inr ⟨e ▸ hpos, e⟩

/-- The insertion of C25 into `tie_state` (the structure of the single segment from (0,0) to
(0,4)) for the point (2,3), which lies in the middle-right trapezoid 2: the new trapezoid is
5, the new nodes are 8 and 9, and the lower neighbour 3 is relinked. -/
theorem add_segment_endpoint_spec_witness :
    ∃ st', add_segment_endpoint 10 2 (pt 2 3) (pt 2 1) 1 tie_state = some (2, 5, st') ∧
      (st'.tr 5).hi = pt 2 3 ∧ (st'.tr 5).u0 = 2 ∧ (st'.tr 5).d0 = 3 ∧
      (st'.tr 2).lo = pt 2 3 ∧ (st'.tr 2).d0 = 5 ∧
      (st'.tr 3).u1 = 5 ∧
      (st'.qs 7).nodetype = T_Y ∧ (st'.qs 7).left = 9 ∧ (st'.qs 7).right = 8 ∧
      (st'.qs 8).trnum = 2 ∧ (st'.qs 9).trnum = 5 := by
  obtain ⟨st', h1, h2, h3, h4, h5, h6, h7, _, _⟩ :=
    add_segment_endpoint_spec 10 2 (pt 2 3) (pt 2 1) 1 tie_state 2 (by decide!) (by decide!)
      (by decide!) (by decide!) (by decide!) (by decide!) (by decide!)
  have e1 : tie_state.tr_idx = 5 := by decide!
  have e2 : tie_state.q_idx = 8 := by decide!
  have e3 : (tie_state.tr 2).sink = 7 := by decide!
  have h43 := h4 3 (Or.inl (by decide!)) (by decide)
  have e4 : (8 : Int) + 1 = 9 := rfl
  rw [e1] at h1 h2 h3 h43 h7
  rw [e2] at h3 h5 h6 h7
  rw [e3] at h5
  rw [e4] at h7
  refine ⟨st', h1, ?_, ?_, ?_, ?_, ?_, ?_, ?_, ?_, ?_, ?_, ?_⟩
  · rw [h2]
  · rw [h2]
  · rw [h2]; decide!
  · rw [h3]
  · rw [h3]
  · rw [h43]; decide!
  · rw [h5]
  · rw [h5]; rfl
  · rw [h5]
  · rw [h6]
  · rw [h7]

/-! ## The threading loop changes neighbour links only -/

theorem links_only_refl (s : State) : links_only s s :=
  ⟨fun _ => rfl, rfl, rfl, rfl, rfl⟩

theorem links_only_tr_set (s s1 : State) (i : Int) (f : trap_t → trap_t)
    (hf : ∀ r, trap_core (f r) = trap_core r) :
    links_only s (s1.tr_set i f) ↔ links_only s s1 := by
  have key : ∀ j, trap_core ((s1.tr_set i f).tr j) = trap_core (s1.tr j) := by
    intro j
    by_cases hj : j = i
    · subst hj; rw [tr_set_tr_eq, hf]
    · rw [tr_set_tr_ne _ _ _ _ hj]
  unfold links_only
  simp only [key, tr_set_qs, tr_set_q_idx, tr_set_tr_idx, tr_set_seg]

theorem links_only_ite (s : State) (c : Prop) [Decidable c] (a b : State) :
    links_only s (if c then a else b) ↔ if c then links_only s a else links_only s b := by
  split_ifs <;> rfl

theorem links_only_read (s s1 : State) (v : Option Int) :
    links_only s (s1.read v).2 ↔ links_only s s1 := by
  cases v <;> rfl

section links

attribute [local irreducible] State.tr_set State.read

theorem links_only_upper (t tn : Int) (v1 : point_t) (st : State) :
    links_only st (add_segment_upper t tn v1 st) := by
  simp only [add_segment_upper, links_only_ite, links_only_tr_set, trap_core, implies_true,
    links_only_refl, ite_self]

theorem links_only_lower_d0 (segnum t tn tlast : Int) (v0 : point_t) (is_swapped tribot : Bool)
    (st : State) :
    links_only st (add_segment_lower_d0 segnum t tn tlast v0 is_swapped tribot st).2 := by
  simp only [add_segment_lower_d0, links_only_ite, links_only_tr_set, trap_core, implies_true,
    links_only_refl, ite_self]

theorem links_only_lower_d1 (segnum t tn tlast : Int) (v0 : point_t) (is_swapped tribot : Bool)
    (st : State) :
    links_only st (add_segment_lower_d1 segnum t tn tlast v0 is_swapped tribot st).2 := by
  simp only [add_segment_lower_d1, links_only_ite, links_only_tr_set, links_only_read, trap_core,
    implies_true, links_only_refl, ite_self]

theorem links_only_lower_2 (t tn tlast : Int) (i_d0 tribot : Bool) (st : State) :
    links_only st (add_segment_lower_2 t tn tlast i_d0 tribot st).2 := by
  simp only [add_segment_lower_2, apply_ite Prod.snd, links_only_ite, links_only_tr_set,
    trap_core, implies_true, links_only_refl, ite_self]

end links

theorem links_only_trans {a b c : State} (h1 : links_only a b) (h2 : links_only b c) :
    links_only a c :=
  ⟨fun j => (h2.1 j).trans (h1.1 j), h2.2.1.trans h1.2.1, h2.2.2.1.trans h1.2.2.1,
    h2.2.2.2.1.trans h1.2.2.2.1, h2.2.2.2.2.trans h1.2.2.2.2⟩

theorem add_segment_split_parts (segnum : Int) (v0 v1 : point_t) (is_swapped tribot : Bool)
    (tfirst tlast : Int) (lv : thread_vars) (st : State) :
    ∃ tfr tlr, add_segment_split segnum v0 v1 is_swapped tribot tfirst tlast lv st =
      add_segment_split_tail segnum v0 v1 is_swapped tribot tlast lv.t
        (add_segment_split_head segnum lv.t st).1 tfr tlr
        (add_segment_split_head segnum lv.t st).2 :=
  ⟨_, _, rfl⟩

theorem newtrap_fst_snd (st : State) (i : Int) (s : State) (h : newtrap st = (i, s))
    (ht : st.tr_idx < TRSIZE) :
    i = st.tr_idx ∧ s.qs = st.qs ∧ s.q_idx = st.q_idx ∧ s.tr_idx = st.tr_idx + 1 ∧
      (∀ j, j ≠ st.tr_idx → s.tr j = st.tr j) := by
  have h1 : (newtrap st).1 = i := by rw [h]
  have h2 : (newtrap st).2 = s := by rw [h]
  subst h2
  refine ⟨?_, newtrap_qs st, newtrap_q_idx st, newtrap_tr_idx_ok st ht,
    fun j hj => newtrap_tr_ne st j hj⟩
  rw [← h1, newtrap_fst st ht]

section split_rows

attribute [local irreducible] State.qs_set State.tr_set newtrap newnode add_segment_upper
  add_segment_lower_d0 add_segment_lower_d1 add_segment_lower_2

theorem add_segment_split_head_rows (segnum t : Int) (st : State)
    (ht : st.tr_idx < TRSIZE) (hq : st.q_idx + 1 < QSIZE) (htn : t ≠ st.tr_idx)
    (hsk : (st.tr t).sink ≠ st.q_idx ∧ (st.tr t).sink ≠ st.q_idx + 1) :
    (add_segment_split_head segnum t st).1 = st.tr_idx ∧
    (add_segment_split_head segnum t st).2.tr st.tr_idx =
      { st.tr t with sink := st.q_idx + 1 } ∧
    (add_segment_split_head segnum t st).2.tr t = { st.tr t with sink := st.q_idx } ∧
    (∀ j, j ≠ t → j ≠ st.tr_idx → (add_segment_split_head segnum t st).2.tr j = st.tr j) ∧
    (add_segment_split_head segnum t st).2.qs (st.tr t).sink =
      { st.qs (st.tr t).sink with
        nodetype := T_X, segnum := segnum, left := st.q_idx, right := st.q_idx + 1 } ∧
    (add_segment_split_head segnum t st).2.qs st.q_idx =
      { st.qs st.q_idx with nodetype := T_SINK, trnum := t, parent := (st.tr t).sink } ∧
    (add_segment_split_head segnum t st).2.qs (st.q_idx + 1) =
      { st.qs (st.q_idx + 1) with
        nodetype := T_SINK, trnum := st.tr_idx, parent := (st.tr t).sink } ∧
    (∀ k, k ≠ (st.tr t).sink → k ≠ st.q_idx → k ≠ st.q_idx + 1 →
      (add_segment_split_head segnum t st).2.qs k = st.qs k) ∧
    (add_segment_split_head segnum t st).2.q_idx = st.q_idx + 2 ∧
    (add_segment_split_head segnum t st).2.tr_idx = st.tr_idx + 1 := by
  have hq1 : st.q_idx < QSIZE := by omega
  generalize hr : add_segment_split_head segnum t st = r
  unfold add_segment_split_head at hr
  lift_lets at hr
  extract_lets sk at hr
  split at hr
  rename_i i1 s1 h1
  split at hr
  rename_i i2 s2 h2
  lift_lets at hr
  extract_lets a1 a2 a3 a4 a5 a6 a7 a8 at hr
  split at hr
  rename_i tn s9 h9
  lift_lets at hr
  extract_lets b1 b2 b3 b4 b5 b6 at hr
  obtain ⟨ei1, n1q, n1t, n1i, n1x⟩ := newnode_fst_snd st i1 s1 h1 hq1
  obtain ⟨ei2, n2q, n2t, n2i, n2x⟩ := newnode_fst_snd s1 i2 s2 h2 (by rw [n1i]; exact hq)
  rw [n1i] at ei2
  have A8x : a8.tr_idx = st.tr_idx := by
    simp only [a8, a7, a6, a5, a4, a3, a2, a1, qs_set_tr_idx, n2x, n1x]
  have A8i : a8.q_idx = st.q_idx + 1 + 1 := by
    simp only [a8, a7, a6, a5, a4, a3, a2, a1, qs_set_q_idx, n2i, n1i]
  have A8t : a8.tr = st.tr := by
    simp only [a8, a7, a6, a5, a4, a3, a2, a1, qs_set_tr, n2t, n1t]
  obtain ⟨etn, n9q, n9i, n9x, n9t⟩ := newtrap_fst_snd a8 tn s9 h9 (by rw [A8x]; exact ht)
  rw [A8x] at etn n9x n9t
  have hne : t ≠ tn := by rw [etn]; exact htn
  have hne2 : tn ≠ t := fun h => hne h.symm
  have esk : sk = (st.tr t).sink := rfl
  have hi12 : i1 ≠ i2 := by rw [ei1, ei2]; omega
  have hi21 : i2 ≠ i1 := fun h => hi12 h.symm
  have hs1 : sk ≠ i1 := by rw [esk, ei1]; exact hsk.1
  have hs2 : sk ≠ i2 := by rw [esk, ei2]; exact hsk.2
  have h1s : i1 ≠ sk := fun h => hs1 h.symm
  have h2s : i2 ≠ sk := fun h => hs2 h.symm
  have S9t : s9.tr t = st.tr t := by rw [n9t t htn, A8t]
  have B6T : b6.tr tn = { st.tr t with sink := i2 } := by
    simp only [b6, b5, b4, b3, b2, b1, tr_set_tr_eq, tr_set_tr_ne _ _ _ _ hne,
      tr_set_tr_ne _ _ _ _ hne2, qs_set_tr, S9t]
  have B6U : b6.tr t = { st.tr t with sink := i1 } := by
    simp only [b6, b5, b4, b3, b2, b1, tr_set_tr_eq, tr_set_tr_ne _ _ _ _ hne,
      tr_set_tr_ne _ _ _ _ hne2, qs_set_tr, S9t]
  have B6F : ∀ j, j ≠ t → j ≠ tn → b6.tr j = st.tr j := by
    intro j j1 j2
    simp only [b6, b5, b4, b3, b2, b1, tr_set_tr_ne _ _ _ _ j1, tr_set_tr_ne _ _ _ _ j2,
      qs_set_tr]
    rw [n9t j (etn ▸ j2), A8t]
  have Sq : s2.qs = st.qs := by rw [n2q, n1q]
  have K : b6.qs sk =
      { st.qs sk with nodetype := T_X, segnum := segnum, left := i1, right := i2 } := by
    simp only [b6, b5, b4, b3, b2, b1, a8, a7, a6, a5, a4, a3, a2, a1, tr_set_qs, n9q,
      qs_set_qs_eq, qs_set_qs_ne _ _ _ _ hs1, qs_set_qs_ne _ _ _ _ hs2, Sq]
  have K1 : b6.qs i1 = { st.qs i1 with nodetype := T_SINK, trnum := t, parent := sk } := by
    simp only [b6, b5, b4, b3, b2, b1, a8, a7, a6, a5, a4, a3, a2, a1, tr_set_qs, n9q,
      qs_set_qs_eq, qs_set_qs_ne _ _ _ _ h1s, qs_set_qs_ne _ _ _ _ hi12, Sq]
  have K2 : b6.qs i2 = { st.qs i2 with nodetype := T_SINK, trnum := tn, parent := sk } := by
    simp only [b6, b5, b4, b3, b2, b1, a8, a7, a6, a5, a4, a3, a2, a1, tr_set_qs, n9q,
      qs_set_qs_eq, qs_set_qs_ne _ _ _ _ h2s, qs_set_qs_ne _ _ _ _ hi21, Sq]
  have KF : ∀ k, k ≠ sk → k ≠ i1 → k ≠ i2 → b6.qs k = st.qs k := by
    intro k k1 k2 k3
    simp only [b6, b5, b4, b3, b2, b1, a8, a7, a6, a5, a4, a3, a2, a1, tr_set_qs, n9q,
      qs_set_qs_ne _ _ _ _ k1, qs_set_qs_ne _ _ _ _ k2, qs_set_qs_ne _ _ _ _ k3, Sq]
  have BI1 : b6.q_idx = s9.q_idx := by
    simp only [b6, b5, b4, b3, b2, b1, qs_set_q_idx, tr_set_q_idx]
  have BI2 : b6.tr_idx = s9.tr_idx := by
    simp only [b6, b5, b4, b3, b2, b1, qs_set_tr_idx, tr_set_tr_idx]
  have BI : b6.q_idx = st.q_idx + 2 ∧ b6.tr_idx = st.tr_idx + 1 := by
    rw [BI1, BI2, n9i, n9x, A8i]
    exact ⟨by ring, rfl⟩
  rw [esk] at K K1 K2 KF
  subst ei1
  subst ei2
  subst etn
  subst hr
  exact ⟨rfl, B6T, B6U, B6F, K, K1, K2, KF, BI.1, BI.2⟩

theorem add_segment_split_tail_rows (segnum : Int) (v0 v1 : point_t) (is_swapped tribot : Bool)
    (tlast t tn : Int) (tfr tlr : Option Int) (st : State) (hne : t ≠ tn)
    (hd : ¬ ((st.tr t).d0 ≤ 0 ∧ (st.tr t).d1 ≤ 0)) :
    (add_segment_split_tail segnum v0 v1 is_swapped tribot tlast t tn tfr tlr st).1.stop = false ∧
    trap_core
        ((add_segment_split_tail segnum v0 v1 is_swapped tribot tlast t tn tfr tlr st).2.tr tn) =
      trap_core { st.tr tn with lseg := segnum } ∧
    trap_core
        ((add_segment_split_tail segnum v0 v1 is_swapped tribot tlast t tn tfr tlr st).2.tr t) =
      trap_core { st.tr t with rseg := segnum } ∧
    (∀ j, j ≠ t → j ≠ tn → trap_core
        ((add_segment_split_tail segnum v0 v1 is_swapped tribot tlast t tn tfr tlr st).2.tr j) =
      trap_core (st.tr j)) ∧
    (add_segment_split_tail segnum v0 v1 is_swapped tribot tlast t tn tfr tlr st).2.qs = st.qs ∧
    (add_segment_split_tail segnum v0 v1 is_swapped tribot tlast t tn tfr tlr st).2.q_idx =
      st.q_idx ∧
    (add_segment_split_tail segnum v0 v1 is_swapped tribot tlast t tn tfr tlr st).2.tr_idx =
      st.tr_idx := by
  have hne2 : tn ≠ t := fun h => hne h.symm
  generalize hX : (if (st.tr t).d0 > 0 ∧ (st.tr t).d1 ≤ 0 then
        add_segment_lower_d0 segnum t tn tlast v0 is_swapped tribot (add_segment_upper t tn v1 st)
      else if (st.tr t).d0 ≤ 0 ∧ (st.tr t).d1 > 0 then
        add_segment_lower_d1 segnum t tn tlast v0 is_swapped tribot (add_segment_upper t tn v1 st)
      else
        add_segment_lower_2 t tn tlast (intersects_d0 st t v0 v1) tribot
          (add_segment_upper t tn v1 st)) = X
  have L : links_only st X.2 := by
    rw [← hX]
    split_ifs
    · exact links_only_trans (links_only_upper _ _ _ _) (links_only_lower_d0 _ _ _ _ _ _ _ _)
    · exact links_only_trans (links_only_upper _ _ _ _) (links_only_lower_d1 _ _ _ _ _ _ _ _)
    · exact links_only_trans (links_only_upper _ _ _ _) (links_only_lower_2 _ _ _ _ _ _)
  have E : add_segment_split_tail segnum v0 v1 is_swapped tribot tlast t tn tfr tlr st =
      ({ t := X.1, tfirstr := tfr, tlastr := tlr, stop := false },
        (X.2.tr_set tn (fun r => { r with lseg := segnum })).tr_set t
          (fun r => { r with rseg := ((X.2.tr_set tn (fun r => { r with lseg := segnum })).tr
            tn).lseg })) := by
    unfold add_segment_split_tail
    rw [if_neg hd, ← hX]
  rw [E]
  obtain ⟨L1, L2, L3, L4, _⟩ := L
  refine ⟨rfl, ?_, ?_, ?_, ?_, ?_, ?_⟩
  · simp only [tr_set_tr_ne _ _ _ _ hne2, tr_set_tr_eq]
    have := L1 tn
    simp only [trap_core, Prod.mk.injEq] at this ⊢
    simp only [this, and_self]
  · simp only [tr_set_tr_ne _ _ _ _ hne, tr_set_tr_eq]
    have := L1 t
    simp only [trap_core, Prod.mk.injEq] at this ⊢
    simp only [this, and_self]
  · intro j j1 j2
    simp only [tr_set_tr_ne _ _ _ _ j1, tr_set_tr_ne _ _ _ _ j2]
    exact L1 j
  · simp only [tr_set_qs]; exact L2
  · simp only [tr_set_q_idx]; exact L3
  · simp only [tr_set_tr_idx]; exact L4

end split_rows

/-! ## C26: one split of the threading loop -/

/-- C26. One pass of the threading loop of `add_segment(segnum)` at trapezoid `t = lv.t`,
when no table overflows (`tr_idx < TRSIZE`, `q_idx + 1 < QSIZE`), `t` is not the free row
`tr_idx`, its sink is not one of the two free nodes, and the error branch is not reached
(`t` has a lower neighbour).  With `tn = tr_idx` the new trapezoid and `q_idx`, `q_idx + 1`
the new nodes, the pass does not stop the loop and leaves a state in which
`tr[t].rseg = tr[tn].lseg = segnum`, `tn` has the `rseg`, `hi` and `lo` of the old `t`, `t`
keeps its `lseg` (and `hi`, `lo`), the old sink of `t` is an X-node with `segnum`, left child
`q_idx` and right child `q_idx + 1`, node `q_idx` is a SINK with `trnum = t`, node
`q_idx + 1` a SINK with `trnum = tn`, both with that X-node as parent, and `tr[t].sink`,
`tr[tn].sink` are those two SINKs. -/
theorem add_segment_split_spec (segnum : Int) (v0 v1 : point_t) (is_swapped tribot : Bool)
    (tfirst tlast : Int) (lv : thread_vars) (st : State)
    (ht : st.tr_idx < TRSIZE) (hq : st.q_idx + 1 < QSIZE) (htn : lv.t ≠ st.tr_idx)
    (hsk : (st.tr lv.t).sink ≠ st.q_idx ∧ (st.tr lv.t).sink ≠ st.q_idx + 1)
    (hd : ¬ ((st.tr lv.t).d0 ≤ 0 ∧ (st.tr lv.t).d1 ≤ 0)) :
    ∃ lv' st', add_segment_split segnum v0 v1 is_swapped tribot tfirst tlast lv st = (lv', st') ∧
      lv'.stop = false ∧ st'.tr_idx = st.tr_idx + 1 ∧ st'.q_idx = st.q_idx + 2 ∧
      (st'.tr lv.t).rseg = segnum ∧ (st'.tr st.tr_idx).lseg = segnum ∧
      (st'.tr st.tr_idx).rseg = (st.tr lv.t).rseg ∧
      (st'.tr st.tr_idx).hi = (st.tr lv.t).hi ∧ (st'.tr st.tr_idx).lo = (st.tr lv.t).lo ∧
      (st'.tr lv.t).lseg = (st.tr lv.t).lseg ∧
      (st'.tr lv.t).hi = (st.tr lv.t).hi ∧ (st'.tr lv.t).lo = (st.tr lv.t).lo ∧
      (st'.tr lv.t).sink = st.q_idx ∧ (st'.tr st.tr_idx).sink = st.q_idx + 1 ∧
      st'.qs (st.tr lv.t).sink =
        { st.qs (st.tr lv.t).sink with
          nodetype := T_X, segnum := segnum, left := st.q_idx, right := st.q_idx + 1 } ∧
      st'.qs st.q_idx =
        { st.qs st.q_idx with nodetype := T_SINK, trnum := lv.t, parent := (st.tr lv.t).sink } ∧
      st'.qs (st.q_idx + 1) =
        { st.qs (st.q_idx + 1) with
          nodetype := T_SINK, trnum := st.tr_idx, parent := (st.tr lv.t).sink } := by
  obtain ⟨tfr, tlr, hE⟩ :=
    add_segment_split_parts segnum v0 v1 is_swapped tribot tfirst tlast lv st
  obtain ⟨g1, g2, g3, _, g5, g6, g7, _, g9, g10⟩ :=
    add_segment_split_head_rows segnum lv.t st ht hq htn hsk
  rw [g1] at hE
  have hd' : ¬ (((add_segment_split_head segnum lv.t st).2.tr lv.t).d0 ≤ 0 ∧
      ((add_segment_split_head segnum lv.t st).2.tr lv.t).d1 ≤ 0) := by
    rw [g3]; exact hd
  obtain ⟨r1, r2, r3, _, r5, r6, r7⟩ :=
    add_segment_split_tail_rows segnum v0 v1 is_swapped tribot tlast lv.t st.tr_idx tfr tlr
      (add_segment_split_head segnum lv.t st).2 htn hd'
  rw [← hE] at r1 r2 r3 r5 r6 r7
  rw [g2] at r2
  rw [g3] at r3
  simp only [trap_core, Prod.mk.injEq] at r2 r3
  refine ⟨(add_segment_split segnum v0 v1 is_swapped tribot tfirst tlast lv st).1,
    (add_segment_split segnum v0 v1 is_swapped tribot tfirst tlast lv st).2, rfl,
    r1, ?_, ?_, r3.2.1, r2.1, r2.2.1, r2.2.2.1, r2.2.2.2.1, r3.1, r3.2.2.1,
    r3.2.2.2.1, r3.2.2.2.2.1, r2.2.2.2.2.1, ?_, ?_, ?_⟩
  · rw [r7, g10]
  · rw [r6, g9]
  · rw [r5, g5]
  · rw [r5, g6]
  · rw [r5, g7]

/-- The pass of C26 in `tie_state` at the middle-right trapezoid 2, for a segment 2 running
from (2,3) down to (2,1): the new trapezoid is 5 and the new nodes are 8 and 9. -/
theorem add_segment_split_spec_witness :
    ∃ lv' st', add_segment_split 2 (pt 2 3) (pt 2 1) false false 2 2
        { t := 2, tfirstr := none, tlastr := none, stop := false } tie_state = (lv', st') ∧
      lv'.stop = false ∧ (st'.tr 2).rseg = 2 ∧ (st'.tr 5).lseg = 2 ∧
      (st'.tr 5).rseg = -1 ∧ (st'.tr 2).lseg = 1 ∧
      (st'.qs 7).nodetype = T_X ∧ (st'.qs 7).left = 8 ∧ (st'.qs 7).right = 9 ∧
      (st'.qs 8).trnum = 2 ∧ (st'.qs 9).trnum = 5 := by
  obtain ⟨lv', st', h0, h1, _, _, h4, h5, h6, _, _, h9, _, _, _, _, h14, h15, h16⟩ :=
    add_segment_split_spec 2 (pt 2 3) (pt 2 1) false false 2 2
      { t := 2, tfirstr := none, tlastr := none, stop := false } tie_state
      (by decide!) (by decide!) (by decide!) (by decide!) (by decide!)
  have e1 : tie_state.tr_idx = 5 := by decide!
  have e2 : tie_state.q_idx = 8 := by decide!
  have e3 : (tie_state.tr 2).sink = 7 := by decide!
  have e4 : (8 : Int) + 1 = 9 := rfl
  simp only [e1, e2, e3, e4] at h5 h6 h14 h15 h16
  refine ⟨lv', st', h0, h1, h4, h5, ?_, ?_, ?_, ?_, ?_, ?_, ?_⟩
  · rw [h6]; decide!
  · rw [h9]; decide!
  · rw [h14]
  · rw [h14]
  · rw [h14]
  · rw [h15]
  · rw [h16]

/-! ## C28: one merge step of `merge_trapezoids` -/

/-- C28. One pass of the loop of `merge_trapezoids(segnum, tfirst, tlast, side)` at a
trapezoid `t` whose lower neighbour `tnext` is bounded by `segnum` on the side being merged
(`merge_cond`) and has the same `lseg` and `rseg` as `t`, in a state where `tnext` is not `t`,
the lower neighbours of `tnext` are neither `t` nor `tnext`, and none of them names `tnext`
as both of its upper neighbours.  The pass continues the loop at `t` with the state
`merge_step st t tnext`, in which: `tnext` is INVALID and otherwise unchanged; `t` has
`lo`, `d0` and `d1` of the old `tnext` and is otherwise unchanged (state, `lseg`, `rseg`, `hi`,
`sink`); in each lower neighbour `d > 0` of the old `tnext` the links `u0`, `u1` that named
`tnext` name `t`; and in the parent of the sink of `tnext` the left child, if it was that
sink, and else the right child, is the sink of `t`, all other nodes being unchanged. -/
theorem merge_step_spec (st : State) (segnum tlast side t tnext : Int) (fuel : Nat)
    (hg : t > 0 ∧ _greater_than_equal_to (st.tr t).lo (st.tr tlast).lo = true)
    (hc : merge_cond st segnum t side = (true, tnext))
    (hs : (st.tr t).lseg = (st.tr tnext).lseg ∧ (st.tr t).rseg = (st.tr tnext).rseg)
    (hne : t ≠ tnext)
    (h0 : (st.tr tnext).d0 > 0 → (st.tr tnext).d0 ≠ t ∧ (st.tr tnext).d0 ≠ tnext ∧
      ¬ ((st.tr (st.tr tnext).d0).u0 = tnext ∧ (st.tr (st.tr tnext).d0).u1 = tnext))
    (h1 : (st.tr tnext).d1 > 0 → (st.tr tnext).d1 ≠ t ∧ (st.tr tnext).d1 ≠ tnext ∧
      ¬ ((st.tr (st.tr tnext).d1).u0 = tnext ∧ (st.tr (st.tr tnext).d1).u1 = tnext)) :
    merge_loop segnum tlast side (fuel + 1) t st =
      merge_loop segnum tlast side fuel t (merge_step st t tnext) ∧
    (merge_step st t tnext).tr tnext = { st.tr tnext with state := ST_INVALID } ∧
    (merge_step st t tnext).tr t =
      { st.tr t with lo := (st.tr tnext).lo, d0 := (st.tr tnext).d0, d1 := (st.tr tnext).d1 } ∧
    (∀ d, (d = (st.tr tnext).d0 ∨ d = (st.tr tnext).d1) → d > 0 →
      (merge_step st t tnext).tr d =
        { st.tr d with u0 := if (st.tr d).u0 = tnext then t else (st.tr d).u0,
                       u1 := if (st.tr d).u1 = tnext then t else (st.tr d).u1 }) ∧
    (merge_step st t tnext).qs (st.qs (st.tr tnext).sink).parent =
      (if (st.qs (st.qs (st.tr tnext).sink).parent).left = (st.tr tnext).sink then
        { st.qs (st.qs (st.tr tnext).sink).parent with left := (st.tr t).sink }
       else { st.qs (st.qs (st.tr tnext).sink).parent with right := (st.tr t).sink }) ∧
    (∀ k, k ≠ (st.qs (st.tr tnext).sink).parent → (merge_step st t tnext).qs k = st.qs k) := by
  obtain ⟨r1, r2, r3, r4, r5⟩ := merge_step_rows st t tnext hne
    (fun h => ⟨(h0 h).1, (h0 h).2.1⟩) (fun h => ⟨(h1 h).1, (h1 h).2.1⟩)
  refine ⟨?_, r1, r2, ?_, r4, r5⟩
  · rw [merge_loop]
    simp only [hg, hc, hs, and_self, if_true]
  · intro d hd hpos
    have hdt : d ≠ t := by
      rcases hd with e | e <;> subst e
      · exact (h0 hpos).1
      · exact (h1 hpos).1
    have hdn : d ≠ tnext := by
      rcases hd with e | e <;> subst e
      · exact (h0 hpos).2.1
      · exact (h1 hpos).2.1
    have hnb : ¬ ((st.tr d).u0 = tnext ∧ (st.tr d).u1 = tnext) := by
      rcases hd with e | e <;> subst e
      · exact (h0 hpos).2.2
      · exact (h1 hpos).2.2
    rw [r3 d hdt hdn]
    by_cases c1 : (st.tr tnext).d1 > 0 ∧ d = (st.tr tnext).d1
    · by_cases c0 : (st.tr tnext).d0 > 0 ∧ d = (st.tr tnext).d0
      · rw [if_pos c1, if_pos c0, redirect_upper_idem t tnext _ hne hnb,
          redirect_upper_not_both t tnext _ hnb]
      · rw [if_pos c1, if_neg c0, redirect_upper_not_both t tnext _ hnb]
    · have c0 : (st.tr tnext).d0 > 0 ∧ d = (st.tr tnext).d0 := by
        rcases hd with e | e
        · exact ⟨e ▸ hpos, e⟩
        · exact absurd ⟨e ▸ hpos, e⟩ c1
      rw [if_neg c1, if_pos c0, redirect_upper_not_both t tnext _ hnb]

/-- The merge step of C28 in `merge_state`: trapezoid 2 is merged into trapezoid 1. -/
theorem merge_step_spec_witness :
    (merge_step merge_state 1 2).tr 2 = { merge_state.tr 2 with state := ST_INVALID } ∧
    (merge_step merge_state 1 2).tr 1 =
      { merge_state.tr 1 with lo := pt 0 0, d0 := 3, d1 := 0 } ∧
    ((merge_step merge_state 1 2).tr 3).u0 = 1 ∧
    ((merge_step merge_state 1 2).qs 9).left = 10 := by
  have h := merge_step_spec merge_state 7 2 S_LEFT 1 2 5 (by decide!) (by decide!) (by decide!)
    (by decide) (by decide!) (by decide!)
  refine ⟨h.2.1, h.2.2.1, ?_, ?_⟩
  · have h3 := h.2.2.2.1 3 (Or.inl (by decide!)) (by decide)
    rw [h3]
    decide!
  · have h4 := h.2.2.2.2.1
    have e : (merge_state.qs (merge_state.tr 2).sink).parent = 9 := by decide!
    rw [e] at h4
    rw [h4]
    decide!

/-! ## C29: the bottom triangle below a single lower neighbour -/

theorem chain_iterate_mem (N P : Int → Int) (c p : Int) (hX : chain_ok N P c)
    (hp : 1 ≤ p ∧ p ≤ c) : ∀ m : Nat, 1 ≤ N^[m] p ∧ N^[m] p ≤ c := by
  intro m
  induction m with
  | zero => exact hp
  | succ n ih =>
    rw [Function.iterate_succ_apply']
    exact (hX _ ih.1 ih.2).1

theorem cycle_len_minimalPeriod (N : Int → Int) (p : Int) (L : Nat) (h : cycle_len N p L) :
    Function.minimalPeriod N p = L := by
  obtain ⟨h0, h1, h2⟩ := h
  have hper : Function.IsPeriodicPt N L p := h1
  have hle : Function.minimalPeriod N p ≤ L := hper.minimalPeriod_le h0
  have hpos : 0 < Function.minimalPeriod N p := hper.minimalPeriod_pos h0
  have hmp : N^[Function.minimalPeriod N p] p = p := Function.isPeriodicPt_minimalPeriod N p
  by_contra hne
  exact h2 _ hpos (lt_of_le_of_ne hle hne) hmp

theorem cycle_iterate_inj (N : Int → Int) (p : Int) (L : Nat) (h : cycle_len N p L) :
    ∀ a b : Nat, a < L → b < L → N^[a] p = N^[b] p → a = b := by
  intro a b ha hb hab
  have hm := cycle_len_minimalPeriod N p L h
  have := Function.iterate_injOn_Iio_minimalPeriod (f := N) (x := p)
  exact this (by rw [hm]; exact ha) (by rw [hm]; exact hb) hab

theorem splice_chain_ok (N P N' P' : Int → Int) (c p q : Int)
    (hX : chain_ok N P c) (hp : 1 ≤ p ∧ p ≤ c) (hq : 1 ≤ q ∧ q ≤ c) (hadj : q ≠ N p)
    (hN' : ∀ x, N' x = if x = c + 1 then N p else if x = c + 2 then c + 1
      else if x = p then q else if x = P q then c + 2 else N x)
    (hP' : ∀ x, P' x = if x = c + 1 then c + 2 else if x = c + 2 then P q
      else if x = q then p else if x = N p then c + 1 else P x) :
    chain_ok N' P' (c + 2) := by
  have hNp := (hX p hp.1 hp.2).1
  have hPq := (hX q hq.1 hq.2).2.1
  have hyp : P q ≠ p := by
    intro h
    have := (hX q hq.1 hq.2).2.2.2
    rw [h] at this
    exact hadj this.symm
  have e1 : ∀ z, 1 ≤ z → z ≤ c → z ≠ c + 1 := fun z _ h2 => by omega
  have e2 : ∀ z, 1 ≤ z → z ≤ c → z ≠ c + 2 := fun z _ h2 => by omega
  have e3 : c + 2 ≠ c + 1 := by omega
  intro x hx1 hx2
  by_cases xi : x = c + 1
  · subst xi
    have a1 : N' (c + 1) = N p := by rw [hN']; simp only [if_true]
    have a2 : P' (c + 1) = c + 2 := by rw [hP']; simp only [if_true]
    have a3 : P' (N p) = c + 1 := by
      rw [hP', if_neg (e1 _ hNp.1 hNp.2), if_neg (e2 _ hNp.1 hNp.2), if_neg (Ne.symm hadj)]
      simp only [if_true]
    have a4 : N' (c + 2) = c + 1 := by rw [hN', if_neg e3]; simp only [if_true]
    rw [a1, a2, a3, a4]
    exact ⟨⟨hNp.1, by omega⟩, ⟨by omega, by omega⟩, rfl, rfl⟩
  · by_cases xj : x = c + 2
    · subst xj
      have a1 : N' (c + 2) = c + 1 := by rw [hN', if_neg e3]; simp only [if_true]
      have a2 : P' (c + 2) = P q := by rw [hP', if_neg e3]; simp only [if_true]
      have a3 : P' (c + 1) = c + 2 := by rw [hP']; simp only [if_true]
      have a4 : N' (P q) = c + 2 := by
        rw [hN', if_neg (e1 _ hPq.1 hPq.2), if_neg (e2 _ hPq.1 hPq.2), if_neg hyp]
        simp only [if_true]
      rw [a1, a2, a3, a4]
      exact ⟨⟨by omega, by omega⟩, ⟨hPq.1, by omega⟩, rfl, rfl⟩
    · have hxc : x ≤ c := by omega
      obtain ⟨hN, hP, hPN, hNP⟩ := hX x hx1 hxc
      have n1 : N' x = if x = p then q else if x = P q then c + 2 else N x := by
        rw [hN', if_neg xi, if_neg xj]
      have p1 : P' x = if x = q then p else if x = N p then c + 1 else P x := by
        rw [hP', if_neg xi, if_neg xj]
      refine ⟨?_, ?_, ?_, ?_⟩
      · rw [n1]; split_ifs <;> constructor <;> omega
      · rw [p1]; split_ifs <;> constructor <;> omega
      · rw [n1]
        by_cases xp : x = p
        · rw [if_pos xp, hP', if_neg (e1 _ hq.1 hq.2), if_neg (e2 _ hq.1 hq.2)]
          simp only [if_true]; exact xp.symm
        · rw [if_neg xp]
          by_cases xy : x = P q
          · rw [if_pos xy, hP', if_neg e3]; simp only [if_true]; exact xy.symm
          · rw [if_neg xy, hP', if_neg (e1 _ hN.1 hN.2), if_neg (e2 _ hN.1 hN.2)]
            have c1 : N x ≠ q := by
              intro h; apply xy; rw [← h, hPN]
            have c2 : N x ≠ N p := by
              intro h; apply xp
              have := (hX p hp.1 hp.2).2.2.1
              rw [← h, hPN] at this
              exact this
            rw [if_neg c1, if_neg c2, hPN]
      · rw [p1]
        by_cases xq : x = q
        · rw [if_pos xq, hN', if_neg (e1 _ hp.1 hp.2), if_neg (e2 _ hp.1 hp.2)]
          simp only [if_true]; exact xq.symm
        · rw [if_neg xq]
          by_cases xn : x = N p
          · rw [if_pos xn, hN']; simp only [if_true]; exact xn.symm
          · rw [if_neg xn, hN', if_neg (e1 _ hP.1 hP.2), if_neg (e2 _ hP.1 hP.2)]
            have c1 : P x ≠ p := by
              intro h; apply xn; rw [← h, hNP]
            have c2 : P x ≠ P q := by
              intro h; apply xq
              have := (hX q hq.1 hq.2).2.2.2
              rw [← h, hNP] at this
              exact this
            rw [if_neg c1, if_neg c2, hNP]

theorem splice_cycles (N P N' : Int → Int) (c p q : Int) (L k : Nat)
    (hX : chain_ok N P c) (hp : 1 ≤ p ∧ p ≤ c)
    (hL : cycle_len N p L) (hk : N^[k] p = q) (hk2 : 2 ≤ k) (hkL : k < L)
    (hN' : ∀ x, N' x = if x = c + 1 then N p else if x = c + 2 then c + 1
      else if x = p then q else if x = P q then c + 2 else N x) :
    cycle_len N' p (L - k + 1) ∧ cycle_len N' (c + 1) (k + 1) ∧
    (∀ a b : Nat, N'^[a] p ≠ N'^[b] (c + 1)) := by
  have hmem := chain_iterate_mem N P c p hX hp
  have hinj := cycle_iterate_inj N p L hL
  have hxL : N^[L] p = p := hL.2.1
  have hL0 : 0 < L := hL.1
  have hsucc : ∀ m : Nat, N (N^[m] p) = N^[m + 1] p := fun m =>
    (Function.iterate_succ_apply' N m p).symm
  have hy : P q = N^[k - 1] p := by
    have e : k - 1 + 1 = k := by omega
    have := (hX _ (hmem (k - 1)).1 (hmem (k - 1)).2).2.2.1
    rw [hsucc, e, hk] at this
    exact this
  have hx1 : N p = N^[1] p := rfl
  have hx0 : ∀ r : Nat, r < L → (N^[r] p = p ↔ r = 0) := by
    intro r hr
    constructor
    · intro h; exact hinj r 0 hr hL0 h
    · intro h; subst h; rfl
  have hxy : ∀ r : Nat, r < L → (N^[r] p = P q ↔ r = k - 1) := by
    intro r hr
    rw [hy]
    constructor
    · intro h; exact hinj r (k - 1) hr (by omega) h
    · intro h; subst h; rfl
  -- the new successor on the old cycle
  have hNx : ∀ r : Nat, r < L → N' (N^[r] p) =
      if r = 0 then q else if r = k - 1 then c + 2 else N^[r + 1] p := by
    intro r hr
    have m := hmem r
    rw [hN', if_neg (by omega), if_neg (by omega), hsucc]
    simp only [hx0 r hr, hxy r hr]
  have hNi : N' (c + 1) = N^[1] p := by rw [hN']; simp only [if_true]; rfl
  have hNj : N' (c + 2) = c + 1 := by
    rw [hN', if_neg (by omega)]; simp only [if_true]
  have hNp : N' p = N^[k] p := by
    have := hNx 0 hL0
    simp only [if_true] at this
    rw [hk]; exact this
  -- the orbit of p
  have orbit_p : ∀ m : Nat, m ≤ L - k → N'^[m + 1] p = N^[k + m] p := by
    intro m
    induction m with
    | zero => intro _; exact hNp
    | succ n ih =>
      intro hn
      rw [Function.iterate_succ_apply', ih (by omega), hNx (k + n) (by omega),
        if_neg (by omega), if_neg (by omega)]
      rfl
  -- the orbit of the new node i
  have orbit_i : ∀ m : Nat, m ≤ k - 2 → N'^[m + 1] (c + 1) = N^[m + 1] p := by
    intro m
    induction m with
    | zero => intro _; exact hNi
    | succ n ih =>
      intro hn
      rw [Function.iterate_succ_apply', ih (by omega), hNx (n + 1) (by omega),
        if_neg (by omega), if_neg (by omega)]
  have orbit_j : N'^[k] (c + 1) = c + 2 := by
    have e : k = (k - 2) + 1 + 1 := by omega
    rw [e, Function.iterate_succ_apply', orbit_i (k - 2) (le_refl _), hNx _ (by omega),
      if_neg (by omega), if_pos (by omega)]
  refine ⟨⟨by omega, ?_, ?_⟩, ⟨by omega, ?_, ?_⟩, ?_⟩
  · rw [orbit_p (L - k) (le_refl _)]
    have e : k + (L - k) = L := by omega
    rw [e, hxL]
  · intro m hm0 hmL
    obtain ⟨n, rfl⟩ : ∃ n, m = n + 1 := ⟨m - 1, by omega⟩
    rw [orbit_p n (by omega)]
    intro h
    have := (hx0 (k + n) (by omega)).mp h
    omega
  · rw [Function.iterate_succ_apply', orbit_j, hNj]
  · intro m hm0 hmL
    by_cases hmk : m = k
    · rw [hmk, orbit_j]; omega
    · obtain ⟨n, rfl⟩ : ∃ n, m = n + 1 := ⟨m - 1, by omega⟩
      rw [orbit_i n (by omega)]
      have := hmem (n + 1)
      omega
  · -- the two orbits stay in disjoint sets
    have hA : ∀ a : Nat, ∃ r : Nat, (r = 0 ∨ k ≤ r) ∧ r < L ∧ N'^[a] p = N^[r] p := by
      intro a
      induction a with
      | zero => exact ⟨0, Or.inl rfl, hL0, rfl⟩
      | succ n ih =>
        obtain ⟨r, hr, hrL, e⟩ := ih
        rw [Function.iterate_succ_apply', e, hNx r hrL]
        rcases hr with h0 | hk'
        · subst h0
          simp only [if_true]
          exact ⟨k, Or.inr (le_refl _), hkL, hk.symm⟩
        · rw [if_neg (by omega), if_neg (by omega)]
          by_cases hl : r + 1 < L
          · exact ⟨r + 1, Or.inr (by omega), hl, rfl⟩
          · have e2 : r + 1 = L := by omega
            exact ⟨0, Or.inl rfl, hL0, by rw [e2, hxL]; rfl⟩
    have hB : ∀ b : Nat, N'^[b] (c + 1) = c + 1 ∨ N'^[b] (c + 1) = c + 2 ∨
        ∃ r : Nat, 1 ≤ r ∧ r ≤ k - 1 ∧ N'^[b] (c + 1) = N^[r] p := by
      intro b
      induction b with
      | zero => exact Or.inl rfl
      | succ n ih =>
        rw [Function.iterate_succ_apply']
        rcases ih with e | e | ⟨r, h1, h2, e⟩
        · rw [e, hNi]; exact Or.inr (Or.inr ⟨1, le_refl _, by omega, rfl⟩)
        · rw [e, hNj]; exact Or.inl rfl
        · rw [e, hNx r (by omega), if_neg (by omega)]
          by_cases hr : r = k - 1
          · rw [if_pos hr]; exact Or.inr (Or.inl rfl)
          · rw [if_neg hr]; exact Or.inr (Or.inr ⟨r + 1, by omega, by omega, rfl⟩)
    intro a b h
    obtain ⟨r, hr, hrL, e⟩ := hA a
    have m := hmem r
    rcases hB b with e' | e' | ⟨r', h1, h2, e'⟩
    · rw [h, e'] at e; omega
    · rw [h, e'] at e; omega
    · rw [h, e'] at e
      have := hinj r' r (by omega) hrL e
      omega

theorem mchain_set_next (st : State) (i v x : Int) :
    ((st.mchain_set i (fun r => { r with next := v })).mchain x).next =
      (if x = i then v else (st.mchain x).next) ∧
    ((st.mchain_set i (fun r => { r with next := v })).mchain x).prev = (st.mchain x).prev ∧
    ((st.mchain_set i (fun r => { r with next := v })).mchain x).vnum = (st.mchain x).vnum := by
  show ((upd st.mchain i _ x).next = _) ∧ ((upd st.mchain i _ x).prev = _) ∧
    ((upd st.mchain i _ x).vnum = _)
  unfold upd
  by_cases h : x = i
  · subst h; simp only [if_true, and_self]
  · simp only [h, if_false, and_self]

theorem mchain_set_prev (st : State) (i v x : Int) :
    ((st.mchain_set i (fun r => { r with prev := v })).mchain x).prev =
      (if x = i then v else (st.mchain x).prev) ∧
    ((st.mchain_set i (fun r => { r with prev := v })).mchain x).next = (st.mchain x).next ∧
    ((st.mchain_set i (fun r => { r with prev := v })).mchain x).vnum = (st.mchain x).vnum := by
  show ((upd st.mchain i _ x).prev = _) ∧ ((upd st.mchain i _ x).next = _) ∧
    ((upd st.mchain i _ x).vnum = _)
  unfold upd
  by_cases h : x = i
  · subst h; simp only [if_true, and_self]
  · simp only [h, if_false, and_self]

theorem mchain_set_vnum (st : State) (i v x : Int) :
    ((st.mchain_set i (fun r => { r with vnum := v })).mchain x).vnum =
      (if x = i then v else (st.mchain x).vnum) ∧
    ((st.mchain_set i (fun r => { r with vnum := v })).mchain x).next = (st.mchain x).next ∧
    ((st.mchain_set i (fun r => { r with vnum := v })).mchain x).prev = (st.mchain x).prev := by
  show ((upd st.mchain i _ x).vnum = _) ∧ ((upd st.mchain i _ x).next = _) ∧
    ((upd st.mchain i _ x).prev = _)
  unfold upd
  by_cases h : x = i
  · subst h; simp only [if_true, and_self]
  · simp only [h, if_false, and_self]

theorem mon_set_mon_ne (st : State) (i j v : Int) (h : j ≠ i) :
    (st.mon_set i v).mon j = st.mon j := by
  show upd st.mon i _ j = _
  unfold upd
  rw [if_neg h]

theorem mon_set_mon_eq (st : State) (i v : Int) : (st.mon_set i v).mon i = v := by
  show upd st.mon i _ i = _
  unfold upd
  rw [if_pos rfl]

theorem read_fst_eq (s s' : State) (o : Option Int) : (s.read o).1 = (s'.read o).1 := by
  cases o <;> rfl

theorem read_tables (s : State) (o : Option Int) :
    (s.read o).2.vert = s.vert ∧ (s.read o).2.mchain = s.mchain ∧
    (s.read o).2.chain_idx = s.chain_idx ∧ (s.read o).2.mon = s.mon := by
  cases o <;> exact ⟨rfl, rfl, rfl, rfl⟩

theorem get_vertex_positions_congr (s s' : State) (v0 v1 : Int) (h : s.vert = s'.vert) :
    get_vertex_positions s v0 v1 = get_vertex_positions s' v0 v1 := by
  simp only [get_vertex_positions, best_slot, h]

theorem vnext_set_mchain (st : State) (v i x : Int) :
    (st.vnext_set v i x).mchain = st.mchain := rfl

theorem vpos_set_mchain (st : State) (v i x : Int) :
    (st.vpos_set v i x).mchain = st.mchain := rfl

theorem vert_set_mchain (st : State) (v : Int) (f : vertexchain_t → vertexchain_t) :
    (st.vert_set v f).mchain = st.mchain := rfl

theorem vnext_set_mon (st : State) (v i x : Int) : (st.vnext_set v i x).mon = st.mon := rfl

theorem vpos_set_mon (st : State) (v i x : Int) : (st.vpos_set v i x).mon = st.mon := rfl

theorem vert_set_mon (st : State) (v : Int) (f : vertexchain_t → vertexchain_t) :
    (st.vert_set v f).mon = st.mon := rfl

theorem vnext_set_chain_idx (st : State) (v i x : Int) :
    (st.vnext_set v i x).chain_idx = st.chain_idx := rfl

theorem vpos_set_chain_idx (st : State) (v i x : Int) :
    (st.vpos_set v i x).chain_idx = st.chain_idx := rfl

theorem vert_set_chain_idx (st : State) (v : Int) (f : vertexchain_t → vertexchain_t) :
    (st.vert_set v f).chain_idx = st.chain_idx := rfl

theorem mon_set_tables (st : State) (i v : Int) :
    (st.mon_set i v).mchain = st.mchain ∧ (st.mon_set i v).chain_idx = st.chain_idx :=
  ⟨rfl, rfl⟩

theorem mchain_set_tables (st : State) (i : Int) (f : monchain_t → monchain_t) :
    (st.mchain_set i f).mon = st.mon ∧ (st.mchain_set i f).chain_idx = st.chain_idx :=
  ⟨rfl, rfl⟩

section splice_rows

attribute [local irreducible] State.mchain_set State.vnext_set State.vpos_set State.vert_set
  State.mon_set

theorem make_new_monotone_poly_rows (mcur v0 v1 : Int) (st : State)
    (hpi : selected_p st v0 v1 ≠ st.chain_idx + 1 ∧ selected_p st v0 v1 ≠ st.chain_idx + 2)
    (hqi : selected_q st v0 v1 ≠ st.chain_idx + 1 ∧ selected_q st v0 v1 ≠ st.chain_idx + 2)
    (hxi : chain_next st (selected_p st v0 v1) ≠ st.chain_idx + 1 ∧
      chain_next st (selected_p st v0 v1) ≠ st.chain_idx + 2)
    (hyi : chain_prev st (selected_q st v0 v1) ≠ st.chain_idx + 1 ∧
      chain_prev st (selected_q st v0 v1) ≠ st.chain_idx + 2)
    (hadj : selected_q st v0 v1 ≠ chain_next st (selected_p st v0 v1))
    (hmc : mcur ≠ st.mon_idx + 1) :
    (make_new_monotone_poly mcur v0 v1 st).1 = st.mon_idx + 1 ∧
    (∀ x, chain_next (make_new_monotone_poly mcur v0 v1 st).2 x =
      if x = st.chain_idx + 1 then chain_next st (selected_p st v0 v1)
      else if x = st.chain_idx + 2 then st.chain_idx + 1
      else if x = selected_p st v0 v1 then selected_q st v0 v1
      else if x = chain_prev st (selected_q st v0 v1) then st.chain_idx + 2
      else chain_next st x) ∧
    (∀ x, chain_prev (make_new_monotone_poly mcur v0 v1 st).2 x =
      if x = st.chain_idx + 1 then st.chain_idx + 2
      else if x = st.chain_idx + 2 then chain_prev st (selected_q st v0 v1)
      else if x = selected_q st v0 v1 then selected_p st v0 v1
      else if x = chain_next st (selected_p st v0 v1) then st.chain_idx + 1
      else chain_prev st x) ∧
    ((make_new_monotone_poly mcur v0 v1 st).2.mchain (st.chain_idx + 1)).vnum = v0 ∧
    ((make_new_monotone_poly mcur v0 v1 st).2.mchain (st.chain_idx + 2)).vnum = v1 ∧
    (make_new_monotone_poly mcur v0 v1 st).2.mon mcur = selected_p st v0 v1 ∧
    (make_new_monotone_poly mcur v0 v1 st).2.mon (st.mon_idx + 1) = st.chain_idx + 1 ∧
    (make_new_monotone_poly mcur v0 v1 st).2.chain_idx = st.chain_idx + 2 := by
  generalize hr : make_new_monotone_poly mcur v0 v1 st = r
  unfold make_new_monotone_poly at hr
  split at hr
  rename_i mnew s1 h1
  split at hr
  rename_i ip s2 h2
  split at hr
  rename_i iq s3 h3
  lift_lets at hr
  extract_lets p q at hr
  split at hr
  rename_i i s4 h4
  split at hr
  rename_i j s5 h5
  lift_lets at hr
  extract_lets a1 a2 a3 a4 a5 a6 a7 a8 a9 a10 nf0 nf1 b1 b2 b3 b4 b5 b6 b7 b8 b9 at hr
  -- the values read before the lists are modified
  simp only [newmon, Prod.mk.injEq] at h1
  obtain ⟨em, es1⟩ := h1
  have s1v : s1.vert = st.vert := by rw [← es1]
  have s1m : s1.mchain = st.mchain ∧ s1.chain_idx = st.chain_idx ∧ s1.mon = st.mon := by
    rw [← es1]; exact ⟨rfl, rfl, rfl⟩
  have eip : ip = (s1.read (get_vertex_positions s1 v0 v1).1).1 := by rw [h2]
  have es2 : s2 = (s1.read (get_vertex_positions s1 v0 v1).1).2 := by rw [h2]
  have s2t := read_tables s1 (get_vertex_positions s1 v0 v1).1
  rw [← es2] at s2t
  have eiq : iq = (s2.read (get_vertex_positions s2 v0 v1).2).1 := by rw [h3]
  have es3 : s3 = (s2.read (get_vertex_positions s2 v0 v1).2).2 := by rw [h3]
  have s3t := read_tables s2 (get_vertex_positions s2 v0 v1).2
  rw [← es3] at s3t
  have s3v : s3.vert = st.vert := by rw [s3t.1, s2t.1, s1v]
  have ep : p = selected_p st v0 v1 := by
    show (s3.vert v0).vpos ip = _
    rw [s3v, eip, get_vertex_positions_congr s1 st v0 v1 s1v]
    unfold selected_p
    rw [read_fst_eq s1 st]
  have eq : q = selected_q st v0 v1 := by
    show (s3.vert v1).vpos iq = _
    rw [s3v, eiq, get_vertex_positions_congr s2 st v0 v1 (by rw [s2t.1, s1v])]
    unfold selected_q
    rw [read_fst_eq s2 st]
  simp only [new_chain_element, Prod.mk.injEq] at h4
  obtain ⟨ei, es4⟩ := h4
  have s4t : s4.mchain = s3.mchain ∧ s4.chain_idx = s3.chain_idx + 1 ∧ s4.mon = s3.mon := by
    rw [← es4]; exact ⟨rfl, rfl, rfl⟩
  simp only [new_chain_element, Prod.mk.injEq] at h5
  obtain ⟨ej, es5⟩ := h5
  have s5t : s5.mchain = s4.mchain ∧ s5.chain_idx = s4.chain_idx + 1 ∧ s5.mon = s4.mon := by
    rw [← es5]; exact ⟨rfl, rfl, rfl⟩
  have S5m : s5.mchain = st.mchain := by rw [s5t.1, s4t.1, s3t.2.1, s2t.2.1, s1m.1]
  have S5c : s5.chain_idx = st.chain_idx + 1 + 1 := by
    rw [s5t.2.1, s4t.2.1, s3t.2.2.1, s2t.2.2.1, s1m.2.1]
  have S5n : s5.mon = st.mon := by rw [s5t.2.2, s4t.2.2, s3t.2.2.2, s2t.2.2.2, s1m.2.2]
  have ei' : i = st.chain_idx + 1 := by rw [← ei, s3t.2.2.1, s2t.2.2.1, s1m.2.1]
  have ej' : j = st.chain_idx + 2 := by rw [← ej, s4t.2.1, s3t.2.2.1, s2t.2.2.1, s1m.2.1]; ring
  simp only [← ep, ← eq, ← ei', ← ej', chain_next, chain_prev] at hpi hqi hxi hyi hadj ⊢
  rw [em] at hmc ⊢
  have hij : i ≠ j := by rw [ei', ej']; omega
  -- the rows written through a link
  have e2 : (a2.mchain p).next = (st.mchain p).next := by
    simp only [a2, a1, (mchain_set_vnum _ _ _ _).2.1, S5m]
  have e3 : (a3.mchain p).next = (st.mchain p).next := by
    simp only [a3, (mchain_set_next _ _ _ _).1, if_neg hpi.1, e2]
  have A3 : a3 = a2.mchain_set i (fun r => { r with next := (st.mchain p).next }) := by
    simp only [a3, e2]
  have A4 : a4 = a3.mchain_set (st.mchain p).next (fun r => { r with prev := i }) := by
    simp only [a4, e3]
  have e6 : (a6.mchain q).prev = (st.mchain q).prev := by
    simp only [a6, a5, A4, A3, a2, a1, (mchain_set_next _ _ _ _).2.1,
      (mchain_set_prev _ _ _ _).1, (mchain_set_vnum _ _ _ _).2.2, if_neg hqi.1, if_neg hadj, S5m]
  have A7 : a7 = a6.mchain_set j (fun r => { r with prev := (st.mchain q).prev }) := by
    simp only [a7, e6]
  have e7 : (a7.mchain q).prev = (st.mchain q).prev := by
    simp only [A7, (mchain_set_prev _ _ _ _).1, if_neg hqi.2, e6]
  have A8 : a8 = a7.mchain_set (st.mchain q).prev (fun r => { r with next := j }) := by
    simp only [a8, e7]
  have NX : ∀ x, (a10.mchain x).next =
      if x = p then q else if x = (st.mchain q).prev then j else if x = j then i
      else if x = i then (st.mchain p).next else (st.mchain x).next := by
    intro x
    simp only [a10, a9, A8, A7, a6, a5, A4, A3, a2, a1, (mchain_set_next _ _ _ _).1,
      (mchain_set_prev _ _ _ _).2.1, (mchain_set_vnum _ _ _ _).2.1, S5m]
  have PX : ∀ x, (a10.mchain x).prev =
      if x = q then p else if x = j then (st.mchain q).prev else if x = i then j
      else if x = (st.mchain p).next then i else (st.mchain x).prev := by
    intro x
    simp only [a10, a9, A8, A7, a6, a5, A4, A3, a2, a1, (mchain_set_prev _ _ _ _).1,
      (mchain_set_next _ _ _ _).2.1, (mchain_set_vnum _ _ _ _).2.2, S5m]
  have VX : ∀ x, (a10.mchain x).vnum =
      if x = j then v1 else if x = i then v0 else (st.mchain x).vnum := by
    intro x
    simp only [a10, a9, A8, A7, a6, a5, A4, A3, a2, a1, (mchain_set_prev _ _ _ _).2.2,
      (mchain_set_next _ _ _ _).2.2, (mchain_set_vnum _ _ _ _).1, S5m]
  have B9m : b9.mchain = a10.mchain := by
    simp only [b9, b8, b7, b6, b5, b4, b3, b2, b1, (mon_set_tables _ _ _).1, vnext_set_mchain,
      vpos_set_mchain, vert_set_mchain]
  have B9c : b9.chain_idx = st.chain_idx + 1 + 1 := by
    simp only [b9, b8, b7, b6, b5, b4, b3, b2, b1, (mon_set_tables _ _ _).2, vnext_set_chain_idx,
      vpos_set_chain_idx, vert_set_chain_idx, a10, a9, a8, a7, a6, a5, a4, a3, a2, a1,
      (mchain_set_tables _ _ _).2, S5c]
  have B9n : b9.mon mcur = p ∧ b9.mon mnew = i := by
    simp only [b9, b8, mon_set_mon_eq, mon_set_mon_ne _ _ _ _ hmc, and_self]
  subst hr
  refine ⟨rfl, ?_, ?_, ?_, ?_, B9n.1, ?_, ?_⟩
  · intro x
    show (b9.mchain x).next = _
    rw [B9m, NX x]
    by_cases c1 : x = i
    · subst c1
      simp only [if_true, if_neg (Ne.symm hpi.1), if_neg (Ne.symm hyi.1), if_neg hij]
    · by_cases c2 : x = j
      · subst c2
        simp only [if_true, if_neg (Ne.symm hpi.2), if_neg (Ne.symm hyi.2), if_neg c1]
      · simp only [if_neg c1, if_neg c2]
  · intro x
    show (b9.mchain x).prev = _
    rw [B9m, PX x]
    by_cases c1 : x = i
    · subst c1
      simp only [if_true, if_neg (Ne.symm hqi.1), if_neg hij]
    · by_cases c2 : x = j
      · subst c2
        simp only [if_true, if_neg (Ne.symm hqi.2), if_neg c1]
      · simp only [if_neg c1, if_neg c2]
  · show (b9.mchain i).vnum = v0
    rw [B9m, VX, if_neg hij, if_pos rfl]
  · show (b9.mchain j).vnum = v1
    rw [B9m, VX, if_pos rfl]
  · exact B9n.2
  · rw [B9c, ej']; ring

end splice_rows

section splice_adjacent

attribute [local irreducible] State.mchain_set State.vnext_set State.vpos_set State.vert_set
  State.mon_set

/-- The adjacent case of `make_new_monotone_poly`: when the selected position `q` is the
successor of `p` (and `q.prev = p`), the two new nodes `i = chain_idx + 1` and
`j = chain_idx + 2` are linked to each other in both directions and every other link is as
before, so that the new nodes form a cycle of their own and the old cycle is unchanged. -/
theorem make_new_monotone_poly_adjacent_rows (mcur v0 v1 : Int) (st : State)
    (hpi : selected_p st v0 v1 ≠ st.chain_idx + 1 ∧ selected_p st v0 v1 ≠ st.chain_idx + 2)
    (hqi : selected_q st v0 v1 ≠ st.chain_idx + 1 ∧ selected_q st v0 v1 ≠ st.chain_idx + 2)
    (hadj : chain_next st (selected_p st v0 v1) = selected_q st v0 v1)
    (hback : chain_prev st (selected_q st v0 v1) = selected_p st v0 v1) :
    (∀ x, chain_next (make_new_monotone_poly mcur v0 v1 st).2 x =
      if x = st.chain_idx + 1 then st.chain_idx + 2
      else if x = st.chain_idx + 2 then st.chain_idx + 1
      else chain_next st x) ∧
    (∀ x, chain_prev (make_new_monotone_poly mcur v0 v1 st).2 x =
      if x = st.chain_idx + 1 then st.chain_idx + 2
      else if x = st.chain_idx + 2 then st.chain_idx + 1
      else chain_prev st x) ∧
    ((make_new_monotone_poly mcur v0 v1 st).2.mchain (st.chain_idx + 1)).vnum = v0 ∧
    ((make_new_monotone_poly mcur v0 v1 st).2.mchain (st.chain_idx + 2)).vnum = v1 := by
  generalize hr : make_new_monotone_poly mcur v0 v1 st = r
  unfold make_new_monotone_poly at hr
  split at hr
  rename_i mnew s1 h1
  split at hr
  rename_i ip s2 h2
  split at hr
  rename_i iq s3 h3
  lift_lets at hr
  extract_lets p q at hr
  split at hr
  rename_i i s4 h4
  split at hr
  rename_i j s5 h5
  lift_lets at hr
  extract_lets a1 a2 a3 a4 a5 a6 a7 a8 a9 a10 nf0 nf1 b1 b2 b3 b4 b5 b6 b7 b8 b9 at hr
  -- the values read before the lists are modified
  simp only [newmon, Prod.mk.injEq] at h1
  obtain ⟨em, es1⟩ := h1
  have s1v : s1.vert = st.vert := by rw [← es1]
  have s1m : s1.mchain = st.mchain ∧ s1.chain_idx = st.chain_idx ∧ s1.mon = st.mon := by
    rw [← es1]; exact ⟨rfl, rfl, rfl⟩
  have eip : ip = (s1.read (get_vertex_positions s1 v0 v1).1).1 := by rw [h2]
  have es2 : s2 = (s1.read (get_vertex_positions s1 v0 v1).1).2 := by rw [h2]
  have s2t := read_tables s1 (get_vertex_positions s1 v0 v1).1
  rw [← es2] at s2t
  have eiq : iq = (s2.read (get_vertex_positions s2 v0 v1).2).1 := by rw [h3]
  have es3 : s3 = (s2.read (get_vertex_positions s2 v0 v1).2).2 := by rw [h3]
  have s3t := read_tables s2 (get_vertex_positions s2 v0 v1).2
  rw [← es3] at s3t
  have s3v : s3.vert = st.vert := by rw [s3t.1, s2t.1, s1v]
  have ep : p = selected_p st v0 v1 := by
    show (s3.vert v0).vpos ip = _
    rw [s3v, eip, get_vertex_positions_congr s1 st v0 v1 s1v]
    unfold selected_p
    rw [read_fst_eq s1 st]
  have eq : q = selected_q st v0 v1 := by
    show (s3.vert v1).vpos iq = _
    rw [s3v, eiq, get_vertex_positions_congr s2 st v0 v1 (by rw [s2t.1, s1v])]
    unfold selected_q
    rw [read_fst_eq s2 st]
  simp only [new_chain_element, Prod.mk.injEq] at h4
  obtain ⟨ei, es4⟩ := h4
  have s4t : s4.mchain = s3.mchain ∧ s4.chain_idx = s3.chain_idx + 1 ∧ s4.mon = s3.mon := by
    rw [← es4]; exact ⟨rfl, rfl, rfl⟩
  simp only [new_chain_element, Prod.mk.injEq] at h5
  obtain ⟨ej, es5⟩ := h5
  have s5t : s5.mchain = s4.mchain ∧ s5.chain_idx = s4.chain_idx + 1 ∧ s5.mon = s4.mon := by
    rw [← es5]; exact ⟨rfl, rfl, rfl⟩
  have S5m : s5.mchain = st.mchain := by rw [s5t.1, s4t.1, s3t.2.1, s2t.2.1, s1m.1]
  have S5c : s5.chain_idx = st.chain_idx + 1 + 1 := by
    rw [s5t.2.1, s4t.2.1, s3t.2.2.1, s2t.2.2.1, s1m.2.1]
  have S5n : s5.mon = st.mon := by rw [s5t.2.2, s4t.2.2, s3t.2.2.2, s2t.2.2.2, s1m.2.2]
  have ei' : i = st.chain_idx + 1 := by rw [← ei, s3t.2.2.1, s2t.2.2.1, s1m.2.1]
  have ej' : j = st.chain_idx + 2 := by rw [← ej, s4t.2.1, s3t.2.2.1, s2t.2.2.1, s1m.2.1]; ring
  simp only [← ep, ← eq, ← ei', ← ej', chain_next, chain_prev] at hpi hqi hadj hback ⊢
  have hij : i ≠ j := by rw [ei', ej']; omega
  -- the rows written through a link
  have e2 : (a2.mchain p).next = q := by
    simp only [a2, a1, (mchain_set_vnum _ _ _ _).2.1, S5m, hadj]
  have e3 : (a3.mchain p).next = q := by
    simp only [a3, (mchain_set_next _ _ _ _).1, if_neg hpi.1, e2]
  have A3 : a3 = a2.mchain_set i (fun r => { r with next := q }) := by
    simp only [a3, e2]
  have A4 : a4 = a3.mchain_set q (fun r => { r with prev := i }) := by
    simp only [a4, e3]
  have e6 : (a6.mchain q).prev = i := by
    simp only [a6, a5, A4, (mchain_set_next _ _ _ _).2.1,
      (mchain_set_prev _ _ _ _).1, if_neg hqi.1, if_true]
  have A7 : a7 = a6.mchain_set j (fun r => { r with prev := i }) := by
    simp only [a7, e6]
  have e7 : (a7.mchain q).prev = i := by
    simp only [A7, (mchain_set_prev _ _ _ _).1, if_neg hqi.2, e6]
  have A8 : a8 = a7.mchain_set i (fun r => { r with next := j }) := by
    simp only [a8, e7]
  have NX : ∀ x, (a10.mchain x).next =
      if x = p then q else if x = i then j else if x = j then i
      else (st.mchain x).next := by
    intro x
    simp only [a10, a9, A8, A7, a6, a5, A4, A3, a2, a1, (mchain_set_next _ _ _ _).1,
      (mchain_set_prev _ _ _ _).2.1, (mchain_set_vnum _ _ _ _).2.1, S5m]
    by_cases c0 : x = p
    · simp only [c0, if_true]
    · by_cases c1 : x = i
      · simp only [c1, if_true, if_neg (Ne.symm hpi.1)]
      · simp only [c0, c1, if_false]
  have PX : ∀ x, (a10.mchain x).prev =
      if x = q then p else if x = j then i else if x = i then j
      else (st.mchain x).prev := by
    intro x
    simp only [a10, a9, A8, A7, a6, a5, A4, A3, a2, a1, (mchain_set_prev _ _ _ _).1,
      (mchain_set_next _ _ _ _).2.1, (mchain_set_vnum _ _ _ _).2.2, S5m]
    by_cases c0 : x = q
    · simp only [c0, if_true]
    · simp only [c0, if_false]
  have VX : ∀ x, (a10.mchain x).vnum =
      if x = j then v1 else if x = i then v0 else (st.mchain x).vnum := by
    intro x
    simp only [a10, a9, A8, A7, a6, a5, A4, A3, a2, a1, (mchain_set_prev _ _ _ _).2.2,
      (mchain_set_next _ _ _ _).2.2, (mchain_set_vnum _ _ _ _).1, S5m]
  have B9m : b9.mchain = a10.mchain := by
    simp only [b9, b8, b7, b6, b5, b4, b3, b2, b1, (mon_set_tables _ _ _).1, vnext_set_mchain,
      vpos_set_mchain, vert_set_mchain]
  subst hr
  refine ⟨?_, ?_, ?_, ?_⟩
  · intro x
    show (b9.mchain x).next = _
    rw [B9m, NX x]
    by_cases c1 : x = i
    · subst c1
      simp only [if_true, if_neg (Ne.symm hpi.1)]
    · by_cases c2 : x = j
      · subst c2
        simp only [if_true, if_neg (Ne.symm hpi.2), if_neg c1]
      · simp only [if_neg c1, if_neg c2]
        by_cases c3 : x = p
        · subst c3
          simp only [if_true, hadj]
        · simp only [if_neg c3]
  · intro x
    show (b9.mchain x).prev = _
    rw [B9m, PX x]
    by_cases c1 : x = i
    · subst c1
      simp only [if_true, if_neg (Ne.symm hqi.1), if_neg hij]
    · by_cases c2 : x = j
      · subst c2
        simp only [if_true, if_neg (Ne.symm hqi.2), if_neg c1]
      · simp only [if_neg c1, if_neg c2]
        by_cases c3 : x = q
        · subst c3
          simp only [if_true, hback]
        · simp only [if_neg c3]
  · show (b9.mchain i).vnum = v0
    rw [B9m, VX, if_neg hij, if_pos rfl]
  · show (b9.mchain j).vnum = v1
    rw [B9m, VX, if_pos rfl]

end splice_adjacent

/-- C30 (counterexample). In `square_chains` the links of the nodes 1..4 are consistent and
form one cycle 1, 2, 3, 4 of length 4.  `make_new_monotone_poly(0, 1, 2)` selects the
distinct nodes `p = 1` and `q = 2` of that cycle, where `q` is the successor of `p`, and
creates the nodes `i = 5` and `j = 6`.  Afterwards `i.next` is 6, not the old `p.next = 2`,
and `j.prev` is 5, not the old `q.prev = 1`: the new nodes form a cycle of their own and the
old cycle is unchanged. -/
theorem make_new_monotone_poly_adjacent :
    chain_ok (chain_next square_chains) (chain_prev square_chains) 4 ∧
    cycle_len (chain_next square_chains) 1 4 ∧
    square_chains.chain_idx = 4 ∧
    selected_p square_chains 1 2 = 1 ∧ selected_q square_chains 1 2 = 2 ∧
    chain_next square_chains 1 = 2 ∧ chain_prev square_chains 2 = 1 ∧
    chain_next (make_new_monotone_poly 0 1 2 square_chains).2 5 = 6 ∧
    chain_prev (make_new_monotone_poly 0 1 2 square_chains).2 6 = 5 ∧
    (List.range 7).map (fun x => chain_next (make_new_monotone_poly 0 1 2 square_chains).2 x) =
      [0, 2, 3, 4, 1, 6, 5] := by
  refine ⟨?_, ⟨by decide, by decide!, ?_⟩, by decide!, by decide!, by decide!, by decide!,
    by decide!, by decide!, by decide!, by decide!⟩
  · intro x h1 h2
    interval_cases x <;> decide!
  · intro m h1 h2
    interval_cases m <;> decide!

/-- C30 (amended). `make_new_monotone_poly(mcur, v0, v1)` in a state whose chain links are
consistent on the nodes `1..chain_idx`, when the selected positions `p` (of `v0`) and `q` (of
`v1`) are distinct nodes of one cycle of length `L`, `q` is not the successor of `p`, and
`mcur` is an existing polygon (`mcur <= mon_idx`).  With `i = chain_idx + 1` (vnum `v0`) and
`j = chain_idx + 2` (vnum `v1`) the two new nodes: the returned id is `mon_idx + 1`; the
links are consistent on `1..chain_idx + 2`; `p.next = q`, `j.next = i`, `i.next` is the old
`p.next` and `j.prev` the old `q.prev`; the cycle through `p` and the cycle through `i` are
disjoint and their lengths sum to `L + 2`; `mon[mcur] = p` and `mon[mon_idx + 1] = i`. -/
theorem make_new_monotone_poly_splits (mcur v0 v1 : Int) (st : State) (L k : Nat)
    (hX : chain_ok (chain_next st) (chain_prev st) st.chain_idx)
    (hp : 1 ≤ selected_p st v0 v1 ∧ selected_p st v0 v1 ≤ st.chain_idx)
    (hL : cycle_len (chain_next st) (selected_p st v0 v1) L)
    (hk : (chain_next st)^[k] (selected_p st v0 v1) = selected_q st v0 v1)
    (hne : selected_q st v0 v1 ≠ selected_p st v0 v1)
    (hadj : selected_q st v0 v1 ≠ chain_next st (selected_p st v0 v1))
    (hmc : mcur ≤ st.mon_idx) :
    (make_new_monotone_poly mcur v0 v1 st).1 = st.mon_idx + 1 ∧
    (make_new_monotone_poly mcur v0 v1 st).2.chain_idx = st.chain_idx + 2 ∧
    chain_ok (chain_next (make_new_monotone_poly mcur v0 v1 st).2)
      (chain_prev (make_new_monotone_poly mcur v0 v1 st).2) (st.chain_idx + 2) ∧
    ((make_new_monotone_poly mcur v0 v1 st).2.mchain (st.chain_idx + 1)).vnum = v0 ∧
    ((make_new_monotone_poly mcur v0 v1 st).2.mchain (st.chain_idx + 2)).vnum = v1 ∧
    chain_next (make_new_monotone_poly mcur v0 v1 st).2 (selected_p st v0 v1) =
      selected_q st v0 v1 ∧
    chain_next (make_new_monotone_poly mcur v0 v1 st).2 (st.chain_idx + 2) = st.chain_idx + 1 ∧
    chain_next (make_new_monotone_poly mcur v0 v1 st).2 (st.chain_idx + 1) =
      chain_next st (selected_p st v0 v1) ∧
    chain_prev (make_new_monotone_poly mcur v0 v1 st).2 (st.chain_idx + 2) =
      chain_prev st (selected_q st v0 v1) ∧
    (∀ a b : Nat,
      (chain_next (make_new_monotone_poly mcur v0 v1 st).2)^[a] (selected_p st v0 v1) ≠
      (chain_next (make_new_monotone_poly mcur v0 v1 st).2)^[b] (st.chain_idx + 1)) ∧
    (∃ L1 L2 : Nat,
      cycle_len (chain_next (make_new_monotone_poly mcur v0 v1 st).2) (selected_p st v0 v1) L1 ∧
      cycle_len (chain_next (make_new_monotone_poly mcur v0 v1 st).2) (st.chain_idx + 1) L2 ∧
      L1 + L2 = L + 2) ∧
    (make_new_monotone_poly mcur v0 v1 st).2.mon mcur = selected_p st v0 v1 ∧
    (make_new_monotone_poly mcur v0 v1 st).2.mon (st.mon_idx + 1) = st.chain_idx + 1 := by
  have hmem := chain_iterate_mem _ _ _ _ hX hp
  have hq : 1 ≤ selected_q st v0 v1 ∧ selected_q st v0 v1 ≤ st.chain_idx := by
    rw [← hk]; exact hmem k
  have hNp := (hX _ hp.1 hp.2).1
  have hPq := (hX _ hq.1 hq.2).2.1
  obtain ⟨r1, r2, r3, r4, r5, r6, r7, r8⟩ := make_new_monotone_poly_rows mcur v0 v1 st
    ⟨by omega, by omega⟩ ⟨by omega, by omega⟩ ⟨by omega, by omega⟩ ⟨by omega, by omega⟩ hadj
    (by omega)
  -- the position of q on the cycle of p
  have hper : Function.IsPeriodicPt (chain_next st) L (selected_p st v0 v1) := hL.2.1
  have hk' : (chain_next st)^[k % L] (selected_p st v0 v1) = selected_q st v0 v1 := by
    rw [hper.iterate_mod_apply, hk]
  have hkL : k % L < L := Nat.mod_lt _ hL.1
  have hk0 : k % L ≠ 0 := by
    intro h; rw [h] at hk'; exact hne hk'.symm
  have hk1 : k % L ≠ 1 := by
    intro h; rw [h] at hk'; exact hadj hk'.symm
  have hcyc := splice_cycles _ (chain_prev st) _ st.chain_idx _ _ L (k % L) hX hp hL hk'
    (by omega) hkL r2
  have hok := splice_chain_ok _ _ _ _ st.chain_idx _ _ hX hp hq hadj r2 r3
  refine ⟨r1, r8, hok, r4, r5, ?_, ?_, ?_, ?_, hcyc.2.2, ⟨_, _, hcyc.1, hcyc.2.1, by omega⟩, r6,
    r7⟩
  · rw [r2, if_neg (by omega), if_neg (by omega), if_pos rfl]
  · rw [r2, if_neg (by omega), if_pos rfl]
  · rw [r2, if_pos rfl]
  · rw [r3, if_neg (by omega), if_pos rfl]

/-- The splice of C30 for `make_new_monotone_poly(0, 1, 3)` in `square_chains`: the diagonal
from node 1 to node 3 of the cycle 1, 2, 3, 4 leaves the cycles 1, 3, 4 and 5, 2, 6. -/
theorem make_new_monotone_poly_splits_witness :
    (make_new_monotone_poly 0 1 3 square_chains).1 = 1 ∧
    chain_next (make_new_monotone_poly 0 1 3 square_chains).2 1 = 3 ∧
    chain_next (make_new_monotone_poly 0 1 3 square_chains).2 5 = 2 ∧
    (∃ L1 L2 : Nat,
      cycle_len (chain_next (make_new_monotone_poly 0 1 3 square_chains).2) 1 L1 ∧
      cycle_len (chain_next (make_new_monotone_poly 0 1 3 square_chains).2) 5 L2 ∧
      L1 + L2 = 4 + 2) := by
  have ep : selected_p square_chains 1 3 = 1 := by decide!
  have eq : selected_q square_chains 1 3 = 3 := by decide!
  have ec : square_chains.chain_idx = 4 := by decide!
  have em : square_chains.mon_idx = 0 := by decide!
  have e2 : chain_next square_chains 1 = 2 := by decide!
  have h := make_new_monotone_poly_splits 0 1 3 square_chains 4 2
    (by
      rw [ec]
      intro x h1 h2
      interval_cases x <;> decide!)
    (by rw [ep, ec]; decide)
    (by
      rw [ep]
      refine ⟨by decide, by decide!, ?_⟩
      intro m h1 h2
      interval_cases m <;> decide!)
    (by rw [ep, eq]; decide!)
    (by rw [ep, eq]; decide)
    (by rw [ep, eq, e2]; decide)
    (by rw [em])
  rw [ep, eq, ec, em, e2] at h
  exact ⟨h.1, h.2.2.2.2.2.1, h.2.2.2.2.2.2.2.1, h.2.2.2.2.2.2.2.2.2.2.1⟩

/-! ## The sweep loop of `triangulate_single_polygon`, pass by pass -/

theorem sweep_loop_step (endv : Int) (fuel : Nat) (sw : sweep_vars) (st : State) :
    sweep_loop endv (fuel + 1) sw st =
      match sweep_step endv sw st with
      | none => some (sw, st)
      | some (_, sw1, st1) => sweep_loop endv fuel sw1 st1 := by
  conv_lhs => rw [sweep_loop]
  unfold sweep_step
  dsimp only
  split_ifs <;> rfl

theorem sweep_step_none (endv : Int) (sw : sweep_vars) (st : State) :
    sweep_step endv sw st = none ↔ ¬ (sw.v ≠ endv ∨ sw.ri > 1) := by
  unfold sweep_step
  dsimp only
  split_ifs <;> simp [*]

theorem sweep_step_cut (endv : Int) (sw sw1 : sweep_vars) (st st1 : State)
    (h : sweep_step endv sw st = some (false, sw1, st1)) :
    (sw.v ≠ endv ∨ sw.ri > 1) ∧ sw.ri > 0 ∧
    CROSS (st.vert sw.v).pt (st.vert (sw.rc (sw.ri - 1))).pt (st.vert (sw.rc sw.ri)).pt
      > Dbl.fin 0 ∧
    sw1 = { sw with ri := sw.ri - 1 } ∧ st1 = emit sw st := by
  unfold sweep_step at h
  dsimp only at h
  split_ifs at h with c1 c2 c3
  · simp only [Option.some.injEq, Prod.mk.injEq, true_and] at h
    exact ⟨c1, c2, c3, h.1.symm, h.2.symm⟩
  · simp at h
  · simp at h

theorem sweep_step_push (endv : Int) (sw sw1 : sweep_vars) (st st1 : State)
    (h : sweep_step endv sw st = some (true, sw1, st1)) :
    (sw.v ≠ endv ∨ sw.ri > 1) ∧
    sw1 = { rc := upd sw.rc (sw.ri + 1) sw.v, ri := sw.ri + 1,
            vpos := (st.mchain sw.vpos).next,
            v := (st.mchain (st.mchain sw.vpos).next).vnum } ∧
    st1 = { st with ub := st.ub || outside SEGSIZE (sw.ri + 1) } := by
  unfold sweep_step at h
  dsimp only at h
  split_ifs at h with c1 c2 c3
  · simp at h
  · simp only [Option.some.injEq, Prod.mk.injEq, true_and] at h
    exact ⟨c1, h.1.symm, h.2.symm⟩
  · simp only [Option.some.injEq, Prod.mk.injEq, true_and] at h
    exact ⟨c1, h.1.symm, h.2.symm⟩

/-- The invariant of the sweep loop on the reflex-chain index. -/
theorem sweep_step_index (endv : Int) (sw sw1 : sweep_vars) (st st1 : State) (adv : Bool)
    (h : sweep_step endv sw st = some (adv, sw1, st1)) (h0 : 0 ≤ sw.ri) :
    0 ≤ sw1.ri ∧ (sw1.ri = 0 → sw1.v ≠ endv) := by
  cases adv with
  | false =>
    obtain ⟨c1, c2, _, e1, _⟩ := sweep_step_cut _ _ _ _ _ h
    subst e1
    refine ⟨by show 0 ≤ sw.ri - 1; omega, fun e => ?_⟩
    have e' : sw.ri - 1 = 0 := e
    rcases c1 with c | c
    · exact c
    · omega
  | true =>
    obtain ⟨_, e1, _⟩ := sweep_step_push _ _ _ _ _ h
    subst e1
    refine ⟨by show 0 ≤ sw.ri + 1; omega, fun e => ?_⟩
    have e' : sw.ri + 1 = 0 := e
    omega

theorem sweep_after_index (endv : Int) :
    ∀ (n : Nat) (sw sw1 : sweep_vars) (st st1 : State),
      sweep_after endv n sw st = some (sw1, st1) →
      0 ≤ sw.ri → (sw.ri = 0 → sw.v ≠ endv) →
      0 ≤ sw1.ri ∧ (sw1.ri = 0 → sw1.v ≠ endv) := by
  intro n
  induction n with
  | zero =>
    intro sw sw1 st st1 h h0 h1
    simp only [sweep_after, Option.some.injEq, Prod.mk.injEq] at h
    obtain ⟨e1, _⟩ := h
    subst e1
    exact ⟨h0, h1⟩
  | succ n ih =>
    intro sw sw1 st st1 h h0 h1
    unfold sweep_after at h
    split at h
    · exact absurd h (by simp)
    · rename_i adv sw2 st2 h2
      obtain ⟨a, b⟩ := sweep_step_index _ _ _ _ _ _ h2 h0
      exact ih _ _ _ _ h a b

theorem sweep_loop_exit (endv : Int) :
    ∀ (fuel : Nat) (sw sw1 : sweep_vars) (st st1 : State),
      sweep_loop endv fuel sw st = some (sw1, st1) →
      0 ≤ sw.ri → (sw.ri = 0 → sw.v ≠ endv) → sw1.ri = 1 ∧ sw1.v = endv := by
  intro fuel
  induction fuel with
  | zero => intro sw sw1 st st1 h; exact absurd h (by simp [sweep_loop])
  | succ n ih =>
    intro sw sw1 st st1 h h0 h1
    rw [sweep_loop_step] at h
    split at h
    · rename_i h2
      simp only [Option.some.injEq, Prod.mk.injEq] at h
      obtain ⟨e1, _⟩ := h
      subst e1
      have c := (sweep_step_none _ _ _).mp h2
      have cv : sw.v = endv := by
        by_contra hv
        exact c (Or.inl hv)
      have cr : ¬ sw.ri > 1 := fun hr => c (Or.inr hr)
      refine ⟨?_, cv⟩
      have : sw.ri ≠ 0 := fun e => h1 e cv
      omega
    · rename_i adv sw2 st2 h2
      obtain ⟨a, b⟩ := sweep_step_index _ _ _ _ _ _ h2 h0
      exact ih _ _ _ _ h a b

theorem sweep_init_ri (st : State) (nvert posmax side : Int) :
    (sweep_init st nvert posmax side).1.ri = 1 := by
  unfold sweep_init
  split_ifs <;> rfl

/-! ## C37: the reflex-chain index -/

/-- Claim C37: in `triangulate_single_polygon` the reflex-chain index is never negative
when it is read.  After any number of passes of the sweep loop `ri` is at least 0, a pass
that cuts a triangle starts with `ri` at least 1, and when the loop exits `ri` is exactly
1, so that the final triangle is written from `rc[0]` and `rc[1]`. -/
theorem sweep_reflex_index (nvert posmax side : Int) (st0 : State) :
    (∀ (n : Nat) (sw : sweep_vars) (st : State),
      sweep_after (sweep_init st0 nvert posmax side).2 n
        (sweep_init st0 nvert posmax side).1 st0 = some (sw, st) →
      0 ≤ sw.ri ∧
      ∀ sw1 st1, sweep_step (sweep_init st0 nvert posmax side).2 sw st
        = some (false, sw1, st1) → 1 ≤ sw.ri ∧ st1 = emit sw st) ∧
    (∀ (fuel : Nat) (sw : sweep_vars) (st : State),
      sweep_loop (sweep_init st0 nvert posmax side).2 fuel
        (sweep_init st0 nvert posmax side).1 st0 = some (sw, st) → sw.ri = 1) ∧
    (∀ (fuel : Nat) (st1 : State),
      triangulate_single_polygon fuel nvert posmax side st0 = some st1 →
      ∃ sw st, sweep_loop (sweep_init st0 nvert posmax side).2 fuel
        (sweep_init st0 nvert posmax side).1 st0 = some (sw, st) ∧ sw.ri = 1 ∧
        st1.op_idx = st.op_idx + 1 ∧
        st1.op st.op_idx 0 = sw.rc 0 ∧ st1.op st.op_idx 1 = sw.rc 1 ∧
        st1.op st.op_idx 2 = sw.v) := by
  have i0 : 0 ≤ (sweep_init st0 nvert posmax side).1.ri := by rw [sweep_init_ri]; decide
  have i1 : (sweep_init st0 nvert posmax side).1.ri = 0 →
      (sweep_init st0 nvert posmax side).1.v ≠ (sweep_init st0 nvert posmax side).2 := by
    rw [sweep_init_ri]; intro h; exact absurd h (by decide)
  refine ⟨fun n sw st h => ?_, fun fuel sw st h => ?_, fun fuel st1 h => ?_⟩
  · refine ⟨(sweep_after_index _ _ _ _ _ _ h i0 i1).1, fun sw1 st1 h1 => ?_⟩
    obtain ⟨_, c2, _, _, e2⟩ := sweep_step_cut _ _ _ _ _ h1
    exact ⟨by omega, e2⟩
  · exact (sweep_loop_exit _ _ _ _ _ _ h i0 i1).1
  · unfold triangulate_single_polygon at h
    split at h
    · exact absurd h (by simp)
    · rename_i sw st h1
      simp only [Option.some.injEq] at h
      subst h
      have e := (sweep_loop_exit _ _ _ _ _ _ h1 i0 i1).1
      refine ⟨sw, st, h1, e, rfl, ?_, ?_, ?_⟩
      · show upd st.op st.op_idx _ st.op_idx 0 = _
        simp [upd, e]
      · show upd st.op st.op_idx _ st.op_idx 1 = _
        simp [upd, e]
      · show upd st.op st.op_idx _ st.op_idx 2 = _
        simp [upd]

/-! ## C36: the triangles of one monotone polygon -/

theorem emit_op_self (sw : sweep_vars) (st : State) (c : Int) :
    (emit sw st).op st.op_idx c =
      if c = 0 then sw.rc (sw.ri - 1) else if c = 1 then sw.rc sw.ri else sw.v := by
  show upd st.op st.op_idx _ st.op_idx c = _
  simp [upd]

theorem emit_op_ne (sw : sweep_vars) (st : State) (k : Int) (h : k ≠ st.op_idx) :
    (emit sw st).op k = st.op k := by
  show upd st.op st.op_idx _ k = _
  simp [upd, h]

theorem sweep_loop_run (endv : Int) (P : Int → Prop) (st0 : State) :
    ∀ (fuel : Nat) (sw : sweep_vars) (s : State) (a : Nat),
      s.mchain = st0.mchain → s.vert = st0.vert →
      0 ≤ sw.ri → (sw.ri = 0 → sw.v ≠ endv) →
      sw.v = (st0.mchain sw.vpos).vnum →
      (∀ k : Nat, P (st0.mchain ((chain_next st0)^[k] sw.vpos)).vnum) →
      (∀ i, 0 ≤ i → i ≤ sw.ri → P (sw.rc i)) →
      sweep_advances endv fuel sw s = some a →
      ∃ sw1 s1, sweep_loop endv fuel sw s = some (sw1, s1) ∧
        s1.mchain = st0.mchain ∧ s1.vert = st0.vert ∧
        sw1.ri = 1 ∧ sw1.v = endv ∧
        sw1.vpos = (chain_next st0)^[a] sw.vpos ∧
        sw1.v = (st0.mchain sw1.vpos).vnum ∧
        s1.op_idx = s.op_idx + (sw.ri + a - 1) ∧
        (∀ i, 0 ≤ i → i ≤ 1 → P (sw1.rc i)) ∧
        (∀ k, k < s.op_idx → s1.op k = s.op k) ∧
        (∀ k, s.op_idx ≤ k → k < s1.op_idx →
          CROSS (st0.vert (s1.op k 2)).pt (st0.vert (s1.op k 0)).pt (st0.vert (s1.op k 1)).pt
            > Dbl.fin 0 ∧
          P (s1.op k 0) ∧ P (s1.op k 1) ∧ P (s1.op k 2)) := by
  intro fuel
  induction fuel with
  | zero => intro sw s a _ _ _ _ _ _ _ h; exact absurd h (by simp [sweep_advances])
  | succ n ih =>
    intro sw s a hm hv h0 h1 hsv hP hrc h
    rw [sweep_loop_step]
    unfold sweep_advances at h
    split at h
    · -- the loop exits
      rename_i h2
      simp only [Option.some.injEq] at h
      subst h
      have c := (sweep_step_none _ _ _).mp h2
      have cv : sw.v = endv := by
        by_contra hv
        exact c (Or.inl hv)
      have cr : ¬ sw.ri > 1 := fun hr => c (Or.inr hr)
      have e1 : sw.ri = 1 := by
        have : sw.ri ≠ 0 := fun e => h1 e cv
        omega
      refine ⟨sw, s, rfl, hm, hv, e1, cv, rfl, hsv, by rw [e1]; simp, ?_, fun k _ => rfl, ?_⟩
      · intro i i0 i1
        exact hrc i i0 (by omega)
      · intro k k0 k1
        omega
    · rename_i adv sw2 s2 h2
      obtain ⟨a2, ha2, ea⟩ := Option.map_eq_some'.mp h
      cases adv with
      | false =>
        obtain ⟨c1, c2, c3, e1, e2⟩ := sweep_step_cut _ _ _ _ _ h2
        subst e1 e2
        simp only [Bool.false_eq_true, if_false] at ea
        subst ea
        have r0 : (0 : Int) ≤ sw.ri - 1 := by omega
        have r1 : sw.ri - 1 = 0 → sw.v ≠ endv := by
          intro e
          rcases c1 with c | c
          · exact c
          · omega
        obtain ⟨sw1, s1, g1, g2, g3, g4, g5, g6, g7, g8, g9, g10, g11⟩ :=
          ih { sw with ri := sw.ri - 1 } (emit sw s) a2 hm hv r0 r1 hsv hP
            (fun i i0 i1 => hrc i i0 (by
              have : i ≤ sw.ri - 1 := i1
              omega)) ha2
        have g8' : s1.op_idx = s.op_idx + 1 + (sw.ri - 1 + a2 - 1) := g8
        have Pv : P sw.v := by
          rw [hsv]; exact hP 0
        refine ⟨sw1, s1, g1, g2, g3, g4, g5, g6, g7, by rw [g8']; ring, g9, ?_, ?_⟩
        · intro k hk
          rw [g10 k (by rw [emit_op_idx]; omega)]
          exact emit_op_ne _ _ _ (by omega)
        · intro k k0 k1
          by_cases hk : k = s.op_idx
          · subst hk
            rw [g10 _ (by rw [emit_op_idx]; omega)]
            simp only [emit_op_self]
            norm_num
            rw [← hv] at *
            exact ⟨c3, hrc _ (by omega) (by omega), hrc _ (by omega) (by omega), Pv⟩
          · exact g11 k (by rw [emit_op_idx]; omega) k1
      | true =>
        obtain ⟨c1, e1, e2⟩ := sweep_step_push _ _ _ _ _ h2
        subst e1 e2
        simp only [if_true] at ea
        subst ea
        have hm' : s.mchain = st0.mchain := hm
        obtain ⟨sw1, s1, g1, g2, g3, g4, g5, g6, g7, g8, g9, g10, g11⟩ :=
          ih { rc := upd sw.rc (sw.ri + 1) sw.v, ri := sw.ri + 1,
               vpos := (s.mchain sw.vpos).next,
               v := (s.mchain (s.mchain sw.vpos).next).vnum }
            { s with ub := s.ub || outside SEGSIZE (sw.ri + 1) } a2 hm hv
            (by show (0 : Int) ≤ sw.ri + 1; omega)
            (by intro e; have e' : sw.ri + 1 = 0 := e; omega)
            (by show (s.mchain (s.mchain sw.vpos).next).vnum = _; rw [hm'])
            (by
              intro k
              have := hP (k + 1)
              rw [Function.iterate_succ_apply] at this
              show P (st0.mchain ((chain_next st0)^[k] (s.mchain sw.vpos).next)).vnum
              rw [hm']
              exact this)
            (by
              intro i i0 i1
              have i1' : i ≤ sw.ri + 1 := i1
              show P (upd sw.rc (sw.ri + 1) sw.v i)
              unfold upd
              split_ifs with hi
              · rw [hsv]; exact hP 0
              · exact hrc i i0 (by omega)) ha2
        have g6' : sw1.vpos = (chain_next st0)^[a2] (s.mchain sw.vpos).next := g6
        have g8' : s1.op_idx = s.op_idx + (sw.ri + 1 + a2 - 1) := g8
        refine ⟨sw1, s1, g1, g2, g3, g4, g5, ?_, g7, ?_, g9, g10, g11⟩
        · rw [g6', Function.iterate_succ_apply, hm']
          rfl
        · rw [g8']
          push_cast
          ring

theorem cycle_iterate_mod (N : Int → Int) (p : Int) (L : Nat) (h : cycle_len N p L) (k : Nat) :
    N^[k] p = N^[k % L] p :=
  (Function.IsPeriodicPt.iterate_mod_apply (show Function.IsPeriodicPt N L p from h.2.1) k).symm

theorem cycle_prev (N P : Int → Int) (c p : Int) (L : Nat) (hX : chain_ok N P c)
    (hp : 1 ≤ p ∧ p ≤ c) (h : cycle_len N p L) : P p = N^[L - 1] p := by
  have h1 := chain_iterate_mem N P c p hX hp (L - 1)
  have h2 := (hX _ h1.1 h1.2).2.2.1
  rw [← Function.iterate_succ_apply' N, Nat.succ_eq_add_one, Nat.sub_add_cancel h.1, h.2.1] at h2
  exact h2

/-- Claim C36: `triangulate_single_polygon` on a chain cycle of `m ≥ 3` nodes that hold
pairwise distinct (1-based, non-zero) vertex numbers, for either value of `side`.  If the
sweep ends after at most `m - 3` advances of `vpos`, that is without advancing past the
node that holds the end vertex, the call returns, it has appended exactly `m - 2`
triangles, every triangle `(rc[ri-1], rc[ri], v)` appended inside the loop has
`CROSS(vert[v], vert[rc[ri-1]], vert[rc[ri]]) > 0`, and every index appended is the
`vnum` of a node of the cycle. -/
theorem triangulate_single_polygon_count (fuel : Nat) (nvert posmax side c : Int) (m a : Nat)
    (st : State) (hX : chain_ok (chain_next st) (chain_prev st) c)
    (hp : 1 ≤ posmax ∧ posmax ≤ c) (hL : cycle_len (chain_next st) posmax m) (hm : 3 ≤ m)
    (hinj : ∀ i j : Nat, i < m → j < m →
      (st.mchain ((chain_next st)^[i] posmax)).vnum
        = (st.mchain ((chain_next st)^[j] posmax)).vnum → i = j)
    (hz : side = TRI_RHS → (st.mchain (chain_prev st posmax)).vnum ≠ 0)
    (ha : sweep_advances (sweep_init st nvert posmax side).2 fuel
      (sweep_init st nvert posmax side).1 st = some a)
    (hna : a + 3 ≤ m) :
    ∃ st', triangulate_single_polygon fuel nvert posmax side st = some st' ∧
      st'.op_idx = st.op_idx + ((m : Int) - 2) ∧
      (∀ k, st.op_idx ≤ k → k < st.op_idx + ((m : Int) - 3) →
        CROSS (st.vert (st'.op k 2)).pt (st.vert (st'.op k 0)).pt (st.vert (st'.op k 1)).pt
          > Dbl.fin 0) ∧
      (∀ k, st.op_idx ≤ k → k < st.op_idx + ((m : Int) - 2) →
        ∀ col, 0 ≤ col → col ≤ 2 →
          ∃ i : Nat, i < m ∧ st'.op k col = (st.mchain ((chain_next st)^[i] posmax)).vnum) := by
  have hP : ∀ k : Nat, ∃ i : Nat, i < m ∧
      (st.mchain ((chain_next st)^[k] posmax)).vnum
        = (st.mchain ((chain_next st)^[i] posmax)).vnum := fun k =>
    ⟨k % m, Nat.mod_lt _ hL.1, by rw [cycle_iterate_mod _ _ _ hL k]⟩
  have hprev := cycle_prev _ _ _ _ _ hX hp hL
  -- the start of the sweep
  have hinit : ∃ k0 e : Nat, k0 + (m - 3) = e ∧ e ≤ m ∧ 2 ≤ k0 ∧
      (sweep_init st nvert posmax side).2 = (st.mchain ((chain_next st)^[e] posmax)).vnum ∧
      (sweep_init st nvert posmax side).1.vpos = (chain_next st)^[k0] posmax ∧
      (sweep_init st nvert posmax side).1.v
        = (st.mchain (sweep_init st nvert posmax side).1.vpos).vnum ∧
      (sweep_init st nvert posmax side).1.ri = 1 ∧
      (∀ i, 0 ≤ i → i ≤ 1 → ∃ j : Nat, j < m ∧ (sweep_init st nvert posmax side).1.rc i
        = (st.mchain ((chain_next st)^[j] posmax)).vnum) := by
    by_cases hs : side = TRI_RHS
    · refine ⟨2, m - 1, by omega, by omega, le_refl _, ?_, ?_, ?_, ?_, ?_⟩
      · unfold sweep_init
        rw [if_pos hs]
        dsimp only
        have hz' : (st.mchain (st.mchain posmax).prev).vnum ≠ 0 := hz hs
        have hprev' : (st.mchain posmax).prev = (chain_next st)^[m - 1] posmax := hprev
        rw [if_neg hz', hprev']
      · unfold sweep_init; rw [if_pos hs]; rfl
      · unfold sweep_init; rw [if_pos hs]
      · unfold sweep_init; rw [if_pos hs]
      · intro i i0 i1
        unfold sweep_init
        rw [if_pos hs]
        dsimp only
        have : i = 0 ∨ i = 1 := by omega
        rcases this with e | e
        · subst e
          exact ⟨0, by omega, by simp [upd]⟩
        · subst e
          exact ⟨1, by omega, by simp [upd, chain_next]⟩
    · refine ⟨3, m, by omega, le_refl _, by omega, ?_, ?_, ?_, ?_, ?_⟩
      · unfold sweep_init
        rw [if_neg hs]
        dsimp only
        rw [hL.2.1]
      · unfold sweep_init; rw [if_neg hs]; rfl
      · unfold sweep_init; rw [if_neg hs]
      · unfold sweep_init; rw [if_neg hs]
      · intro i i0 i1
        unfold sweep_init
        rw [if_neg hs]
        dsimp only
        have : i = 0 ∨ i = 1 := by omega
        rcases this with e | e
        · subst e
          obtain ⟨j, hj, ej⟩ := hP 1
          exact ⟨j, hj, by rw [← ej]; simp [upd, chain_next]⟩
        · subst e
          obtain ⟨j, hj, ej⟩ := hP 2
          exact ⟨j, hj, by rw [← ej]; simp [upd, chain_next]⟩
  obtain ⟨k0, e, he, hem, hk0, iend, ivpos, iv, iri, irc⟩ := hinit
  obtain ⟨sw1, s1, g1, g2, g3, g4, g5, g6, g7, g8, g9, g10, g11⟩ :=
    sweep_loop_run (sweep_init st nvert posmax side).2
      (fun x => ∃ i : Nat, i < m ∧ x = (st.mchain ((chain_next st)^[i] posmax)).vnum) st
      fuel (sweep_init st nvert posmax side).1 st a rfl rfl (by rw [iri]; decide)
      (by rw [iri]; intro h; exact absurd h (by decide)) iv
      (by
        intro k
        rw [ivpos, ← Function.iterate_add_apply]
        exact hP _)
      (by rw [iri]; exact irc) ha
  -- the number of advances
  have hv : (st.mchain ((chain_next st)^[a + k0] posmax)).vnum
      = (st.mchain ((chain_next st)^[e] posmax)).vnum := by
    rw [← iend, ← g5, g7, g6, ivpos, ← Function.iterate_add_apply]
  have ea : a + 3 = m := by
    by_contra hne
    have hlt : a + 3 < m := lt_of_le_of_ne hna hne
    have h1 : a + k0 < e := by omega
    rcases Nat.lt_or_ge e m with h2 | h2
    · have := hinj _ _ (by omega) h2 hv
      omega
    · have e2 : e = m := le_antisymm hem h2
      rw [e2, hL.2.1] at hv
      have := hinj (a + k0) 0 (by omega) (by omega) hv
      omega
  have g8' : s1.op_idx = st.op_idx + ((m : Int) - 3) := by
    rw [g8, iri, ← ea]
    push_cast
    ring
  have ht : triangulate_single_polygon fuel nvert posmax side st = some (emit sw1 s1) := by
    unfold triangulate_single_polygon
    rw [g1]
  refine ⟨_, ht, ?_, ?_, ?_⟩
  · rw [emit_op_idx, g8']
    ring
  · intro k k0' k1
    rw [emit_op_ne _ _ _ (by rw [g8']; omega)]
    exact (g11 k k0' (by rw [g8']; exact k1)).1
  · intro k k0' k1 col c0 c2
    by_cases hk : k = s1.op_idx
    · subst hk
      rw [emit_op_self, g4]
      have hc : col = 0 ∨ col = 1 ∨ col = 2 := by omega
      rcases hc with hc | hc | hc
      · subst hc
        exact g9 0 (by decide) (by decide)
      · subst hc
        exact g9 1 (by decide) (by decide)
      · subst hc
        obtain ⟨j, hj, ej⟩ := hP e
        exact ⟨j, hj, by rw [← ej, ← iend, ← g5]; rfl⟩
    · rw [emit_op_ne _ _ _ hk]
      have hlt : k < s1.op_idx := by rw [g8'] at hk ⊢; omega
      have := g11 k k0' hlt
      have hc : col = 0 ∨ col = 1 ∨ col = 2 := by omega
      rcases hc with hc | hc | hc
      · subst hc; exact this.2.1
      · subst hc; exact this.2.2.1
      · subst hc; exact this.2.2.2

/-- The sweep of C36 on the square: the cycle 1, 2, 3, 4 of `square_chains` with `posmax`
at node 3 and side `TRI_RHS` advances once and appends 4 - 2 = 2 triangles. -/
theorem triangulate_single_polygon_count_witness :
    ∃ st', triangulate_single_polygon 10 4 3 TRI_RHS square_chains = some st' ∧
      st'.op_idx = square_chains.op_idx + (((4 : Nat) : Int) - 2) ∧
      (∀ k, square_chains.op_idx ≤ k → k < square_chains.op_idx + (((4 : Nat) : Int) - 3) →
        CROSS (square_chains.vert (st'.op k 2)).pt (square_chains.vert (st'.op k 0)).pt
          (square_chains.vert (st'.op k 1)).pt > Dbl.fin 0) ∧
      (∀ k, square_chains.op_idx ≤ k → k < square_chains.op_idx + (((4 : Nat) : Int) - 2) →
        ∀ col, 0 ≤ col → col ≤ 2 →
          ∃ i : Nat, i < 4 ∧ st'.op k col
            = (square_chains.mchain ((chain_next square_chains)^[i] 3)).vnum) :=
  triangulate_single_polygon_count 10 4 3 TRI_RHS 4 4 1 square_chains
    (by
      intro x h1 h2
      interval_cases x <;> decide!)
    (by decide)
    (by
      refine ⟨by decide, by decide!, ?_⟩
      intro m h1 h2
      interval_cases m <;> decide!)
    (by decide)
    (by
      intro i j hi hj
      interval_cases i <;> interval_cases j <;> decide!)
    (fun _ => by decide!)
    (by decide!)
    (by decide)

/-! ## The scan loop of `triangulate_monotone_polygons` -/

theorem Dbl_lt_irrefl (a : Dbl) : Dbl.lt a a = false := by
  cases a <;> simp [Dbl.lt]

theorem Dbl_add_eps_not_lt (a : Dbl) : Dbl.lt (a + C_EPS) a = false := by
  cases a with
  | fin q =>
    show decide (q + 1 / 10000000 < q) = false
    simp
  | pinf => rfl
  | ninf => rfl
  | nan => rfl

theorem Dbl_not_lt_sub_eps (a : Dbl) : Dbl.lt a (a - C_EPS) = false := by
  cases a with
  | fin q =>
    show decide (q < q + -(1 / 10000000)) = false
    simp
  | pinf => rfl
  | ninf => rfl
  | nan => rfl

theorem greater_than_irrefl (p : point_t) : _greater_than p p = false := by
  unfold _greater_than
  have h1 : ¬ (p.y > p.y + C_EPS) := by
    show ¬ (Dbl.lt (p.y + C_EPS) p.y = true)
    rw [Dbl_add_eps_not_lt]; simp
  have h2 : ¬ (p.x > p.x) := by
    show ¬ (Dbl.lt p.x p.x = true)
    rw [Dbl_lt_irrefl]; simp
  rw [if_neg h1]
  split_ifs
  · rfl
  · simp [h2]

theorem less_than_irrefl (p : point_t) : _less_than p p = false := by
  unfold _less_than
  have h1 : ¬ (p.y < p.y - C_EPS) := by
    show ¬ (Dbl.lt p.y (p.y - C_EPS) = true)
    rw [Dbl_not_lt_sub_eps]; simp
  have h2 : ¬ (p.x < p.x) := by
    show ¬ (Dbl.lt p.x p.x = true)
    rw [Dbl_lt_irrefl]; simp
  rw [if_neg h1]
  split_ifs
  · rfl
  · simp [h2]

theorem marks_only_refl (s : State) : marks_only s s :=
  ⟨fun _ => ⟨rfl, rfl, rfl, id⟩, rfl, rfl⟩

theorem marks_only_trans (s1 s2 s3 : State) (h1 : marks_only s1 s2) (h2 : marks_only s2 s3) :
    marks_only s1 s3 := by
  refine ⟨fun x => ?_, h2.2.1.trans h1.2.1, h2.2.2.trans h1.2.2⟩
  obtain ⟨a1, a2, a3, a4⟩ := h1.1 x
  obtain ⟨b1, b2, b3, b4⟩ := h2.1 x
  exact ⟨b1.trans a1, b2.trans a2, b3.trans a3, fun h => b4 (a4 h)⟩

theorem mchain_set_marked (st : State) (i x : Int) :
    ((st.mchain_set i (fun r => { r with marked := true })).mchain x).next
      = (st.mchain x).next ∧
    ((st.mchain_set i (fun r => { r with marked := true })).mchain x).prev
      = (st.mchain x).prev ∧
    ((st.mchain_set i (fun r => { r with marked := true })).mchain x).vnum
      = (st.mchain x).vnum ∧
    ((st.mchain_set i (fun r => { r with marked := true })).mchain x).marked
      = (if x = i then true else (st.mchain x).marked) := by
  show ((upd st.mchain i _ x).next = _) ∧ ((upd st.mchain i _ x).prev = _) ∧
    ((upd st.mchain i _ x).vnum = _) ∧ ((upd st.mchain i _ x).marked = _)
  unfold upd
  by_cases h : x = i
  · subst h; simp only [if_true, and_self]
  · simp only [h, if_false, and_self]

theorem marks_only_mark (st : State) (i : Int) :
    marks_only st (st.mchain_set i (fun r => { r with marked := true })) := by
  refine ⟨fun x => ?_, rfl, rfl⟩
  obtain ⟨a1, a2, a3, a4⟩ := mchain_set_marked st i x
  refine ⟨a1, a2, a3, fun h => ?_⟩
  rw [a4]
  split_ifs
  · rfl
  · exact h

theorem scan_step_snd (sv : scan_vars) (st : State) :
    (scan_step sv st).2 = st.mchain_set sv.p (fun r => { r with marked := true }) := rfl

theorem scan_step_op (sv : scan_vars) (st : State) :
    (scan_step sv st).2.op = st.op ∧ (scan_step sv st).2.op_idx = st.op_idx := ⟨rfl, rfl⟩

theorem scan_step_vars (sv : scan_vars) (st : State) :
    (scan_step sv st).1.p = (st.mchain sv.p).next ∧
    (scan_step sv st).1.vcount = sv.vcount + 1 ∧
    (scan_step sv st).1.processed = sv.processed ∧
    (scan_step sv st).1.ymax =
      (if _greater_than (node_pt st sv.p) sv.ymax then node_pt st sv.p else sv.ymax) ∧
    (scan_step sv st).1.posmax =
      (if _greater_than (node_pt st sv.p) sv.ymax then sv.p else sv.posmax) ∧
    (scan_step sv st).1.ymin =
      (if _less_than (node_pt st sv.p) sv.ymin then node_pt st sv.p else sv.ymin) ∧
    (scan_step sv st).1.posmin =
      (if _less_than (node_pt st sv.p) sv.ymin then sv.p else sv.posmin) := by
  have e1 := (mchain_set_marked st sv.p sv.p).1
  unfold scan_step node_pt
  dsimp only
  have ev : (st.mchain_set sv.p (fun r => { r with marked := true })).vert = st.vert := rfl
  rw [ev]
  split_ifs <;> exact ⟨e1, rfl, rfl, rfl, rfl, rfl, rfl⟩

theorem scan_loop_marks (vfirst : Int) :
    ∀ (fuel : Nat) (sv sv1 : scan_vars) (st st1 : State),
      scan_loop vfirst fuel sv st = some (sv1, st1) →
      marks_only st st1 ∧ st1.op = st.op ∧ st1.op_idx = st.op_idx := by
  intro fuel
  induction fuel with
  | zero => intro sv sv1 st st1 h; exact absurd h (by simp [scan_loop])
  | succ n ih =>
    intro sv sv1 st st1 h
    unfold scan_loop at h
    split_ifs at h
    · simp only [Option.some.injEq, Prod.mk.injEq] at h
      obtain ⟨_, e⟩ := h
      subst e
      exact ⟨marks_only_refl _, rfl, rfl⟩
    · obtain ⟨a, b, c⟩ := ih _ _ _ _ h
      rw [scan_step_snd] at a
      exact ⟨marks_only_trans _ _ _ (marks_only_mark _ _) a, b, c⟩
    · simp only [Option.some.injEq, Prod.mk.injEq] at h
      obtain ⟨_, e⟩ := h
      subst e
      exact ⟨marks_only_refl _, rfl, rfl⟩

theorem running_extreme (R : point_t → point_t → Bool) (pt : Nat → point_t) (pos : Nat → Int)
    (L k : Nat) (y : point_t) (p : Int) (hirr : ∀ q, R q q = false)
    (htr : ∀ a b c : Nat, a < L → b < L → c < L →
      R (pt a) (pt b) = true → R (pt b) (pt c) = true → R (pt a) (pt c) = true)
    (hk : k < L) (hy : ∃ a : Nat, a < k ∧ p = pos a ∧ y = pt a)
    (hmax : ∀ w : Nat, w < k → R (pt w) y = false) :
    (∃ a : Nat, a < k + 1 ∧ (if R (pt k) y then pos k else p) = pos a ∧
      (if R (pt k) y then pt k else y) = pt a) ∧
    ∀ w : Nat, w < k + 1 → R (pt w) (if R (pt k) y then pt k else y) = false := by
  obtain ⟨a, ha, ep, ey⟩ := hy
  by_cases h : R (pt k) y = true
  · simp only [h, if_true]
    refine ⟨⟨k, by omega, rfl, rfl⟩, fun w hw => ?_⟩
    rcases Nat.lt_or_ge w k with h1 | h1
    · by_contra hc
      have hc' : R (pt w) (pt k) = true := by
        cases hR : R (pt w) (pt k)
        · exact absurd hR hc
        · rfl
      rw [ey] at h
      have := htr w k a (by omega) hk (by omega) hc' h
      rw [← ey, hmax w h1] at this
      exact absurd this (by decide)
    · have : w = k := by omega
      subst this
      exact hirr _
  · have hf : R (pt k) y = false := Bool.eq_false_iff.mpr h
    simp only [hf, Bool.false_eq_true, if_false]
    refine ⟨⟨a, by omega, ep, ey⟩, fun w hw => ?_⟩
    rcases Nat.lt_or_ge w k with h1 | h1
    · exact hmax w h1
    · have : w = k := by omega
      subst this
      exact hf

theorem scan_loop_cycle (st0 : State) (c0 : Int) (L : Nat)
    (hL : cycle_len (chain_next st0) c0 L)
    (hinj : ∀ a b : Nat, a < L → b < L →
      (st0.mchain ((chain_next st0)^[a] c0)).vnum
        = (st0.mchain ((chain_next st0)^[b] c0)).vnum → a = b)
    (hgt : ∀ a b c : Nat, a < L → b < L → c < L →
      _greater_than (node_pt st0 ((chain_next st0)^[a] c0))
        (node_pt st0 ((chain_next st0)^[b] c0)) = true →
      _greater_than (node_pt st0 ((chain_next st0)^[b] c0))
        (node_pt st0 ((chain_next st0)^[c] c0)) = true →
      _greater_than (node_pt st0 ((chain_next st0)^[a] c0))
        (node_pt st0 ((chain_next st0)^[c] c0)) = true)
    (hlt : ∀ a b c : Nat, a < L → b < L → c < L →
      _less_than (node_pt st0 ((chain_next st0)^[a] c0))
        (node_pt st0 ((chain_next st0)^[b] c0)) = true →
      _less_than (node_pt st0 ((chain_next st0)^[b] c0))
        (node_pt st0 ((chain_next st0)^[c] c0)) = true →
      _less_than (node_pt st0 ((chain_next st0)^[a] c0))
        (node_pt st0 ((chain_next st0)^[c] c0)) = true) :
    ∀ (d fuel k : Nat) (sv : scan_vars) (s : State), k + d = L → 1 ≤ k → d < fuel →
      sv.p = (chain_next st0)^[k] c0 → sv.vcount = k → marks_only st0 s →
      (∀ j : Nat, k ≤ j → j < L → (s.mchain ((chain_next st0)^[j] c0)).marked = false) →
      (∃ a : Nat, a < k ∧ sv.posmax = (chain_next st0)^[a] c0 ∧
        sv.ymax = node_pt st0 ((chain_next st0)^[a] c0)) →
      (∃ a : Nat, a < k ∧ sv.posmin = (chain_next st0)^[a] c0 ∧
        sv.ymin = node_pt st0 ((chain_next st0)^[a] c0)) →
      (∀ w : Nat, w < k →
        _greater_than (node_pt st0 ((chain_next st0)^[w] c0)) sv.ymax = false) →
      (∀ w : Nat, w < k →
        _less_than (node_pt st0 ((chain_next st0)^[w] c0)) sv.ymin = false) →
      sv.processed = false →
      ∃ sv1 s1, scan_loop (st0.mchain c0).vnum fuel sv s = some (sv1, s1) ∧
        sv1.vcount = L ∧ sv1.processed = false ∧ marks_only st0 s1 ∧
        (∃ a : Nat, a < L ∧ sv1.posmax = (chain_next st0)^[a] c0 ∧
          sv1.ymax = node_pt st0 ((chain_next st0)^[a] c0)) ∧
        (∃ a : Nat, a < L ∧ sv1.posmin = (chain_next st0)^[a] c0 ∧
          sv1.ymin = node_pt st0 ((chain_next st0)^[a] c0)) ∧
        (∀ w : Nat, w < L →
          _greater_than (node_pt st0 ((chain_next st0)^[w] c0)) sv1.ymax = false) ∧
        (∀ w : Nat, w < L →
          _less_than (node_pt st0 ((chain_next st0)^[w] c0)) sv1.ymin = false) := by
  intro d
  induction d with
  | zero =>
    intro fuel k sv s hk k1 hf i1 i2 i3 i4 i5 i6 i7 i8 i9
    have ek : k = L := by omega
    subst ek
    obtain ⟨f, rfl⟩ : ∃ f, fuel = f + 1 := ⟨fuel - 1, by omega⟩
    have ev : (s.mchain sv.p).vnum = (st0.mchain c0).vnum := by
      rw [(i3.1 _).2.2.1, i1, hL.2.1]
    refine ⟨sv, s, ?_, i2, i9, i3, i5, i6, i7, i8⟩
    unfold scan_loop
    rw [if_neg (by rw [ev]; simp)]
  | succ d ih =>
    intro fuel k sv s hk k1 hf i1 i2 i3 i4 i5 i6 i7 i8 i9
    obtain ⟨f, rfl⟩ : ∃ f, fuel = f + 1 := ⟨fuel - 1, by omega⟩
    have hkL : k < L := by omega
    have ev : (s.mchain sv.p).vnum ≠ (st0.mchain c0).vnum := by
      rw [(i3.1 _).2.2.1, i1]
      intro e
      have := hinj k 0 hkL hL.1 e
      omega
    have em : ¬ ((s.mchain sv.p).marked = true) := by
      rw [i1, i4 k (le_refl _) hkL]
      decide
    have hpt : node_pt s sv.p = node_pt st0 ((chain_next st0)^[k] c0) := by
      unfold node_pt
      rw [i3.2.1, (i3.1 _).2.2.1, i1]
    obtain ⟨v1, v2, v3, v4, v5, v6, v7⟩ := scan_step_vars sv s
    rw [hpt] at v4 v5 v6 v7
    have M := running_extreme _greater_than (fun a => node_pt st0 ((chain_next st0)^[a] c0))
      (fun a => (chain_next st0)^[a] c0) L k sv.ymax sv.posmax greater_than_irrefl hgt hkL
      i5 i7
    have m := running_extreme _less_than (fun a => node_pt st0 ((chain_next st0)^[a] c0))
      (fun a => (chain_next st0)^[a] c0) L k sv.ymin sv.posmin less_than_irrefl hlt hkL
      i6 i8
    dsimp only at M m
    rw [i1] at v5 v7
    rw [← v4, ← v5] at M
    rw [← v6, ← v7] at m
    obtain ⟨sv1, s1, g⟩ := ih f (k + 1) (scan_step sv s).1 (scan_step sv s).2 (by omega)
      (by omega) (by omega)
      (by
        rw [v1, (i3.1 _).1, i1, Function.iterate_succ_apply']
        rfl)
      (by rw [v2, i2]; push_cast; rfl)
      (marks_only_trans _ _ _ i3 (by rw [scan_step_snd]; exact marks_only_mark _ _))
      (by
        intro j j1 j2
        rw [scan_step_snd, (mchain_set_marked s sv.p _).2.2.2, if_neg, i4 j (by omega) j2]
        rw [i1]
        intro e
        have := cycle_iterate_inj _ _ _ hL j k j2 hkL e
        omega)
      (by
        obtain ⟨a, ha, e1, e2⟩ := M.1
        exact ⟨a, ha, e1, e2⟩)
      (by
        obtain ⟨a, ha, e1, e2⟩ := m.1
        exact ⟨a, ha, e1, e2⟩)
      M.2 m.2 (by rw [v3, i9])
    refine ⟨sv1, s1, ?_, g.2⟩
    unfold scan_loop
    rw [if_pos ev, if_neg em]
    exact g.1

theorem scan_init_parts (i : Int) (st : State) :
    (scan_init i st).1 = (st.mchain (st.mon i)).vnum ∧
    (scan_init i st).2.2 = st.mchain_set (st.mon i) (fun r => { r with marked := true }) ∧
    (scan_init i st).2.1.p = (st.mchain (st.mon i)).next ∧
    (scan_init i st).2.1.vcount = 1 ∧
    (scan_init i st).2.1.ymax = node_pt st (st.mon i) ∧
    (scan_init i st).2.1.ymin = node_pt st (st.mon i) ∧
    (scan_init i st).2.1.posmax = st.mon i ∧
    (scan_init i st).2.1.posmin = st.mon i ∧
    (scan_init i st).2.1.processed = false :=
  ⟨rfl, rfl, (mchain_set_marked st (st.mon i) (st.mon i)).1, rfl, rfl, rfl, rfl, rfl, rfl⟩

/-! ## C35: the highest and the lowest vertex of a monotone polygon -/

/-- Claim C35 fails on the code: `_greater_than` compares ordinates up to `C_EPS` and is
not transitive.  In `sliver_chains` the cycle 1, 2, 3 is unmarked and its vertices
(10, 0), (5, 0.8 ε), (11, -0.3 ε) are pairwise distinct; the scan loop for `mon[0]`
ends with `ymax` at vertex 3, and vertex 2 is greater than `ymax`. -/
theorem scan_loop_sliver :
    (sliver_chains.mon 0 = 1 ∧ chain_next sliver_chains 1 = 2 ∧
      chain_next sliver_chains 2 = 3 ∧ chain_next sliver_chains 3 = 1) ∧
    ((sliver_chains.mchain 1).vnum = 1 ∧ (sliver_chains.mchain 2).vnum = 2 ∧
      (sliver_chains.mchain 3).vnum = 3) ∧
    ((sliver_chains.mchain 1).marked = false ∧ (sliver_chains.mchain 2).marked = false ∧
      (sliver_chains.mchain 3).marked = false) ∧
    (node_pt sliver_chains 1 = pt 10 0 ∧ node_pt sliver_chains 2 = pt 5 (8 / 100000000) ∧
      node_pt sliver_chains 3 = pt 11 (-3 / 100000000)) ∧
    (scan_loop (scan_init 0 sliver_chains).1 10 (scan_init 0 sliver_chains).2.1
      (scan_init 0 sliver_chains).2.2).map
        (fun r => (r.1.processed, r.1.vcount, r.1.posmax, r.1.ymax,
          _greater_than (node_pt sliver_chains 2) r.1.ymax))
      = some (false, 3, 3, pt 11 (-3 / 100000000), true) := by
  refine ⟨by decide!, by decide!, by decide!, by decide!, by decide!⟩

/-- Claim C35, amended: the scan loop of `triangulate_monotone_polygons` over an unmarked
cycle of `L` nodes with pairwise distinct vertices, on whose points `_greater_than` and
`_less_than` are transitive, returns (with fuel for `L` passes) after counting `L`
vertices; `posmax` and `posmin` are nodes of the cycle, `ymax` and `ymin` are their
points, no vertex of the cycle is greater than `ymax` and none is less than `ymin`. -/
theorem scan_loop_extremes (fuel : Nat) (i : Int) (L : Nat) (st : State)
    (hL : cycle_len (chain_next st) (st.mon i) L)
    (hinj : ∀ a b : Nat, a < L → b < L →
      (st.mchain ((chain_next st)^[a] (st.mon i))).vnum
        = (st.mchain ((chain_next st)^[b] (st.mon i))).vnum → a = b)
    (hunm : ∀ a : Nat, a < L → (st.mchain ((chain_next st)^[a] (st.mon i))).marked = false)
    (hgt : ∀ a b c : Nat, a < L → b < L → c < L →
      _greater_than (node_pt st ((chain_next st)^[a] (st.mon i)))
        (node_pt st ((chain_next st)^[b] (st.mon i))) = true →
      _greater_than (node_pt st ((chain_next st)^[b] (st.mon i)))
        (node_pt st ((chain_next st)^[c] (st.mon i))) = true →
      _greater_than (node_pt st ((chain_next st)^[a] (st.mon i)))
        (node_pt st ((chain_next st)^[c] (st.mon i))) = true)
    (hlt : ∀ a b c : Nat, a < L → b < L → c < L →
      _less_than (node_pt st ((chain_next st)^[a] (st.mon i)))
        (node_pt st ((chain_next st)^[b] (st.mon i))) = true →
      _less_than (node_pt st ((chain_next st)^[b] (st.mon i)))
        (node_pt st ((chain_next st)^[c] (st.mon i))) = true →
      _less_than (node_pt st ((chain_next st)^[a] (st.mon i)))
        (node_pt st ((chain_next st)^[c] (st.mon i))) = true)
    (hf : L ≤ fuel) :
    ∃ sv st', scan_loop (scan_init i st).1 fuel (scan_init i st).2.1 (scan_init i st).2.2
        = some (sv, st') ∧
      sv.processed = false ∧ sv.vcount = L ∧
      (∃ a : Nat, a < L ∧ sv.posmax = (chain_next st)^[a] (st.mon i) ∧
        sv.ymax = node_pt st sv.posmax) ∧
      (∃ a : Nat, a < L ∧ sv.posmin = (chain_next st)^[a] (st.mon i) ∧
        sv.ymin = node_pt st sv.posmin) ∧
      ∀ w : Nat, w < L →
        _greater_than (node_pt st ((chain_next st)^[w] (st.mon i))) sv.ymax = false ∧
        _less_than (node_pt st ((chain_next st)^[w] (st.mon i))) sv.ymin = false := by
  obtain ⟨e1, e2, e3, e4, e5, e6, e7, e8, e9⟩ := scan_init_parts i st
  have hL0 := hL.1
  have h := scan_loop_cycle st (st.mon i) L hL hinj hgt hlt (L - 1) fuel 1
    (scan_init i st).2.1 (scan_init i st).2.2 (by omega) (le_refl _) (by omega)
    (by rw [e3]; rfl) (by rw [e4]; rfl) (by rw [e2]; exact marks_only_mark _ _)
    (by
      intro j j1 j2
      rw [e2, (mchain_set_marked st _ _).2.2.2, if_neg, hunm j j2]
      intro e
      have := cycle_iterate_inj _ _ _ hL j 0 j2 hL0 e
      omega)
    ⟨0, by omega, e7, e5⟩ ⟨0, by omega, e8, e6⟩
    (by
      intro w hw
      have : w = 0 := by omega
      subst this
      rw [e5]
      exact greater_than_irrefl _)
    (by
      intro w hw
      have : w = 0 := by omega
      subst this
      rw [e6]
      exact less_than_irrefl _)
    e9
  rw [← e1] at h
  obtain ⟨sv, s1, g1, g2, g3, _, ⟨a, ha, ga1, ga2⟩, ⟨b, hb, gb1, gb2⟩, g6, g7⟩ := h
  exact ⟨sv, s1, g1, g3, g2, ⟨a, ha, ga1, by rw [ga2, ga1]⟩, ⟨b, hb, gb1, by rw [gb2, gb1]⟩,
    fun w hw => ⟨g6 w hw, g7 w hw⟩⟩

/-- The scan of C35 on the square: the cycle 1, 2, 3, 4 of `square_chains` is unmarked,
its vertices are distinct and their ordinates are 0 or 4. -/
theorem scan_loop_extremes_witness :
    ∃ sv st', scan_loop (scan_init 0 square_chains).1 10 (scan_init 0 square_chains).2.1
        (scan_init 0 square_chains).2.2 = some (sv, st') ∧
      sv.processed = false ∧ sv.vcount = (4 : Nat) ∧
      (∃ a : Nat, a < 4 ∧ sv.posmax = (chain_next square_chains)^[a] (square_chains.mon 0) ∧
        sv.ymax = node_pt square_chains sv.posmax) ∧
      (∃ a : Nat, a < 4 ∧ sv.posmin = (chain_next square_chains)^[a] (square_chains.mon 0) ∧
        sv.ymin = node_pt square_chains sv.posmin) ∧
      ∀ w : Nat, w < 4 →
        _greater_than (node_pt square_chains ((chain_next square_chains)^[w]
          (square_chains.mon 0))) sv.ymax = false ∧
        _less_than (node_pt square_chains ((chain_next square_chains)^[w]
          (square_chains.mon 0))) sv.ymin = false :=
  scan_loop_extremes 10 0 4 square_chains
    (by
      refine ⟨by decide, by decide!, ?_⟩
      intro m h1 h2
      interval_cases m <;> decide!)
    (by
      intro a b ha hb
      interval_cases a <;> interval_cases b <;> decide!)
    (by
      intro a ha
      interval_cases a <;> decide!)
    (by
      intro a b c ha hb hc
      interval_cases a <;> interval_cases b <;> interval_cases c <;> decide!)
    (by
      intro a b c ha hb hc
      interval_cases a <;> interval_cases b <;> interval_cases c <;> decide!)
    (by decide)

/-! ## Marks and the passes of the loop over `mon` -/

theorem for_loop_succ (body : Int → State → Option State) (n : Nat) (i : Int) (st : State) :
    for_loop body (n + 1) i st =
      match body i st with
      | none => none
      | some s => for_loop body n (i + 1) s := rfl

theorem for_loop_split (body : Int → State → Option State) :
    ∀ (a b : Nat) (i : Int) (st r : State), for_loop body (a + b) i st = some r →
      ∃ s, for_loop body a i st = some s ∧ for_loop body b (i + a) s = some r := by
  intro a
  induction a with
  | zero =>
    intro b i st r h
    refine ⟨st, rfl, ?_⟩
    simpa using h
  | succ n ih =>
    intro b i st r h
    rw [show n + 1 + b = (n + b) + 1 by omega, for_loop_succ] at h
    rw [for_loop_succ]
    split at h
    · exact absurd h (by simp)
    · rename_i s1 h1
      obtain ⟨s, g1, g2⟩ := ih b (i + 1) s1 r h
      refine ⟨s, g1, ?_⟩
      rw [show i + ((n + 1 : Nat) : Int) = i + 1 + (n : Int) by push_cast; ring]
      exact g2

theorem for_loop_marks (body : Int → State → Option State)
    (hb : ∀ i s r, body i s = some r → marks_only s r) :
    ∀ (count : Nat) (i : Int) (st r : State), for_loop body count i st = some r →
      marks_only st r := by
  intro count
  induction count with
  | zero => intro i st r h; injection h with h; subst h; exact marks_only_refl _
  | succ n ih =>
    intro i st r h
    unfold for_loop at h
    split at h
    · exact absurd h (by simp)
    · rename_i s1 h1
      exact marks_only_trans _ _ _ (hb _ _ _ h1) (ih _ _ _ h)

theorem sweep_loop_marks (endv : Int) :
    ∀ (fuel : Nat) (sw sw1 : sweep_vars) (st st1 : State),
      sweep_loop endv fuel sw st = some (sw1, st1) → marks_only st st1 := by
  intro fuel
  induction fuel with
  | zero => intro sw sw1 st st1 h; exact absurd h (by simp [sweep_loop])
  | succ n ih =>
    intro sw sw1 st st1 h
    rw [sweep_loop_step] at h
    split at h
    · simp only [Option.some.injEq, Prod.mk.injEq] at h
      obtain ⟨_, e⟩ := h
      subst e
      exact marks_only_refl _
    · rename_i adv sw2 st2 h2
      refine marks_only_trans _ _ _ ?_ (ih _ _ _ _ h)
      cases adv with
      | false =>
        obtain ⟨_, _, _, _, e⟩ := sweep_step_cut _ _ _ _ _ h2
        subst e
        exact ⟨fun _ => ⟨rfl, rfl, rfl, id⟩, rfl, rfl⟩
      | true =>
        obtain ⟨_, _, e⟩ := sweep_step_push _ _ _ _ _ h2
        subst e
        exact ⟨fun _ => ⟨rfl, rfl, rfl, id⟩, rfl, rfl⟩

theorem after_scan_marks (fuel : Nat) (nvert : Int) (sv : scan_vars) (st r : State)
    (h : after_scan fuel nvert sv st = some r) : marks_only st r := by
  unfold after_scan at h
  have ht : ∀ side, triangulate_single_polygon fuel nvert sv.posmax side st = some r →
      marks_only st r := by
    intro side h
    unfold triangulate_single_polygon at h
    split at h
    · exact absurd h (by simp)
    · rename_i sw s1 h1
      simp only [Option.some.injEq] at h
      subst h
      exact marks_only_trans _ _ _ (sweep_loop_marks _ _ _ _ _ _ h1)
        ⟨fun _ => ⟨rfl, rfl, rfl, id⟩, rfl, rfl⟩
  dsimp only at h
  split_ifs at h
  · simp only [Option.some.injEq] at h
    subst h
    exact marks_only_refl _
  · simp only [Option.some.injEq] at h
    subst h
    exact ⟨fun _ => ⟨rfl, rfl, rfl, id⟩, rfl, rfl⟩
  · exact ht _ h
  · exact ht _ h

theorem after_scan_processed (fuel : Nat) (nvert : Int) (sv : scan_vars) (st : State)
    (h : sv.processed = true) : after_scan fuel nvert sv st = some st := by
  unfold after_scan
  rw [if_pos h]

/-- After entry `i` has been processed, the node `mon[i]` is marked, and so is its
successor when that holds another vertex. -/
theorem triangulate_one_marks (fuel : Nat) (nvert i : Int) (st r : State)
    (h : triangulate_one fuel nvert i st = some r) :
    marks_only st r ∧ (r.mchain (st.mon i)).marked = true ∧
    ((st.mchain (chain_next st (st.mon i))).vnum ≠ (st.mchain (st.mon i)).vnum →
      (r.mchain (chain_next st (st.mon i))).marked = true) := by
  obtain ⟨e1, e2, e3, _⟩ := scan_init_parts i st
  unfold triangulate_one at h
  split at h
  · exact absurd h (by simp)
  · rename_i sv s1 h1
    have a1 := after_scan_marks _ _ _ _ _ h
    have m0 : marks_only st (scan_init i st).2.2 := by rw [e2]; exact marks_only_mark _ _
    have c0 : ((scan_init i st).2.2.mchain (st.mon i)).marked = true := by
      rw [e2, (mchain_set_marked st _ _).2.2.2, if_pos rfl]
    obtain ⟨b1, _, _⟩ := scan_loop_marks _ _ _ _ _ _ h1
    refine ⟨marks_only_trans _ _ _ m0 (marks_only_trans _ _ _ b1 a1),
      (a1.1 _).2.2.2 ((b1.1 _).2.2.2 c0), fun hv => ?_⟩
    refine (a1.1 _).2.2.2 ?_
    cases fuel with
    | zero => exact absurd h1 (by simp [scan_loop])
    | succ f =>
      unfold scan_loop at h1
      have ep : (scan_init i st).2.1.p = chain_next st (st.mon i) := e3
      have ev : ((scan_init i st).2.2.mchain (scan_init i st).2.1.p).vnum
          ≠ (scan_init i st).1 := by
        rw [(m0.1 _).2.2.1, ep, e1]
        exact hv
      rw [if_pos ev] at h1
      split_ifs at h1 with hm
      · simp only [Option.some.injEq, Prod.mk.injEq] at h1
        obtain ⟨_, e⟩ := h1
        rw [← e, ← ep]
        exact hm
      · obtain ⟨b2, _, _⟩ := scan_loop_marks _ _ _ _ _ _ h1
        refine (b2.1 _).2.2.2 ?_
        rw [scan_step_snd, (mchain_set_marked _ _ _).2.2.2, if_pos ep.symm]

theorem scan_loop_hits (st0 : State) (c0 : Int) (L K : Nat)
    (hL : cycle_len (chain_next st0) c0 L)
    (hinj : ∀ a b : Nat, a < L → b < L →
      (st0.mchain ((chain_next st0)^[a] c0)).vnum
        = (st0.mchain ((chain_next st0)^[b] c0)).vnum → a = b)
    (hK : K < L) :
    ∀ (d fuel t : Nat) (sv : scan_vars) (s : State), t + d = K → 1 ≤ t → d < fuel →
      sv.p = (chain_next st0)^[t] c0 → marks_only st0 s →
      (s.mchain ((chain_next st0)^[K] c0)).marked = true →
      ∃ sv1 s1, scan_loop (st0.mchain c0).vnum fuel sv s = some (sv1, s1) ∧
        sv1.processed = true ∧ s1.op = s.op ∧ s1.op_idx = s.op_idx := by
  intro d
  induction d with
  | zero =>
    intro fuel t sv s ht t1 hf i1 i3 i4
    have et : t = K := by omega
    subst et
    obtain ⟨f, rfl⟩ : ∃ f, fuel = f + 1 := ⟨fuel - 1, by omega⟩
    have ev : (s.mchain sv.p).vnum ≠ (st0.mchain c0).vnum := by
      rw [(i3.1 _).2.2.1, i1]
      intro e
      have := hinj t 0 hK hL.1 e
      omega
    refine ⟨{ sv with processed := true }, s, ?_, rfl, rfl, rfl⟩
    unfold scan_loop
    rw [if_pos ev, if_pos (by rw [i1]; exact i4)]
  | succ d ih =>
    intro fuel t sv s ht t1 hf i1 i3 i4
    obtain ⟨f, rfl⟩ : ∃ f, fuel = f + 1 := ⟨fuel - 1, by omega⟩
    have htL : t < L := by omega
    have ev : (s.mchain sv.p).vnum ≠ (st0.mchain c0).vnum := by
      rw [(i3.1 _).2.2.1, i1]
      intro e
      have := hinj t 0 htL hL.1 e
      omega
    unfold scan_loop
    rw [if_pos ev]
    by_cases hm : (s.mchain sv.p).marked = true
    · rw [if_pos hm]
      exact ⟨_, _, rfl, rfl, rfl, rfl⟩
    · rw [if_neg hm]
      have ms : marks_only s (scan_step sv s).2 := by
        rw [scan_step_snd]; exact marks_only_mark _ _
      obtain ⟨sv1, s1, g1, g2, g3, g4⟩ := ih f (t + 1) (scan_step sv s).1 (scan_step sv s).2
        (by omega) (by omega) (by omega)
        (by
          rw [(scan_step_vars sv s).1, (i3.1 _).1, i1, Function.iterate_succ_apply']
          rfl)
        (marks_only_trans _ _ _ i3 ms) ((ms.1 _).2.2.2 i4)
      exact ⟨sv1, s1, g1, g2, g3.trans (scan_step_op sv s).1, g4.trans (scan_step_op sv s).2⟩

theorem for_loop_append (body : Int → State → Option State) :
    ∀ (a b : Nat) (i : Int) (st s r : State), for_loop body a i st = some s →
      for_loop body b (i + a) s = some r → for_loop body (a + b) i st = some r := by
  intro a
  induction a with
  | zero =>
    intro b i st s r h1 h2
    simp only [for_loop, Option.some.injEq] at h1
    subst h1
    simpa using h2
  | succ n ih =>
    intro b i st s r h1 h2
    rw [show n + 1 + b = (n + b) + 1 by omega, for_loop_succ]
    rw [for_loop_succ] at h1
    split at h1
    · exact absurd h1 (by simp)
    · rename_i s1 e1
      refine ih b (i + 1) s1 s r h1 ?_
      rw [show i + 1 + (n : Int) = i + ((n + 1 : Nat) : Int) by push_cast; ring]
      exact h2

theorem option_getD_some {α : Type} (o : Option α) (d : α) (h : o.isSome = true) :
    o = some (o.getD d) := by
  cases o with
  | none => exact absurd h (by simp)
  | some x => rfl

/-! ## C34: a monotone polygon is triangulated once -/

/-- Claim C34: a monotone polygon is triangulated once.  If `mon[i]` and `mon[j]` with
`0 ≤ i < j` are nodes of the same chain cycle, a cycle of `L ≥ 3` nodes with pairwise
distinct `vnum`, and the loop of `triangulate_monotone_polygons` has reached entry `j` in
the state `sj`, then the pass for entry `j` returns and leaves the output rows and
`op_idx` as they were. -/
theorem triangulated_once (fuel : Nat) (nvert i j : Int) (L k : Nat) (st sj : State)
    (hi : 0 ≤ i) (hij : i < j)
    (hL : cycle_len (chain_next st) (st.mon j) L) (h3 : 3 ≤ L)
    (hinj : ∀ a b : Nat, a < L → b < L →
      (st.mchain ((chain_next st)^[a] (st.mon j))).vnum
        = (st.mchain ((chain_next st)^[b] (st.mon j))).vnum → a = b)
    (hk : st.mon i = (chain_next st)^[k] (st.mon j))
    (hrun : for_loop (triangulate_one fuel nvert) j.toNat 0 { st with op_idx := 0 } = some sj)
    (hf : L ≤ fuel) :
    ∃ s', triangulate_one fuel nvert j sj = some s' ∧ s'.op = sj.op ∧
      s'.op_idx = sj.op_idx ∧
      for_loop (triangulate_one fuel nvert) (j.toNat + 1) 0 { st with op_idx := 0 }
        = some s' := by
  have hb : ∀ i s r, triangulate_one fuel nvert i s = some r → marks_only s r :=
    fun i s r h => (triangulate_one_marks _ _ _ _ _ h).1
  -- the run up to entry `j` passes entry `i`
  have ej : j.toNat = i.toNat + (1 + (j - i - 1).toNat) := by omega
  have hrun0 := hrun
  rw [ej] at hrun
  obtain ⟨si, r1, r2⟩ := for_loop_split _ _ _ _ _ _ hrun
  obtain ⟨si', r3, r4⟩ := for_loop_split _ _ _ _ _ _ r2
  rw [show (0 : Int) + (i.toNat : Int) = i by omega, for_loop_succ] at r3
  have r3' : triangulate_one fuel nvert i si = some si' := by
    split at r3
    · exact absurd r3 (by simp)
    · rename_i s e
      simp only [for_loop, Option.some.injEq] at r3
      rw [e, r3]
  have M1 : marks_only st si :=
    marks_only_trans _ _ _ (show marks_only st { st with op_idx := 0 } from
      ⟨fun _ => ⟨rfl, rfl, rfl, id⟩, rfl, rfl⟩) (for_loop_marks _ hb _ _ _ _ r1)
  obtain ⟨M2, c1, c2⟩ := triangulate_one_marks _ _ _ _ _ r3'
  have M3 : marks_only si' sj := for_loop_marks _ hb _ _ _ _ r4
  have M : marks_only st sj := marks_only_trans _ _ _ M1 (marks_only_trans _ _ _ M2 M3)
  have emi : si.mon i = st.mon i := by rw [M1.2.2]
  have enx : chain_next si (st.mon i) = chain_next st (st.mon i) := (M1.1 _).1
  rw [emi] at c1 c2
  rw [enx, (M1.1 _).2.2.1, (M1.1 _).2.2.1] at c2
  -- a marked node ahead of `mon[j]`
  have hL0 := hL.1
  have hK : ∃ K : Nat, 1 ≤ K ∧ K < L ∧
      (sj.mchain ((chain_next st)^[K] (st.mon j))).marked = true := by
    have hk' : st.mon i = (chain_next st)^[k % L] (st.mon j) := by
      rw [hk]; exact cycle_iterate_mod _ _ _ hL k
    have hkL : k % L < L := Nat.mod_lt _ hL0
    rcases Nat.eq_zero_or_pos (k % L) with h0 | h0
    · rw [h0] at hk'
      have eij : st.mon i = st.mon j := hk'
      refine ⟨1, le_refl _, by omega, ?_⟩
      rw [eij] at c2
      refine (M3.1 _).2.2.2 (c2 ?_)
      intro e
      have := hinj 1 0 (by omega) (by omega) e
      omega
    · refine ⟨k % L, h0, hkL, ?_⟩
      rw [← hk']
      exact (M3.1 _).2.2.2 c1
  obtain ⟨K, K1, K2, K3⟩ := hK
  obtain ⟨e1, e2, e3, _⟩ := scan_init_parts j sj
  have emj : sj.mon j = st.mon j := by rw [M.2.2]
  have m0 : marks_only sj (scan_init j sj).2.2 := by rw [e2]; exact marks_only_mark _ _
  obtain ⟨sv1, s1, g1, g2, g3, g4⟩ := scan_loop_hits st (st.mon j) L K hL hinj K2 (K - 1) fuel 1
    (scan_init j sj).2.1 (scan_init j sj).2.2 (by omega) (le_refl _) (by omega)
    (by rw [e3, emj, (M.1 _).1]; rfl) (marks_only_trans _ _ _ M m0) ((m0.1 _).2.2.2 K3)
  have ev : (scan_init j sj).1 = (st.mchain (st.mon j)).vnum := by
    rw [e1, emj, (M.1 _).2.2.1]
  rw [← ev] at g1
  have ht : triangulate_one fuel nvert j sj = some s1 := by
    unfold triangulate_one
    rw [g1]
    exact after_scan_processed _ _ _ _ g2
  have eo : (scan_init j sj).2.2.op = sj.op ∧ (scan_init j sj).2.2.op_idx = sj.op_idx := by
    rw [e2]; exact ⟨rfl, rfl⟩
  refine ⟨s1, ht, g3.trans eo.1, g4.trans eo.2, ?_⟩
  refine for_loop_append _ _ _ _ _ _ _ hrun0 ?_
  rw [for_loop_succ, show (0 : Int) + (j.toNat : Int) = j by omega, ht]
  rfl

/-- The duplicate reference of C34 on the square: `mon[0] = 1` and `mon[1] = 3` lie on
the cycle 1, 2, 3, 4; the pass for entry 1 writes nothing. -/
theorem triangulated_once_witness :
    ∃ s', triangulate_one 10 4 1
        ((for_loop (triangulate_one 10 4) (1 : Int).toNat 0
          { square_twice with op_idx := 0 }).getD State.zero) = some s' ∧
      s'.op = ((for_loop (triangulate_one 10 4) (1 : Int).toNat 0
          { square_twice with op_idx := 0 }).getD State.zero).op ∧
      s'.op_idx = ((for_loop (triangulate_one 10 4) (1 : Int).toNat 0
          { square_twice with op_idx := 0 }).getD State.zero).op_idx ∧
      for_loop (triangulate_one 10 4) ((1 : Int).toNat + 1) 0
        { square_twice with op_idx := 0 } = some s' :=
  triangulated_once 10 4 0 1 4 2 square_twice _ (by decide) (by decide)
    (by
      refine ⟨by decide, by decide!, ?_⟩
      intro m h1 h2
      interval_cases m <;> decide!)
    (by decide)
    (by
      intro a b ha hb
      interval_cases a <;> interval_cases b <;> decide!)
    (by decide!)
    (option_getD_some _ _ (by decide!))
    (by decide)

/-! ## C31: the range of `get_angle` -/

theorem plane_cos_angle (a b c d : ℝ) :
    Real.cos (InnerProductGeometry.angle (Complex.mk a b) (Complex.mk c d))
      = (a * c + b * d) / Real.sqrt (a * a + b * b) / Real.sqrt (c * c + d * d) := by
  rw [InnerProductGeometry.cos_angle, Complex.norm_eq_abs, Complex.norm_eq_abs,
    Complex.abs_apply, Complex.abs_apply, Complex.normSq_mk, Complex.normSq_mk, div_div]
  congr 1
  simp [Complex.inner]

theorem plane_cos_sq (a b c d : ℝ) (h0 : 0 < a * a + b * b) (h1 : 0 < c * c + d * d) :
    ((a * c + b * d) / Real.sqrt (a * a + b * b) / Real.sqrt (c * c + d * d)) ^ 2
      = 1 - (a * d - c * b) ^ 2 / ((a * a + b * b) * (c * c + d * d)) := by
  rw [div_div, div_pow, mul_pow, Real.sq_sqrt h0.le, Real.sq_sqrt h1.le]
  field_simp
  ring

theorem plane_norm_pos {K : Type} [LinearOrderedField K] (x0 y0 x y : K)
    (h : (x, y) ≠ (x0, y0)) : 0 < (x - x0) * (x - x0) + (y - y0) * (y - y0) := by
  have hne : x - x0 ≠ 0 ∨ y - y0 ≠ 0 := by
    by_contra hc
    push_neg at hc
    apply h
    rw [Prod.mk.injEq]
    exact ⟨by linarith [hc.1], by linarith [hc.2]⟩
  rcases hne with h | h
  · nlinarith [mul_self_pos.mpr h, mul_self_nonneg (y - y0)]
  · nlinarith [mul_self_pos.mpr h, mul_self_nonneg (x - x0)]

/-- The two values of `get_angle` over the reals, in terms of the quotient
`c = DOT / LENGTH / LENGTH`. -/
theorem get_angle_sqrt_value (x0 y0 xn yn x1 y1 : ℝ)
    (n0 : 0 < (xn - x0) * (xn - x0) + (yn - y0) * (yn - y0))
    (n1 : 0 < (x1 - x0) * (x1 - x0) + (y1 - y0) * (y1 - y0)) :
    (((xn - x0) * (x1 - x0) + (yn - y0) * (y1 - y0))
        / Real.sqrt ((xn - x0) * (xn - x0) + (yn - y0) * (yn - y0))
        / Real.sqrt ((x1 - x0) * (x1 - x0) + (y1 - y0) * (y1 - y0))) ^ 2 ≤ 1 ∧
    ((xn - x0) * (y1 - y0) - (x1 - x0) * (yn - y0) ≥ 0 →
      get_angle_sqrt Real.sqrt (x0, y0) (xn, yn) (x1, y1)
        = ((xn - x0) * (x1 - x0) + (yn - y0) * (y1 - y0))
          / Real.sqrt ((xn - x0) * (xn - x0) + (yn - y0) * (yn - y0))
          / Real.sqrt ((x1 - x0) * (x1 - x0) + (y1 - y0) * (y1 - y0))) ∧
    ((xn - x0) * (y1 - y0) - (x1 - x0) * (yn - y0) < 0 →
      get_angle_sqrt Real.sqrt (x0, y0) (xn, yn) (x1, y1)
        = -(((xn - x0) * (x1 - x0) + (yn - y0) * (y1 - y0))
          / Real.sqrt ((xn - x0) * (xn - x0) + (yn - y0) * (yn - y0))
          / Real.sqrt ((x1 - x0) * (x1 - x0) + (y1 - y0) * (y1 - y0))) - 2 ∧
      (((xn - x0) * (x1 - x0) + (yn - y0) * (y1 - y0))
        / Real.sqrt ((xn - x0) * (xn - x0) + (yn - y0) * (yn - y0))
        / Real.sqrt ((x1 - x0) * (x1 - x0) + (y1 - y0) * (y1 - y0))) ^ 2 < 1) := by
  have hs := plane_cos_sq (xn - x0) (yn - y0) (x1 - x0) (y1 - y0) n0 n1
  refine ⟨?_, fun h => ?_, fun h => ⟨?_, ?_⟩⟩
  · rw [hs]
    have : 0 ≤ ((xn - x0) * (y1 - y0) - (x1 - x0) * (yn - y0)) ^ 2
        / (((xn - x0) * (xn - x0) + (yn - y0) * (yn - y0))
          * ((x1 - x0) * (x1 - x0) + (y1 - y0) * (y1 - y0))) :=
      div_nonneg (by positivity) (mul_pos n0 n1).le
    linarith
  · unfold get_angle_sqrt
    dsimp only
    rw [if_pos h]
  · unfold get_angle_sqrt
    dsimp only
    rw [if_neg (not_le.mpr h)]
    ring
  · rw [hs]
    have : 0 < ((xn - x0) * (y1 - y0) - (x1 - x0) * (yn - y0)) ^ 2
        / (((xn - x0) * (xn - x0) + (yn - y0) * (yn - y0))
          * ((x1 - x0) * (x1 - x0) + (y1 - y0) * (y1 - y0))) :=
      div_pos (by nlinarith [mul_pos_of_neg_of_neg h h]) (mul_pos n0 n1)
    linarith

theorem Dbl_fin_div (a b : ℚ) (hb : b ≠ 0) : Dbl.fin a / Dbl.fin b = Dbl.fin (a / b) := by
  show Dbl.div _ _ = _
  simp [Dbl.div, hb]

/-- The embedding `get_angle` of the pipeline, on points with finite coordinates, is the
image of the value of the C function over the reals under `angle_fold`. -/
theorem get_angle_fold (x0 y0 xn yn x1 y1 : ℚ) (h0 : (xn, yn) ≠ (x0, y0))
    (h1 : (x1, y1) ≠ (x0, y0)) :
    ∃ q : ℚ, get_angle (pt x0 y0) (pt xn yn) (pt x1 y1) = Dbl.fin q ∧
      (q : ℝ) = angle_fold (get_angle_sqrt Real.sqrt ((x0 : ℝ), (y0 : ℝ))
        ((xn : ℝ), (yn : ℝ)) ((x1 : ℝ), (y1 : ℝ))) := by
  have n0 := plane_norm_pos x0 y0 xn yn h0
  have n1 := plane_norm_pos x0 y0 x1 y1 h1
  have r0 : (0 : ℝ) < ((xn : ℝ) - x0) * (xn - x0) + ((yn : ℝ) - y0) * (yn - y0) := by
    exact_mod_cast n0
  have r1 : (0 : ℝ) < ((x1 : ℝ) - x0) * (x1 - x0) + ((y1 : ℝ) - y0) * (y1 - y0) := by
    exact_mod_cast n1
  obtain ⟨hsq, hpos, hneg⟩ := get_angle_sqrt_value (x0 : ℝ) y0 xn yn x1 y1 r0 r1
  have s0 := Real.sqrt_pos.mpr r0
  have s1 := Real.sqrt_pos.mpr r1
  -- the product c * |c| without square roots
  have key : ∀ A B d N0 N1 : ℝ, 0 < A → 0 < B → A * A = N0 → B * B = N1 →
      d / A / B * |d / A / B| = d * |d| / N0 / N1 := by
    intro A B d N0 N1 hA hB e0 e1
    subst e0 e1
    rw [abs_div, abs_div, abs_of_pos hA, abs_of_pos hB]
    field_simp
    exact Or.inl (by ring)
  have hcc := key _ _ (((xn : ℝ) - x0) * (x1 - x0) + (yn - y0) * (y1 - y0)) _ _ s0 s1
    (Real.mul_self_sqrt r0.le) (Real.mul_self_sqrt r1.le)
  by_cases hx : (xn - x0) * (y1 - y0) - (x1 - x0) * (yn - y0) ≥ 0
  · refine ⟨((xn - x0) * (x1 - x0) + (yn - y0) * (y1 - y0))
        * |(xn - x0) * (x1 - x0) + (yn - y0) * (y1 - y0)|
        / ((xn - x0) * (xn - x0) + (yn - y0) * (yn - y0))
        / ((x1 - x0) * (x1 - x0) + (y1 - y0) * (y1 - y0)), ?_, ?_⟩
    · simp only [get_angle, pt, CROSS_SINE, DOT, Dbl_fin_sub, Dbl_fin_mul, Dbl_fin_add,
        Dbl.fabs]
      rw [if_pos ((Dbl_fin_ge _ _).mpr hx), Dbl_fin_div _ _ n0.ne', Dbl_fin_div _ _ n1.ne']
    · have hxr : ((xn : ℝ) - x0) * (y1 - y0) - (x1 - x0) * (yn - y0) ≥ 0 := by
        exact_mod_cast hx
      rw [hpos hxr]
      unfold angle_fold
      rw [if_pos (by nlinarith [hsq]), hcc]
      push_cast
      rfl
  · refine ⟨-1 * (((xn - x0) * (x1 - x0) + (yn - y0) * (y1 - y0))
        * |(xn - x0) * (x1 - x0) + (yn - y0) * (y1 - y0)|)
        / ((xn - x0) * (xn - x0) + (yn - y0) * (yn - y0))
        / ((x1 - x0) * (x1 - x0) + (y1 - y0) * (y1 - y0)) - 2, ?_, ?_⟩
    · simp only [get_angle, pt, CROSS_SINE, DOT, Dbl_fin_sub, Dbl_fin_mul, Dbl_fin_add,
        Dbl.fabs]
      rw [if_neg (fun h => hx ((Dbl_fin_ge _ _).mp h)), Dbl_fin_div _ _ n0.ne',
        Dbl_fin_div _ _ n1.ne', Dbl_fin_sub]
    · have hxr : ((xn : ℝ) - x0) * (y1 - y0) - (x1 - x0) * (yn - y0) < 0 := by
        exact_mod_cast not_le.mp hx
      obtain ⟨e, hlt⟩ := hneg hxr
      rw [e]
      unfold angle_fold
      rw [if_neg (by nlinarith [hlt])]
      rw [show ∀ c : ℝ, -(-c - 2) - 2 = c from fun c => by ring, hcc]
      push_cast
      ring

/-- Claim C31: over the reals, for `vpnext ≠ vp0` and `vp1 ≠ vp0`, the value of
`get_angle(vp0, vpnext, vp1)` lies in the half-open interval (-3, 1].  When the cross
product of the two vectors is at least 0 it is the cosine of the angle between them, a
number of [-1, 1]; when the cross product is negative it is minus that cosine minus 2, a
number strictly between -3 and -1. -/
theorem get_angle_range (vp0 vpnext vp1 : ℝ × ℝ) (h0 : vpnext ≠ vp0) (h1 : vp1 ≠ vp0) :
    (-3 < get_angle_sqrt Real.sqrt vp0 vpnext vp1 ∧
      get_angle_sqrt Real.sqrt vp0 vpnext vp1 ≤ 1) ∧
    ((vpnext.1 - vp0.1) * (vp1.2 - vp0.2) - (vp1.1 - vp0.1) * (vpnext.2 - vp0.2) ≥ 0 →
      get_angle_sqrt Real.sqrt vp0 vpnext vp1
        = Real.cos (InnerProductGeometry.angle
            (Complex.mk (vpnext.1 - vp0.1) (vpnext.2 - vp0.2))
            (Complex.mk (vp1.1 - vp0.1) (vp1.2 - vp0.2))) ∧
      -1 ≤ get_angle_sqrt Real.sqrt vp0 vpnext vp1 ∧
      get_angle_sqrt Real.sqrt vp0 vpnext vp1 ≤ 1) ∧
    ((vpnext.1 - vp0.1) * (vp1.2 - vp0.2) - (vp1.1 - vp0.1) * (vpnext.2 - vp0.2) < 0 →
      get_angle_sqrt Real.sqrt vp0 vpnext vp1
        = -Real.cos (InnerProductGeometry.angle
            (Complex.mk (vpnext.1 - vp0.1) (vpnext.2 - vp0.2))
            (Complex.mk (vp1.1 - vp0.1) (vp1.2 - vp0.2))) - 2 ∧
      -3 < get_angle_sqrt Real.sqrt vp0 vpnext vp1 ∧
      get_angle_sqrt Real.sqrt vp0 vpnext vp1 < -1) := by
  obtain ⟨x0, y0⟩ := vp0
  obtain ⟨xn, yn⟩ := vpnext
  obtain ⟨x1, y1⟩ := vp1
  have n0 := plane_norm_pos x0 y0 xn yn h0
  have n1 := plane_norm_pos x0 y0 x1 y1 h1
  obtain ⟨hsq, hpos, hneg⟩ := get_angle_sqrt_value x0 y0 xn yn x1 y1 n0 n1
  have hc := plane_cos_angle (xn - x0) (yn - y0) (x1 - x0) (y1 - y0)
  rw [← hc] at hsq hpos hneg
  dsimp only
  refine ⟨?_, fun h => ?_, fun h => ?_⟩
  · rcases le_or_lt 0 ((xn - x0) * (y1 - y0) - (x1 - x0) * (yn - y0)) with h | h
    · rw [hpos h]
      exact ⟨by nlinarith, by nlinarith⟩
    · obtain ⟨e, a⟩ := hneg h
      rw [e]
      exact ⟨by nlinarith, by nlinarith⟩
  · rw [hpos h]
    exact ⟨rfl, by nlinarith, by nlinarith⟩
  · obtain ⟨e, a⟩ := hneg h
    rw [e]
    exact ⟨rfl, by nlinarith, by nlinarith⟩

/-- The bounds of C31 for the right angle at the origin between (1, 0) and (0, 1): the
cross product is 1 and the value is the cosine 0. -/
theorem get_angle_range_witness :
    (((1 : ℝ), (0 : ℝ)) ≠ (0, 0) ∧ ((0 : ℝ), (1 : ℝ)) ≠ (0, 0)) ∧
    -3 < get_angle_sqrt Real.sqrt ((0 : ℝ), (0 : ℝ)) (1, 0) (0, 1) ∧
    get_angle_sqrt Real.sqrt ((0 : ℝ), (0 : ℝ)) (1, 0) (0, 1) ≤ 1 :=
  ⟨⟨by simp, by simp⟩, (get_angle_range (0, 0) (1, 0) (0, 1) (by simp) (by simp)).1⟩

/-! ## What one call of `traverse_polygon` does -/

theorem ite_shape {α : Type} {c : Prop} [Decidable c] {a b : α} {P : α → Prop}
    (h1 : c → P a) (h2 : ¬ c → P b) : P (if c then a else b) := by
  split_ifs with h
  · exact h1 h
  · exact h2 h

theorem traverse_polygon_shape (fuel : Nat) (mcur trnum from_ dir : Int) (st : State)
    (hg : ¬ (trnum ≤ 0 ∨ st.visited trnum = true)) :
    traverse_expands fuel mcur trnum st
      (traverse_polygon (fuel + 1) mcur trnum from_ dir st) := by
  unfold traverse_polygon
  dsimp only
  rw [if_neg hg]
  repeat' refine ite_shape (fun h => ?_) (fun h => ?_)
  all_goals first
    | exact ⟨_, _, rfl, Or.inl rfl, by simp⟩
    | exact ⟨_, _, rfl, Or.inr ⟨_, _, rfl⟩, by simp⟩
    | exact ⟨[], _, rfl, Or.inl rfl, by simp⟩

theorem mono_core_mchain_set (st : State) (i : Int) (f : monchain_t → monchain_t) :
    mono_core (st.mchain_set i f) = mono_core st := rfl

theorem mono_core_vert_set (st : State) (i : Int) (f : vertexchain_t → vertexchain_t) :
    mono_core (st.vert_set i f) = mono_core st := rfl

theorem mono_core_mon_set (st : State) (i v : Int) : mono_core (st.mon_set i v) = mono_core st :=
  rfl

theorem mono_core_vnext_set (st : State) (v i x : Int) :
    mono_core (st.vnext_set v i x) = mono_core st := rfl

theorem mono_core_vpos_set (st : State) (v i x : Int) :
    mono_core (st.vpos_set v i x) = mono_core st := rfl

theorem mono_core_newmon (st : State) : mono_core (newmon st).2 = mono_core st := rfl

theorem mono_core_new_chain_element (st : State) :
    mono_core (new_chain_element st).2 = mono_core st := rfl

theorem mono_core_read (st : State) (v : Option Int) : mono_core (st.read v).2 = mono_core st := by
  cases v <;> rfl

theorem mon_idx_mchain_set (st : State) (i : Int) (f : monchain_t → monchain_t) :
    (st.mchain_set i f).mon_idx = st.mon_idx := rfl

theorem mon_idx_vert_set (st : State) (i : Int) (f : vertexchain_t → vertexchain_t) :
    (st.vert_set i f).mon_idx = st.mon_idx := rfl

theorem mon_idx_mon_set (st : State) (i v : Int) : (st.mon_set i v).mon_idx = st.mon_idx := rfl

theorem mon_idx_vnext_set (st : State) (v i x : Int) :
    (st.vnext_set v i x).mon_idx = st.mon_idx := rfl

theorem mon_idx_vpos_set (st : State) (v i x : Int) :
    (st.vpos_set v i x).mon_idx = st.mon_idx := rfl

theorem mon_idx_newmon (st : State) : (newmon st).2.mon_idx = st.mon_idx + 1 := rfl

theorem newmon_fst (st : State) : (newmon st).1 = st.mon_idx + 1 := rfl

theorem mon_idx_new_chain_element (st : State) :
    (new_chain_element st).2.mon_idx = st.mon_idx := rfl

theorem mon_idx_read (st : State) (v : Option Int) : (st.read v).2.mon_idx = st.mon_idx := by
  cases v <;> rfl

theorem chain_idx_mchain_set (st : State) (i : Int) (f : monchain_t → monchain_t) :
    (st.mchain_set i f).chain_idx = st.chain_idx := rfl

theorem chain_idx_mon_set (st : State) (i v : Int) :
    (st.mon_set i v).chain_idx = st.chain_idx := rfl

theorem chain_idx_newmon (st : State) : (newmon st).2.chain_idx = st.chain_idx := rfl

theorem chain_idx_new_chain_element (st : State) :
    (new_chain_element st).2.chain_idx = st.chain_idx + 1 := rfl

theorem chain_idx_read (st : State) (v : Option Int) :
    (st.read v).2.chain_idx = st.chain_idx := by
  cases v <;> rfl

section mono_frames

attribute [local irreducible] State.mchain_set State.vert_set State.mon_set State.visited_set
  State.vnext_set State.vpos_set State.read newmon new_chain_element

theorem mono_core_make_new_monotone_poly (mcur v0 v1 : Int) (st : State) :
    mono_core (make_new_monotone_poly mcur v0 v1 st).2 = mono_core st := by
  simp only [make_new_monotone_poly, mono_core_mchain_set, mono_core_vert_set,
    mono_core_mon_set, mono_core_vnext_set, mono_core_vpos_set, mono_core_newmon,
    mono_core_new_chain_element, mono_core_read]

theorem make_new_monotone_poly_counters (mcur v0 v1 : Int) (st : State) :
    (make_new_monotone_poly mcur v0 v1 st).1 = st.mon_idx + 1 ∧
    (make_new_monotone_poly mcur v0 v1 st).2.mon_idx = st.mon_idx + 1 ∧
    (make_new_monotone_poly mcur v0 v1 st).2.chain_idx = st.chain_idx + 2 := by
  refine ⟨?_, ?_, ?_⟩
  · simp only [make_new_monotone_poly, newmon_fst]
  · simp only [make_new_monotone_poly, mon_idx_mchain_set, mon_idx_vert_set, mon_idx_mon_set,
      mon_idx_vnext_set, mon_idx_vpos_set, mon_idx_newmon, mon_idx_new_chain_element,
      mon_idx_read]
  · simp only [make_new_monotone_poly, chain_idx_mchain_set, vert_set_chain_idx,
      chain_idx_mon_set, vnext_set_chain_idx, vpos_set_chain_idx, chain_idx_newmon,
      chain_idx_new_chain_element, chain_idx_read]
    ring

end mono_frames

theorem traversed_refl (B : Int) (s : State) : traversed B s s :=
  ⟨rfl, fun _ h => h, fun _ h => Or.inl h, le_refl _, by simp⟩

theorem traversed_trans (B : Int) (s1 s2 s3 : State) (h1 : traversed B s1 s2)
    (h2 : traversed B s2 s3) : traversed B s1 s3 := by
  obtain ⟨a1, a2, a3, a4, a5⟩ := h1
  obtain ⟨b1, b2, b3, b4, b5⟩ := h2
  refine ⟨b1.trans a1, fun t h => b2 t (a2 t h), fun t h => ?_, le_trans a4 b4, by linarith⟩
  rcases b3 t h with h' | h'
  · exact a3 t h'
  · exact Or.inr h'

theorem visited_in_mono (B : Int) (s s' : State)
    (h : ∀ t, s.visited t = true → s'.visited t = true) :
    (visited_in B s).card ≤ (visited_in B s').card := by
  apply Finset.card_le_card
  intro t ht
  simp only [visited_in, Finset.mem_filter] at ht ⊢
  exact ⟨ht.1, h t ht.2⟩

theorem visited_in_le (B : Int) (s : State) :
    (visited_in B s).card ≤ (Finset.Ioo 0 B).card :=
  Finset.card_le_card (Finset.filter_subset _ _)

theorem traversed_expand (B trnum : Int) (st st2 : State) (h0 : 0 < trnum) (hB : trnum < B)
    (hv : ¬ st.visited trnum = true)
    (hc : mono_core st2 = mono_core (st.visited_set trnum true))
    (hm1 : st.mon_idx ≤ st2.mon_idx) (hm2 : st2.mon_idx ≤ st.mon_idx + 1) :
    traversed B st st2 ∧ (visited_in B st2).card = (visited_in B st).card + 1 ∧
      st2.visited trnum = true := by
  have etr : st2.tr = st.tr := congrArg (fun x => x.1) hc
  have evi : st2.visited = upd st.visited trnum true := congrArg (fun x => x.2.2) hc
  have hins : visited_in B st2 = insert trnum (visited_in B st) := by
    ext t
    simp only [visited_in, Finset.mem_filter, Finset.mem_insert, Finset.mem_Ioo, evi, upd]
    by_cases ht : t = trnum
    · subst ht
      simp [h0, hB]
    · simp [ht]
  have hnm : trnum ∉ visited_in B st := by
    simp only [visited_in, Finset.mem_filter, not_and]
    exact fun _ => hv
  have hcard : (visited_in B st2).card = (visited_in B st).card + 1 := by
    rw [hins, Finset.card_insert_of_not_mem hnm]
  refine ⟨⟨etr, fun t h => ?_, fun t h => ?_, hm1, ?_⟩, hcard, ?_⟩
  · rw [evi]
    unfold upd
    split_ifs
    · rfl
    · exact h
  · rw [evi] at h
    unfold upd at h
    split_ifs at h with ht
    · exact Or.inr (by rw [ht]; exact ⟨h0, hB⟩)
    · exact Or.inl h
  · rw [hcard]
    push_cast
    linarith
  · rw [evi]
    unfold upd
    rw [if_pos rfl]

theorem traverse_polygon_guard (fuel : Nat) (mcur trnum from_ dir : Int) (st : State)
    (hg : trnum ≤ 0 ∨ st.visited trnum = true) :
    traverse_polygon (fuel + 1) mcur trnum from_ dir st = some st := by
  unfold traverse_polygon
  dsimp only
  rw [if_pos hg]

theorem traverse_calls_total (B : Int) (tr0 : Int → trap_t) (fuel : Nat) (from_ : Int)
    (ih : ∀ (mcur trnum from_ dir : Int) (st : State), st.tr = tr0 → trnum < B →
      (Finset.Ioo 0 B).card < fuel + (visited_in B st).card →
      ∃ st', traverse_polygon fuel mcur trnum from_ dir st = some st' ∧ traversed B st st' ∧
        (0 < trnum → st'.visited trnum = true)) :
    ∀ (calls : List (Int × Int × Int)) (st : State), st.tr = tr0 →
      (∀ c ∈ calls, c.2.1 < B) →
      (Finset.Ioo 0 B).card < fuel + (visited_in B st).card →
      ∃ st', traverse_calls (traverse_polygon fuel) from_ calls st = some st' ∧
        traversed B st st' := by
  intro calls
  induction calls with
  | nil => intro st _ _ _; exact ⟨st, rfl, traversed_refl _ _⟩
  | cons c rest ihl =>
    intro st htr hc hf
    obtain ⟨m, t, d⟩ := c
    obtain ⟨s1, e1, t1, _⟩ := ih m t from_ d st htr (hc _ (List.mem_cons_self _ _)) hf
    have hf1 : (Finset.Ioo 0 B).card < fuel + (visited_in B s1).card := by
      have := visited_in_mono B st s1 t1.2.1
      omega
    obtain ⟨s2, e2, t2⟩ := ihl s1 (t1.1.trans htr)
      (fun c hc' => hc c (List.mem_cons_of_mem _ hc')) hf1
    refine ⟨s2, ?_, traversed_trans _ _ _ _ t1 t2⟩
    unfold traverse_calls
    rw [e1]
    exact e2

/-- With the neighbour links of the trapezoids between 0 and `B` below `B`, and fuel for
one level of recursion per trapezoid not yet visited, `traverse_polygon` returns. -/
theorem traverse_polygon_total (B : Int) (tr0 : Int → trap_t)
    (hB : ∀ t, 0 < t → t < B →
      (tr0 t).u0 < B ∧ (tr0 t).u1 < B ∧ (tr0 t).d0 < B ∧ (tr0 t).d1 < B) :
    ∀ (fuel : Nat) (mcur trnum from_ dir : Int) (st : State), st.tr = tr0 → trnum < B →
      (Finset.Ioo 0 B).card < fuel + (visited_in B st).card →
      ∃ st', traverse_polygon fuel mcur trnum from_ dir st = some st' ∧ traversed B st st' ∧
        (0 < trnum → st'.visited trnum = true) := by
  intro fuel
  induction fuel with
  | zero =>
    intro mcur trnum from_ dir st _ _ hf
    have := visited_in_le B st
    omega
  | succ n ih =>
    intro mcur trnum from_ dir st htr hlt hf
    by_cases hg : trnum ≤ 0 ∨ st.visited trnum = true
    · refine ⟨st, traverse_polygon_guard _ _ _ _ _ _ hg, traversed_refl _ _, fun h0 => ?_⟩
      rcases hg with h | h
      · omega
      · exact h
    · have h0 : 0 < trnum := by
        by_contra h
        exact hg (Or.inl (by omega))
      have hv : ¬ st.visited trnum = true := fun h => hg (Or.inr h)
      obtain ⟨calls, st2, e, hst2, hcalls⟩ := traverse_polygon_shape n mcur trnum from_ dir st hg
      have hcm : mono_core st2 = mono_core (st.visited_set trnum true) ∧
          st.mon_idx ≤ st2.mon_idx ∧ st2.mon_idx ≤ st.mon_idx + 1 := by
        rcases hst2 with h | ⟨a, b, h⟩
        · rw [h]
          exact ⟨rfl, le_refl _, by show st.mon_idx ≤ st.mon_idx + 1; omega⟩
        · rw [h]
          refine ⟨mono_core_make_new_monotone_poly _ _ _ _, ?_, ?_⟩
          · rw [(make_new_monotone_poly_counters _ _ _ _).2.1]
            show st.mon_idx ≤ st.mon_idx + 1
            omega
          · rw [(make_new_monotone_poly_counters _ _ _ _).2.1]
            exact le_refl _
      obtain ⟨x1, x2, x3⟩ := traversed_expand B trnum st st2 h0 hlt hv hcm.1 hcm.2.1 hcm.2.2
      have hl := hB trnum h0 hlt
      rw [← htr] at hl
      obtain ⟨st', y1, y2⟩ := traverse_calls_total B tr0 n trnum ih calls st2
        (x1.1.trans htr)
        (by
          intro c hc
          rcases hcalls c hc with h | h | h | h <;> rw [h]
          · exact hl.1
          · exact hl.2.1
          · exact hl.2.2.1
          · exact hl.2.2.2)
        (by omega)
      refine ⟨st', e.trans y1, traversed_trans _ _ _ _ x1 y2, fun _ => y2.2.1 _ x3⟩

/-! ## C33: `traverse_polygon` terminates -/

/-- Claim C33: `traverse_polygon` terminates on every trapezoid table whose neighbour
indices are in range (below a bound `B`, which is `TRSIZE` for the whole table), given
fuel for `B` levels of recursion.  A call with `trnum ≤ 0` or with `visited[trnum]` set
returns the state as it is.  Every other call sets the flag `visited[trnum]`, which was
not set, before it recurses on neighbours of `trnum`, and adds at most one diagonal.
Flags are set and never cleared, so each trapezoid is expanded at most once; `mon_idx`
grows by at most the number of flags set, and a traversal that starts with
`mon_idx = 0` ends with at most 1 plus the number of visited trapezoids monotone
polygons. -/
theorem traverse_polygon_terminates (B : Int) (fuel : Nat) (mcur trnum from_ dir : Int)
    (st : State)
    (hB : ∀ t, 0 < t → t < B →
      (st.tr t).u0 < B ∧ (st.tr t).u1 < B ∧ (st.tr t).d0 < B ∧ (st.tr t).d1 < B)
    (ht : trnum < B) (hf : B.toNat ≤ fuel) (hf0 : 0 < fuel) :
    ∃ st', traverse_polygon fuel mcur trnum from_ dir st = some st' ∧
      ((trnum ≤ 0 ∨ st.visited trnum = true) → st' = st) ∧
      (¬ (trnum ≤ 0 ∨ st.visited trnum = true) →
        st'.visited trnum = true ∧ traverse_expands (fuel - 1) mcur trnum st (some st')) ∧
      st'.tr = st.tr ∧ (∀ t, st.visited t = true → st'.visited t = true) ∧
      (∀ t, st'.visited t = true → st.visited t = true ∨ (0 < t ∧ t < B)) ∧
      st.mon_idx ≤ st'.mon_idx ∧
      st'.mon_idx - st.mon_idx + ((visited_in B st).card : Int)
        ≤ ((visited_in B st').card : Int) ∧
      (st.mon_idx = 0 → st'.mon_idx + 1 ≤ 1 + ((visited_in B st').card : Int)) := by
  have hcard : (Finset.Ioo 0 B).card < fuel + (visited_in B st).card := by
    rw [Int.card_Ioo]
    omega
  obtain ⟨st', e, ⟨t1, t2, t3, t4, t5⟩, tv⟩ :=
    traverse_polygon_total B st.tr hB fuel mcur trnum from_ dir st rfl ht hcard
  obtain ⟨n, rfl⟩ : ∃ n, fuel = n + 1 := ⟨fuel - 1, by omega⟩
  refine ⟨st', e, fun hg => ?_, fun hg => ⟨tv ?_, ?_⟩, t1, t2, t3, t4, t5, fun h0 => ?_⟩
  · rw [traverse_polygon_guard _ _ _ _ _ _ hg] at e
    exact (Option.some.inj e).symm
  · by_contra h
    exact hg (Or.inl (by omega))
  · rw [← e]
    exact traverse_polygon_shape n mcur trnum from_ dir st hg
  · rw [h0] at t5
    have : (0 : Int) ≤ ((visited_in B st).card : Int) := Int.natCast_nonneg _
    linarith

/-- The traversal of C33 on the square: the call `traverse_polygon(0, 8, 9, TR_FROM_DN)`
that `monotonate_trapezoids` makes; the 10 trapezoids have their links below 11. -/
theorem traverse_polygon_terminates_witness :
    ∃ st', traverse_polygon 100 0 8 9 TR_FROM_DN square_traversal = some st' ∧
      (((8 : Int) ≤ 0 ∨ square_traversal.visited 8 = true) → st' = square_traversal) ∧
      (¬ ((8 : Int) ≤ 0 ∨ square_traversal.visited 8 = true) →
        st'.visited 8 = true ∧ traverse_expands (100 - 1) 0 8 square_traversal (some st')) ∧
      st'.tr = square_traversal.tr ∧
      (∀ t, square_traversal.visited t = true → st'.visited t = true) ∧
      (∀ t, st'.visited t = true → square_traversal.visited t = true ∨ (0 < t ∧ t < 11)) ∧
      square_traversal.mon_idx ≤ st'.mon_idx ∧
      st'.mon_idx - square_traversal.mon_idx + ((visited_in 11 square_traversal).card : Int)
        ≤ ((visited_in 11 st').card : Int) ∧
      (square_traversal.mon_idx = 0 →
        st'.mon_idx + 1 ≤ 1 + ((visited_in 11 st').card : Int)) :=
  traverse_polygon_terminates 11 100 0 8 9 TR_FROM_DN square_traversal
    (by
      intro t h0 h1
      interval_cases t <;> decide!)
    (by decide) (by decide) (by decide)

/-! ## The chain nodes named by the tables of the monotonation -/

theorem foldl_inv {α β : Type} (Q : α → Prop) (P : β → Prop) (f : α → β → α)
    (hf : ∀ a j, P j → Q a → Q (f a j)) :
    ∀ (l : List β) (a : α), (∀ j ∈ l, P j) → Q a → Q (l.foldl f a) := by
  intro l
  induction l with
  | nil => intro a _ ha; exact ha
  | cons x rest ih =>
    intro a hl ha
    exact ih _ (fun j hj => hl j (List.mem_cons_of_mem _ hj))
      (hf a x (hl x (List.mem_cons_self _ _)) ha)

theorem best_slot_some (st : State) (va vb i : Int) (h : best_slot st va vb = some i) :
    0 ≤ i ∧ i < 4 ∧ (st.vert va).vnext i > 0 := by
  unfold best_slot at h
  dsimp only at h
  refine foldl_inv (fun acc : Dbl × Option Int => ∀ i, acc.2 = some i →
      0 ≤ i ∧ i < 4 ∧ (st.vert va).vnext i > 0) (fun j : Int => 0 ≤ j ∧ j < 4) _ ?_
    [0, 1, 2, 3] _ ?_ ?_ i h
  · intro a j hj ha i hi
    split_ifs at hi with c1 c2
    · exact ha i hi
    · simp only [Option.some.injEq] at hi
      subst hi
      exact ⟨hj.1, hj.2, not_le.mp c1⟩
    · exact ha i hi
  · intro j hj
    simp only [List.mem_cons, List.mem_singleton, List.not_mem_nil, or_false] at hj
    rcases hj with h | h | h | h <;> subst h <;> decide
  · intro i hi
    exact absurd hi (by simp)

theorem slots_ok_mono (c c' : Int) (vert : Int → vertexchain_t) (hc : c ≤ c')
    (h : slots_ok c vert) : slots_ok c' vert :=
  fun v s s0 s4 hv => ⟨(h v s s0 s4 hv).1, le_trans (h v s s0 s4 hv).2 hc⟩

theorem slots_ok_vpos_set (c : Int) (st : State) (v s x : Int) (h : slots_ok c st.vert)
    (hx : 1 ≤ x ∧ x ≤ c) : slots_ok c (st.vpos_set v s x).vert := by
  intro v' s' s0 s4 hv
  have e : (st.vpos_set v s x).vert
      = upd st.vert v { st.vert v with vpos := upd (st.vert v).vpos s x } := rfl
  rw [e] at hv ⊢
  unfold upd at hv ⊢
  by_cases h1 : v' = v
  · rw [if_pos h1] at hv ⊢
    dsimp only at hv ⊢
    by_cases h2 : s' = s
    · rw [if_pos h2]
      exact hx
    · rw [if_neg h2]
      exact h v s' s0 s4 hv
  · rw [if_neg h1] at hv ⊢
    exact h v' s' s0 s4 hv

theorem slots_ok_vnext_set (c : Int) (st : State) (v s x : Int) (h : slots_ok c st.vert)
    (hs : 0 ≤ s → s < 4 → 1 ≤ (st.vert v).vpos s ∧ (st.vert v).vpos s ≤ c) :
    slots_ok c (st.vnext_set v s x).vert := by
  intro v' s' s0 s4 hv
  have e : (st.vnext_set v s x).vert
      = upd st.vert v { st.vert v with vnext := upd (st.vert v).vnext s x } := rfl
  rw [e] at hv ⊢
  unfold upd at hv ⊢
  by_cases h1 : v' = v
  · rw [if_pos h1] at hv ⊢
    dsimp only at hv ⊢
    by_cases h2 : s' = s
    · rw [h2] at s0 s4 ⊢
      exact hs s0 s4
    · rw [if_neg h2] at hv
      exact h v s' s0 s4 hv
  · rw [if_neg h1] at hv ⊢
    exact h v' s' s0 s4 hv

theorem slots_ok_nextfree (c : Int) (st : State) (v : Int) (g : Int → Int)
    (h : slots_ok c st.vert) :
    slots_ok c (st.vert_set v (fun r => { r with nextfree := g r.nextfree })).vert := by
  intro v' s' s0 s4 hv
  have e : (st.vert_set v (fun r => { r with nextfree := g r.nextfree })).vert
      = upd st.vert v { st.vert v with nextfree := g (st.vert v).nextfree } := rfl
  rw [e] at hv ⊢
  unfold upd at hv ⊢
  by_cases h1 : v' = v
  · rw [if_pos h1] at hv ⊢
    exact h v s' s0 s4 hv
  · rw [if_neg h1] at hv ⊢
    exact h v' s' s0 s4 hv

theorem vpos_set_self (st : State) (v s x : Int) : ((st.vpos_set v s x).vert v).vpos s = x := by
  show ((upd st.vert v _) v).vpos s = x
  unfold upd
  rw [if_pos rfl]
  dsimp only
  rw [if_pos rfl]

theorem mchain_set_vert (st : State) (i : Int) (f : monchain_t → monchain_t) :
    (st.mchain_set i f).vert = st.vert := rfl

theorem mon_set_vert (st : State) (i v : Int) : (st.mon_set i v).vert = st.vert := rfl

theorem mon_set_mon (st : State) (i v : Int) : (st.mon_set i v).mon = upd st.mon i v := rfl

theorem ub_mchain_set (st : State) (i : Int) (f : monchain_t → monchain_t) :
    (st.mchain_set i f).ub = (st.ub || outside TRSIZE i) := rfl

theorem ub_vert_set (st : State) (i : Int) (f : vertexchain_t → vertexchain_t) :
    (st.vert_set i f).ub = (st.ub || outside SEGSIZE i) := rfl

theorem ub_mon_set (st : State) (i v : Int) :
    (st.mon_set i v).ub = (st.ub || outside SEGSIZE i) := rfl

theorem ub_vnext_set (st : State) (v i x : Int) :
    (st.vnext_set v i x).ub = (st.ub || outside SEGSIZE v || outside 4 i) := rfl

theorem ub_vpos_set (st : State) (v i x : Int) :
    (st.vpos_set v i x).ub = (st.ub || outside SEGSIZE v || outside 4 i) := rfl

theorem ub_visited_set (st : State) (i : Int) (v : Bool) :
    (st.visited_set i v).ub = (st.ub || outside TRSIZE i) := rfl

theorem ub_read (st : State) (o : Option Int) (h : st.ub = true) : (st.read o).2.ub = true := by
  cases o
  · rfl
  · exact h

section good_rows

attribute [local irreducible] State.mchain_set State.vnext_set State.vpos_set State.vert_set
  State.mon_set

theorem make_new_monotone_poly_good (mcur v0 v1 : Int) (st : State)
    (h : st.ub = true ∨ chains_good st) :
    (make_new_monotone_poly mcur v0 v1 st).2.ub = true ∨
      chains_good (make_new_monotone_poly mcur v0 v1 st).2 := by
  generalize hr : make_new_monotone_poly mcur v0 v1 st = r
  unfold make_new_monotone_poly at hr
  split at hr
  rename_i mnew s1 h1
  split at hr
  rename_i ip s2 h2
  split at hr
  rename_i iq s3 h3
  lift_lets at hr
  extract_lets p q at hr
  split at hr
  rename_i i s4 h4
  split at hr
  rename_i j s5 h5
  lift_lets at hr
  extract_lets a1 a2 a3 a4 a5 a6 a7 a8 a9 a10 nf0 nf1 b1 b2 b3 b4 b5 b6 b7 b8 b9 at hr
  simp only [newmon, Prod.mk.injEq] at h1
  obtain ⟨em, es1⟩ := h1
  simp only [new_chain_element, Prod.mk.injEq] at h4 h5
  obtain ⟨ei, es4⟩ := h4
  obtain ⟨ej, es5⟩ := h5
  have s1v : s1.vert = st.vert ∧ s1.mon = st.mon ∧ s1.chain_idx = st.chain_idx ∧
      s1.mon_idx = st.mon_idx + 1 ∧ s1.ub = st.ub := by
    rw [← es1]; exact ⟨rfl, rfl, rfl, rfl, rfl⟩
  have es2 : s2 = (s1.read (get_vertex_positions s1 v0 v1).1).2 := by rw [h2]
  have es3 : s3 = (s2.read (get_vertex_positions s2 v0 v1).2).2 := by rw [h3]
  have s2t := read_tables s1 (get_vertex_positions s1 v0 v1).1
  rw [← es2] at s2t
  have s3t := read_tables s2 (get_vertex_positions s2 v0 v1).2
  rw [← es3] at s3t
  have s2i : s2.mon_idx = s1.mon_idx := by rw [es2]; exact mon_idx_read _ _
  have s3i : s3.mon_idx = s2.mon_idx := by rw [es3]; exact mon_idx_read _ _
  have s3v : s3.vert = st.vert := by rw [s3t.1, s2t.1, s1v.1]
  have s5f : s5.vert = s3.vert ∧ s5.mon = s3.mon ∧ s5.chain_idx = s3.chain_idx + 1 + 1 ∧
      s5.mon_idx = s3.mon_idx ∧ s5.ub = s3.ub := by
    rw [← es5, ← es4]; exact ⟨rfl, rfl, rfl, rfl, rfl⟩
  have ei' : i = st.chain_idx + 1 := by rw [← ei, s3t.2.2.1, s2t.2.2.1, s1v.2.2.1]
  have ej' : j = st.chain_idx + 1 + 1 := by
    rw [← ej, ← es4]
    show s3.chain_idx + 1 + 1 = _
    rw [s3t.2.2.1, s2t.2.2.1, s1v.2.2.1]
  have A10v : a10.vert = st.vert := by
    simp only [a10, a9, a8, a7, a6, a5, a4, a3, a2, a1, mchain_set_vert, s5f.1, s3v]
  have A10n : a10.mon = st.mon := by
    simp only [a10, a9, a8, a7, a6, a5, a4, a3, a2, a1, (mchain_set_tables _ _ _).1, s5f.2.1,
      s3t.2.2.2, s2t.2.2.2, s1v.2.1]
  have B9c : b9.chain_idx = st.chain_idx + 1 + 1 := by
    simp only [b9, b8, b7, b6, b5, b4, b3, b2, b1, (mon_set_tables _ _ _).2, vnext_set_chain_idx,
      vpos_set_chain_idx, vert_set_chain_idx, a10, a9, a8, a7, a6, a5, a4, a3, a2, a1,
      (mchain_set_tables _ _ _).2, s5f.2.2.1, s3t.2.2.1, s2t.2.2.1, s1v.2.2.1]
  have B9i : b9.mon_idx = st.mon_idx + 1 := by
    simp only [b9, b8, b7, b6, b5, b4, b3, b2, b1, mon_idx_mon_set, mon_idx_vnext_set,
      mon_idx_vpos_set, mon_idx_vert_set, a10, a9, a8, a7, a6, a5, a4, a3, a2, a1,
      mon_idx_mchain_set, s5f.2.2.2.1, s3i, s2i, s1v.2.2.2.1]
  have B9n : b9.mon = upd (upd st.mon mcur p) mnew i := by
    simp only [b9, b8, b7, b6, b5, b4, b3, b2, b1, mon_set_mon, vnext_set_mon, vpos_set_mon,
      vert_set_mon, A10n]
  have B9u : s5.ub = true → b9.ub = true := by
    intro hu
    simp only [b9, b8, b7, b6, b5, b4, b3, b2, b1, a10, a9, a8, a7, a6, a5, a4, a3, a2, a1,
      ub_mon_set, ub_vert_set, ub_vnext_set, ub_vpos_set, ub_mchain_set, hu, Bool.true_or]
  have S3u : s2.ub = true → s5.ub = true := by
    intro hu
    rw [s5f.2.2.2.2, es3]
    exact ub_read _ _ hu
  subst hr
  show b9.ub = true ∨ chains_good b9
  rcases h with hub | hg
  · left
    refine B9u (S3u ?_)
    rw [es2]
    exact ub_read _ _ (by rw [s1v.2.2.2.2]; exact hub)
  · -- the two slots read
    cases ho1 : (get_vertex_positions s1 v0 v1).1 with
    | none =>
      left
      refine B9u (S3u ?_)
      rw [es2, ho1]
      rfl
    | some x1 =>
      cases ho2 : (get_vertex_positions s2 v0 v1).2 with
      | none =>
        left
        refine B9u ?_
        rw [s5f.2.2.2.2, es3, ho2]
        rfl
      | some x2 =>
        right
        have eip : ip = x1 := by
          rw [ho1] at h2
          exact (congrArg Prod.fst h2).symm
        have hb1 : best_slot st v0 v1 = some x1 := by
          rw [← ho1, get_vertex_positions_congr s1 st v0 v1 s1v.1]
          rfl
        obtain ⟨x0, x4, xv⟩ := best_slot_some _ _ _ _ hb1
        obtain ⟨g0, g1, g2⟩ := hg
        have hp : 1 ≤ p ∧ p ≤ st.chain_idx := by
          show 1 ≤ (s3.vert v0).vpos ip ∧ (s3.vert v0).vpos ip ≤ st.chain_idx
          rw [s3v, eip]
          exact g1 v0 x1 x0 x4 xv
        have hi : 1 ≤ i ∧ i ≤ st.chain_idx + 1 + 1 := by rw [ei']; omega
        have hj : 1 ≤ j ∧ j ≤ st.chain_idx + 1 + 1 := by rw [ej']; omega
        have V0 : slots_ok (st.chain_idx + 1 + 1) a10.vert := by
          rw [A10v]
          exact slots_ok_mono _ _ _ (by omega) g1
        have V1 : slots_ok (st.chain_idx + 1 + 1) b1.vert := by
          simp only [b1]
          refine slots_ok_vnext_set _ _ _ _ _ V0 (fun _ _ => ?_)
          rw [A10v, ← s3v]
          exact ⟨hp.1, by have := hp.2; omega⟩
        have V2 : slots_ok (st.chain_idx + 1 + 1) b2.vert := by
          simp only [b2]
          exact slots_ok_vpos_set _ _ _ _ _ V1 hi
        have V3 : slots_ok (st.chain_idx + 1 + 1) b3.vert := by
          simp only [b3]
          refine slots_ok_vnext_set _ _ _ _ _ V2 (fun _ _ => ?_)
          simp only [b2, vpos_set_self]
          exact hi
        have V4 : slots_ok (st.chain_idx + 1 + 1) b4.vert := by
          simp only [b4]
          exact slots_ok_vpos_set _ _ _ _ _ V3 hj
        have V5 : slots_ok (st.chain_idx + 1 + 1) b5.vert := by
          simp only [b5]
          refine slots_ok_vnext_set _ _ _ _ _ V4 (fun _ _ => ?_)
          simp only [b4, vpos_set_self]
          exact hj
        have V6 : slots_ok (st.chain_idx + 1 + 1) b6.vert := by
          simp only [b6]
          exact slots_ok_nextfree _ _ _ (fun x => x + 1) V5
        have V7 : slots_ok (st.chain_idx + 1 + 1) b7.vert := by
          simp only [b7]
          exact slots_ok_nextfree _ _ _ (fun x => x + 1) V6
        have V9 : slots_ok (st.chain_idx + 1 + 1) b9.vert := by
          simp only [b9, b8, mon_set_vert]
          exact V7
        refine ⟨by rw [B9c]; omega, by rw [B9c]; exact V9, ?_⟩
        intro k k0 k1
        rw [B9c, B9n]
        rw [B9i] at k1
        unfold upd
        split_ifs with c1 c2
        · exact hi
        · exact ⟨hp.1, by have := hp.2; omega⟩
        · have hk : k ≤ st.mon_idx := by
            rw [← em] at c1
            omega
          have := g2 k k0 hk
          exact ⟨this.1, by omega⟩

end good_rows

theorem traverse_calls_inv (P : State → Prop)
    (rec : Int → Int → Int → Int → State → Option State)
    (hrec : ∀ m t f d s r, rec m t f d s = some r → P s → P r) (from_ : Int) :
    ∀ (l : List (Int × Int × Int)) (st r : State),
      traverse_calls rec from_ l st = some r → P st → P r := by
  intro l
  induction l with
  | nil => intro st r h hp; injection h with h; subst h; exact hp
  | cons c rest ih =>
    intro st r h hp
    obtain ⟨m, trnum, dir⟩ := c
    unfold traverse_calls at h
    split at h
    · exact absurd h (by simp)
    · rename_i s1 h1
      exact ih _ _ h (hrec _ _ _ _ _ _ h1 hp)

/-- A property of the state that `visited[t] = TRUE` and `make_new_monotone_poly` keep is
kept by `traverse_polygon`. -/
theorem traverse_polygon_inv (P : State → Prop)
    (hv : ∀ st t, P st → P (st.visited_set t true))
    (hm : ∀ st m a b, P st → P (make_new_monotone_poly m a b st).2) :
    ∀ (fuel : Nat) (mcur trnum from_ dir : Int) (st r : State),
      traverse_polygon fuel mcur trnum from_ dir st = some r → P st → P r := by
  intro fuel
  induction fuel with
  | zero => intro mcur trnum from_ dir st r h; exact absurd h (by simp [traverse_polygon])
  | succ n ih =>
    intro mcur trnum from_ dir st r h hp
    by_cases hg : trnum ≤ 0 ∨ st.visited trnum = true
    · rw [traverse_polygon_guard _ _ _ _ _ _ hg] at h
      injection h with h
      subst h
      exact hp
    · obtain ⟨calls, st2, e, hst2, _⟩ := traverse_polygon_shape n mcur trnum from_ dir st hg
      rw [e] at h
      refine traverse_calls_inv P _ ih _ _ _ _ h ?_
      rcases hst2 with h2 | ⟨a, b, h2⟩
      · rw [h2]; exact hv _ _ hp
      · rw [h2]; exact hm _ _ _ _ (hv _ _ hp)

theorem for_loop_inv (body : Int → State → Option State) (Q : Int → State → Prop)
    (hb : ∀ i s r, body i s = some r → Q i s → Q (i + 1) r) :
    ∀ (count : Nat) (i : Int) (st r : State), for_loop body count i st = some r →
      Q i st → Q (i + count) r := by
  intro count
  induction count with
  | zero =>
    intro i st r h hq
    injection h with h
    subst h
    simpa using hq
  | succ n ih =>
    intro i st r h hq
    rw [for_loop_succ] at h
    split at h
    · exact absurd h (by simp)
    · rename_i s1 h1
      have := ih (i + 1) s1 r h (hb _ _ _ h1 hq)
      rw [show i + ((n + 1 : Nat) : Int) = i + 1 + (n : Int) by push_cast; ring]
      exact this

theorem for_loop_ne_none (body : Int → State → Option State)
    (hb : ∀ i s, body i s ≠ none) :
    ∀ (count : Nat) (i : Int) (st : State), for_loop body count i st ≠ none := by
  intro count
  induction count with
  | zero => intro i st h; exact absurd h (by simp [for_loop])
  | succ n ih =>
    intro i st h
    rw [for_loop_succ] at h
    split at h
    · rename_i h1
      exact hb _ _ h1
    · exact ih _ _ h

theorem init_chains_ne_none (n : Int) (st : State) : init_chains n st ≠ none :=
  for_loop_ne_none _ (fun _ _ h => by simp at h) _ _ _

theorem slots_ok_vert_set (c : Int) (st : State) (v : Int) (f : vertexchain_t → vertexchain_t)
    (hf : ∀ r, (f r).vnext = r.vnext ∧ (f r).vpos = r.vpos) (h : slots_ok c st.vert) :
    slots_ok c (st.vert_set v f).vert := by
  intro v' s' s0 s4 hv
  have e : (st.vert_set v f).vert = upd st.vert v (f (st.vert v)) := rfl
  rw [e] at hv ⊢
  unfold upd at hv ⊢
  by_cases h1 : v' = v
  · rw [if_pos h1] at hv ⊢
    rw [(hf _).1] at hv
    rw [(hf _).2]
    exact h v s' s0 s4 hv
  · rw [if_neg h1] at hv ⊢
    exact h v' s' s0 s4 hv

theorem slots_ok_slot (c : Int) (st : State) (v s y x : Int) (h : slots_ok c st.vert)
    (hx : 1 ≤ x ∧ x ≤ c) : slots_ok c ((st.vnext_set v s y).vpos_set v s x).vert := by
  intro v' s' s0 s4 hv
  have e : ((st.vnext_set v s y).vpos_set v s x).vert
      = upd (upd st.vert v { st.vert v with vnext := upd (st.vert v).vnext s y }) v
          { (upd st.vert v { st.vert v with vnext := upd (st.vert v).vnext s y }) v with
            vpos := upd ((upd st.vert v
              { st.vert v with vnext := upd (st.vert v).vnext s y }) v).vpos s x } := rfl
  rw [e] at hv ⊢
  unfold upd at hv ⊢
  by_cases h1 : v' = v
  · simp only [if_pos h1, if_true] at hv ⊢
    by_cases h2 : s' = s
    · simp only [if_pos h2]
      exact hx
    · simp only [if_neg h2] at hv ⊢
      exact h v s' s0 s4 hv
  · simp only [if_neg h1] at hv ⊢
    exact h v' s' s0 s4 hv

section init_rows

attribute [local irreducible] State.mchain_set State.vnext_set State.vpos_set State.vert_set

theorem init_chains_spec (n : Int) (st r : State) (h : init_chains n st = some r)
    (hv : slots_ok 0 st.vert) :
    mono_core r = mono_core st ∧ slots_ok (n.toNat : Int) r.vert := by
  unfold init_chains at h
  have := for_loop_inv _
    (fun i s => 1 ≤ i ∧ mono_core s = mono_core st ∧ slots_ok (i - 1) s.vert) (by
      intro i s r e q
      injection e with e
      rw [← e]
      refine ⟨by omega, ?_, ?_⟩
      · simp only [mono_core_vert_set, mono_core_vpos_set, mono_core_vnext_set,
          mono_core_mchain_set]
        exact q.2.1
      · refine slots_ok_vert_set _ _ _ _ (fun _ => ⟨rfl, rfl⟩) ?_
        refine slots_ok_slot _ _ _ _ _ _ ?_ ⟨q.1, by omega⟩
        refine slots_ok_vert_set _ _ _ _ (fun _ => ⟨rfl, rfl⟩) ?_
        simp only [mchain_set_vert]
        exact slots_ok_mono _ _ _ (by omega) q.2.2) _ _ _ _ h
    ⟨le_refl _, rfl, by simpa using hv⟩
  refine ⟨this.2.1, ?_⟩
  have h2 := this.2.2
  rw [show (1 : Int) + (n.toNat : Int) - 1 = (n.toNat : Int) by ring] at h2
  exact h2

end init_rows

theorem find_tr_start_congr (s1 s2 : State) (h1 : s1.tr = s2.tr) (h2 : s1.seg = s2.seg) :
    ∀ (k : Nat) (i : Int), find_tr_start s1 k i = find_tr_start s2 k i := by
  intro k
  induction k with
  | zero => intro i; rfl
  | succ n ih =>
    intro i
    unfold find_tr_start
    have : inside_polygon s1 (s1.tr i) = inside_polygon s2 (s2.tr i) := by
      unfold inside_polygon
      rw [h1, h2]
    rw [this, ih]

theorem chains_good_visited_set (st : State) (t : Int)
    (h : st.ub = true ∨ chains_good st) :
    (st.visited_set t true).ub = true ∨ chains_good (st.visited_set t true) := by
  rcases h with h | h
  · left
    rw [ub_visited_set, h]
    rfl
  · right
    exact h

theorem monotonate_tail (B : Int) (fuel : Nat) (n : Int) (s3 : State) (ts : Int)
    (hB : ∀ t, 0 < t → t < B →
      (s3.tr t).u0 < B ∧ (s3.tr t).u1 < B ∧ (s3.tr t).d0 < B ∧ (s3.tr t).d1 < B)
    (hts : ts < B) (hf : B.toNat ≤ fuel) (hf0 : 0 < fuel)
    (hc : s3.chain_idx = n + 2 * s3.mon_idx) (hm0 : s3.mon_idx = 0)
    (hg : s3.ub = true ∨ chains_good s3) :
    ∃ r st', Option.map newmon
        (if (s3.tr ts).u0 > 0 then
          traverse_polygon fuel 0 ts (s3.tr ts).u0 TR_FROM_UP s3
        else if (s3.tr ts).d0 > 0 then
          traverse_polygon fuel 0 ts (s3.tr ts).d0 TR_FROM_DN s3
        else some s3) = some (r, st') ∧
      r = st'.mon_idx ∧ 1 ≤ r ∧ st'.chain_idx = n + 2 * (r - 1) ∧
      (st'.ub = false →
        ∀ k, 0 ≤ k → k < r → 1 ≤ st'.mon k ∧ st'.mon k ≤ st'.chain_idx) := by
  have hcard : (Finset.Ioo 0 B).card < fuel + (visited_in B s3).card := by
    rw [Int.card_Ioo]
    omega
  have key : ∀ sT : State, s3.mon_idx ≤ sT.mon_idx → sT.chain_idx = n + 2 * sT.mon_idx →
      (sT.ub = true ∨ chains_good sT) →
      ∃ r st', Option.map newmon (some sT) = some (r, st') ∧
        r = st'.mon_idx ∧ 1 ≤ r ∧ st'.chain_idx = n + 2 * (r - 1) ∧
        (st'.ub = false →
          ∀ k, 0 ≤ k → k < r → 1 ≤ st'.mon k ∧ st'.mon k ≤ st'.chain_idx) := by
    intro sT h1 h2 h3
    refine ⟨sT.mon_idx + 1, { sT with mon_idx := sT.mon_idx + 1 }, rfl, rfl, by omega, ?_, ?_⟩
    · show sT.chain_idx = _
      rw [h2]
      ring
    · intro hu k k0 k1
      have hu' : sT.ub = false := hu
      rcases h3 with h3 | h3
      · rw [hu'] at h3
        exact absurd h3 (by decide)
      · exact h3.2.2 k k0 (by omega)
  have run : ∀ (f d : Int), ∃ sT, traverse_polygon fuel 0 ts f d s3 = some sT ∧
      s3.mon_idx ≤ sT.mon_idx ∧ sT.chain_idx = n + 2 * sT.mon_idx ∧
      (sT.ub = true ∨ chains_good sT) := by
    intro f d
    obtain ⟨sT, e, t1, _⟩ := traverse_polygon_total B s3.tr hB fuel 0 ts f d s3 rfl hts hcard
    refine ⟨sT, e, t1.2.2.2.1, ?_, ?_⟩
    · refine traverse_polygon_inv (fun s => s.chain_idx = n + 2 * s.mon_idx)
        (fun _ _ h => h) (fun s m a b h => ?_) _ _ _ _ _ _ _ e hc
      have h' : s.chain_idx = n + 2 * s.mon_idx := h
      show (make_new_monotone_poly m a b s).2.chain_idx
        = n + 2 * (make_new_monotone_poly m a b s).2.mon_idx
      rw [(make_new_monotone_poly_counters m a b s).2.2,
        (make_new_monotone_poly_counters m a b s).2.1, h']
      ring
    · exact traverse_polygon_inv (fun s => s.ub = true ∨ chains_good s)
        (fun s t h => chains_good_visited_set s t h)
        (fun s m a b h => make_new_monotone_poly_good m a b s h) _ _ _ _ _ _ _ e hg
  split_ifs
  · obtain ⟨sT, e, a, b, c⟩ := run (s3.tr ts).u0 TR_FROM_UP
    rw [e]
    exact key sT a b c
  · obtain ⟨sT, e, a, b, c⟩ := run (s3.tr ts).d0 TR_FROM_DN
    rw [e]
    exact key sT a b c
  · exact key s3 (le_refl _) hc hg

/-! ## C32: the value of `monotonate_trapezoids` -/

/-- Claim C32: `monotonate_trapezoids` returns the number of monotone-polygon ids
allocated.  For `n ≥ 1` segments and a trapezoid table whose neighbour links are in range
(below a bound `B` that also bounds the start trapezoid, with fuel for `B` levels of
recursion) the call returns a value `r ≥ 1`, the final value of `mon_idx`.  Each call of
`make_new_monotone_poly` allocates one id and two chain nodes, and nothing else does
during the traversal: `chain_idx = n + 2 (r - 1)`, so `r` is 1 plus the number of calls.
When no undefined behaviour was met (`ub` is unset), the entries `mon[0 .. r-1]` are
chain-node indices between 1 and `chain_idx`. -/
theorem monotonate_trapezoids_result (B : Int) (fuel : Nat) (n : Int) (st : State)
    (hn : 1 ≤ n)
    (hB : ∀ t, 0 < t → t < B →
      (st.tr t).u0 < B ∧ (st.tr t).u1 < B ∧ (st.tr t).d0 < B ∧ (st.tr t).d1 < B)
    (hs : find_tr_start st TRSIZE.toNat 0 < B) (hf : B.toNat ≤ fuel) (hf0 : 0 < fuel) :
    ∃ r st', monotonate_trapezoids fuel n st = some (r, st') ∧
      r = st'.mon_idx ∧ 1 ≤ r ∧ st'.chain_idx = n + 2 * (r - 1) ∧
      (st'.ub = false →
        ∀ k, 0 ≤ k → k < r → 1 ≤ st'.mon k ∧ st'.mon k ≤ st'.chain_idx) := by
  unfold monotonate_trapezoids
  dsimp only
  split
  · rename_i heq
    exact absurd heq (init_chains_ne_none _ _)
  · rename_i s1 heq
    obtain ⟨c1, c2⟩ := init_chains_spec _ _ _ heq (fun v s _ _ hv => absurd hv (by show ¬ ((0 : Int) > 0); decide))
    have etr : s1.tr = st.tr := congrArg (fun x => x.1) c1
    rw [show ((n.toNat : Nat) : Int) = n by omega] at c2
    refine monotonate_tail B fuel n
      { ({ s1 with chain_idx := n, mon_idx := 0 } : State).mon_set 0 1 with
        ub := (({ s1 with chain_idx := n, mon_idx := 0 } : State).mon_set 0 1).ub ||
          outside TRSIZE (find_tr_start _ TRSIZE.toNat 0) } _ ?_ ?_ hf hf0 ?_ rfl ?_
    · intro t t0 tB
      have := hB t t0 tB
      rw [← etr] at this
      exact this
    · refine lt_of_eq_of_lt (find_tr_start_congr _ st ?_ ?_ _ _) hs <;> rfl
    · show n = n + 2 * 0
      ring
    · right
      refine ⟨by show (0 : Int) ≤ n; omega, c2, ?_⟩
      intro k k0 k1
      have k1' : k ≤ 0 := k1
      have : k = 0 := by omega
      subst this
      show 1 ≤ upd s1.mon 0 1 0 ∧ upd s1.mon 0 1 0 ≤ n
      unfold upd
      rw [if_pos rfl]
      exact ⟨le_refl _, hn⟩

/-- The call of C32 on the trapezoidation of the square: 4 segments, 10 trapezoids with
links below 11, start trapezoid 8. -/
theorem monotonate_trapezoids_result_witness :
    ∃ r st', monotonate_trapezoids 100 4 square_trapezoids = some (r, st') ∧
      r = st'.mon_idx ∧ 1 ≤ r ∧ st'.chain_idx = 4 + 2 * (r - 1) ∧
      (st'.ub = false →
        ∀ k, 0 ≤ k → k < r → 1 ≤ st'.mon k ∧ st'.mon k ≤ st'.chain_idx) :=
  monotonate_trapezoids_result 11 100 4 square_trapezoids (by decide)
    (by
      intro t h0 h1
      interval_cases t <;> decide!)
    (by decide!) (by decide) (by decide)

end Seidel
